import Mathlib

/-!
# Apophenia: the Bayesian updating engine

A shallow embedding of `apop_conversions.c` (`apop_data_pack`, `apop_data_unpack`,
`apop_line_to_data`, `apop_data_rank_compress`, `apop_data_rank_expand`, `find_cat_index`), of
`apop_update.c` (`check_conjugacy`, the Metropolis-Hastings loop of `apop_update`) and of
`apop_hist.c` (`apop_histogram_normalize`, `apop_histogram_vector_reset`,
`apop_histogram_model_reset`, `apop_test_kolmogorov`), with the properties of their
specification proved over the embedding.

Conventions of the embedding.

* A C `double` that is only copied is an element of an arbitrary type `α`.  Where arithmetic is
  done on it, it is an element of a field `K` (exact arithmetic).  A log-likelihood, which can
  be infinite or not-a-number, is a `Dbl K`.
* A `gsl_vector *` is a `List`, its `size` the length of the list.  A `gsl_matrix` is the list
  of its rows.  The GSL allocators reject a zero dimension, which `apop_page.WF` records.
* An `apop_data *` is the list of the pages reached through `->more`; `NULL` is `[]`.
* A C function that can stop the program (a GSL error with the default handler, a failed
  `apop_assert_s`, a `NULL` dereference) returns `Except Fault`.
* Sizes and counters are natural numbers: the embedding assumes that they fit their C types.
-/

namespace Apophenia

/-! ## GSL vectors and matrices -/

/-- The ways in which a call can stop the program instead of returning. -/
inductive Fault where
  /-- The GSL error handler was called (bad length, index out of range, view past the end). -/
  | gsl_error
  /-- A failed `apop_assert_s` / `Apop_assert`. -/
  | assert_failed
  /-- A `NULL` pointer was dereferenced. -/
  | null_deref
  /-- An array was read or written past its end. -/
  | out_of_bounds
  deriving DecidableEq, Repr

/-- The `gsl_matrix` of the source: `size2` columns, and the rows in order (`size1` of them). -/
structure gsl_matrix (α : Type) where
  size2 : Nat
  rows : List (List α)
  deriving DecidableEq, Repr

/-- The field `size1` of a `gsl_matrix`. -/
def gsl_matrix.size1 {α : Type} (m : gsl_matrix α) : Nat := m.rows.length

/-- The view `gsl_vector_subvector (v, offset, n)`, read: GSL raises an error when `n = 0` and
when the view would extend past the end of `v`. -/
def gsl_vector_subvector {α : Type} (v : List α) (offset n : Nat) : Except Fault (List α) :=
  if n = 0 then .error .gsl_error
  else if offset + (n - 1) ≥ v.length then .error .gsl_error
  else .ok ((v.drop offset).take n)

/-- The content of `dest` after `gsl_vector_memcpy (dest, src)`: GSL raises an error when the
two lengths differ. -/
def gsl_vector_memcpy {α : Type} (dest src : List α) : Except Fault (List α) :=
  if src.length ≠ dest.length then .error .gsl_error else .ok src

/-- The vector `v` once the view that starts at `offset` holds `view`: a view shares the memory
of the vector it was taken from, so that what is written through it is written in `v`. -/
def gsl_vector_view_store {α : Type} (v : List α) (offset : Nat) (view : List α) : List α :=
  v.take offset ++ view ++ v.drop (offset + view.length)

/-! ## The data set -/

/-- One page of an `apop_data` set: the numeric parts, each of which can be `NULL`, and the
title held by `names->title`.  (Names and text are not touched by the functions below.) -/
structure apop_page (α : Type) where
  vector : Option (List α)
  matrix : Option (gsl_matrix α)
  weights : Option (List α)
  title : String
  deriving DecidableEq, Repr

/-- An `apop_data *`: the chain of pages linked by `->more`, `[]` being `NULL`. -/
abbrev apop_data (α : Type) := List (apop_page α)

/-- Modelled from the spec: `apop_regex (title, "^<.*>$")`, whose code is not in these files;
a title is that of an info page when it opens with `<` and closes with `>`. -/
def apop_regex_info (title : String) : Bool :=
  decide (2 ≤ title.length) && title.front == '<' && title.back == '>'

/-- The expression `v ? v->size : 0` on a vector that can be `NULL`. -/
def vector_size {α : Type} (v : Option (List α)) : Nat :=
  match v with
  | some v => v.length
  | none => 0

/-- The expression `m ? m->size1 * m->size2 : 0` on a matrix that can be `NULL`. -/
def matrix_size {α : Type} (m : Option (gsl_matrix α)) : Nat :=
  match m with
  | some m => m.size1 * m.size2
  | none => 0

/-- The number of elements of one page: `vector->size + size1 * size2 + weights->size`, a
missing part counting for zero. -/
def apop_page.size {α : Type} (p : apop_page α) : Nat :=
  vector_size p.vector + matrix_size p.matrix + vector_size p.weights

/-- The page is as the GSL allocators build it: no part has a zero dimension and every row of
the matrix has `size2` elements. -/
def apop_page.WF {α : Type} (p : apop_page α) : Prop :=
  (∀ v, p.vector = some v → 0 < v.length)
    ∧ (∀ m, p.matrix = some m → 0 < m.size1 ∧ 0 < m.size2 ∧ ∀ r ∈ m.rows, r.length = m.size2)
    ∧ (∀ w, p.weights = some w → 0 < w.length)

/-- Two pages have the same shape: the same parts are present, with the same dimensions. -/
def apop_page.same_shape {α : Type} (p q : apop_page α) : Prop :=
  p.vector.map List.length = q.vector.map List.length
    ∧ p.matrix.map (fun m => (m.size1, m.size2)) = q.matrix.map (fun m => (m.size1, m.size2))
    ∧ p.weights.map List.length = q.weights.map List.length

/-- The C value of a comparison: `1` when it holds and `0` otherwise. -/
def c_int (b : Bool) : Nat := if b then 1 else 0

/-- The function `sizecount`.  Its two flags are C `int`s; `use_info_pp` is compared with the
character `'n'`, whose code is 110. -/
def sizecount {α : Type} : apop_data α → Nat → Nat → Nat
  | [], _, _ => 0
  | p :: more, all_pp, use_info_pp =>
    if use_info_pp = ('n').toNat && apop_regex_info p.title then
      (if all_pp ≠ 0 then sizecount more all_pp use_info_pp else 0)
    else
      p.size + (if all_pp ≠ 0 then sizecount more all_pp use_info_pp else 0)

/-- The elements of one page in the order of the packing: the vector, then the matrix row by
row, then the weights. -/
def apop_page.flat {α : Type} (p : apop_page α) : List α :=
  p.vector.getD [] ++ (p.matrix.map fun m => m.rows.flatten).getD [] ++ p.weights.getD []

/-! ## `apop_data_pack` -/

/-- The loop over the rows of the matrix in `apop_data_pack`: row after row is copied in the
view of `size2` elements of `out` that starts at `offset`. -/
def pack_rows {α : Type} (size2 : Nat) :
    List (List α) → List α → Nat → Except Fault (List α × Nat)
  | [], out, offset => .ok (out, offset)
  | vin :: rest, out, offset => do
    let vout ← gsl_vector_subvector out offset size2
    let vout ← gsl_vector_memcpy vout vin
    pack_rows size2 rest (gsl_vector_view_store out offset vout) (offset + size2)

/-- The block `if (in->vector) ...` of `apop_data_pack`: the vector is copied in the view of
`out` that starts at 0.  Returns `out` and `offset`. -/
def pack_vector {α : Type} (vector : Option (List α)) (out : List α) :
    Except Fault (List α × Nat) :=
  match vector with
  | some v => do
    let vout ← gsl_vector_subvector out 0 v.length
    let vout ← gsl_vector_memcpy vout v
    pure (gsl_vector_view_store out 0 vout, 0 + v.length)
  | none => pure (out, 0)

/-- The block `if (in->matrix) ...` of `apop_data_pack`. -/
def pack_matrix {α : Type} (matrix : Option (gsl_matrix α)) (out : List α) (offset : Nat) :
    Except Fault (List α × Nat) :=
  match matrix with
  | some m => pack_rows m.size2 m.rows out offset
  | none => pure (out, offset)

/-- The block `if (in->weights) ...` of `apop_data_pack`. -/
def pack_weights {α : Type} (weights : Option (List α)) (out : List α) (offset : Nat) :
    Except Fault (List α × Nat) :=
  match weights with
  | some w => do
    let vout ← gsl_vector_subvector out offset w.length
    let vout ← gsl_vector_memcpy vout w
    pure (gsl_vector_view_store out offset vout, offset + w.length)
  | none => pure (out, offset)

/-- The part of `apop_data_pack` that copies one page in `out`: the vector, then the rows of
the matrix, then the weights.  Returns `out` and the final `offset`. -/
def pack_page {α : Type} (p : apop_page α) (out : List α) : Except Fault (List α × Nat) := do
  let (out, offset) ← pack_vector p.vector out
  let (out, offset) ← pack_matrix p.matrix out offset
  pack_weights p.weights out offset

/-- The statements `while (...) in = in->more; apop_data_pack (in->more, &vout, .all_pages='y')`
that end `apop_data_pack`, started on the chain `in->more` with the view `vout`; the result is
the content of the view afterwards.  With `skip` the pages that open the chain are passed over
as long as their title is that of an info page.  The inner call has `out` set, hence checks
its length against `sizecount`, and it has the default `use_info_pages = 'n'`. -/
def pack_more {α : Type} (skip : Bool) : apop_data α → List α → Except Fault (List α)
  | [], vout => .ok vout
  | p :: more, vout =>
    if skip && apop_regex_info p.title then pack_more skip more vout
    else
      let total_size := sizecount (p :: more) (c_int true) (c_int true)
      if vout.length ≠ total_size then .error .assert_failed
      else if total_size = 0 then .ok vout
      else do
        let (out, offset) ← pack_page p vout
        match more with
        | [] => pure out
        | _ :: _ => do
          let v ← gsl_vector_subvector out offset (out.length - offset)
          let v ← pack_more true more v
          pure (gsl_vector_view_store out offset v)

/-- The function `apop_data_pack (in, out, all_pages, use_info_pages)`: the checks made before
`APOP_VAR_ENDHEAD`, then the body.  The result is `none` for a `NULL` return and the filled
vector otherwise; `junk` is the content of a freshly allocated `gsl_vector`. -/
def apop_data_pack {α : Type} (junk : α) (inp : apop_data α) (out : Option (List α))
    (all_pages use_info_pages : Char) : Except Fault (Option (List α)) :=
  match inp with
  | [] => .ok none
  | p :: more =>
    let all_pp := c_int (all_pages == 'y' || all_pages == 'Y')
    let total_size := sizecount (p :: more) all_pp (c_int (use_info_pages == 'n'))
    if (match out with | some o => decide (o.length ≠ total_size) | none => false) then
      .error .assert_failed
    else if total_size = 0 then .ok none
    else do
      let out := (match out with | some o => o | none => List.replicate total_size junk)
      let (out, offset) ← pack_page p out
      if all_pp ≠ 0 then
        match more with
        | [] => pure (some out)
        | _ :: _ => do
          let vout ← gsl_vector_subvector out offset (out.length - offset)
          let vout ← pack_more (use_info_pages == 'n') more vout
          pure (some (gsl_vector_view_store out offset vout))
      else pure (some out)

/-! ## `apop_data_unpack` -/

/-- The loop over the rows of the matrix in `apop_data_unpack`: each row of the target receives
the view of `size2` elements of `inp` that starts at `offset`. -/
def unpack_rows {α : Type} (inp : List α) (size2 : Nat) :
    List (List α) → Nat → Except Fault (List (List α) × Nat)
  | [], offset => .ok ([], offset)
  | vout :: rest, offset => do
    let vin ← gsl_vector_subvector inp offset size2
    let vout ← gsl_vector_memcpy vout vin
    let (rest, offset) ← unpack_rows inp size2 rest (offset + size2)
    pure (vout :: rest, offset)

/-- The block `if (d->vector) ...` of `apop_data_unpack`: the vector receives the view of
`inp` that starts at 0.  Returns the vector and `offset`. -/
def unpack_vector {α : Type} (inp : List α) (vector : Option (List α)) :
    Except Fault (Option (List α) × Nat) :=
  match vector with
  | some v => do
    let vin ← gsl_vector_subvector inp 0 v.length
    let v ← gsl_vector_memcpy v vin
    pure (some v, 0 + v.length)
  | none => pure (none, 0)

/-- The block `if (d->matrix) ...` of `apop_data_unpack`. -/
def unpack_matrix {α : Type} (inp : List α) (matrix : Option (gsl_matrix α)) (offset : Nat) :
    Except Fault (Option (gsl_matrix α) × Nat) :=
  match matrix with
  | some m => do
    let (rows, offset) ← unpack_rows inp m.size2 m.rows offset
    pure (some { m with rows := rows }, offset)
  | none => pure (none, offset)

/-- The block `if (d->weights) ...` of `apop_data_unpack`. -/
def unpack_weights {α : Type} (inp : List α) (weights : Option (List α)) (offset : Nat) :
    Except Fault (Option (List α) × Nat) :=
  match weights with
  | some w => do
    let vin ← gsl_vector_subvector inp offset w.length
    let w ← gsl_vector_memcpy w vin
    pure (some w, offset + w.length)
  | none => pure (none, offset)

/-- The part of `apop_data_unpack` that fills one page from `inp`: the vector, the rows of the
matrix, the weights.  Returns the page and the final `offset`. -/
def unpack_page {α : Type} (inp : List α) (d : apop_page α) :
    Except Fault (apop_page α × Nat) := do
  let (vector, offset) ← unpack_vector inp d.vector
  let (matrix, offset) ← unpack_matrix inp d.matrix offset
  let (weights, offset) ← unpack_weights inp d.weights offset
  pure ({ d with vector := vector, matrix := matrix, weights := weights }, offset)

/-- The statements `d = d->more; while (...) d = d->more; apop_data_unpack (&vin, d)` that end
`apop_data_unpack`, started on the chain `d->more`; the result is that chain afterwards.  With
`skip` the pages that open the chain are passed over as long as their title is that of an info
page, and running off the end of the chain dereferences `NULL`.  The inner call has the default
`use_info_pages = 'n'`. -/
def unpack_more {α : Type} (skip : Bool) : List α → apop_data α → Except Fault (apop_data α)
  | _, [] => .error (if skip then .null_deref else .assert_failed)
  | vin, d :: more =>
    if skip && apop_regex_info d.title then do
      let more ← unpack_more skip vin more
      pure (d :: more)
    else do
      let (d, offset) ← unpack_page vin d
      if offset ≠ vin.length then
        match more with
        | [] => pure [d]
        | _ :: _ => do
          let v ← gsl_vector_subvector vin offset (vin.length - offset)
          let more ← unpack_more true v more
          pure (d :: more)
      else pure (d :: more)

/-- The function `apop_data_unpack (in, d, use_info_pages)`; the result is the chain `d`
afterwards. -/
def apop_data_unpack {α : Type} (inp : List α) (d : apop_data α) (use_info_pages : Char) :
    Except Fault (apop_data α) :=
  match d with
  | [] => .error .assert_failed
  | d :: more => do
    let (d, offset) ← unpack_page inp d
    if offset ≠ inp.length then
      match more with
      | [] => pure [d]
      | _ :: _ => do
        let vin ← gsl_vector_subvector inp offset (inp.length - offset)
        let more ← unpack_more (use_info_pages == 'n') vin more
        pure (d :: more)
    else pure (d :: more)



/-! ## The arithmetic of the machine -/

/-- What the machine decides and the C code does not say.  The `double`s are held as elements
of a field `K`; an operation of C on `double`s is the exact operation of `K` followed by the
rounding of the result.

* `to_double x` is the `double` nearest to `x`;
* `to_long_double x` is the `long double` nearest to `x`;
* `unwritten_pointer` is what a pointer to a data set holds in memory that `malloc` has
  returned and that nothing has written. -/
class machine (K : Type) where
  to_double : K → K
  to_long_double : K → K
  unwritten_pointer : apop_data K

/-- The arithmetic of the machine is exact: no operation rounds its result.  The statements
below that speak of sums, products and quotients as mathematics does are made for such a
machine; the rational numbers are one, and `binary64` below is not. -/
class exact_arithmetic (K : Type) [machine K] : Prop where
  to_double_eq : ∀ x : K, machine.to_double x = x
  to_long_double_eq : ∀ x : K, machine.to_long_double x = x

/-- The integer nearest to `x`, the even one of the two when `x` is half-way between two
integers. -/
def round_half_even {K : Type} [LinearOrderedField K] [FloorRing K] (x : K) : Int :=
  if x - ⌊x⌋ < 1 / 2 then ⌊x⌋
  else if 1 / 2 < x - ⌊x⌋ then ⌊x⌋ + 1
  else if ⌊x⌋ % 2 = 0 then ⌊x⌋
  else ⌊x⌋ + 1

/-- The rounding of IEEE 754 to a binary format with `p` bits of precision, to nearest and to
even on a tie: `x` is brought to a multiple of the power of two that leaves `p` bits.  The range
of the exponent is not modelled (no overflow, no subnormal number). -/
def round_to {K : Type} [LinearOrderedField K] [FloorRing K] (p : Nat) (x : K) : K :=
  if x = 0 then 0
  else (round_half_even (x / 2 ^ (Int.log 2 |x| - ((p : Int) - 1))) : K)
    * 2 ^ (Int.log 2 |x| - ((p : Int) - 1))

/-- The rational numbers, for the examples in exact arithmetic: nothing is rounded, and the
unwritten pointer is `NULL`. -/
instance : machine ℚ := ⟨fun x => x, fun x => x, []⟩

instance : exact_arithmetic ℚ := ⟨fun _ => rfl, fun _ => rfl⟩

/-- The rational numbers with the arithmetic of the `double`s of IEEE 754: a `double` has 53
bits of precision and a `long double` 64. -/
def binary64 : Type := ℚ

instance : LinearOrderedField binary64 := inferInstanceAs (LinearOrderedField ℚ)

instance : FloorRing binary64 := inferInstanceAs (FloorRing ℚ)

instance : machine binary64 := ⟨round_to 53, round_to 64, []⟩

/-! ## Models and `check_conjugacy` -/

/-- The settings group `apop_update` of a model (`apop_update_settings`); `starting_pt` is a
pointer, `NULL` when the list is empty. -/
structure apop_update_settings (K : Type) where
  periods : Int
  burnin : K
  histosegments : Int
  starting_pt : apop_data K
  method : Char
  deriving DecidableEq

/-- The `gsl_histogram` of GSL: the edges of the bins (`range`, one more than there are bins)
and the bins. -/
structure gsl_histogram (K : Type) where
  range : List K
  bin : List K
  deriving DecidableEq, Repr

/-- The field `n` of a `gsl_histogram`: the number of bins. -/
def gsl_histogram.n {K : Type} (h : gsl_histogram K) : Nat := h.bin.length

/-- The settings groups `apop_histogram` and `apop_kernel_density` of a model, of which the
functions below read the pointer `pdf` only (`NULL` is `none`). -/
structure apop_histogram_settings (K : Type) where
  pdf : Option (gsl_histogram K)
  deriving DecidableEq

/-- The fields of an `apop_model` that the functions below read: its name, its parameters (a
pointer, `NULL` when the list is empty), the base sizes of the parameters and the settings
groups `apop_update`, `apop_histogram` and `apop_kernel_density`, for each of which the model
can have none.  The methods of a model (`draw`, `log_likelihood`) are functions given
apart. -/
structure apop_model (K : Type) where
  name : String
  parameters : apop_data K
  vbase : Int
  m1base : Int
  m2base : Int
  update_settings : Option (apop_update_settings K)
  histogram_settings : Option (apop_histogram_settings K) := none
  kernel_density_settings : Option (apop_histogram_settings K) := none
  deriving DecidableEq

/-- A model with the given name whose parameters are one page that holds the vector `v` and
nothing else, without settings: the form of the Beta, Gamma, Normal, Binomial and Exponential
models in the examples. -/
def vector_model {K : Type} (name : String) (v : List K) : apop_model K :=
  { name := name, parameters := [⟨some v, none, none, ""⟩],
    vbase := v.length, m1base := 0, m2base := 0, update_settings := none }

/-- Modelled from the spec: `apop_model_copy`, whose code is not in these files; the copy is
deep, hence a value equal to the model copied. -/
def apop_model_copy {K : Type} (m : apop_model K) : apop_model K := m

/-- The pointer `m->parameters->vector`, dereferenced. -/
def parameters_vector {K : Type} (m : apop_model K) : Except Fault (List K) :=
  match m.parameters with
  | [] => .error .null_deref
  | p :: _ =>
    match p.vector with
    | none => .error .null_deref
    | some v => .ok v

/-- The model `m` once the vector `m->parameters->vector` holds `v`. -/
def set_parameters_vector {K : Type} (m : apop_model K) (v : List K) : apop_model K :=
  match m.parameters with
  | [] => m
  | p :: more => { m with parameters := { p with vector := some v } :: more }

/-- The pointer `data->matrix`, dereferenced. -/
def data_matrix {K : Type} (data : apop_data K) : Except Fault (gsl_matrix K) :=
  match data with
  | [] => .error .null_deref
  | p :: _ =>
    match p.matrix with
    | none => .error .null_deref
    | some m => .ok m

/-- The read `v->data[i]` of an element of a vector. -/
def vector_data {K : Type} (v : List K) (i : Nat) : Except Fault K :=
  match v.get? i with
  | some x => .ok x
  | none => .error .out_of_bounds

/-- The call `gsl_vector_get (v, i)`, checked by GSL. -/
def gsl_vector_get {K : Type} (v : List K) (i : Nat) : Except Fault K :=
  match v.get? i with
  | some x => .ok x
  | none => .error .gsl_error

/-- The content of `v` after `gsl_vector_set (v, i, x)`, checked by GSL. -/
def gsl_vector_set {K : Type} (v : List K) (i : Nat) (x : K) : Except Fault (List K) :=
  if i < v.length then .ok (v.set i x) else .error .gsl_error

/-- Modelled from the spec: `apop_vector_increment (v, i, amt)`, whose code is not in these
files; it adds `amt` to element `i` of `v`. -/
def apop_vector_increment {K : Type} [Add K] (v : List K) (i : Nat) (amt : K) :
    Except Fault (List K) :=
  match v.get? i with
  | some x => .ok (v.set i (x + amt))
  | none => .error .out_of_bounds

/-- Modelled from the spec: `apop_matrix_sum`, whose code is not in these files; the sum of
all the cells of the matrix. -/
def apop_matrix_sum {K : Type} [Add K] [Zero K] (m : gsl_matrix K) : K :=
  (m.rows.map List.sum).sum

/-- The function `gsl_pow_2`. -/
def gsl_pow_2 {K : Type} [Mul K] (x : K) : K := x * x

/-- The two nested loops of the Beta/Bernoulli rule: `sum` is incremented once for every cell
of the matrix that is not zero. -/
def bernoulli_sum {K : Type} [Field K] [DecidableEq K] (m : gsl_matrix K) : K :=
  m.rows.foldl (fun sum row => row.foldl (fun sum x => if x ≠ 0 then sum + 1 else sum) sum) 0

/-- The function `check_conjugacy (data, prior, likelihood)`.  A `NULL` result is `none`.  The
functions `apop_matrix_mean_and_var` (not in these files) and `pow` of the C library are
parameters. -/
def check_conjugacy {K : Type} [Field K] [DecidableEq K]
    (apop_matrix_mean_and_var : gsl_matrix K → K × K) (pow : K → K → K)
    (data : apop_data K) (prior likelihood : apop_model K) :
    Except Fault (Option (apop_model K)) :=
  if prior.name = "Gamma distribution" ∧ likelihood.name = "Exponential distribution" then do
    let outp := apop_model_copy prior
    let m ← data_matrix data
    let v ← parameters_vector outp
    let v ← apop_vector_increment v 0 ((m.size1 * m.size2 : Nat) : K)
    let x ← gsl_vector_get v 1
    let v ← gsl_vector_set v 1 (1 / (1 / x + apop_matrix_sum m))
    pure (some (set_parameters_vector outp v))
  else if prior.name = "Beta distribution" ∧ likelihood.name = "Binomial distribution" then do
    let outp := apop_model_copy prior
    if data = [] ∧ likelihood.parameters ≠ [] then do
      let l ← parameters_vector likelihood
      let n ← vector_data l 0
      let p ← vector_data l 1
      let v ← parameters_vector outp
      let v ← apop_vector_increment v 0 (n * p)
      let v ← apop_vector_increment v 1 (n * (1 - p))
      pure (some (set_parameters_vector outp v))
    else do
      let m ← data_matrix data
      let y := apop_matrix_sum m
      let v ← parameters_vector outp
      let v ← apop_vector_increment v 0 y
      let v ← apop_vector_increment v 1 (((m.size1 * m.size2 : Nat) : K) - y)
      pure (some (set_parameters_vector outp v))
  else if prior.name = "Beta distribution" ∧ likelihood.name = "Bernoulli distribution" then do
    let outp := apop_model_copy prior
    let m ← data_matrix data
    let n : Nat := m.size1 * m.size2
    let sum := bernoulli_sum m
    let v ← parameters_vector outp
    let v ← apop_vector_increment v 0 sum
    let v ← apop_vector_increment v 1 ((n : K) - sum)
    pure (some (set_parameters_vector outp v))
  else if prior.name = "Normal distribution" ∧ likelihood.name = "Normal distribution" then do
    let outp := apop_model_copy prior
    let pv ← parameters_vector prior
    let mu_pri ← vector_data pv 0
    let sd_pri ← vector_data pv 1
    let var_pri := gsl_pow_2 sd_pri
    let (mu_like, var_like, n) ← (
      if data = [] ∧ likelihood.parameters ≠ [] then do
        let l ← parameters_vector likelihood
        let mu_like ← vector_data l 0
        let sd_like ← vector_data l 1
        pure (mu_like, gsl_pow_2 sd_like, (1 : Nat))
      else do
        let m ← data_matrix data
        let (mu_like, var_like) := apop_matrix_mean_and_var m
        pure (mu_like, var_like, m.size1 * m.size2) : Except Fault (K × K × Nat))
    let v ← parameters_vector outp
    let v ← gsl_vector_set v 0
      ((mu_pri / var_pri + (n : K) * mu_like / var_like) / (1 / var_pri + (n : K) / var_like))
    let v ← gsl_vector_set v 1 (pow (1 / var_pri + (n : K) / var_like) (-(1 / 2)))
    pure (some (set_parameters_vector outp v))
  else pure none

/-! ## Histograms -/

/-- The macro `Apop_settings_get (m, type, pdf)` of `settings.h`: the field `pdf` of the
settings group, read through the pointer that `apop_settings_get_group` returns, which is
`NULL` when the model has no such group. -/
def Apop_settings_get_pdf {K : Type} (group : Option (apop_histogram_settings K)) :
    Except Fault (Option (gsl_histogram K)) :=
  match group with
  | none => .error .null_deref
  | some g => .ok g.pdf

/-- The two loops of `apop_histogram_normalize` and the `apop_assert_void (sum, 0, 'c', ...)`
between them, on the histogram `h`.  The result is the histogram afterwards and whether the
zero density was reported.  `assert_returns` tells whether a failed assertion of kind `'c'`
makes the function return (its message is "... Returning same."); the bins are divided by
`sum` otherwise.  The variable `sum` is a `long double`: each addition is rounded to a
`long double`, and each quotient is computed as a `long double` and stored in a `double`. -/
def normalize_bins {K : Type} [Field K] [DecidableEq K] [machine K] (assert_returns : Bool)
    (h : gsl_histogram K) : gsl_histogram K × Bool :=
  let sum := h.bin.foldl (fun sum b => machine.to_long_double (sum + b)) 0
  if sum = 0 ∧ assert_returns = true then (h, true)
  else ({ h with
    bin := h.bin.map fun b => machine.to_double (machine.to_long_double (b / sum)) },
    decide (sum = 0))

/-- The model `m` once the pointer `pdf` of its group `apop_histogram` points to the
histogram `h`. -/
def with_histogram_pdf {K : Type} (m : apop_model K) (h : gsl_histogram K) : apop_model K :=
  { m with histogram_settings := some { pdf := some h } }

/-- The model `m` once the pointer `pdf` of its group `apop_kernel_density` points to the
histogram `h`. -/
def with_kernel_density_pdf {K : Type} (m : apop_model K) (h : gsl_histogram K) :
    apop_model K :=
  { m with kernel_density_settings := some { pdf := some h } }

/-- The function `apop_histogram_normalize (m)`: the model afterwards and whether the zero
density was reported.  The histogram is the `pdf` of the group `apop_histogram` or, when that
pointer is `NULL`, the `pdf` of the group `apop_kernel_density`; the function stops when both
are `NULL`. -/
def apop_histogram_normalize {K : Type} [Field K] [DecidableEq K] [machine K]
    (assert_returns : Bool)
    (m : apop_model K) : Except Fault (apop_model K × Bool) := do
  match ← Apop_settings_get_pdf m.histogram_settings with
  | some h =>
    let (h, reported) := normalize_bins assert_returns h
    pure (with_histogram_pdf m h, reported)
  | none =>
    match ← Apop_settings_get_pdf m.kernel_density_settings with
    | none => .error .assert_failed
    | some h =>
      let (h, reported) := normalize_bins assert_returns h
      pure (with_kernel_density_pdf m h, reported)

/-- The function `gsl_histogram_reset` of GSL: every bin is set to zero. -/
def gsl_histogram_reset {K : Type} [Zero K] (h : gsl_histogram K) : gsl_histogram K :=
  { h with bin := h.bin.map fun _ => 0 }

/-- The search of GSL for the bin of `x` in a histogram whose domain holds `x`: the index `i`
with `range[i] <= x < range[i + 1]`. -/
def gsl_histogram_find {K : Type} [LinearOrderedField K] (h : gsl_histogram K) (x : K) :
    Option Nat :=
  (List.range h.n).find? fun i => decide (h.range.getD i 0 ≤ x ∧ x < h.range.getD (i + 1) 0)

/-- The function `gsl_histogram_increment (h, x)` of GSL, whose result the callers below do
not read.  When `x` is below `range[0]` or not below `range[n]`, GSL returns `GSL_EDOM` without
calling its error handler and no bin is modified; otherwise 1 is added to the bin of `x`. -/
def gsl_histogram_increment {K : Type} [LinearOrderedField K] (h : gsl_histogram K) (x : K) :
    Except Fault (gsl_histogram K) :=
  if x < h.range.getD 0 0 ∨ h.range.getD h.n 0 ≤ x then .ok h
  else
    match gsl_histogram_find h x with
    | some i => .ok { h with bin := h.bin.set i (h.bin.getD i 0 + 1) }
    | none => .error .gsl_error

/-- The function `apop_histogram_vector_reset (template, indata)`; `NULL` is `none`.  The
assertion is of kind `'s'`: the program stops when it fails. -/
def apop_histogram_vector_reset {K : Type} [LinearOrderedField K]
    (template : Option (apop_model K)) (indata : Option (List K)) :
    Except Fault (apop_model K) :=
  match template with
  | none => .error .assert_failed
  | some t =>
    if t.name ≠ "Histogram" then .error .assert_failed
    else do
      let out := apop_model_copy t
      let hout ← Apop_settings_get_pdf out.histogram_settings
      match hout, indata with
      | none, _ => .error .null_deref
      | some _, none => .error .null_deref
      | some hout, some indata => do
        let hout ← indata.foldlM gsl_histogram_increment (gsl_histogram_reset hout)
        pure (with_histogram_pdf out hout)

/-- The loop `for (long int i=0; i< draws; i++)` of `apop_histogram_model_reset`, for the `n`
passes that are left: the method `draw` of the model gives a number and the state of the
generator afterwards, and the number is counted in the histogram. -/
def draw_loop {K R : Type} [LinearOrderedField K] (draw : R → K × R) :
    Nat → gsl_histogram K → R → Except Fault (gsl_histogram K × R)
  | 0, hout, rng => .ok (hout, rng)
  | n + 1, hout, rng => do
    let (d, rng) := draw rng
    let hout ← gsl_histogram_increment hout d
    draw_loop draw n hout rng

/-- The function `apop_histogram_model_reset (template, m, draws, rng)` for a generator that is
not `NULL`; `draw` is the method `m->draw` of the model `m`, `none` when `m` or the method is
`NULL`.  The result is the model returned and the state of the generator.  The head of the
function, `long int apop_varad_var (draws, 1e5)`, replaces a `draws` of zero (also one that
the caller has left out) by the default of 1e5 draws.  The two assertions are of kind `'s'`:
the program stops when one fails. -/
def apop_histogram_model_reset {K R : Type} [LinearOrderedField K] [machine K]
    (assert_returns : Bool)
    (template : Option (apop_model K)) (draw : Option (R → K × R)) (draws : Int) (rng : R) :
    Except Fault (apop_model K × R) :=
  match template with
  | none => .error .assert_failed
  | some t =>
    if t.name ≠ "Histogram" then .error .assert_failed
    else
      match draw with
      | none => .error .assert_failed
      | some draw => do
        let out := apop_model_copy t
        let hout ← Apop_settings_get_pdf out.histogram_settings
        match hout with
        | none => .error .null_deref
        | some hout => do
          let draws := if draws = 0 then 100000 else draws
          let (hout, rng) ← draw_loop draw draws.toNat (gsl_histogram_reset hout) rng
          let (out, _) ← apop_histogram_normalize assert_returns (with_histogram_pdf out hout)
          pure (out, rng)

/-! ## The Metropolis-Hastings loop of `apop_update` -/

/-- A C `double` that can be infinite or not-a-number: the type of a log-likelihood.  The
finite values are those of `K` and are computed exactly. -/
inductive Dbl (K : Type) where
  | fin (x : K)
  /-- The value `GSL_POSINF`. -/
  | pinf
  /-- The value `GSL_NEGINF`. -/
  | ninf
  | nan
  deriving DecidableEq, Repr

/-- The subtraction `x - y` of two doubles, as IEEE 754 defines it on the special values. -/
def Dbl.sub {K : Type} [Sub K] : Dbl K → Dbl K → Dbl K
  | .nan, _ => .nan
  | _, .nan => .nan
  | .fin x, .fin y => .fin (x - y)
  | .fin _, .pinf => .ninf
  | .fin _, .ninf => .pinf
  | .pinf, .pinf => .nan
  | .pinf, _ => .pinf
  | .ninf, .ninf => .nan
  | .ninf, _ => .ninf

/-- The test `gsl_isnan (x)`. -/
def Dbl.isnan {K : Type} : Dbl K → Bool
  | .nan => true
  | _ => false

/-- The comparison `x >= 0`, false on a not-a-number. -/
def Dbl.ge_zero {K : Type} [LinearOrderedField K] : Dbl K → Bool
  | .fin x => decide (0 ≤ x)
  | .pinf => true
  | .ninf => false
  | .nan => false

/-- The comparison `x < y`, false when either side is a not-a-number. -/
def Dbl.lt {K : Type} [LinearOrderedField K] : Dbl K → Dbl K → Bool
  | .nan, _ => false
  | _, .nan => false
  | .fin x, .fin y => decide (x < y)
  | .fin _, .pinf => true
  | .fin _, .ninf => false
  | .pinf, _ => false
  | .ninf, .ninf => false
  | .ninf, _ => true

/-- What `apop_update` calls and these files do not define.  `R` is the state of the random
number generator; an array of doubles (`double *`) is a function of the index.

* `apop_draw draw rng prior` is the content of the array `draw` and the state of the generator
  after `apop_draw (draw, rng, prior)`;
* `apop_log_likelihood data likelihood` is the value of `apop_log_likelihood`;
* `gsl_rng_uniform rng` is the uniform variate and the state of the generator afterwards;
* `log` is the logarithm of the C library;
* `apop_assert_returns` tells whether a failed `apop_assert (test, returnval, level, 'c', ...)`
  makes the calling function return `returnval` (`true`) or only reports (`false`);
* `junk` is the content of freshly allocated memory;
* `apop_histogram_settings_alloc data bins` is the settings group that
  `apop_histogram_settings_alloc (data, bins)` builds. -/
structure Callees (K R : Type) where
  apop_matrix_mean_and_var : gsl_matrix K → K × K
  pow : K → K → K
  apop_draw : (Nat → K) → R → apop_model K → (Nat → K) × R
  apop_log_likelihood : apop_data K → apop_model K → Dbl K
  gsl_rng_uniform : R → K × R
  log : K → Dbl K
  apop_assert_returns : Bool
  junk : K
  apop_histogram_settings_alloc : apop_data K → Int → apop_histogram_settings K

/-- Modelled from the spec: `apop_data_alloc (vsize, size1, size2)`, whose code is not in these
files; a page with a vector when `vsize > 0` and a matrix when `size1 > 0` and `size2 > 0`,
of content `junk`. -/
def alloc_page {K : Type} (junk : K) (vsize size1 size2 : Nat) : apop_page K :=
  { vector := if 0 < vsize then some (List.replicate vsize junk) else none,
    matrix := if 0 < size1 ∧ 0 < size2 then
        some ⟨size2, List.replicate size1 (List.replicate size2 junk)⟩ else none,
    weights := none,
    title := "" }

/-- The data set that `apop_data_alloc (vsize, size1, size2)` returns: one page, never `NULL`
(see `alloc_page`). -/
def apop_data_alloc {K : Type} (junk : K) (vsize size1 size2 : Nat) : apop_data K :=
  [alloc_page junk vsize size1 size2]

/-- The content of `dest` after `gsl_matrix_memcpy (dest, src)`: GSL raises an error when the
dimensions differ. -/
def gsl_matrix_memcpy {K : Type} (dest src : gsl_matrix K) : Except Fault (gsl_matrix K) :=
  if src.size1 ≠ dest.size1 ∨ src.size2 ≠ dest.size2 then .error .gsl_error else .ok src

/-- One part of `apop_data_memcpy`: a part that `inp` has is copied over that of `out`. -/
def memcpy_part {β : Type} (copy : β → β → Except Fault β) (out inp : Option β) :
    Except Fault (Option β) :=
  match inp, out with
  | none, out => .ok out
  | some _, none => .error .null_deref
  | some i, some o => do
    let o ← copy o i
    pure (some o)

/-- Modelled from the spec: `apop_data_memcpy (out, in)`, whose code is not in these files; it
copies the vector, the matrix and the weights of `in` over those of `out`, which must have
the same dimensions.  The result is `out` afterwards. -/
def apop_data_memcpy {K : Type} (out inp : apop_data K) : Except Fault (apop_data K) :=
  match out, inp with
  | [], _ => .error .assert_failed
  | _, [] => .error .null_deref
  | o :: omore, i :: _ => do
    let vector ← memcpy_part gsl_vector_memcpy o.vector i.vector
    let matrix ← memcpy_part gsl_matrix_memcpy o.matrix i.matrix
    let weights ← memcpy_part gsl_vector_memcpy o.weights i.weights
    pure ({ o with vector := vector, matrix := matrix, weights := weights } :: omore)

/-- The call `gsl_vector_alloc (n)` followed by `gsl_vector_set (v, i, draw[i])` for every
`i < n`: GSL raises an error when `n = 0`. -/
def gsl_vector_of_array {K : Type} (draw : Nat → K) (n : Nat) : Except Fault (List K) :=
  if n = 0 then .error .gsl_error else .ok ((List.range n).map draw)

/-- The function `write_double (draw, d)`; the result is `d` afterwards. -/
def write_double {K : Type} (draw : Nat → K) (d : apop_data K) : Except Fault (apop_data K) :=
  match d with
  | [] => .error .null_deref
  | p :: _ => do
    let size := vector_size p.vector + matrix_size p.matrix
    let v ← gsl_vector_of_array draw size
    apop_data_unpack v d 'n'

/-- The variables of the main loop of `apop_update`: the generator, the array `draw`, the
parameters of the likelihood (`likelihood->parameters`), `current_param`, `cp_ll` and the
matrix of `out`. -/
structure chain_state (K R : Type) where
  rng : R
  draw : Nat → K
  parameters : apop_data K
  current_param : apop_data K
  cp_ll : Dbl K
  out : Option (gsl_matrix K)

/-- How one pass of the main loop ends: the loop goes on, or `apop_assert` has made
`apop_update` return `NULL`. -/
inductive pass_result (K R : Type) where
  | next (st : chain_state K R)
  | returned_null (st : chain_state K R)

/-- The read `d->vector->data[0]` of the first element of the vector of a data set. -/
def first_of_vector {K : Type} (d : apop_data K) : Except Fault K :=
  match d with
  | [] => .error .null_deref
  | p :: _ =>
    match p.vector with
    | none => .error .null_deref
    | some v => vector_data v 0

/-- The arguments of the message of the `apop_assert` of the main loop,
`current_param->vector->data[0]` and `likelihood->parameters->vector->data[0]`: they are read
when the test fails, to report the failure. -/
def report_nan {K : Type} (current_param parameters : apop_data K) : Except Fault Unit := do
  let _ ← first_of_vector current_param
  let _ ← first_of_vector parameters
  pure ()

/-- The first half of one pass of the main loop (the draw, the likelihood and the decision to
accept): the lines from `apop_draw` to the end of the `if (ratio >= 0 || ...)`.  When `ratio`
is a not-a-number the `apop_assert` fails: the arguments of its message are read and, if a
failed `apop_assert` returns, `apop_update` returns `NULL`.  In C the uniform variate is drawn
only when `ratio >= 0` is false. -/
def mh_step {K R : Type} [LinearOrderedField K] (env : Callees K R) (data : apop_data K)
    (prior likelihood : apop_model K) (st : chain_state K R) :
    Except Fault (pass_result K R) := do
  let (draw, rng) := env.apop_draw st.draw st.rng prior
  let parameters ← write_double draw st.parameters
  let ll := env.apop_log_likelihood data { likelihood with parameters := parameters }
  let ratio := ll.sub st.cp_ll
  let st := { st with rng := rng, draw := draw, parameters := parameters }
  if ratio.isnan then report_nan st.current_param parameters
  if ratio.isnan && env.apop_assert_returns then pure (.returned_null st)
  else if ratio.ge_zero then do
    let current_param ← apop_data_memcpy st.current_param parameters
    pure (.next { st with current_param := current_param, cp_ll := ll })
  else
    let (u, rng) := env.gsl_rng_uniform rng
    let st := { st with rng := rng }
    if (env.log u).lt ratio then do
      let current_param ← apop_data_memcpy st.current_param parameters
      pure (.next { st with current_param := current_param, cp_ll := ll })
    else pure (.next st)

/-- The content of the matrix `m` after `gsl_vector_memcpy (v, vv)`, `v` being the view of row
`row` that `APOP_ROW` takes: GSL raises an error when `row` is not a row of `m` and when the
lengths differ. -/
def matrix_row_memcpy {K : Type} (m : gsl_matrix K) (row : Nat) (vv : List K) :
    Except Fault (gsl_matrix K) :=
  match m.rows.get? row with
  | none => .error .gsl_error
  | some v => do
    let v ← gsl_vector_memcpy v vv
    pure { m with rows := m.rows.set row v }

/-- The second half of one pass of the main loop: once `i >= periods * burnin`, the packing of
`current_param` is copied in row `i - periods * burnin` of `out`, the index being converted
from a `double` (the fraction is dropped).  The product and the difference are operations on
`double`s, each rounded to a `double`. -/
def record_sample {K R : Type} [LinearOrderedField K] [FloorRing K] [machine K]
    (env : Callees K R) (s : apop_update_settings K) (i : Nat) (st : chain_state K R) :
    Except Fault (chain_state K R) :=
  if (i : K) ≥ machine.to_double ((s.periods : K) * s.burnin) then do
    let row := Int.toNat
      ⌊machine.to_double ((i : K) - machine.to_double ((s.periods : K) * s.burnin))⌋
    let vv ← apop_data_pack env.junk st.current_param none 'n' 'n'
    match st.out, vv with
    | none, _ => .error .null_deref
    | _, none => .error .null_deref
    | some m, some vv => do
      let m ← matrix_row_memcpy m row vv
      pure { st with out := some m }
  else pure st

/-- One pass of the main loop of `apop_update`, for the value `i` of the counter. -/
def mcmc_pass {K R : Type} [LinearOrderedField K] [FloorRing K] [machine K]
    (env : Callees K R) (data : apop_data K) (prior likelihood : apop_model K)
    (s : apop_update_settings K) (i : Nat) (st : chain_state K R) :
    Except Fault (pass_result K R) := do
  match ← mh_step env data prior likelihood st with
  | .returned_null st => pure (.returned_null st)
  | .next st => do
    let st ← record_sample env s i st
    pure (.next st)

/-- The passes of the main loop of `apop_update` for the `n` values `i`, `i + 1`, ... of the
counter; the whole loop is `mcmc_loop env data prior likelihood s 0 s.periods.toNat`. -/
def mcmc_loop {K R : Type} [LinearOrderedField K] [FloorRing K] [machine K]
    (env : Callees K R) (data : apop_data K) (prior likelihood : apop_model K)
    (s : apop_update_settings K) : Nat → Nat → chain_state K R → Except Fault (pass_result K R)
  | _, 0, st => .ok (.next st)
  | i, n + 1, st => do
    match ← mcmc_pass env data prior likelihood s i st with
    | .returned_null st => pure (.returned_null st)
    | .next st => mcmc_loop env data prior likelihood s (i + 1) n st

/-- The content of a vector after `gsl_vector_set_all (v, x)`. -/
def gsl_vector_set_all {K : Type} (v : List K) (x : K) : List K := v.map fun _ => x

/-- The content of a matrix after `gsl_matrix_set_all (m, x)`. -/
def gsl_matrix_set_all {K : Type} (m : gsl_matrix K) (x : K) : gsl_matrix K :=
  { m with rows := m.rows.map fun r => r.map fun _ => x }

/-- The expression `base >= 0 ? base : data->matrix->size2` that gives `vs`, `ms1` and `ms2`
in `apop_update`. -/
def base_size {K : Type} (base : Int) (data : apop_data K) : Except Fault Nat :=
  if 0 ≤ base then pure base.toNat
  else do
    let m ← data_matrix data
    pure m.size2

/-- The page of `current_param` when `apop_update` has no starting point: every element of
the vector and of the matrix is set to 1. -/
def set_all_ones {K : Type} [One K] (p : apop_page K) : apop_page K :=
  { p with vector := p.vector.map fun v => gsl_vector_set_all v 1,
           matrix := p.matrix.map fun m => gsl_matrix_set_all m 1 }

/-- The statements of `apop_update` between the settings and the main loop: the sizes `vs`,
`ms1`, `ms2`, the allocations, the starting point of `current_param` (the one of the settings,
or all ones), the parameters of the likelihood (allocated when `NULL`), and
`cp_ll = GSL_NEGINF`.  The number of rows of `out` is the product `periods * (1 - burnin)` of
`double`s, the difference and the product each rounded to a `double`, converted to a size. -/
def apop_update_init {K R : Type} [LinearOrderedField K] [FloorRing K] [machine K]
    (env : Callees K R) (data : apop_data K) (likelihood : apop_model K)
    (s : apop_update_settings K) (rng : R) : Except Fault (chain_state K R) := do
  let vs ← base_size likelihood.vbase data
  let ms1 ← base_size likelihood.m1base data
  let ms2 ← base_size likelihood.m2base data
  let current_param := apop_data_alloc env.junk vs ms1 ms2
  let out := apop_data_alloc env.junk 0
    (Int.toNat ⌊machine.to_double ((s.periods : K) * machine.to_double (1 - s.burnin))⌋)
    (vs + ms1 * ms2)
  let current_param ← (match s.starting_pt with
    | [] => pure (current_param.map set_all_ones)
    | _ :: _ => apop_data_memcpy current_param s.starting_pt : Except Fault (apop_data K))
  let parameters := (match likelihood.parameters with
    | [] => apop_data_alloc env.junk vs ms1 ms2
    | _ :: _ => likelihood.parameters)
  pure { rng := rng, draw := fun _ => env.junk, parameters := parameters,
         current_param := current_param, cp_ll := .ninf,
         out := (match out with | [] => none | p :: _ => p.matrix) }

/-- The function `apop_update_settings_alloc`, that is `apop_update_settings_init` on the
empty structure: 6e3 periods, 5e2 bins, a burn-in of 0.05 (the `double` nearest to it) and the
method `'d'`.  The function does not write the field `starting_pt` of the structure that
`malloc` has returned: the field holds what the memory held. -/
def apop_update_settings_alloc {K : Type} [LinearOrderedField K] [machine K] :
    apop_update_settings K :=
  { periods := 6000, burnin := machine.to_double (5 / 100), histosegments := 500,
    starting_pt := machine.unwritten_pointer, method := 'd' }

/-- The settings `s` of `apop_update`: the group `apop_update` of the prior, or the one that
`Apop_settings_add_group (prior, apop_update, data)` adds when the prior has none. -/
def prior_settings {K : Type} [LinearOrderedField K] [machine K] (prior : apop_model K) :
    apop_update_settings K :=
  match prior.update_settings with
  | some s => s
  | none => apop_update_settings_alloc

/-- The prior once `apop_update` has looked for its settings: it has the group
`apop_update`. -/
def with_update_settings {K : Type} [LinearOrderedField K] [machine K] (prior : apop_model K) :
    apop_model K :=
  { prior with update_settings := some (prior_settings prior) }

/-- Modelled from the spec: the model `apop_histogram`, whose definition is not in these
files; a model named "Histogram", without parameters and without settings. -/
def apop_histogram {K : Type} : apop_model K :=
  { name := "Histogram", parameters := [], vbase := 0, m1base := 0, m2base := 0,
    update_settings := none }

/-- What `apop_update` leaves: the model that it returns (`none` for `NULL`), the prior (which
can have received settings), the parameters of the likelihood and the state of the
generator. -/
structure update_result (K R : Type) where
  model : Option (apop_model K)
  prior : apop_model K
  parameters : apop_data K
  rng : R

/-- The function `apop_update (data, prior, likelihood, rng)`, for a generator `rng` that is
not `NULL`: the table of conjugate pairs, then the settings, the main loop and the histogram of
the samples.  A failed `apop_assert` in the main loop makes the function return `NULL`. -/
def apop_update {K R : Type} [LinearOrderedField K] [FloorRing K] [machine K]
    (env : Callees K R) (data : apop_data K) (prior likelihood : apop_model K) (rng : R) :
    Except Fault (update_result K R) := do
  match ← check_conjugacy env.apop_matrix_mean_and_var env.pow data prior likelihood with
  | some maybe_out =>
    pure { model := some maybe_out, prior := prior, parameters := likelihood.parameters,
           rng := rng }
  | none =>
    let s := prior_settings prior
    let prior := with_update_settings prior
    let st ← apop_update_init env data likelihood s rng
    match ← mcmc_loop env data prior likelihood s 0 s.periods.toNat st with
    | .returned_null st =>
      pure { model := none, prior := prior, parameters := st.parameters, rng := st.rng }
    | .next st =>
      let outp : apop_model K := apop_model_copy apop_histogram
      let out : apop_data K := [{ vector := none, matrix := st.out, weights := none, title := "" }]
      let outp := { outp with
        histogram_settings := some (env.apop_histogram_settings_alloc out s.histosegments) }
      let (outp, _) ← apop_histogram_normalize env.apop_assert_returns outp
      pure { model := some outp, prior := prior, parameters := st.parameters, rng := st.rng }

/-! ## `apop_test_kolmogorov` -/

/-- The pointers `h1` and `h2` of `apop_test_kolmogorov`: the `pdf` of the group
`apop_histogram` of the model or, when that pointer is `NULL`, the `pdf` of its group
`apop_kernel_density`. -/
def kolmogorov_pdf {K : Type} (m : apop_model K) : Except Fault (Option (gsl_histogram K)) := do
  match ← Apop_settings_get_pdf m.histogram_settings with
  | some h => pure (some h)
  | none => Apop_settings_get_pdf m.kernel_density_settings

/-- One pass of the loop of `apop_test_kolmogorov` that finds the point of greatest
difference, on the variables `cdf1`, `cdf2` and `diff`: the bins `first->bin[i + offset]` and
`second->bin[i]` are read from the arrays. -/
def kolmogorov_step {K : Type} [LinearOrderedField K] (first second : gsl_histogram K)
    (offset : Nat) (sum1 sum2 : K) (s : K × K × K) (i : Nat) : Except Fault (K × K × K) := do
  let a ← vector_data first.bin (i + offset)
  let b ← vector_data second.bin i
  let cdf1 := s.1 + a / sum1
  let cdf2 := s.2.1 + b / sum2
  pure (cdf1, cdf2, max s.2.2 |cdf1 - cdf2|)

/-- What the function `apop_test_kolmogorov (m1, m2)` computes before it builds its output:
`diff` (the element "max distance" of the output), `first->n` and `second->n`, the three
arguments of `psmirnov2x`.  The `apop_error` of kind `'s'` stops the program. -/
def apop_test_kolmogorov {K : Type} [LinearOrderedField K] (m1 m2 : apop_model K) :
    Except Fault (K × Nat × Nat) := do
  let h1 ← kolmogorov_pdf m1
  let h2 ← kolmogorov_pdf m2
  match h1, h2 with
  | none, _ => .error .null_deref
  | _, none => .error .null_deref
  | some h1, some h2 =>
    let (offset, first, second, cdf1) ← (
      if h1.n = h2.n then pure (0, h1, h2, 0)
      else if h1.n = h2.n + 2 then do
        let b ← vector_data h1.bin 0
        pure (1, h1, h2, b)
      else if h2.n = h1.n + 2 then do
        let b ← vector_data h2.bin 0
        pure (1, h2, h1, b)
      else .error .assert_failed : Except Fault (Nat × gsl_histogram K × gsl_histogram K × K))
    let sum1 := first.bin.foldl (fun sum b => sum + b) 0
    let sum2 := second.bin.foldl (fun sum b => sum + b) 0
    let (_, _, diff) ← (List.range h2.n).foldlM (kolmogorov_step first second offset sum1 sum2)
      (cdf1, 0, 0)
    pure (diff, first.n, second.n)

/-! ## Arrays, ranks and categories -/

/-- The conversion of a `double` to an `int`: the fraction is dropped. -/
def double_to_int {K : Type} [LinearOrderedField K] [FloorRing K] (x : K) : Int :=
  if 0 ≤ x then ⌊x⌋ else ⌈x⌉

/-- The number of passes of a loop `for (size_t i = 0; i < n; i++)` whose bound `n` is an
`int`: the bound is converted to a `size_t` of 64 bits, so that a negative bound is a large
one. -/
def size_t_bound (n : Int) : Nat := (if n < 0 then n + 2 ^ 64 else n).toNat

/-- The function `apop_line_to_matrix (line, rows, cols)`: element `(i, j)` of the view that
`gsl_matrix_view_array` takes of the array is `line[i * cols + j]`.  `gsl_matrix_alloc`
rejects a dimension that is not positive. -/
def apop_line_to_matrix {K : Type} (line : Nat → K) (rows cols : Int) :
    Except Fault (gsl_matrix K) :=
  if rows ≤ 0 ∨ cols ≤ 0 then .error .gsl_error
  else .ok ⟨cols.toNat, (List.range rows.toNat).map fun i =>
    (List.range cols.toNat).map fun j => line (i * cols.toNat + j)⟩

/-- The function `apop_array_to_vector (in, size)` on an array that is not `NULL`: a size of
zero stands for the guess `sizeof (in) / sizeof (in[0])`, which is 1 for a pointer of 64
bits. -/
def apop_array_to_vector {K : Type} (inp : Nat → K) (size : Int) : Except Fault (List K) :=
  if size < 0 then .error .gsl_error
  else gsl_vector_of_array inp (if size = 0 then 1 else size.toNat)

/-- Modelled from the spec: `apop_matrix_to_data`, whose code is not in these files; a data
set of one page that holds the matrix and nothing else. -/
def apop_matrix_to_data {K : Type} (m : gsl_matrix K) : apop_data K :=
  [⟨none, some m, none, ""⟩]

/-- Modelled from the spec: `apop_vector_to_data`, whose code is not in these files; a data
set of one page that holds the vector and nothing else. -/
def apop_vector_to_data {K : Type} (v : List K) : apop_data K :=
  [⟨some v, none, none, ""⟩]

/-- The call `gsl_matrix_get (m, i, j)`, checked by GSL. -/
def gsl_matrix_get {K : Type} (m : gsl_matrix K) (i j : Nat) : Except Fault K :=
  match m.rows.get? i with
  | none => .error .gsl_error
  | some row =>
    if j < m.size2 then
      match row.get? j with
      | some x => .ok x
      | none => .error .gsl_error
    else .error .gsl_error

/-- The content of `m` after `gsl_matrix_set (m, i, j, x)`, checked by GSL. -/
def gsl_matrix_set {K : Type} (m : gsl_matrix K) (i j : Nat) (x : K) :
    Except Fault (gsl_matrix K) :=
  match m.rows.get? i with
  | none => .error .gsl_error
  | some row =>
    if j < m.size2 then .ok { m with rows := m.rows.set i (row.set j x) }
    else .error .gsl_error

/-- Modelled from the spec: `apop_data_set (d, row, col, val)`, whose code is not in these
files; the column -1 is the vector of the data set, the columns from 0 on are those of its
matrix.  The result is `d` afterwards. -/
def apop_data_set {K : Type} (d : apop_data K) (row : Nat) (col : Int) (val : K) :
    Except Fault (apop_data K) :=
  match d with
  | [] => .error .null_deref
  | p :: more =>
    if col = -1 then
      match p.vector with
      | none => .error .null_deref
      | some v => do
        let v ← gsl_vector_set v row val
        pure ({ p with vector := some v } :: more)
    else if col < -1 then .error .gsl_error
    else
      match p.matrix with
      | none => .error .null_deref
      | some m => do
        let m ← gsl_matrix_set m row col.toNat val
        pure ({ p with matrix := some m } :: more)

/-- The statement `apop_data_set (out, i, j, in[ctr++])` of `apop_line_to_data`, on `out` and
`ctr`. -/
def line_cell {K : Type} (inp : Nat → K) (i : Nat) (s : apop_data K × Nat) (j : Int) :
    Except Fault (apop_data K × Nat) := do
  let out ← apop_data_set s.1 i j (inp s.2)
  pure (out, s.2 + 1)

/-- The inner loop `for (int j = -1; j < cols; j++)` of `apop_line_to_data` for row `i`: `j`
takes the values -1, 0, ..., `cols - 1`. -/
def line_row {K : Type} (inp : Nat → K) (cols : Int) (s : apop_data K × Nat) (i : Nat) :
    Except Fault (apop_data K × Nat) :=
  ((List.range (cols + 1).toNat).map fun t : Nat => (t : Int) - 1).foldlM (line_cell inp i) s

/-- The function `apop_line_to_data (in, vsize, rows, cols)`; `NULL` is `[]`.
`assert_returns` tells whether the failed `apop_assert_c` makes the function return (its
message ends with "Returning NULL."). -/
def apop_line_to_data {K : Type} (assert_returns : Bool) (junk : K) (inp : Nat → K)
    (vsize rows cols : Int) : Except Fault (apop_data K) :=
  if vsize = 0 ∧ (0 < rows ∧ 0 < cols) then do
    let m ← apop_line_to_matrix inp rows cols
    pure (apop_matrix_to_data m)
  else if (rows = 0 ∨ cols = 0) ∧ 0 < vsize then do
    let v ← apop_array_to_vector inp vsize
    pure (apop_vector_to_data v)
  else if vsize ≠ rows ∧ assert_returns = true then pure []
  else do
    let out := apop_data_alloc junk vsize.toNat rows.toNat cols.toNat
    let (out, _) ← (List.range (size_t_bound rows)).foldlM (line_row inp cols) (out, 0)
    pure out

/-- The function `gsl_vector_max` of GSL: the largest element of a vector, which has at least
one element. -/
def gsl_vector_max {K : Type} [LinearOrderedField K] (v : List K) : K :=
  v.foldl max (v.headD 0)

/-- The function `gsl_matrix_max` of GSL: the largest cell of a matrix. -/
def gsl_matrix_max {K : Type} [LinearOrderedField K] (m : gsl_matrix K) : K :=
  gsl_vector_max m.rows.flatten

/-- Modelled from the spec: `apop_data_calloc (size1, size2)`, whose code is not in these
files; with two arguments, a data set of one page that holds a matrix of `size1` rows and
`size2` columns of zeros. -/
def apop_data_calloc {K : Type} [Zero K] (size1 size2 : Int) : apop_data K :=
  [alloc_page 0 0 size1.toNat size2.toNat]

/-- Modelled from the spec: `apop_matrix_increment (m, i, j, amt)`, whose code is not in these
files; it adds `amt` to the cell `(i, j)` of `m`, the default of `amt` being 1. -/
def apop_matrix_increment {K : Type} [Add K] (m : gsl_matrix K) (i : Nat) (j : Int) (amt : K) :
    Except Fault (gsl_matrix K) :=
  if j < 0 then .error .gsl_error
  else do
    let x ← gsl_matrix_get m i j.toNat
    gsl_matrix_set m i j.toNat (x + amt)

/-- The statement `apop_matrix_increment (out->matrix, 0, x)` of `apop_data_rank_compress`
for an observation `x`, which is converted to the `int` that names the column. -/
def rank_increment {K : Type} [LinearOrderedField K] [FloorRing K] (out : apop_data K)
    (x : K) : Except Fault (apop_data K) :=
  match out with
  | [] => .error .null_deref
  | p :: more =>
    match p.matrix with
    | none => .error .null_deref
    | some m => do
      let m ← apop_matrix_increment m 0 (double_to_int x) 1
      pure ({ p with matrix := some m } :: more)

/-- The function `apop_data_rank_compress (in)`.  The loops read the cells of the matrix row
by row (a row of a `gsl_matrix` has `size2` elements), then the elements of the vector. -/
def apop_data_rank_compress {K : Type} [LinearOrderedField K] [FloorRing K]
    (inp : apop_data K) : Except Fault (apop_data K) :=
  match inp with
  | [] => .error .null_deref
  | p :: _ => do
    let upper_bound := double_to_int (max
      (match p.matrix with
        | some m => gsl_matrix_max m
        | none => 0)
      (match p.vector with
        | some v => gsl_vector_max v
        | none => 0))
    let out := apop_data_calloc 1 (upper_bound + 1)
    let out ← (match p.matrix with
      | some m => m.rows.foldlM (fun out row => row.foldlM rank_increment out) out
      | none => pure out : Except Fault (apop_data K))
    let out ← (match p.vector with
      | some v => v.foldlM rank_increment out
      | none => pure out : Except Fault (apop_data K))
    pure out

/-- Modelled from the spec: `apop_vector_sum`, whose code is not in these files; the sum of
the elements of the vector. -/
def apop_vector_sum {K : Type} [Add K] [Zero K] (v : List K) : K := v.sum

/-- The innermost loop of `apop_data_rank_expand`, of `t` passes: each pass is
`gsl_vector_set (out->vector, posn++, k)`. -/
def write_copies {K : Type} (k : K) : Nat → List K × Nat → Except Fault (List K × Nat)
  | 0, s => .ok s
  | t + 1, (out, posn) => do
    let out ← gsl_vector_set out posn k
    write_copies k t (out, posn + 1)

/-- The loop over the columns of one row in `apop_data_rank_expand`, from column `k` on, on
the cells of the row that are left.  The loop `for (int j = 0; j < x; j++)` on a cell `x`, a
`double`, has as many passes as there are integers from 0 on below `x`. -/
def expand_row {K : Type} [LinearOrderedField K] [FloorRing K] :
    Nat → List K → List K × Nat → Except Fault (List K × Nat)
  | _, [], s => .ok s
  | k, x :: rest, s => do
    let s ← write_copies (k : K) (Int.toNat ⌈x⌉) s
    expand_row (k + 1) rest s

/-- The function `apop_data_rank_expand (in)`; `NULL` is `[]`.  In the expression of
`total_ct` the operator `+` binds more than `? :`, so that the sum of the vector is read only
when the matrix is `NULL`. The call `apop_data_alloc (total_ct)` gives a vector of `total_ct`
elements and fails on a negative size. -/
def apop_data_rank_expand {K : Type} [LinearOrderedField K] [FloorRing K] (junk : K)
    (inp : apop_data K) : Except Fault (apop_data K) :=
  match inp with
  | [] => .error .null_deref
  | p :: _ =>
    let total_ct := double_to_int
      (match p.matrix with
        | some m => apop_matrix_sum m
        | none =>
          match p.vector with
          | some v => apop_vector_sum v
          | none => 0)
    if total_ct = 0 then pure []
    else if total_ct < 0 then .error .gsl_error
    else
      match p.matrix with
      | none => .error .null_deref
      | some m => do
        let (v, _) ← m.rows.foldlM (fun s row => expand_row 0 row s)
          (List.replicate total_ct.toNat junk, 0)
        pure [⟨some v, none, none, ""⟩]

/-- The loop of `find_cat_index` from the value `i` of its counter on.  `fuel` bounds the
number of passes: the result is `none` when the loop has not ended within `fuel` passes.
After the loop, the failed `Apop_assert_c (0, 0, 0, ...)` makes the function return 0 when
`assert_returns` holds; otherwise the function ends without a value. -/
def find_cat_index_loop (assert_returns : Bool) (d : List String) (r : String)
    (start_from size : Nat) : Nat → Nat → Option (Except Fault Nat)
  | 0, _ => none
  | fuel + 1, i =>
    match d.get? i with
    | none => some (.error .out_of_bounds)
    | some s =>
      if s = r then some (.ok i)
      else if (i + 1) % size ≠ start_from then
        find_cat_index_loop assert_returns d r start_from size fuel ((i + 1) % size)
      else if assert_returns then some (.ok 0)
      else some (.error .assert_failed)

/-- The function `find_cat_index (d, r, start_from, size)` for `start_from >= 0` and
`size >= 1`, run for at most `fuel` passes of its loop (`none`: the loop has not ended). -/
def find_cat_index (assert_returns : Bool) (d : List String) (r : String)
    (start_from size : Nat) (fuel : Nat) : Option (Except Fault Nat) :=
  find_cat_index_loop assert_returns d r start_from size fuel (start_from % size)

/-! ## The histogram of a data set -/

/-- The numbers of a data set that a histogram counts: those of the vector of the first page,
then those of its matrix, row by row. -/
def data_values {K : Type} (data : apop_data K) : List K :=
  match data with
  | [] => []
  | p :: _ =>
    (match p.vector with
      | some v => v
      | none => [])
    ++ (match p.matrix with
      | some m => m.rows.flatten
      | none => [])

/-- Modelled from the spec: `apop_histogram_settings_alloc (data, bins)`, whose code is not in
these files.  Following the specification (a store of `bin_count` bins of equal width over
`[domain_min, domain_max]`, which fails when `bin_count <= 0`, filled with one increment for
each value, a value that is not inside the domain going to the nearest edge bin), the
histogram has `bins` bins of equal width over the interval from the least to the greatest of
the numbers of `data`, and each number of `data` is counted once, in the bin in which it lies,
the greatest in the last bin.  There is no histogram (`pdf` is `NULL`) when `bins <= 0` and
when `data` holds no number. -/
def apop_histogram_settings_alloc {K : Type} [LinearOrderedField K] [FloorRing K]
    (data : apop_data K) (bins : Int) : apop_histogram_settings K :=
  match data_values data with
  | [] => { pdf := none }
  | v :: vs =>
    if bins ≤ 0 then { pdf := none }
    else
      let lo := vs.foldl min v
      let hi := vs.foldl max v
      let n := bins.toNat
      let index := fun x : K =>
        Int.toNat (min ((n : Int) - 1) (max 0 ⌊(x - lo) * (n : K) / (hi - lo)⌋))
      { pdf := some
          { range := (List.range (n + 1)).map fun i : Nat => lo + (hi - lo) * (i : K) / (n : K)
            bin := (List.range n).map fun i : Nat =>
              (((v :: vs).countP fun x => decide (index x = i) : Nat) : K) } }

/-! ## What the statements below speak of -/

/-- The first `n` rows of `size2` elements cut from a list. -/
def list_rows {α : Type} (size2 : Nat) : Nat → List α → List (List α)
  | 0, _ => []
  | n + 1, l => l.take size2 :: list_rows size2 n (l.drop size2)

/-- The page `p` once its parts hold the elements of `l` in the order of the packing: the
vector first, then the matrix row by row, then the weights. -/
def page_of_list {α : Type} (l : List α) (p : apop_page α) : apop_page α :=
  { p with
    vector := p.vector.map fun v => l.take v.length,
    matrix := p.matrix.map fun m =>
      { m with rows := list_rows m.size2 m.size1 (l.drop (vector_size p.vector)) },
    weights := p.weights.map fun w =>
      (l.drop (vector_size p.vector + matrix_size p.matrix)).take w.length }

/-- The candidate of one pass of the main loop: the page `pp` of the parameters of the
likelihood once `write_double` has written in it the array that `apop_draw` fills from the
state `st`. -/
def candidate {K R : Type} (env : Callees K R) (prior : apop_model K) (st : chain_state K R)
    (pp : apop_page K) : apop_page K :=
  page_of_list ((List.range pp.size).map (env.apop_draw st.draw st.rng prior).1) pp

/-- The value of `ll` in one pass of the main loop that starts in the state `st`: the
log-likelihood of the data once the parameters of the likelihood hold the candidate. -/
def pass_ll {K R : Type} (env : Callees K R) (data : apop_data K)
    (prior likelihood : apop_model K) (st : chain_state K R) (pp : apop_page K)
    (pmore : apop_data K) : Dbl K :=
  env.apop_log_likelihood data
    { likelihood with parameters := candidate env prior st pp :: pmore }

/-- The value of `ratio = ll - cp_ll` in one pass of the main loop that starts in `st`. -/
def pass_ratio {K R : Type} [LinearOrderedField K] (env : Callees K R) (data : apop_data K)
    (prior likelihood : apop_model K) (st : chain_state K R) (pp : apop_page K)
    (pmore : apop_data K) : Dbl K :=
  (pass_ll env data prior likelihood st pp pmore).sub st.cp_ll

/-- The uniform variate that the generator gives after the draw of the candidate, with the
state of the generator afterwards. -/
def pass_uniform {K R : Type} (env : Callees K R) (prior : apop_model K)
    (st : chain_state K R) : K × R :=
  env.gsl_rng_uniform (env.apop_draw st.draw st.rng prior).2

/-- The matrix of `out` is as `apop_update` allocates it: `rows` rows of `cols` elements, and
no matrix at all when there is no row. -/
def out_ok {K : Type} (rows cols : Nat) : Option (gsl_matrix K) → Prop
  | none => rows = 0
  | some m => m.size1 = rows ∧ m.size2 = cols ∧ ∀ r ∈ m.rows, r.length = cols

/-- The number of rows that `apop_update` allocates for `out`: the product
`periods * (1 - burnin)` as the machine computes it, converted to a size. -/
def out_rows {K : Type} [LinearOrderedField K] [FloorRing K] [machine K]
    (s : apop_update_settings K) : Nat :=
  Int.toNat ⌊machine.to_double ((s.periods : K) * machine.to_double (1 - s.burnin))⌋

/-- The state of the main loop is as `apop_update` sets it up: the parameters of the
likelihood are a page `pp` without weights and with at least one element, `current_param` is a
page `cp` of the same shape, and `out` has a row of the size of `cp` for every sample. -/
def chain_inv {K R : Type} [LinearOrderedField K] [FloorRing K] [machine K]
    (s : apop_update_settings K)
    (pp cp : apop_page K) (pmore cmore : apop_data K) (st : chain_state K R) : Prop :=
  st.parameters = pp :: pmore ∧ st.current_param = cp :: cmore ∧ pp.WF ∧ pp.weights = none
    ∧ 0 < pp.size ∧ cp.WF ∧ pp.same_shape cp ∧ out_ok (out_rows s) cp.size st.out

/-- The test `i >= s->periods * s->burnin` of the main loop, on the product as the machine
computes it: pass `i` records a sample. -/
def records {K : Type} [LinearOrderedField K] [machine K] (s : apop_update_settings K)
    (i : Nat) : Bool :=
  decide ((i : K) ≥ machine.to_double ((s.periods : K) * s.burnin))

/-- The row `i - (s->periods * s->burnin)` of `out` that pass `i` writes, the product and the
difference being those that the machine computes and the `double` being converted to a
size. -/
def record_row {K : Type} [LinearOrderedField K] [FloorRing K] [machine K]
    (s : apop_update_settings K) (i : Nat) : Nat :=
  Int.toNat ⌊machine.to_double ((i : K) - machine.to_double ((s.periods : K) * s.burnin))⌋

/-- The passes of the main loop that record a sample, in order. -/
def recorded_passes {K : Type} [LinearOrderedField K] [machine K] (s : apop_update_settings K) :
    List Nat :=
  (List.range s.periods.toNat).filter (records s)

/-- The page `q` once it holds the vector, the matrix and the weights of `p`. -/
def copy_numbers {α : Type} (p q : apop_page α) : apop_page α :=
  { q with vector := p.vector, matrix := p.matrix, weights := p.weights }

/-- The number of elements of all the pages of a chain. -/
def chain_size {α : Type} (chain : apop_data α) : Nat := (chain.map apop_page.size).sum

/-- The last page of the chain holds at least one element. -/
def last_page_has_data {α : Type} (chain : apop_data α) : Prop :=
  ∀ p, chain.getLast? = some p → 0 < p.size

/-- The packing of a whole chain as the specification describes it: the packings of the
pages, in the order of the chain. -/
def chain_flat {α : Type} (chain : apop_data α) : List α :=
  (chain.map apop_page.flat).flatten

/-- The matrix `m` once its row `row` holds `v`. -/
def with_row {K : Type} (m : gsl_matrix K) (row : Nat) (v : List K) : gsl_matrix K :=
  { m with rows := m.rows.set row v }

/-- The decision of one pass of the main loop that starts in `st`: the test
`ratio >= 0 || log (gsl_rng_uniform (rng)) < ratio`. -/
def pass_accepts {K R : Type} [LinearOrderedField K] (env : Callees K R) (data : apop_data K)
    (prior likelihood : apop_model K) (st : chain_state K R) (pp : apop_page K)
    (pmore : apop_data K) : Bool :=
  (pass_ratio env data prior likelihood st pp pmore).ge_zero
    || (env.log (pass_uniform env prior st).1).lt (pass_ratio env data prior likelihood st pp pmore)

/-- The page of `current_param` after the decision of one pass of the main loop that starts
in `st` with the page `cp`: the candidate when the pass accepts, and `cp` as it was when the
pass rejects. -/
def pass_current {K R : Type} [LinearOrderedField K] (env : Callees K R) (data : apop_data K)
    (prior likelihood : apop_model K) (st : chain_state K R) (pp cp : apop_page K)
    (pmore : apop_data K) : apop_page K :=
  if pass_accepts env data prior likelihood st pp pmore then
    page_of_list ((List.range pp.size).map (env.apop_draw st.draw st.rng prior).1) cp
  else cp

/-- The pair (name of the prior, name of the likelihood) is one of the four that
`check_conjugacy` tests. -/
def conjugate_pair {K : Type} (prior likelihood : apop_model K) : Prop :=
  (prior.name = "Gamma distribution" ∧ likelihood.name = "Exponential distribution")
    ∨ (prior.name = "Beta distribution" ∧ likelihood.name = "Binomial distribution")
    ∨ (prior.name = "Beta distribution" ∧ likelihood.name = "Bernoulli distribution")
    ∨ (prior.name = "Normal distribution" ∧ likelihood.name = "Normal distribution")

instance {K : Type} (prior likelihood : apop_model K) :
    Decidable (conjugate_pair prior likelihood) := by
  unfold conjugate_pair
  infer_instance

/-- The number `x` is in bin `i` of the histogram: `range[i] <= x < range[i + 1]`. -/
def in_bin {K : Type} [LinearOrderedField K] (h : gsl_histogram K) (i : Nat) (x : K) : Bool :=
  decide (h.range.getD i 0 ≤ x ∧ x < h.range.getD (i + 1) 0)

/-- The number `x` is in the domain of the histogram: `range[0] <= x < range[n]`. -/
def in_domain {K : Type} [LinearOrderedField K] (h : gsl_histogram K) (x : K) : Bool :=
  decide (h.range.getD 0 0 ≤ x ∧ x < h.range.getD h.n 0)

/-- How many of the numbers `xs` are in bin `i` of the histogram. -/
def bin_count {K : Type} [LinearOrderedField K] (h : gsl_histogram K) (xs : List K) (i : Nat) :
    Nat :=
  xs.countP (in_bin h i)

/-- How many of the numbers `xs` are in the domain of the histogram, that is in one of its
bins. -/
def domain_count {K : Type} [LinearOrderedField K] (h : gsl_histogram K) (xs : List K) : Nat :=
  xs.countP (in_domain h)

/-- The histogram is as GSL builds it: one more edge than there are bins, and edges that
increase. -/
def gsl_histogram.WF {K : Type} [LinearOrderedField K] (h : gsl_histogram K) : Prop :=
  h.range.length = h.n + 1 ∧ h.range.Sorted (· < ·)

/-- The numbers that `n` calls of the method `draw` give, and the state of the generator after
them. -/
def drawn_values {K R : Type} (draw : R → K × R) : Nat → R → List K × R
  | 0, rng => ([], rng)
  | n + 1, rng => ((draw rng).1 :: (drawn_values draw n (draw rng).2).1,
      (drawn_values draw n (draw rng).2).2)

/-- The variables of the main loop as one pass has left them, whether the loop goes on or
`apop_update` returns. -/
def pass_result.state {K R : Type} : pass_result K R → chain_state K R
  | .next st => st
  | .returned_null st => st

/-- The invariant on `cp_ll`: it is the log-likelihood of the data once the parameters of the
likelihood hold the numbers of `current_param` (written in the page of the parameters in the
order of the packing). -/
def cp_ll_current {K R : Type} (env : Callees K R) (data : apop_data K)
    (likelihood : apop_model K) (st : chain_state K R) : Prop :=
  match st.parameters, st.current_param with
  | pp :: pmore, cp :: _ =>
    st.cp_ll = env.apop_log_likelihood data
      { likelihood with parameters := page_of_list cp.flat pp :: pmore }
  | _, _ => False

/-- The page that holds the vector `Fv 0, ..., Fv (n - 1)` and the matrix of `n` rows and `c`
columns whose cell `(i, j)` is `Fm i j`, and nothing else. -/
def table_page {α : Type} (n c : Nat) (Fv : Nat → α) (Fm : Nat → Nat → α) : apop_page α :=
  ⟨some ((List.range n).map Fv),
    some ⟨c, (List.range n).map fun i => (List.range c).map (Fm i)⟩, none, ""⟩

/-- The observations that `apop_data_rank_compress` reads in a page, in the order in which it
reads them: the cells of the matrix row by row, then the elements of the vector. -/
def rank_entries {α : Type} (p : apop_page α) : List α :=
  (match p.matrix with
    | some m => m.rows.flatten
    | none => [])
  ++ (match p.vector with
    | some v => v
    | none => [])

/-- The row of counts of a list of observations: column `k`, for `k` from 0 to `N`, holds
the number of observations equal to `k`. -/
def count_row (N : Nat) (obs : List Nat) : List Nat :=
  (List.range (N + 1)).map fun k => obs.count k

/-- The values that one row of counts stands for, the first count being that of `k`: `k` as
many times as the first count says, then `k + 1`, and so on. -/
def row_values : Nat → List Nat → List Nat
  | _, [] => []
  | k, c :: rest => List.replicate c k ++ row_values (k + 1) rest

/-- The values that a matrix of counts stands for: those of its rows, row after row. -/
def rank_values (C : List (List Nat)) : List Nat := (C.map (row_values 0)).flatten

/-- The product `s->periods * s->burnin` as the machine computes it: a `double`. -/
def burn_in_product {K : Type} [LinearOrderedField K] [machine K]
    (s : apop_update_settings K) : K :=
  machine.to_double ((s.periods : K) * s.burnin)

/-- The sum of the bins of a histogram as `apop_histogram_normalize` computes it: the bins are
added one after the other to a `long double` that starts at zero. -/
def long_double_sum {K : Type} [Field K] [machine K] (h : gsl_histogram K) : K :=
  h.bin.foldl (fun sum b => machine.to_long_double (sum + b)) 0

/-- The number of calls of the method `draw` that `apop_histogram_model_reset` makes for an
argument `draws`: the argument itself, 100000 when the argument is zero (the default that
`apop_varad_var (draws, 1e5)` puts in its place), and none when it is negative. -/
def draws_made (draws : Int) : Nat :=
  (if draws = 0 then 100000 else draws).toNat

/-! ## Data for the examples -/

/-- An environment for the examples: the generator is a counter, the draw number `r` fills the
array with `r, r + 1, r + 2, ...`, the log-likelihood is 0 everywhere, the uniform variate is
always 1/2 and its logarithm is taken to be -1. -/
def example_env : Callees ℚ Nat :=
  { apop_matrix_mean_and_var := fun _ => (0, 0)
    pow := fun _ _ => 0
    apop_draw := fun _ r _ => (fun i => (r : ℚ) + i, r + 1)
    apop_log_likelihood := fun _ _ => .fin 0
    gsl_rng_uniform := fun r => (1 / 2, r + 1)
    log := fun _ => .fin (-1)
    apop_assert_returns := true
    junk := 0
    apop_histogram_settings_alloc := fun _ _ => { pdf := some { range := [0, 1], bin := [1] } } }

/-- A likelihood for the examples: no parameters yet, a vector of 1 element and a 2 x 2
matrix as base sizes. -/
def example_likelihood : apop_model ℚ :=
  { name := "Example", parameters := [], vbase := 1, m1base := 2, m2base := 2,
    update_settings := none }

/-- Settings for the examples: 4 periods, a burn-in of 1/4, no starting point. -/
def example_settings : apop_update_settings ℚ :=
  { periods := 4, burnin := 1 / 4, histosegments := 5, starting_pt := [], method := 'd' }

/-- A state of the main loop for the examples, before the first pass. -/
def example_state : chain_state ℚ Nat :=
  { rng := 0, draw := fun _ => 0, parameters := [alloc_page 0 1 2 2],
    current_param := [set_all_ones (alloc_page 0 1 2 2)], cp_ll := .ninf, out := none }

/-- A chain of two pages for the examples: a vector, then a matrix with weights. -/
def example_chain : apop_data ℚ :=
  [⟨some [1, 2], none, none, "a"⟩, ⟨none, some ⟨2, [[3, 4]]⟩, some [5], "b"⟩]

/-- A chain of two pages without info titles whose last page holds no element: a vector of
two elements, then a page without vector, matrix and weights. -/
def empty_tail_chain : apop_data ℚ :=
  [⟨some [1, 2], none, none, "a"⟩, ⟨none, none, none, "b"⟩]

/-- A chain of the shape of `empty_tail_chain`, to be filled. -/
def empty_tail_target : apop_data ℚ :=
  [⟨some [0, 0], none, none, "c"⟩, ⟨none, none, none, "d"⟩]

/-- A chain of the shape of `example_chain`, to be filled. -/
def example_target : apop_data ℚ :=
  [⟨some [0, 0], none, none, "c"⟩, ⟨none, some ⟨2, [[0, 0]]⟩, some [0], "d"⟩]

/-- A chain for the examples whose second page is an info page that holds data. -/
def example_info_chain : apop_data ℚ :=
  [⟨some [1, 2], none, none, "a"⟩, ⟨some [3], none, none, "<b>"⟩, ⟨some [4], none, none, "c"⟩]

/-- A histogram model for the examples: 2 bins on [0, 2] that hold 1 and 3. -/
def example_histogram : apop_model ℚ :=
  { name := "Histogram", parameters := [], vbase := 0, m1base := 0, m2base := 0,
    update_settings := none,
    histogram_settings := some { pdf := some { range := [0, 1, 2], bin := [1, 3] } } }

/-- A histogram model for the examples whose bins sum to zero. -/
def example_empty_histogram : apop_model ℚ :=
  { name := "Histogram", parameters := [], vbase := 0, m1base := 0, m2base := 0,
    update_settings := none,
    histogram_settings := some { pdf := some { range := [0, 1, 2], bin := [0, 0] } } }

/-- The settings of the burn-in example of the specification: 100 periods, a burn-in of
1/10. -/
def burn_in_example : apop_update_settings ℚ :=
  { periods := 100, burnin := 1 / 10, histosegments := 500, starting_pt := [], method := 'd' }

/-- A prior for the examples: the base sizes of `example_likelihood` and the settings
`example_settings`. -/
def example_prior : apop_model ℚ :=
  { example_likelihood with update_settings := some example_settings }

/-- A state of the main loop for the examples, with the matrix that `apop_update` allocates
for `out` with `example_settings`: 3 rows of 5 elements. -/
def recording_state : chain_state ℚ Nat :=
  { example_state with out := some ⟨5, List.replicate 3 (List.replicate 5 0)⟩ }

/-- A chain for the examples with two info pages in a row after the first page. -/
def deep_info_chain : apop_data ℚ :=
  [⟨some [1, 2], none, none, "a"⟩, ⟨some [3], none, none, "<b>"⟩, ⟨some [4], none, none, "<c>"⟩]

/-- The chain `deep_info_chain` followed by a page of data. -/
def deep_info_chain_data : apop_data ℚ :=
  deep_info_chain ++ [⟨some [5], none, none, "d"⟩]

/-- A page to be filled, of 6 elements: a vector of 2 and a matrix of 2 x 2. -/
def example_page : apop_page ℚ := ⟨some [0, 0], some ⟨2, [[0, 0], [0, 0]]⟩, none, "p"⟩

/-- A settings group for the examples: a histogram of `bins` bins that hold 1 each. -/
def flat_histogram (bins : Int) : apop_histogram_settings ℚ :=
  { pdf := some { range := List.replicate (bins.toNat + 1) 0, bin := List.replicate bins.toNat 1 } }

/-- The environment `example_env` with a function `apop_histogram_settings_alloc` that builds
a histogram of as many bins as it is asked for. -/
def histogram_env : Callees ℚ Nat :=
  { example_env with apop_histogram_settings_alloc := fun _ bins => flat_histogram bins }

/-- A prior for the examples named as the first column of the table of `apop_update` has it,
with the settings `example_settings`. -/
def exponential_prior : apop_model ℚ :=
  { vector_model "Exponential distribution" [1] with update_settings := some example_settings }

/-- A likelihood for the examples named as the second column of the table of `apop_update`
has it. -/
def gamma_likelihood : apop_model ℚ := vector_model "Gamma distribution" [2, 1]

/-- A data set for the examples: a 2 x 2 matrix. -/
def example_data : apop_data ℚ := [⟨none, some ⟨2, [[1, 2], [3, 4]]⟩, none, ""⟩]

/-- A method `draw` for the examples: the generator is a counter `r`, and the draw number `r`
gives `r / 2`. -/
def example_draw : Nat → ℚ × Nat := fun r => ((r : ℚ) / 2, r + 1)

/-- An environment for the examples in which the log-likelihood is 0 while the vector of the
parameters starts with 0 and -2 otherwise; the rest is as in `example_env` (the logarithm of
the uniform variate is -1), so that the first candidate is accepted and the second is not. -/
def reject_env : Callees ℚ Nat :=
  { example_env with
    apop_log_likelihood := fun _ m =>
      match first_of_vector m.parameters with
      | .ok x => if x = 0 then .fin 0 else .fin (-2)
      | .error _ => .fin (-2) }

/-- A prior for the examples with the base sizes of `example_likelihood` and settings of 2
periods without burn-in. -/
def two_pass_prior : apop_model ℚ :=
  { example_likelihood with
    update_settings := some
      { periods := 2, burnin := 0, histosegments := 5, starting_pt := [], method := 'd' } }

/-- A histogram model for the examples with one bin. -/
def one_bin_model : apop_model ℚ :=
  with_histogram_pdf apop_histogram { range := [0, 1], bin := [1] }

/-- A histogram model for the examples with three bins, two more than `one_bin_model`. -/
def three_bin_model : apop_model ℚ :=
  with_histogram_pdf apop_histogram { range := [0, 1, 2, 3], bin := [1, 1, 2] }

/-- The observations of the example of `apop_data_rank_compress`. -/
def example_observations : List Nat := [2, 3, 3, 2, 1, 1, 2, 1, 1, 2, 1, 1]

/-- Settings on the machine of the doubles: 10 periods and the burn-in that the literal `0.8`
stands for, the `double` nearest to 8/10. -/
def rounded_settings : apop_update_settings binary64 :=
  { periods := 10, burnin := machine.to_double (8 / 10), histosegments := 500,
    starting_pt := [], method := 'd' }

/-- The settings of the burn-in example of the specification on the machine of the doubles:
100 periods and the `double` nearest to 1/10. -/
def rounded_burn_in_example : apop_update_settings binary64 :=
  { periods := 100, burnin := machine.to_double (1 / 10), histosegments := 500,
    starting_pt := [], method := 'd' }

/-- A histogram on the machine of the doubles: 4 bins on [0, 4] that hold `a`, `b`, `c`
and `d`. -/
def four_bins (a b c d : binary64) : gsl_histogram binary64 :=
  { range := [0, 1, 2, 3, 4], bin := [a, b, c, d] }

/-- A histogram model on the machine of the doubles: 4 bins on [0, 4] that hold 8, 9, 9
and 9. -/
def rounded_histogram : apop_model binary64 :=
  { name := "Histogram", parameters := [], vbase := 0, m1base := 0, m2base := 0,
    update_settings := none, histogram_settings := some { pdf := some (four_bins 8 9 9 9) } }

/-! ## Lemmas on the arithmetic of the machine -/

theorem to_double_exact {K : Type} [machine K] [exact_arithmetic K] (x : K) :
    machine.to_double x = x :=
  exact_arithmetic.to_double_eq x

theorem to_long_double_exact {K : Type} [machine K] [exact_arithmetic K] (x : K) :
    machine.to_long_double x = x :=
  exact_arithmetic.to_long_double_eq x

theorem log_eq {K : Type} [LinearOrderedField K] [FloorRing K] (x : K) (e : Int) (hx : 0 < x)
    (hlo : (2 : K) ^ e ≤ x) (hhi : x < (2 : K) ^ (e + 1)) : Int.log 2 x = e := by
  have h1 : e ≤ Int.log 2 x :=
    (Int.zpow_le_iff_le_log (b := 2) (by norm_num) hx (x := e)).mp (by exact_mod_cast hlo)
  have h2 : Int.log 2 x < e + 1 :=
    (Int.lt_zpow_iff_log_lt (b := 2) (by norm_num) hx (x := e + 1)).mp (by exact_mod_cast hhi)
  omega

theorem round_half_even_eq {K : Type} [LinearOrderedField K] [FloorRing K] (y : K) (n : Int)
    (h1 : (n : K) - 1 / 2 < y) (h2 : y < (n : K) + 1 / 2) : round_half_even y = n := by
  unfold round_half_even
  rcases le_or_lt (n : K) y with h | h
  · have hf : ⌊y⌋ = n := by
      rw [Int.floor_eq_iff]
      exact ⟨h, by linarith⟩
    rw [hf, if_pos (by linarith)]
  · have hf : ⌊y⌋ = n - 1 := by
      rw [Int.floor_eq_iff]
      push_cast
      exact ⟨by linarith, by linarith⟩
    rw [hf]
    push_cast
    rw [if_neg (by linarith), if_pos (by linarith)]
    omega

theorem round_to_eq {K : Type} [LinearOrderedField K] [FloorRing K] (p : Nat) (x : K)
    (e n : Int) (hx : 0 < x) (hlo : (2 : K) ^ (e + ((p : Int) - 1)) ≤ x)
    (hhi : x < (2 : K) ^ (e + ((p : Int) - 1) + 1))
    (h1 : (n : K) - 1 / 2 < x / 2 ^ e) (h2 : x / 2 ^ e < (n : K) + 1 / 2) :
    round_to p x = (n : K) * 2 ^ e := by
  unfold round_to
  rw [if_neg (ne_of_gt hx), abs_of_pos hx, log_eq x _ hx hlo hhi, add_sub_cancel_right,
    round_half_even_eq _ n h1 h2]

theorem binary64_to_double (x : binary64) : machine.to_double x = round_to 53 x := rfl

theorem binary64_to_long_double (x : binary64) : machine.to_long_double x = round_to 64 x := rfl

theorem floor_toNat_eq {K : Type} [LinearOrderedField K] [FloorRing K] (x : K) (n : Nat)
    (h1 : (n : K) ≤ x) (h2 : x < (n : K) + 1) : Int.toNat ⌊x⌋ = n := by
  have h : ⌊x⌋ = (n : Int) := by
    rw [Int.floor_eq_iff]
    exact ⟨by exact_mod_cast h1, by exact_mod_cast h2⟩
  rw [h]
  rfl

theorem ceil_toNat_eq {K : Type} [LinearOrderedField K] [FloorRing K] (x : K) (n : Nat)
    (h1 : (n : K) - 1 < x) (h2 : x ≤ (n : K)) : Int.toNat ⌈x⌉ = n := by
  have h : ⌈x⌉ = (n : Int) := by
    rw [Int.ceil_eq_iff]
    exact ⟨by exact_mod_cast h1, by exact_mod_cast h2⟩
  rw [h]
  rfl

/-- On the machine of the doubles, with 10 periods and a burn-in of 0.8, `apop_update`
allocates one row for `out` (the product `10 * (1 - 0.8)` is 1.9999999999999996), pass 9
records a sample (the product `10 * 0.8` is 8) and the row that it writes is row 1. -/
theorem rounded_settings_rows :
    out_rows rounded_settings = 1 ∧ records rounded_settings 9 = true
      ∧ record_row rounded_settings 9 = 1 := by
  have h1 : round_to 53 (8 / 10 : binary64) = 3602879701896397 / 4503599627370496 := by
    rw [round_to_eq 53 _ (-53) 7205759403792794 (by norm_num) (by norm_num) (by norm_num)
      (by norm_num) (by norm_num)]
    norm_num
  have h2 : round_to 53 (1 - 3602879701896397 / 4503599627370496 : binary64) = 900719925474099 / 4503599627370496 := by
    rw [round_to_eq 53 _ (-55) 7205759403792792 (by norm_num) (by norm_num) (by norm_num)
      (by norm_num) (by norm_num)]
    norm_num
  have h3 : round_to 53 (10 * (900719925474099 / 4503599627370496) : binary64) = 4503599627370495 / 2251799813685248 := by
    rw [round_to_eq 53 _ (-52) 9007199254740990 (by norm_num) (by norm_num) (by norm_num)
      (by norm_num) (by norm_num)]
    norm_num
  have h4 : round_to 53 (10 * (3602879701896397 / 4503599627370496) : binary64) = 8 := by
    rw [round_to_eq 53 _ (-49) 4503599627370496 (by norm_num) (by norm_num) (by norm_num)
      (by norm_num) (by norm_num)]
    norm_num
  have h5 : round_to 53 (9 - 8 : binary64) = 1 := by
    rw [round_to_eq 53 _ (-52) 4503599627370496 (by norm_num) (by norm_num) (by norm_num)
      (by norm_num) (by norm_num)]
    norm_num
  refine ⟨?_, ?_, ?_⟩
  · simp only [out_rows, rounded_settings, Int.cast_ofNat, binary64_to_double, h1, h2, h3]
    exact floor_toNat_eq _ 1 (by norm_num) (by norm_num)
  · simp only [records, rounded_settings, decide_eq_true_eq, ge_iff_le, Int.cast_ofNat,
      Nat.cast_ofNat, binary64_to_double, h1, h4]
    norm_num
  · simp only [record_row, rounded_settings, Int.cast_ofNat, Nat.cast_ofNat,
      binary64_to_double, h1, h4, h5]
    exact floor_toNat_eq _ 1 (by norm_num) (by norm_num)

/-- On the machine of the doubles, with 100 periods and a burn-in of 0.1, `apop_update`
allocates 90 rows for `out` and the passes from 10 on record a sample. -/
theorem rounded_burn_in_example_rows :
    out_rows rounded_burn_in_example = 90
      ∧ Int.toNat ⌈burn_in_product rounded_burn_in_example⌉ = 10 := by
  have h1 : round_to 53 (1 / 10 : binary64) = 3602879701896397 / 36028797018963968 := by
    rw [round_to_eq 53 _ (-56) 7205759403792794 (by norm_num) (by norm_num) (by norm_num)
      (by norm_num) (by norm_num)]
    norm_num
  have h2 : round_to 53 (1 - 3602879701896397 / 36028797018963968 : binary64) = 8106479329266893 / 9007199254740992 := by
    rw [round_to_eq 53 _ (-53) 8106479329266893 (by norm_num) (by norm_num) (by norm_num)
      (by norm_num) (by norm_num)]
    norm_num
  have h3 : round_to 53 (100 * (8106479329266893 / 9007199254740992) : binary64) = 90 := by
    rw [round_to_eq 53 _ (-46) 6333186975989760 (by norm_num) (by norm_num) (by norm_num)
      (by norm_num) (by norm_num)]
    norm_num
  have h4 : round_to 53 (100 * (3602879701896397 / 36028797018963968) : binary64) = 10 := by
    rw [round_to_eq 53 _ (-49) 5629499534213120 (by norm_num) (by norm_num) (by norm_num)
      (by norm_num) (by norm_num)]
    norm_num
  refine ⟨?_, ?_⟩
  · simp only [out_rows, rounded_burn_in_example, Int.cast_ofNat, binary64_to_double, h1, h2,
      h3]
    exact floor_toNat_eq _ 90 (by norm_num) (by norm_num)
  · simp only [burn_in_product, rounded_burn_in_example, Int.cast_ofNat, binary64_to_double,
      h1, h4]
    exact ceil_toNat_eq _ 10 (by norm_num) (by norm_num)

/-- On the machine of the doubles, the bins 8, 9, 9, 9 normalised. -/
theorem normalize_bins_rounded :
    normalize_bins true (four_bins 8 9 9 9)
      = (four_bins (8235153604334621 / 36028797018963968) (289517118902389 / 1125899906842624)
          (289517118902389 / 1125899906842624) (289517118902389 / 1125899906842624), false) := by
  have h1 : round_to 64 (0 + 8 : binary64) = 8 := by
    rw [round_to_eq 64 _ (-60) 9223372036854775808 (by norm_num) (by norm_num) (by norm_num)
      (by norm_num) (by norm_num)]
    norm_num
  have h2 : round_to 64 (8 + 9 : binary64) = 17 := by
    rw [round_to_eq 64 _ (-59) 9799832789158199296 (by norm_num) (by norm_num) (by norm_num)
      (by norm_num) (by norm_num)]
    norm_num
  have h3 : round_to 64 (17 + 9 : binary64) = 26 := by
    rw [round_to_eq 64 _ (-59) 14987979559889010688 (by norm_num) (by norm_num) (by norm_num)
      (by norm_num) (by norm_num)]
    norm_num
  have h4 : round_to 64 (26 + 9 : binary64) = 35 := by
    rw [round_to_eq 64 _ (-58) 10088063165309911040 (by norm_num) (by norm_num) (by norm_num)
      (by norm_num) (by norm_num)]
    norm_num
  have h5 : round_to 64 (8 / 35 : binary64) = 16865594581677304335 / 73786976294838206464 := by
    rw [round_to_eq 64 _ (-66) 16865594581677304335 (by norm_num) (by norm_num) (by norm_num)
      (by norm_num) (by norm_num)]
    norm_num
  have h6 : round_to 53 (16865594581677304335 / 73786976294838206464 : binary64) = 8235153604334621 / 36028797018963968 := by
    rw [round_to_eq 53 _ (-55) 8235153604334621 (by norm_num) (by norm_num) (by norm_num)
      (by norm_num) (by norm_num)]
    norm_num
  have h7 : round_to 64 (9 / 35 : binary64) = 1185862119024185461 / 4611686018427387904 := by
    rw [round_to_eq 64 _ (-65) 9486896952193483688 (by norm_num) (by norm_num) (by norm_num)
      (by norm_num) (by norm_num)]
    norm_num
  have h8 : round_to 53 (1185862119024185461 / 4611686018427387904 : binary64) = 289517118902389 / 1125899906842624 := by
    rw [round_to_eq 53 _ (-54) 4632273902438224 (by norm_num) (by norm_num) (by norm_num)
      (by norm_num) (by norm_num)]
    norm_num
  simp only [normalize_bins, four_bins, List.foldl_cons, List.foldl_nil, List.map_cons,
    List.map_nil, binary64_to_double, binary64_to_long_double, h1, h2, h3, h4, h5, h6, h7, h8]
  norm_num

/-- On the machine of the doubles, the normalised bins of 8, 9, 9, 9 normalised once more:
their sum as the machine computes it is not 1, and the first bin moves to the next
`double`. -/
theorem normalize_bins_rounded_twice :
    normalize_bins true (four_bins (8235153604334621 / 36028797018963968) (289517118902389 / 1125899906842624)
        (289517118902389 / 1125899906842624) (289517118902389 / 1125899906842624))
      = (four_bins (4117576802167311 / 18014398509481984) (289517118902389 / 1125899906842624)
          (289517118902389 / 1125899906842624) (289517118902389 / 1125899906842624), false) := by
  have h1 : round_to 64 (0 + 8235153604334621 / 36028797018963968 : binary64) = 8235153604334621 / 36028797018963968 := by
    rw [round_to_eq 64 _ (-66) 16865594581677303808 (by norm_num) (by norm_num) (by norm_num)
      (by norm_num) (by norm_num)]
    norm_num
  have h2 : round_to 64 (8235153604334621 / 36028797018963968 + 289517118902389 / 1125899906842624 : binary64) = 17499701409211069 / 36028797018963968 := by
    rw [round_to_eq 64 _ (-65) 17919694243032134656 (by norm_num) (by norm_num) (by norm_num)
      (by norm_num) (by norm_num)]
    norm_num
  have h3 : round_to 64 (17499701409211069 / 36028797018963968 + 289517118902389 / 1125899906842624 : binary64) = 26764249214087517 / 36028797018963968 := by
    rw [round_to_eq 64 _ (-64) 13703295597612808704 (by norm_num) (by norm_num) (by norm_num)
      (by norm_num) (by norm_num)]
    norm_num
  have h4 : round_to 64 (26764249214087517 / 36028797018963968 + 289517118902389 / 1125899906842624 : binary64) = 36028797018963965 / 36028797018963968 := by
    rw [round_to_eq 64 _ (-64) 18446744073709550080 (by norm_num) (by norm_num) (by norm_num)
      (by norm_num) (by norm_num)]
    norm_num
  have h5 : round_to 64 (8235153604334621 / 36028797018963968 / (36028797018963965 / 36028797018963968) : binary64) = 4216398645419326303 / 18446744073709551616 := by
    rw [round_to_eq 64 _ (-66) 16865594581677305212 (by norm_num) (by norm_num) (by norm_num)
      (by norm_num) (by norm_num)]
    norm_num
  have h6 : round_to 53 (4216398645419326303 / 18446744073709551616 : binary64) = 4117576802167311 / 18014398509481984 := by
    rw [round_to_eq 53 _ (-55) 8235153604334622 (by norm_num) (by norm_num) (by norm_num)
      (by norm_num) (by norm_num)]
    norm_num
  have h7 : round_to 64 (289517118902389 / 1125899906842624 / (36028797018963965 / 36028797018963968) : binary64) = 4743448476096741771 / 18446744073709551616 := by
    rw [round_to_eq 64 _ (-65) 9486896952193483542 (by norm_num) (by norm_num) (by norm_num)
      (by norm_num) (by norm_num)]
    norm_num
  have h8 : round_to 53 (4743448476096741771 / 18446744073709551616 : binary64) = 289517118902389 / 1125899906842624 := by
    rw [round_to_eq 53 _ (-54) 4632273902438224 (by norm_num) (by norm_num) (by norm_num)
      (by norm_num) (by norm_num)]
    norm_num
  simp only [normalize_bins, four_bins, List.foldl_cons, List.foldl_nil, List.map_cons,
    List.map_nil, binary64_to_double, binary64_to_long_double, h1, h2, h3, h4, h5, h6, h7, h8]
  norm_num

/-! ## Lemmas on views -/


@[simp] theorem vector_size_some {α : Type} (v : List α) : vector_size (some v) = v.length := rfl

@[simp] theorem vector_size_none {α : Type} : vector_size (none : Option (List α)) = 0 := rfl

@[simp] theorem matrix_size_some {α : Type} (m : gsl_matrix α) :
    matrix_size (some m) = m.size1 * m.size2 := rfl

@[simp] theorem matrix_size_none {α : Type} : matrix_size (none : Option (gsl_matrix α)) = 0 :=
  rfl

theorem subvector_append {α : Type} (pre chunk post : List α) (h : 0 < chunk.length) :
    gsl_vector_subvector (pre ++ chunk ++ post) pre.length chunk.length = .ok chunk := by
  unfold gsl_vector_subvector
  have h1 : ¬ chunk.length = 0 := by omega
  have h2 : ¬ (pre.length + (chunk.length - 1) ≥ (pre ++ chunk ++ post).length) := by
    simp only [List.length_append]; omega
  simp only [h1, h2, if_false]
  simp [List.append_assoc, List.drop_left, List.take_left]

theorem view_store_append {α : Type} (pre old post view : List α)
    (h : old.length = view.length) :
    gsl_vector_view_store (pre ++ old ++ post) pre.length view = pre ++ view ++ post := by
  unfold gsl_vector_view_store
  rw [← h]
  have : pre.length + old.length = (pre ++ old).length := by simp
  rw [this, List.drop_left, List.append_assoc pre old post, List.take_left, List.append_assoc]

theorem memcpy_ok {α : Type} (dest src : List α) (h : src.length = dest.length) :
    gsl_vector_memcpy dest src = .ok src := by
  simp [gsl_vector_memcpy, h]

theorem pack_rows_append {α : Type} (size2 : Nat) (hs : 0 < size2) (rows : List (List α))
    (hr : ∀ r ∈ rows, r.length = size2) (pre old post : List α)
    (hold : old.length = rows.length * size2) :
    pack_rows size2 rows (pre ++ old ++ post) pre.length
      = .ok (pre ++ rows.flatten ++ post, pre.length + rows.length * size2) := by
  induction rows generalizing pre old with
  | nil =>
    have : old = [] := List.length_eq_zero.mp (by simpa using hold)
    subst this
    simp [pack_rows]
  | cons r rs ih =>
    have hrl : r.length = size2 := hr r (List.mem_cons_self _ _)
    have hlen : old.length = size2 + rs.length * size2 := by
      rw [hold, List.length_cons]; ring
    have h1 : (old.take size2).length = size2 := by
      rw [List.length_take]; omega
    have h2 : (old.drop size2).length = rs.length * size2 := by
      rw [List.length_drop]; omega
    have hsplit : pre ++ old ++ post = pre ++ old.take size2 ++ (old.drop size2 ++ post) := by
      rw [List.append_assoc pre (old.take size2), ← List.append_assoc (old.take size2),
        List.take_append_drop, List.append_assoc]
    have hsub : gsl_vector_subvector (pre ++ old ++ post) pre.length size2
        = .ok (old.take size2) := by
      rw [hsplit]
      have := subvector_append pre (old.take size2) (old.drop size2 ++ post) (by omega)
      rwa [h1] at this
    have hstore : gsl_vector_view_store (pre ++ old ++ post) pre.length r
        = (pre ++ r) ++ old.drop size2 ++ post := by
      rw [hsplit, view_store_append pre (old.take size2) _ r (by omega)]
      simp [List.append_assoc]
    have hoff : pre.length + size2 = (pre ++ r).length := by simp [hrl]
    rw [pack_rows]
    simp only [hsub, bind, Except.bind, memcpy_ok (old.take size2) r (by omega), hstore]
    rw [hoff, ih (fun x hx => hr x (List.mem_cons_of_mem _ hx)) (pre ++ r) (old.drop size2) h2]
    simp [List.append_assoc, hrl]
    ring

theorem flatten_length_of_rows {α : Type} (size2 : Nat) (rows : List (List α))
    (hr : ∀ r ∈ rows, r.length = size2) : rows.flatten.length = rows.length * size2 := by
  induction rows with
  | nil => simp
  | cons r rs ih =>
    rw [List.flatten_cons, List.length_append, hr r (List.mem_cons_self _ _),
      ih (fun x hx => hr x (List.mem_cons_of_mem _ hx)), List.length_cons]
    ring

theorem apop_page.flat_length {α : Type} (p : apop_page α) (hp : p.WF) :
    p.flat.length = p.size := by
  obtain ⟨v, m, w, t⟩ := p
  obtain ⟨-, hm, -⟩ := hp
  cases v <;> cases m <;> cases w <;>
    simp only [apop_page.flat, apop_page.size, gsl_matrix.size1, List.length_append,
      List.length_nil, Option.getD_none, Option.getD_some, Option.map_none', Option.map_some',
      vector_size_some, vector_size_none, matrix_size_some, matrix_size_none] <;>
    first
      | rfl
      | rw [flatten_length_of_rows _ _ (hm _ rfl).2.2]

/-- One write through a view, as `apop_data_pack` does it for the vector and the weights. -/
theorem view_write {α : Type} (pre old post src : List α) (hpos : 0 < src.length)
    (h : old.length = src.length) :
    (do
      let vout ← gsl_vector_subvector (pre ++ old ++ post) pre.length src.length
      let vout ← gsl_vector_memcpy vout src
      pure (gsl_vector_view_store (pre ++ old ++ post) pre.length vout,
        pre.length + src.length) : Except Fault (List α × Nat))
      = .ok (pre ++ src ++ post, pre.length + src.length) := by
  have hsub := subvector_append pre old post (by omega)
  rw [h] at hsub
  simp only [hsub, bind, Except.bind, memcpy_ok old src h.symm, view_store_append pre old post src h]
  rfl

theorem pack_vector_append {α : Type} (v : Option (List α))
    (hv : ∀ x, v = some x → 0 < x.length) (old post : List α)
    (h : old.length = (v.getD []).length) :
    pack_vector v (old ++ post) = .ok (v.getD [] ++ post, (v.getD []).length) := by
  cases v with
  | none =>
    have : old = [] := List.length_eq_zero.mp (by simpa using h)
    subst this; rfl
  | some v =>
    have := view_write [] old post v (hv v rfl) (by simpa using h)
    simpa [pack_vector] using this

theorem pack_matrix_append {α : Type} (m : Option (gsl_matrix α))
    (hm : ∀ x, m = some x → 0 < x.size1 ∧ 0 < x.size2 ∧ ∀ r ∈ x.rows, r.length = x.size2)
    (pre old post : List α)
    (h : old.length = ((m.map fun x => x.rows.flatten).getD []).length) :
    pack_matrix m (pre ++ old ++ post) pre.length
      = .ok (pre ++ (m.map fun x => x.rows.flatten).getD [] ++ post,
          pre.length + ((m.map fun x => x.rows.flatten).getD []).length) := by
  cases m with
  | none =>
    have : old = [] := List.length_eq_zero.mp (by simpa using h)
    subst this; simp [pack_matrix]; rfl
  | some m =>
    have hrows := (hm m rfl).2.2
    have hl := flatten_length_of_rows _ _ hrows
    have := pack_rows_append m.size2 (hm m rfl).2.1 m.rows hrows pre old post
      (by simpa [hl] using h)
    simpa [pack_matrix, hl] using this

theorem pack_weights_append {α : Type} (w : Option (List α))
    (hw : ∀ x, w = some x → 0 < x.length) (pre old post : List α)
    (h : old.length = (w.getD []).length) :
    pack_weights w (pre ++ old ++ post) pre.length
      = .ok (pre ++ w.getD [] ++ post, pre.length + (w.getD []).length) := by
  cases w with
  | none =>
    have : old = [] := List.length_eq_zero.mp (by simpa using h)
    subst this; simp [pack_weights]; rfl
  | some w =>
    have := view_write pre old post w (hw w rfl) (by simpa using h)
    simpa [pack_weights] using this

theorem apop_page.size_eq {α : Type} (p : apop_page α) (hp : p.WF) :
    p.size = (p.vector.getD []).length
      + ((p.matrix.map fun m => m.rows.flatten).getD []).length + (p.weights.getD []).length := by
  rw [← apop_page.flat_length p hp]
  simp [apop_page.flat, Nat.add_assoc]

theorem pack_page_append {α : Type} (p : apop_page α) (hp : p.WF) (old post : List α)
    (hold : old.length = p.size) :
    pack_page p (old ++ post) = .ok (p.flat ++ post, p.size) := by
  have hsize := apop_page.size_eq p hp
  obtain ⟨hv, hm, hw⟩ := hp
  set V : List α := p.vector.getD [] with hV
  set M : List α := (p.matrix.map fun m => m.rows.flatten).getD [] with hM
  set W : List α := p.weights.getD [] with hW
  have hlen : old.length = V.length + M.length + W.length := by rw [hold, hsize]
  obtain ⟨o1, o2, o3, rfl, h1, h2, h3⟩ : ∃ o1 o2 o3, old = o1 ++ o2 ++ o3 ∧
      o1.length = V.length ∧ o2.length = M.length ∧ o3.length = W.length := by
    refine ⟨old.take V.length, (old.drop V.length).take M.length,
      old.drop (V.length + M.length), ?_, ?_, ?_, ?_⟩
    · rw [List.append_assoc, ← List.drop_drop, List.take_append_drop, List.take_append_drop]
    · rw [List.length_take]; omega
    · rw [List.length_take, List.length_drop]; omega
    · rw [List.length_drop]; omega
  have s1 := pack_vector_append p.vector hv o1 (o2 ++ o3 ++ post) h1
  have s2 := pack_matrix_append p.matrix hm V o2 (o3 ++ post) h2
  have s3 := pack_weights_append p.weights hw (V ++ M) o3 post h3
  rw [← hV] at s1
  rw [← hM] at s2
  rw [← hW] at s3
  simp only [List.append_assoc, List.length_append] at s1 s2 s3 ⊢
  unfold pack_page
  simp only [s1, bind, Except.bind, s2, s3, apop_page.flat, hsize, ← hV, ← hM, ← hW,
    List.append_assoc, Nat.add_assoc]

theorem unpack_rows_append {α : Type} (size2 : Nat) (hs : 0 < size2) (rows tgt : List (List α))
    (hr : ∀ r ∈ rows, r.length = size2) (ht : ∀ r ∈ tgt, r.length = size2)
    (hlen : tgt.length = rows.length) (pre post : List α) :
    unpack_rows (pre ++ rows.flatten ++ post) size2 tgt pre.length
      = .ok (rows, pre.length + rows.length * size2) := by
  induction tgt generalizing rows pre with
  | nil =>
    have : rows = [] := List.length_eq_zero.mp (by simpa using hlen.symm)
    subst this
    simp [unpack_rows]
  | cons t ts ih =>
    obtain ⟨r, rs, rfl⟩ : ∃ r rs, rows = r :: rs := by
      cases rows with
      | nil => simp at hlen
      | cons r rs => exact ⟨r, rs, rfl⟩
    have hrl : r.length = size2 := hr r (List.mem_cons_self _ _)
    have htl : t.length = size2 := ht t (List.mem_cons_self _ _)
    have hsub : gsl_vector_subvector (pre ++ (r :: rs).flatten ++ post) pre.length size2
        = .ok r := by
      have := subvector_append pre r (rs.flatten ++ post) (by omega)
      rw [hrl] at this
      simpa [List.append_assoc] using this
    have hin : pre ++ (r :: rs).flatten ++ post = (pre ++ r) ++ rs.flatten ++ post := by
      simp [List.append_assoc]
    have hoff : pre.length + size2 = (pre ++ r).length := by simp [hrl]
    rw [unpack_rows]
    simp only [hsub, bind, Except.bind, memcpy_ok t r (by omega)]
    rw [hin, hoff, ih rs (fun x hx => hr x (List.mem_cons_of_mem _ hx))
      (fun x hx => ht x (List.mem_cons_of_mem _ hx)) (by simpa using hlen) (pre ++ r)]
    simp [pure, Except.pure, hrl]
    ring

theorem unpack_vector_append {α : Type} (src tgt : Option (List α))
    (hv : ∀ x, src = some x → 0 < x.length)
    (hshape : src.map List.length = tgt.map List.length) (post : List α) :
    unpack_vector (src.getD [] ++ post) tgt = .ok (src, (src.getD []).length) := by
  cases src with
  | none =>
    cases tgt with
    | none => rfl
    | some t => simp at hshape
  | some v =>
    cases tgt with
    | none => simp at hshape
    | some t =>
      have hl : v.length = t.length := by simpa using hshape
      have hsub := subvector_append [] v post (hv v rfl)
      simp only [List.nil_append, List.length_nil] at hsub
      simp only [unpack_vector, Option.getD_some, ← hl, hsub, bind, Except.bind,
        memcpy_ok t v hl]
      simp [pure, Except.pure]

theorem unpack_weights_append {α : Type} (src tgt : Option (List α))
    (hw : ∀ x, src = some x → 0 < x.length)
    (hshape : src.map List.length = tgt.map List.length) (pre post : List α) :
    unpack_weights (pre ++ src.getD [] ++ post) tgt pre.length
      = .ok (src, pre.length + (src.getD []).length) := by
  cases src with
  | none =>
    cases tgt with
    | none => rfl
    | some t => simp at hshape
  | some w =>
    cases tgt with
    | none => simp at hshape
    | some t =>
      have hl : w.length = t.length := by simpa using hshape
      have hsub := subvector_append pre w post (hw w rfl)
      simp only [unpack_weights, Option.getD_some, ← hl, hsub, bind, Except.bind,
        memcpy_ok t w hl]
      simp [pure, Except.pure]

theorem unpack_matrix_append {α : Type} (src tgt : Option (gsl_matrix α))
    (hm : ∀ x, src = some x → 0 < x.size1 ∧ 0 < x.size2 ∧ ∀ r ∈ x.rows, r.length = x.size2)
    (ht : ∀ x, tgt = some x → 0 < x.size1 ∧ 0 < x.size2 ∧ ∀ r ∈ x.rows, r.length = x.size2)
    (hshape : src.map (fun m => (m.size1, m.size2)) = tgt.map (fun m => (m.size1, m.size2)))
    (pre post : List α) :
    unpack_matrix (pre ++ (src.map fun x => x.rows.flatten).getD [] ++ post) tgt pre.length
      = .ok (src, pre.length + ((src.map fun x => x.rows.flatten).getD []).length) := by
  cases src with
  | none =>
    cases tgt with
    | none => rfl
    | some t => simp at hshape
  | some m =>
    cases tgt with
    | none => simp at hshape
    | some t =>
      obtain ⟨h1, h2⟩ : m.size1 = t.size1 ∧ m.size2 = t.size2 := by simpa using hshape
      have hrows := (hm m rfl).2.2
      have := unpack_rows_append m.size2 (hm m rfl).2.1 m.rows t.rows hrows
        (by rw [h2]; exact (ht t rfl).2.2) h1.symm pre post
      simp only [unpack_matrix, Option.map_some', Option.getD_some, ← h2, this, bind,
        Except.bind, flatten_length_of_rows _ _ hrows]
      simp [pure, Except.pure]

theorem unpack_page_append {α : Type} (p q : apop_page α) (hp : p.WF) (hq : q.WF)
    (hshape : p.same_shape q) (post : List α) :
    unpack_page (p.flat ++ post) q
      = .ok ({ q with vector := p.vector, matrix := p.matrix, weights := p.weights },
          p.size) := by
  have hsize := apop_page.size_eq p hp
  obtain ⟨hv, hm, hw⟩ := hp
  obtain ⟨-, hqm, -⟩ := hq
  obtain ⟨sv, sm, sw⟩ := hshape
  set V : List α := p.vector.getD [] with hV
  set M : List α := (p.matrix.map fun m => m.rows.flatten).getD [] with hM
  set W : List α := p.weights.getD [] with hW
  have s1 := unpack_vector_append p.vector q.vector hv sv (M ++ W ++ post)
  have s2 := unpack_matrix_append p.matrix q.matrix hm hqm sm V (W ++ post)
  have s3 := unpack_weights_append p.weights q.weights hw sw (V ++ M) post
  rw [← hV] at s1
  rw [← hM] at s2
  rw [← hW] at s3
  simp only [List.append_assoc, List.length_append] at s1 s2 s3 ⊢
  unfold unpack_page
  simp only [apop_page.flat, ← hV, ← hM, ← hW, List.append_assoc, s1, bind, Except.bind, s2, s3,
    hsize, pure, Except.pure, Nat.add_assoc]

/-! ## The codec: round trip (C1) -/

theorem sizecount_first {α : Type} (P : apop_page α) (more : apop_data α) (use_info_pp : Nat)
    (h : use_info_pp ≤ 1) : sizecount (P :: more) 0 use_info_pp = P.size := by
  have : ¬ use_info_pp = 110 := by omega
  simp [sizecount, this]

theorem apop_data_pack_first {α : Type} (junk : α) (P : apop_page α) (more : apop_data α)
    (hP : P.WF) (hsize : 0 < P.size) :
    apop_data_pack junk (P :: more) none 'n' 'n' = .ok (some P.flat) := by
  have hc : c_int (('n' : Char) == 'y' || ('n' : Char) == 'Y') = 0 := by decide
  have hu : c_int (('n' : Char) == 'n') = 1 := by decide
  have hpage := pack_page_append P hP (List.replicate P.size junk) [] (by simp)
  simp only [List.append_nil] at hpage
  unfold apop_data_pack
  simp only [hc, hu, sizecount_first P more 1 (le_refl 1)]
  simp [hpage, bind, Except.bind, pure, Except.pure, Nat.pos_iff_ne_zero.mp hsize]

/-- Claim C1 (single-page round trip).  For every one-page data set `P` with at least one
element and every one-page data set `P'` of the same shape, `apop_data_pack (P)` returns a
vector, and `apop_data_unpack` of that vector into `P'` returns and leaves `P'` with the
vector, the matrix and the weights of `P` (its title is as before). -/
theorem pack_unpack_single_page {α : Type} (junk : α) (P P' : apop_page α)
    (hP : P.WF) (hP' : P'.WF) (hshape : P.same_shape P') (hsize : 0 < P.size) :
    ∃ buf, apop_data_pack junk [P] none 'n' 'n' = .ok (some buf) ∧
      apop_data_unpack buf [P'] 'n'
        = .ok [{ P' with vector := P.vector, matrix := P.matrix, weights := P.weights }] := by
  refine ⟨P.flat, apop_data_pack_first junk P [] hP hsize, ?_⟩
  have hpage := unpack_page_append P P' hP hP' hshape []
  simp only [List.append_nil] at hpage
  unfold apop_data_unpack
  simp [hpage, bind, Except.bind, pure, Except.pure, apop_page.flat_length P hP]

/-- The round trip of C1 on a page with a vector of 3 elements, a 2 x 2 matrix and 2
weights. -/
theorem pack_unpack_single_page_witness :
    ∃ buf, apop_data_pack (0 : ℚ)
        [⟨some [1, 2, 3], some ⟨2, [[4, 5], [6, 7]]⟩, some [8, 9], "P"⟩] none 'n' 'n'
          = .ok (some buf) ∧
      apop_data_unpack buf [⟨some [0, 0, 0], some ⟨2, [[0, 0], [0, 0]]⟩, some [0, 0], "Q"⟩] 'n'
        = .ok [⟨some [1, 2, 3], some ⟨2, [[4, 5], [6, 7]]⟩, some [8, 9], "Q"⟩] :=
  pack_unpack_single_page (0 : ℚ)
    ⟨some [1, 2, 3], some ⟨2, [[4, 5], [6, 7]]⟩, some [8, 9], "P"⟩
    ⟨some [0, 0, 0], some ⟨2, [[0, 0], [0, 0]]⟩, some [0, 0], "Q"⟩
    (by simp [apop_page.WF, gsl_matrix.size1])
    (by simp [apop_page.WF, gsl_matrix.size1])
    (by simp [apop_page.same_shape, gsl_matrix.size1])
    (by simp [apop_page.size, gsl_matrix.size1])

/-! ## The conjugacy table (C2 to C7) -/

theorem apop_matrix_sum_eq {K : Type} [Field K] (m : gsl_matrix K) :
    apop_matrix_sum m = m.rows.flatten.sum := by
  rw [apop_matrix_sum, List.sum_flatten]

theorem bernoulli_row {K : Type} [Field K] [DecidableEq K] (row : List K) (s : K) :
    row.foldl (fun sum x => if x ≠ 0 then sum + 1 else sum) s
      = s + ((row.countP (fun x => decide (x ≠ 0)) : Nat) : K) := by
  induction row generalizing s with
  | nil => simp
  | cons x xs ih =>
    rw [List.foldl_cons, ih, List.countP_cons]
    by_cases hx : x = 0
    · simp [hx]
    · simp [hx]; ring

theorem bernoulli_rows {K : Type} [Field K] [DecidableEq K] (rows : List (List K)) (s : K) :
    rows.foldl (fun sum row => row.foldl (fun sum x => if x ≠ 0 then sum + 1 else sum) sum) s
      = s + ((rows.flatten.countP (fun x => decide (x ≠ 0)) : Nat) : K) := by
  induction rows generalizing s with
  | nil => simp
  | cons r rs ih =>
    rw [List.foldl_cons, ih, bernoulli_row, List.flatten_cons, List.countP_append]
    push_cast
    ring

theorem bernoulli_sum_eq {K : Type} [Field K] [DecidableEq K] (m : gsl_matrix K) :
    bernoulli_sum m = ((m.rows.flatten.countP (fun x => decide (x ≠ 0)) : Nat) : K) := by
  unfold bernoulli_sum
  rw [bernoulli_rows, zero_add]

theorem cells_sub_nonzero {K : Type} [Field K] [DecidableEq K] (m : gsl_matrix K)
    (hrows : ∀ r ∈ m.rows, r.length = m.size2) :
    ((m.size1 * m.size2 : Nat) : K)
        - ((m.rows.flatten.countP (fun x => decide (x ≠ 0)) : Nat) : K)
      = ((m.rows.flatten.countP (fun x => decide (x = 0)) : Nat) : K) := by
  have h1 : m.size1 * m.size2 = m.rows.flatten.length := by
    rw [flatten_length_of_rows _ _ hrows, gsl_matrix.size1]
  have h2 := List.length_eq_countP_add_countP (fun x => decide (x = 0)) m.rows.flatten
  have h3 : List.countP (fun x => decide ¬(decide (x = 0)) = true) m.rows.flatten
      = List.countP (fun x => decide (x ≠ 0)) m.rows.flatten := by
    congr 1; funext x; by_cases hx : x = 0 <;> simp [hx]
  rw [h1, h2, h3]
  push_cast
  ring

/-- Claim C2 (Beta prior, Binomial likelihood, no data).  When `data` is `NULL` and the
likelihood has the parameter vector `(n, p, ...)`, `check_conjugacy` returns the prior with the
first two elements `(alpha, beta)` of its parameter vector replaced by
`(alpha + n * p, beta + n * (1 - p))`; over the rationals the prior `(1, 1)` with `n = 10` and
`p = 3/10` gives `(4, 8)`. -/
theorem check_conjugacy_beta_binomial_no_data {K : Type} [Field K] [DecidableEq K]
    (mean_and_var : gsl_matrix K → K × K) (pow : K → K → K) (prior likelihood : apop_model K)
    (pg : apop_page K) (more : apop_data K) (alpha beta : K) (tl : List K)
    (lpg : apop_page K) (lmore : apop_data K) (n p : K) (ltl : List K)
    (hprior : prior.name = "Beta distribution")
    (hlik : likelihood.name = "Binomial distribution")
    (hpp : prior.parameters = pg :: more) (hpv : pg.vector = some (alpha :: beta :: tl))
    (hlp : likelihood.parameters = lpg :: lmore) (hlv : lpg.vector = some (n :: p :: ltl)) :
    check_conjugacy mean_and_var pow [] prior likelihood
        = .ok (some { prior with
            parameters :=
              { pg with vector := some ((alpha + n * p) :: (beta + n * (1 - p)) :: tl) } :: more })
      ∧ check_conjugacy (fun _ => ((0 : ℚ), (0 : ℚ))) (fun _ _ => (0 : ℚ)) []
          (vector_model "Beta distribution" [1, 1])
          (vector_model "Binomial distribution" [10, 3 / 10])
        = .ok (some (vector_model "Beta distribution" [4, 8])) := by
  constructor
  · simp [check_conjugacy, hprior, hlik, hpp, hpv, hlp, hlv, parameters_vector, vector_data,
      apop_vector_increment, set_parameters_vector, apop_model_copy, bind, Except.bind, pure,
      Except.pure]
  · simp [check_conjugacy, vector_model, parameters_vector, vector_data,
      apop_vector_increment, set_parameters_vector, apop_model_copy, bind, Except.bind, pure,
      Except.pure]
    norm_num

/-- The rule of C2 on the prior `(2, 3)` and the likelihood `(4, 1/2)`. -/
theorem check_conjugacy_beta_binomial_no_data_witness :
    check_conjugacy (fun _ => ((0 : ℚ), (0 : ℚ))) (fun _ _ => (0 : ℚ)) []
        (vector_model "Beta distribution" [2, 3])
        (vector_model "Binomial distribution" [4, 1 / 2])
      = .ok (some { vector_model "Beta distribution" [2, 3] with
          parameters :=
            [{ (⟨some [2, 3], none, none, ""⟩ : apop_page ℚ) with
                vector := some [2 + 4 * (1 / 2), 3 + 4 * (1 - 1 / 2)] }] }) :=
  (check_conjugacy_beta_binomial_no_data (fun _ => ((0 : ℚ), (0 : ℚ))) (fun _ _ => (0 : ℚ))
    (vector_model "Beta distribution" [2, 3]) (vector_model "Binomial distribution" [4, 1 / 2])
    ⟨some [2, 3], none, none, ""⟩ [] 2 3 [] ⟨some [4, 1 / 2], none, none, ""⟩ [] 4 (1 / 2) []
    rfl rfl rfl rfl rfl rfl).1

/-- Claim C4 (Gamma prior, Exponential likelihood).  With a data matrix `D`, `check_conjugacy`
returns the prior with the first two elements `(a, r)` of its parameter vector replaced by
`(a + number of cells of D, 1 / (1 / r + sum of the cells of D))`. -/
theorem check_conjugacy_gamma_exponential {K : Type} [Field K] [DecidableEq K]
    (mean_and_var : gsl_matrix K → K × K) (pow : K → K → K) (prior likelihood : apop_model K)
    (pg : apop_page K) (more : apop_data K) (a r : K) (tl : List K)
    (dpg : apop_page K) (dmore : apop_data K) (D : gsl_matrix K)
    (hprior : prior.name = "Gamma distribution")
    (hlik : likelihood.name = "Exponential distribution")
    (hpp : prior.parameters = pg :: more) (hpv : pg.vector = some (a :: r :: tl))
    (hD : dpg.matrix = some D) :
    check_conjugacy mean_and_var pow (dpg :: dmore) prior likelihood
      = .ok (some { prior with
          parameters :=
            { pg with
              vector := some ((a + ((D.size1 * D.size2 : Nat) : K))
                :: (1 / (1 / r + D.rows.flatten.sum)) :: tl) } :: more }) := by
  simp [check_conjugacy, hprior, hlik, hpp, hpv, hD, parameters_vector, data_matrix,
    gsl_vector_get, gsl_vector_set, apop_vector_increment, set_parameters_vector,
    apop_model_copy, bind, Except.bind, pure, Except.pure, apop_matrix_sum_eq]

/-- The rule of C4 on the prior `(2, 1)` and a 2 x 2 data matrix. -/
theorem check_conjugacy_gamma_exponential_witness :
    check_conjugacy (fun _ => ((0 : ℚ), (0 : ℚ))) (fun _ _ => (0 : ℚ))
        [⟨none, some ⟨2, [[1, 2], [3, 4]]⟩, none, ""⟩]
        (vector_model "Gamma distribution" [2, 1])
        (vector_model "Exponential distribution" [1])
      = .ok (some { vector_model "Gamma distribution" [2, 1] with
          parameters :=
            [{ (⟨some [2, 1], none, none, ""⟩ : apop_page ℚ) with
                vector := some [2 + ((2 * 2 : Nat) : ℚ), 1 / (1 / 1 + (1 + (2 + (3 + (4 + 0)))))] }] }) :=
  check_conjugacy_gamma_exponential (fun _ => ((0 : ℚ), (0 : ℚ))) (fun _ _ => (0 : ℚ))
    (vector_model "Gamma distribution" [2, 1]) (vector_model "Exponential distribution" [1])
    ⟨some [2, 1], none, none, ""⟩ [] 2 1 [] ⟨none, some ⟨2, [[1, 2], [3, 4]]⟩, none, ""⟩ []
    ⟨2, [[1, 2], [3, 4]]⟩ rfl rfl rfl rfl rfl

/-- Claim C5 (Beta prior, Bernoulli likelihood).  With a data matrix `D`, `check_conjugacy`
returns the prior with the first two elements `(alpha, beta)` of its parameter vector replaced
by `(alpha + number of non-zero cells of D, beta + number of zero cells of D)`. -/
theorem check_conjugacy_beta_bernoulli {K : Type} [Field K] [DecidableEq K]
    (mean_and_var : gsl_matrix K → K × K) (pow : K → K → K) (prior likelihood : apop_model K)
    (pg : apop_page K) (more : apop_data K) (alpha beta : K) (tl : List K)
    (dpg : apop_page K) (dmore : apop_data K) (D : gsl_matrix K)
    (hprior : prior.name = "Beta distribution")
    (hlik : likelihood.name = "Bernoulli distribution")
    (hpp : prior.parameters = pg :: more) (hpv : pg.vector = some (alpha :: beta :: tl))
    (hD : dpg.matrix = some D) (hrows : ∀ r ∈ D.rows, r.length = D.size2) :
    check_conjugacy mean_and_var pow (dpg :: dmore) prior likelihood
      = .ok (some { prior with
          parameters :=
            { pg with
              vector := some
                ((alpha + ((D.rows.flatten.countP (fun x => decide (x ≠ 0)) : Nat) : K))
                  :: (beta + ((D.rows.flatten.countP (fun x => decide (x = 0)) : Nat) : K))
                  :: tl) } :: more }) := by
  rw [← cells_sub_nonzero D hrows, ← bernoulli_sum_eq]
  simp [check_conjugacy, hprior, hlik, hpp, hpv, hD, parameters_vector, data_matrix,
    apop_vector_increment, set_parameters_vector,
    apop_model_copy, bind, Except.bind, pure, Except.pure]

/-- The rule of C5 on the prior `(1, 1)` and a 2 x 2 data matrix with one zero cell. -/
theorem check_conjugacy_beta_bernoulli_witness :
    check_conjugacy (fun _ => ((0 : ℚ), (0 : ℚ))) (fun _ _ => (0 : ℚ))
        [⟨none, some ⟨2, [[1, 0], [1, 1]]⟩, none, ""⟩]
        (vector_model "Beta distribution" [1, 1])
        (vector_model "Bernoulli distribution" [1 / 2])
      = .ok (some { vector_model "Beta distribution" [1, 1] with
          parameters :=
            [{ (⟨some [1, 1], none, none, ""⟩ : apop_page ℚ) with
                vector := some
                  [1 + (((([[1, 0], [1, 1]] : List (List ℚ)).flatten.countP
                      (fun x => decide (x ≠ 0)) : Nat)) : ℚ),
                   1 + (((([[1, 0], [1, 1]] : List (List ℚ)).flatten.countP
                      (fun x => decide (x = 0)) : Nat)) : ℚ)] }] }) :=
  check_conjugacy_beta_bernoulli (fun _ => ((0 : ℚ), (0 : ℚ))) (fun _ _ => (0 : ℚ))
    (vector_model "Beta distribution" [1, 1]) (vector_model "Bernoulli distribution" [1 / 2])
    ⟨some [1, 1], none, none, ""⟩ [] 1 1 [] ⟨none, some ⟨2, [[1, 0], [1, 1]]⟩, none, ""⟩ []
    ⟨2, [[1, 0], [1, 1]]⟩ rfl rfl rfl rfl rfl (by simp)

/-- Claim C6 (Beta prior, Binomial likelihood, data).  With a data matrix `D`, `check_conjugacy`
returns the prior with the first two elements `(alpha, beta)` of its parameter vector replaced
by `(alpha + sum (D), beta + (number of cells of D) - sum (D))`, whatever the parameters of
the likelihood are. -/
theorem check_conjugacy_beta_binomial_data {K : Type} [Field K] [DecidableEq K]
    (mean_and_var : gsl_matrix K → K × K) (pow : K → K → K) (prior likelihood : apop_model K)
    (pg : apop_page K) (more : apop_data K) (alpha beta : K) (tl : List K)
    (dpg : apop_page K) (dmore : apop_data K) (D : gsl_matrix K)
    (hprior : prior.name = "Beta distribution")
    (hlik : likelihood.name = "Binomial distribution")
    (hpp : prior.parameters = pg :: more) (hpv : pg.vector = some (alpha :: beta :: tl))
    (hD : dpg.matrix = some D) :
    check_conjugacy mean_and_var pow (dpg :: dmore) prior likelihood
      = .ok (some { prior with
          parameters :=
            { pg with
              vector := some ((alpha + D.rows.flatten.sum)
                :: (beta + ((D.size1 * D.size2 : Nat) : K) - D.rows.flatten.sum)
                :: tl) } :: more }) := by
  simp [check_conjugacy, hprior, hlik, hpp, hpv, hD, parameters_vector, data_matrix,
    apop_vector_increment, set_parameters_vector,
    apop_model_copy, bind, Except.bind, pure, Except.pure, apop_matrix_sum_eq]
  ring

/-- The rule of C6 on the prior `(1, 1)`, a 2 x 2 data matrix and a likelihood that has
parameters of its own. -/
theorem check_conjugacy_beta_binomial_data_witness :
    check_conjugacy (fun _ => ((0 : ℚ), (0 : ℚ))) (fun _ _ => (0 : ℚ))
        [⟨none, some ⟨2, [[1, 0], [1, 1]]⟩, none, ""⟩]
        (vector_model "Beta distribution" [1, 1])
        (vector_model "Binomial distribution" [10, 3 / 10])
      = .ok (some { vector_model "Beta distribution" [1, 1] with
          parameters :=
            [{ (⟨some [1, 1], none, none, ""⟩ : apop_page ℚ) with
                vector := some
                  [1 + ([[1, 0], [1, 1]] : List (List ℚ)).flatten.sum,
                   1 + ((2 * 2 : Nat) : ℚ) - ([[1, 0], [1, 1]] : List (List ℚ)).flatten.sum] }] }) :=
  check_conjugacy_beta_binomial_data (fun _ => ((0 : ℚ), (0 : ℚ))) (fun _ _ => (0 : ℚ))
    (vector_model "Beta distribution" [1, 1])
    (vector_model "Binomial distribution" [10, 3 / 10])
    ⟨some [1, 1], none, none, ""⟩ [] 1 1 [] ⟨none, some ⟨2, [[1, 0], [1, 1]]⟩, none, ""⟩ []
    ⟨2, [[1, 0], [1, 1]]⟩ rfl rfl rfl rfl rfl

theorem rpow_nine_quarters : ((9 : ℝ) / 4) ^ (-(1 / 2) : ℝ) = 2 / 3 := by
  have h : ((9 : ℝ) / 4) = (3 / 2) ^ (2 : ℝ) := by norm_num
  rw [h, ← Real.rpow_mul (by norm_num)]
  norm_num

/-- Claim C3 (Normal prior, Normal likelihood).  `check_conjugacy` returns the prior with the
first two elements `(m0, s0)` of its parameter vector replaced by the mean
`(m0 / s0^2 + n * mu / v) / (1 / s0^2 + n / v)` and the standard deviation
`(1 / s0^2 + n / v) ^ (-1/2)`, where without data (and with a parametrised likelihood) `n = 1`,
`mu` is parameter 0 of the likelihood and `v` the square of its parameter 1, and with data `n`
is the number of cells and `(mu, v)` what `apop_matrix_mean_and_var` returns for the data
matrix.  For the prior `(0, 1)` and data of 5 cells with `mu = 2` and `v = 4` the result is
`(10/9, 2/3)`. -/
theorem check_conjugacy_normal_normal (mean_and_var : gsl_matrix ℝ → ℝ × ℝ)
    (prior likelihood : apop_model ℝ) (data : apop_data ℝ)
    (pg : apop_page ℝ) (more : apop_data ℝ) (m0 s0 : ℝ) (tl : List ℝ) (n : Nat) (mu v : ℝ)
    (hprior : prior.name = "Normal distribution")
    (hlik : likelihood.name = "Normal distribution")
    (hpp : prior.parameters = pg :: more) (hpv : pg.vector = some (m0 :: s0 :: tl))
    (hsrc : (data = [] ∧ n = 1 ∧ ∃ lpg lmore sd ltl, likelihood.parameters = lpg :: lmore ∧
          lpg.vector = some (mu :: sd :: ltl) ∧ v = sd ^ 2)
        ∨ (∃ dpg dmore D, data = dpg :: dmore ∧ dpg.matrix = some D ∧
          n = D.size1 * D.size2 ∧ mean_and_var D = (mu, v))) :
    check_conjugacy mean_and_var (fun x y => x ^ y) data prior likelihood
        = .ok (some { prior with
            parameters :=
              { pg with
                vector := some (((m0 / s0 ^ 2 + n * mu / v) / (1 / s0 ^ 2 + n / v))
                  :: ((1 / s0 ^ 2 + n / v) ^ (-(1 / 2) : ℝ)) :: tl) } :: more })
      ∧ ∀ (mv : gsl_matrix ℝ → ℝ × ℝ) (lik : apop_model ℝ) (dpg : apop_page ℝ)
          (dmore : apop_data ℝ) (D : gsl_matrix ℝ),
          lik.name = "Normal distribution" → dpg.matrix = some D → D.size1 * D.size2 = 5 →
          mv D = (2, 4) →
          check_conjugacy mv (fun x y => x ^ y) (dpg :: dmore)
              (vector_model "Normal distribution" [0, 1]) lik
            = .ok (some (vector_model "Normal distribution" [10 / 9, 2 / 3])) := by
  constructor
  · rcases hsrc with ⟨hd, hn, lpg, lmore, sd, ltl, hlp, hlv, hv⟩ |
      ⟨dpg, dmore, D, hd, hD, hn, hmv⟩
    · subst hd hn hv
      simp [check_conjugacy, hprior, hlik, hpp, hpv, hlp, hlv, parameters_vector, vector_data,
        gsl_vector_set, set_parameters_vector, apop_model_copy, bind, Except.bind, pure,
        Except.pure, gsl_pow_2, pow_two]
    · subst hd hn
      simp [check_conjugacy, hprior, hlik, hpp, hpv, hD, hmv, parameters_vector, vector_data,
        data_matrix, gsl_vector_set, set_parameters_vector, apop_model_copy, bind, Except.bind,
        pure, Except.pure, gsl_pow_2, pow_two]
  · intro mv lik dpg dmore D hl hD hcells hmv
    have hc : ((D.size1 : ℝ) * (D.size2 : ℝ)) = 5 := by exact_mod_cast hcells
    simp [check_conjugacy, vector_model, hl, hD, hmv, hcells, hc, parameters_vector, vector_data,
      data_matrix, gsl_vector_set, set_parameters_vector, apop_model_copy, bind, Except.bind,
      pure, Except.pure, gsl_pow_2]
    constructor
    · norm_num
    · have : (1 + (5 : ℝ) / 4) = 9 / 4 := by norm_num
      rw [this]
      simpa using rpow_nine_quarters

/-- The rule of C3 without data, on the prior `(0, 1)` and the likelihood `(2, 2)`. -/
theorem check_conjugacy_normal_normal_witness :
    check_conjugacy (fun _ => ((0 : ℝ), (0 : ℝ))) (fun x y => x ^ y) []
        (vector_model "Normal distribution" [0, 1]) (vector_model "Normal distribution" [2, 2])
      = .ok (some { vector_model "Normal distribution" [(0 : ℝ), 1] with
          parameters :=
            [{ (⟨some [0, 1], none, none, ""⟩ : apop_page ℝ) with
                vector := some
                  [((0 : ℝ) / 1 ^ 2 + (1 : Nat) * 2 / 4) / (1 / 1 ^ 2 + (1 : Nat) / 4),
                   (1 / (1 : ℝ) ^ 2 + (1 : Nat) / 4) ^ (-(1 / 2) : ℝ)] }] }) :=
  (check_conjugacy_normal_normal (fun _ => ((0 : ℝ), (0 : ℝ)))
    (vector_model "Normal distribution" [0, 1]) (vector_model "Normal distribution" [2, 2]) []
    ⟨some [0, 1], none, none, ""⟩ [] 0 1 [] 1 2 4 rfl rfl rfl rfl
    (Or.inl ⟨rfl, rfl, ⟨some [2, 2], none, none, ""⟩, [], 2, [], rfl, rfl, by norm_num⟩)).1

theorem bind_ne_ok_none {β γ : Type} (x : Except Fault β) (f : β → Except Fault (Option γ))
    (h : ∀ b, f b ≠ .ok none) : (x >>= f) ≠ .ok none := by
  cases x with
  | error e => simp [bind, Except.bind]
  | ok b => simpa [bind, Except.bind] using h b

/-- Claim C7 (no rule matches).  `check_conjugacy` returns `NULL` if and only if the pair (name
of the prior, name of the likelihood) is none of Gamma/Exponential, Beta/Binomial,
Beta/Bernoulli and Normal/Normal; the `NULL` is a returned value, not a fault, and the
function being a function of its arguments alone, nothing is written. -/
theorem check_conjugacy_null_iff {K : Type} [Field K] [DecidableEq K]
    (mean_and_var : gsl_matrix K → K × K) (pow : K → K → K) (data : apop_data K)
    (prior likelihood : apop_model K) :
    check_conjugacy mean_and_var pow data prior likelihood = .ok none ↔
      ¬ ((prior.name = "Gamma distribution" ∧ likelihood.name = "Exponential distribution")
        ∨ (prior.name = "Beta distribution" ∧ likelihood.name = "Binomial distribution")
        ∨ (prior.name = "Beta distribution" ∧ likelihood.name = "Bernoulli distribution")
        ∨ (prior.name = "Normal distribution" ∧ likelihood.name = "Normal distribution")) := by
  have hpure : ∀ m : apop_model K, (pure (some m) : Except Fault (Option (apop_model K)))
      ≠ .ok none := by
    intro m h
    simp [pure, Except.pure] at h
  have hstep : ∀ (β : Type) (x : Except Fault β) (f : β → Except Fault (Option (apop_model K))),
      (∀ b, f b ≠ .ok none) → (x >>= f) ≠ .ok none := fun β x f h => bind_ne_ok_none x f h
  unfold check_conjugacy
  by_cases h1 : prior.name = "Gamma distribution" ∧ likelihood.name = "Exponential distribution"
  · rw [if_pos h1]
    refine iff_of_false ?_ (by tauto)
    refine hstep _ _ _ fun _ => hstep _ _ _ fun _ => hstep _ _ _ fun _ => hstep _ _ _ fun _ =>
      hstep _ _ _ fun _ => hpure _
  rw [if_neg h1]
  by_cases h2 : prior.name = "Beta distribution" ∧ likelihood.name = "Binomial distribution"
  · rw [if_pos h2]
    refine iff_of_false ?_ (by tauto)
    by_cases hd : data = [] ∧ likelihood.parameters ≠ []
    · simp only [if_pos hd]
      refine hstep _ _ _ fun _ => hstep _ _ _ fun _ => hstep _ _ _ fun _ => hstep _ _ _ fun _ =>
        hstep _ _ _ fun _ => hstep _ _ _ fun _ => hpure _
    · simp only [if_neg hd]
      refine hstep _ _ _ fun _ => hstep _ _ _ fun _ => hstep _ _ _ fun _ => hstep _ _ _ fun _ =>
        hpure _
  rw [if_neg h2]
  by_cases h3 : prior.name = "Beta distribution" ∧ likelihood.name = "Bernoulli distribution"
  · rw [if_pos h3]
    refine iff_of_false ?_ (by tauto)
    refine hstep _ _ _ fun _ => hstep _ _ _ fun _ => hstep _ _ _ fun _ => hstep _ _ _ fun _ =>
      hpure _
  rw [if_neg h3]
  by_cases h4 : prior.name = "Normal distribution" ∧ likelihood.name = "Normal distribution"
  · rw [if_pos h4]
    refine iff_of_false ?_ (by tauto)
    refine hstep _ _ _ fun _ => hstep _ _ _ fun _ => hstep _ _ _ fun _ => hstep _ _ _ ?_
    rintro ⟨_, _, _⟩
    exact hstep _ _ _ fun _ => hstep _ _ _ fun _ => hstep _ _ _ fun _ => hpure _
  rw [if_neg h4]
  exact iff_of_true rfl (by tauto)

/-! ## The main loop (C8 to C10) -/

theorem list_rows_length {α : Type} (size2 n : Nat) (l : List α) :
    (list_rows size2 n l).length = n := by
  induction n generalizing l with
  | zero => rfl
  | succ n ih => simp [list_rows, ih]

theorem list_rows_row_length {α : Type} (size2 n : Nat) (l : List α)
    (hl : n * size2 ≤ l.length) : ∀ r ∈ list_rows size2 n l, r.length = size2 := by
  induction n generalizing l with
  | zero => simp [list_rows]
  | succ n ih =>
    have h1 : size2 + n * size2 ≤ l.length := by
      have : (n + 1) * size2 = size2 + n * size2 := by ring
      omega
    intro r hr
    rcases List.mem_cons.mp hr with h | h
    · rw [h, List.length_take]; omega
    · exact ih (l.drop size2) (by rw [List.length_drop]; omega) r h

theorem list_rows_flatten {α : Type} (size2 n : Nat) (l : List α) :
    (list_rows size2 n l).flatten = l.take (n * size2) := by
  induction n generalizing l with
  | zero => simp [list_rows]
  | succ n ih =>
    have : (n + 1) * size2 = size2 + n * size2 := by ring
    rw [list_rows, List.flatten_cons, ih, this, List.take_add]

theorem take_three {α : Type} (l : List α) (a b c : Nat) (h : l.length = a + b + c) :
    l.take a ++ (l.drop a).take b ++ (l.drop (a + b)).take c = l := by
  have h3 : (l.drop (a + b)).take c = l.drop (a + b) := by
    apply List.take_of_length_le
    rw [List.length_drop]; omega
  rw [h3, List.append_assoc, ← List.drop_drop, List.take_append_drop, List.take_append_drop]

theorem page_of_list_flat {α : Type} (l : List α) (p : apop_page α) (hl : l.length = p.size) :
    (page_of_list l p).flat = l := by
  obtain ⟨v, m, w, t⟩ := p
  have key := take_three l (vector_size v) (matrix_size m) (vector_size w) hl
  cases v <;> cases m <;> cases w <;>
    simpa [page_of_list, apop_page.flat, list_rows_flatten] using key

theorem page_of_list_shape {α : Type} (l : List α) (p : apop_page α) (hp : p.WF)
    (hl : l.length = p.size) :
    (page_of_list l p).WF ∧ (page_of_list l p).same_shape p := by
  obtain ⟨v, m, w, t⟩ := p
  obtain ⟨hv, hm, hw⟩ := hp
  have hsz : l.length = vector_size v + matrix_size m + vector_size w := hl
  refine ⟨⟨?_, ?_, ?_⟩, ?_, ?_, ?_⟩
  · intro x hx
    cases v with
    | none => simp [page_of_list] at hx
    | some v =>
      have hpos := hv v rfl
      simp only [page_of_list, Option.map_some', Option.some.injEq] at hx
      subst hx
      rw [List.length_take]
      simp only [vector_size_some] at hsz
      omega
  · intro x hx
    cases m with
    | none => simp [page_of_list] at hx
    | some m =>
      obtain ⟨h1, h2, -⟩ := hm m rfl
      simp only [page_of_list, Option.map_some', Option.some.injEq] at hx
      subst hx
      refine ⟨by simpa [gsl_matrix.size1, list_rows_length] using h1, h2, ?_⟩
      apply list_rows_row_length
      rw [List.length_drop]
      simp only [matrix_size_some] at hsz
      omega
  · intro x hx
    cases w with
    | none => simp [page_of_list] at hx
    | some w =>
      have hpos := hw w rfl
      simp only [page_of_list, Option.map_some', Option.some.injEq] at hx
      subst hx
      rw [List.length_take, List.length_drop]
      simp only [vector_size_some] at hsz
      omega
  · cases v with
    | none => simp [page_of_list]
    | some v =>
      simp only [page_of_list, Option.map_some', Option.some.injEq, List.length_take]
      simp only [vector_size_some] at hsz
      omega
  · cases m with
    | none => simp [page_of_list]
    | some m => simp [page_of_list, gsl_matrix.size1, list_rows_length]
  · cases w with
    | none => simp [page_of_list]
    | some w =>
      simp only [page_of_list, Option.map_some', Option.some.injEq, List.length_take,
        List.length_drop]
      simp only [vector_size_some] at hsz
      omega

theorem unpack_page_of_list {α : Type} (l : List α) (q : apop_page α) (hq : q.WF)
    (hl : l.length = q.size) : unpack_page l q = .ok (page_of_list l q, q.size) := by
  obtain ⟨hwf, hshape⟩ := page_of_list_shape l q hq hl
  have h := unpack_page_append (page_of_list l q) q hwf hq hshape []
  rw [List.append_nil, page_of_list_flat l q hl] at h
  have hsize : (page_of_list l q).size = q.size := by
    rw [← apop_page.flat_length _ hwf, page_of_list_flat l q hl, hl]
  rw [h, hsize]
  rfl

theorem page_of_list_congr {α : Type} (l : List α) (p q : apop_page α)
    (hs : p.same_shape q) (ht : p.title = q.title) : page_of_list l p = page_of_list l q := by
  obtain ⟨pv, pm, pw, pt⟩ := p
  obtain ⟨qv, qm, qw, qt⟩ := q
  obtain ⟨h1, h2, h3⟩ := hs
  simp only at ht
  subst ht
  have hv : vector_size pv = vector_size qv := by
    cases pv <;> cases qv <;> simp_all
  have hm : matrix_size pm = matrix_size qm := by
    cases pm <;> cases qm <;> simp_all
  have e1 : pv.map (fun v => l.take v.length) = qv.map (fun v => l.take v.length) := by
    cases pv <;> cases qv <;> simp_all
  have e2 : pm.map (fun m =>
        ({ m with rows := list_rows m.size2 m.size1 (l.drop (vector_size pv)) } : gsl_matrix α))
      = qm.map (fun m =>
        ({ m with rows := list_rows m.size2 m.size1 (l.drop (vector_size qv)) } : gsl_matrix α)) := by
    rw [hv]
    cases pm <;> cases qm <;> simp_all
  have e3 : pw.map (fun w => (l.drop (vector_size pv + matrix_size pm)).take w.length)
      = qw.map (fun w => (l.drop (vector_size qv + matrix_size qm)).take w.length) := by
    rw [hv, hm]
    cases pw <;> cases qw <;> simp_all
  simp only [page_of_list, e1, e2, e3]

theorem write_double_ok {K : Type} (draw : Nat → K) (pp : apop_page K) (pmore : apop_data K)
    (hWF : pp.WF) (hw : pp.weights = none) (hsize : 0 < pp.size) :
    write_double draw (pp :: pmore)
      = .ok (page_of_list ((List.range pp.size).map draw) pp :: pmore) := by
  have hs : vector_size pp.vector + matrix_size pp.matrix = pp.size := by
    simp [apop_page.size, hw]
  have hpage := unpack_page_of_list ((List.range pp.size).map draw) pp hWF (by simp)
  unfold write_double
  simp only [hs, gsl_vector_of_array, Nat.pos_iff_ne_zero.mp hsize, if_false, bind, Except.bind]
  unfold apop_data_unpack
  simp [hpage, bind, Except.bind, pure, Except.pure]

theorem memcpy_part_vector {α : Type} (o i : Option (List α))
    (h : i.map List.length = o.map List.length) :
    memcpy_part gsl_vector_memcpy o i = .ok i := by
  cases i with
  | none =>
    cases o with
    | none => rfl
    | some o => simp at h
  | some i =>
    cases o with
    | none => simp at h
    | some o =>
      have : i.length = o.length := by simpa using h
      simp [memcpy_part, gsl_vector_memcpy, this, bind, Except.bind, pure, Except.pure]

theorem memcpy_part_matrix {α : Type} (o i : Option (gsl_matrix α))
    (h : i.map (fun m => (m.size1, m.size2)) = o.map (fun m => (m.size1, m.size2))) :
    memcpy_part gsl_matrix_memcpy o i = .ok i := by
  cases i with
  | none =>
    cases o with
    | none => rfl
    | some o => simp at h
  | some i =>
    cases o with
    | none => simp at h
    | some o =>
      have : i.size1 = o.size1 ∧ i.size2 = o.size2 := by simpa using h
      simp [memcpy_part, gsl_matrix_memcpy, this.1, this.2, bind, Except.bind, pure,
        Except.pure]

theorem apop_data_memcpy_ok {K : Type} (o i : apop_page K) (omore imore : apop_data K)
    (h : i.same_shape o) :
    apop_data_memcpy (o :: omore) (i :: imore)
      = .ok ({ o with vector := i.vector, matrix := i.matrix, weights := i.weights }
          :: omore) := by
  obtain ⟨h1, h2, h3⟩ := h
  simp [apop_data_memcpy, memcpy_part_vector _ _ h1, memcpy_part_matrix _ _ h2,
    memcpy_part_vector _ _ h3, bind, Except.bind, pure, Except.pure]

theorem same_shape_symm {α : Type} (p q : apop_page α) (h : p.same_shape q) :
    q.same_shape p := ⟨h.1.symm, h.2.1.symm, h.2.2.symm⟩

theorem same_shape_trans {α : Type} (p q r : apop_page α) (h : p.same_shape q)
    (h2 : q.same_shape r) : p.same_shape r :=
  ⟨h.1.trans h2.1, h.2.1.trans h2.2.1, h.2.2.trans h2.2.2⟩

theorem same_shape_size {α : Type} (p q : apop_page α) (h : p.same_shape q) :
    p.size = q.size := by
  obtain ⟨pv, pm, pw, pt⟩ := p
  obtain ⟨qv, qm, qw, qt⟩ := q
  obtain ⟨h1, h2, h3⟩ := h
  have hv : vector_size pv = vector_size qv := by
    cases pv <;> cases qv <;> simp_all
  have hm : matrix_size pm = matrix_size qm := by
    cases pm <;> cases qm <;> simp_all
  have hw : vector_size pw = vector_size qw := by
    cases pw <;> cases qw <;> simp_all
  simp [apop_page.size, hv, hm, hw]

/-- What `apop_data_memcpy` leaves in `cp` when it copies a candidate of the same shape. -/
theorem accepted_page {α : Type} (l : List α) (pp cp : apop_page α)
    (hs : pp.same_shape cp) :
    ({ cp with vector := (page_of_list l pp).vector, matrix := (page_of_list l pp).matrix,
               weights := (page_of_list l pp).weights } : apop_page α)
      = page_of_list l cp := by
  obtain ⟨pv, pm, pw, pt⟩ := pp
  obtain ⟨qv, qm, qw, qt⟩ := cp
  have := page_of_list_congr l ⟨pv, pm, pw, qt⟩ ⟨qv, qm, qw, qt⟩ hs rfl
  rw [← this]
  rfl

/-- One Metropolis-Hastings step from a state whose two data sets have the same shape:
`write_double` and `apop_data_memcpy` return, and what is left is the report of a
not-a-number and the three tests of the step. -/
theorem mh_step_eq {K R : Type} [LinearOrderedField K] (env : Callees K R)
    (data : apop_data K) (prior likelihood : apop_model K) (st : chain_state K R)
    (pp cp : apop_page K) (pmore cmore : apop_data K)
    (hp : st.parameters = pp :: pmore) (hc : st.current_param = cp :: cmore)
    (hpp : pp.WF) (hw : pp.weights = none) (hsize : 0 < pp.size) (hshape : pp.same_shape cp) :
    mh_step env data prior likelihood st
      = (if (pass_ratio env data prior likelihood st pp pmore).isnan then
          report_nan (cp :: cmore) (candidate env prior st pp :: pmore) else .ok ()) >>= fun _ =>
        (if (pass_ratio env data prior likelihood st pp pmore).isnan
            && env.apop_assert_returns then
          .ok (.returned_null { st with
            rng := (env.apop_draw st.draw st.rng prior).2,
            draw := (env.apop_draw st.draw st.rng prior).1,
            parameters := candidate env prior st pp :: pmore })
        else if (pass_ratio env data prior likelihood st pp pmore).ge_zero then
          .ok (.next { st with
            rng := (env.apop_draw st.draw st.rng prior).2,
            draw := (env.apop_draw st.draw st.rng prior).1,
            parameters := candidate env prior st pp :: pmore,
            current_param := page_of_list
              ((List.range pp.size).map (env.apop_draw st.draw st.rng prior).1) cp :: cmore,
            cp_ll := pass_ll env data prior likelihood st pp pmore })
        else if (env.log (pass_uniform env prior st).1).lt
            (pass_ratio env data prior likelihood st pp pmore) then
          .ok (.next { st with
            rng := (pass_uniform env prior st).2,
            draw := (env.apop_draw st.draw st.rng prior).1,
            parameters := candidate env prior st pp :: pmore,
            current_param := page_of_list
              ((List.range pp.size).map (env.apop_draw st.draw st.rng prior).1) cp :: cmore,
            cp_ll := pass_ll env data prior likelihood st pp pmore })
        else
          .ok (.next { st with
            rng := (pass_uniform env prior st).2,
            draw := (env.apop_draw st.draw st.rng prior).1,
            parameters := candidate env prior st pp :: pmore })) := by
  have hwrite := write_double_ok (env.apop_draw st.draw st.rng prior).1 pp pmore hpp hw hsize
  have hcand : page_of_list ((List.range pp.size).map (env.apop_draw st.draw st.rng prior).1) pp
      = candidate env prior st pp := rfl
  rw [hcand] at hwrite
  have hlen : ((List.range pp.size).map (env.apop_draw st.draw st.rng prior).1).length
      = pp.size := by simp
  have hcs : (candidate env prior st pp).same_shape cp :=
    same_shape_trans _ _ _ (page_of_list_shape _ pp hpp hlen).2 hshape
  have hcopy := apop_data_memcpy_ok cp (candidate env prior st pp) cmore pmore hcs
  have hacc := accepted_page
    ((List.range pp.size).map (env.apop_draw st.draw st.rng prior).1) pp cp hshape
  rw [hcand] at hacc
  rw [hacc] at hcopy
  have hr : (env.apop_log_likelihood data
      { likelihood with parameters := candidate env prior st pp :: pmore }).sub st.cp_ll
        = pass_ratio env data prior likelihood st pp pmore := rfl
  have hu : env.gsl_rng_uniform (env.apop_draw st.draw st.rng prior).2
      = pass_uniform env prior st := rfl
  unfold mh_step
  simp only [hp, hwrite, bind, Except.bind, hr, hc, hcopy, hu, pure, Except.pure]
  by_cases hn : (pass_ratio env data prior likelihood st pp pmore).isnan = true
  · rw [if_pos hn, if_pos hn]
    rfl
  · rw [if_neg hn, if_neg hn]
    rfl

/-- Claim C8 (the Metropolis-Hastings step).  In a state whose `likelihood->parameters` and
`current_param` have the same shape, with a candidate whose `ratio = ll - cp_ll` is not a
not-a-number, the step returns; it leaves the candidate in the parameters of the likelihood;
if `ratio >= 0` or `log (u) < ratio`, `u` being the uniform variate, it accepts:
`current_param` holds the candidate and `cp_ll` is `ll`; otherwise `current_param` and `cp_ll`
are unchanged.  The uniform variate is drawn only when `ratio >= 0` fails. -/
theorem mh_step_spec {K R : Type} [LinearOrderedField K] (env : Callees K R)
    (data : apop_data K) (prior likelihood : apop_model K) (st : chain_state K R)
    (pp cp : apop_page K) (pmore cmore : apop_data K)
    (hp : st.parameters = pp :: pmore) (hc : st.current_param = cp :: cmore)
    (hpp : pp.WF) (hw : pp.weights = none) (hsize : 0 < pp.size) (hshape : pp.same_shape cp)
    (hnan : (pass_ratio env data prior likelihood st pp pmore).isnan = false) :
    ∃ st_new, mh_step env data prior likelihood st = .ok (.next st_new)
      ∧ st_new.parameters = candidate env prior st pp :: pmore
      ∧ st_new.draw = (env.apop_draw st.draw st.rng prior).1
      ∧ st_new.rng = (if (pass_ratio env data prior likelihood st pp pmore).ge_zero = true
          then (env.apop_draw st.draw st.rng prior).2 else (pass_uniform env prior st).2)
      ∧ st_new.out = st.out
      ∧ (((pass_ratio env data prior likelihood st pp pmore).ge_zero = true
            ∨ (env.log (pass_uniform env prior st).1).lt
                (pass_ratio env data prior likelihood st pp pmore) = true) →
          st_new.current_param
              = page_of_list ((List.range pp.size).map (env.apop_draw st.draw st.rng prior).1) cp
                :: cmore
            ∧ st_new.cp_ll = pass_ll env data prior likelihood st pp pmore)
      ∧ (¬ ((pass_ratio env data prior likelihood st pp pmore).ge_zero = true
            ∨ (env.log (pass_uniform env prior st).1).lt
                (pass_ratio env data prior likelihood st pp pmore) = true) →
          st_new.current_param = st.current_param ∧ st_new.cp_ll = st.cp_ll) := by
  rw [mh_step_eq env data prior likelihood st pp cp pmore cmore hp hc hpp hw hsize hshape]
  simp only [hnan, Bool.false_and, Bool.false_eq_true, if_false, bind, Except.bind]
  by_cases hge : (pass_ratio env data prior likelihood st pp pmore).ge_zero = true
  · rw [if_pos hge]
    exact ⟨_, rfl, rfl, rfl, by simp [hge], rfl, fun _ => ⟨rfl, rfl⟩,
      fun h => absurd (Or.inl hge) h⟩
  · rw [if_neg hge]
    by_cases hlt : (env.log (pass_uniform env prior st).1).lt
        (pass_ratio env data prior likelihood st pp pmore) = true
    · rw [if_pos hlt]
      exact ⟨_, rfl, rfl, rfl, by simp [hge], rfl, fun _ => ⟨rfl, rfl⟩,
        fun h => absurd (Or.inr hlt) h⟩
    · rw [if_neg hlt]
      refine ⟨_, rfl, rfl, rfl, by simp [hge], rfl, fun h => ?_, fun _ => ⟨rfl, rfl⟩⟩
      rcases h with h | h
      · exact absurd h hge
      · exact absurd h hlt

theorem record_row_lt {K : Type} [LinearOrderedField K] [FloorRing K] (i : Nat) (p : Int)
    (b : K) (hi : (i : Int) < p) (hge : (i : K) ≥ (p : K) * b) :
    Int.toNat ⌊(i : K) - (p : K) * b⌋ < Int.toNat ⌊(p : K) * (1 - b)⌋ := by
  have h0 : (0 : Int) ≤ ⌊(i : K) - (p : K) * b⌋ := Int.floor_nonneg.mpr (by linarith)
  have hp : ((i : Int) : K) + 1 ≤ (p : K) := by exact_mod_cast hi
  have hp1 : (i : K) + 1 ≤ (p : K) := by simpa using hp
  have h1 : (i : K) - (p : K) * b + 1 ≤ (p : K) * (1 - b) := by nlinarith
  have h2 : ⌊(i : K) - (p : K) * b⌋ + 1 ≤ ⌊(p : K) * (1 - b)⌋ := by
    rw [← Int.floor_add_one]
    exact Int.floor_le_floor h1
  omega

theorem record_sample_ok {K R : Type} [LinearOrderedField K] [FloorRing K]
    [machine K] [exact_arithmetic K] (env : Callees K R)
    (s : apop_update_settings K) (i : Nat) (st : chain_state K R) (cp : apop_page K)
    (cmore : apop_data K) (hc : st.current_param = cp :: cmore) (hcp : cp.WF)
    (hsize : 0 < cp.size) (hout : out_ok (out_rows s) cp.size st.out)
    (hi : (i : Int) < s.periods) :
    ∃ out, record_sample env s i st = .ok { st with out := out }
      ∧ out_ok (out_rows s) cp.size out := by
  unfold record_sample
  simp only [to_double_exact]
  by_cases hge : (i : K) ≥ (s.periods : K) * s.burnin
  · have hrow := record_row_lt i s.periods s.burnin hi hge
    rw [if_pos hge, hc, apop_data_pack_first env.junk cp cmore hcp hsize]
    generalize Int.toNat ⌊(i : K) - (s.periods : K) * s.burnin⌋ = row at hrow ⊢
    cases hm : st.out with
    | none =>
      rw [hm] at hout
      simp only [out_ok, out_rows, to_double_exact] at hout hrow
      omega
    | some m =>
      rw [hm] at hout
      obtain ⟨h1, h2, h3⟩ := hout
      have hlt : row < m.rows.length := by
        rw [← gsl_matrix.size1, h1]
        simpa only [out_rows, to_double_exact] using hrow
      obtain ⟨v, hv⟩ : ∃ v, m.rows.get? row = some v := ⟨_, List.get?_eq_get hlt⟩
      have hvlen : v.length = cp.size := h3 v (List.get?_mem hv)
      have hflat : cp.flat.length = v.length := by
        rw [apop_page.flat_length cp hcp, hvlen]
      refine ⟨some { m with rows := m.rows.set row cp.flat }, ?_, ?_⟩
      · have hv2 : m.rows[row]? = some v := by simpa using hv
        simp [matrix_row_memcpy, hv2, gsl_vector_memcpy, hflat, bind, Except.bind, pure,
          Except.pure]
      · refine ⟨?_, h2, ?_⟩
        · simpa [gsl_matrix.size1] using h1
        · intro r hr
          rcases List.mem_or_eq_of_mem_set hr with h | h
          · exact h3 r h
          · rw [h, apop_page.flat_length cp hcp]
  · rw [if_neg hge]
    exact ⟨st.out, rfl, hout⟩

theorem Dbl.isnan_of_ge_zero {K : Type} [LinearOrderedField K] (x : Dbl K)
    (h : x.ge_zero = true) : x.isnan = false := by
  cases x <;> simp_all [Dbl.ge_zero, Dbl.isnan]

theorem page_of_list_size {α : Type} (l : List α) (p : apop_page α) (hp : p.WF)
    (hl : l.length = p.size) : (page_of_list l p).size = p.size :=
  same_shape_size _ _ (page_of_list_shape l p hp hl).2

/-- One pass of the main loop in which `ratio >= 0`: the pass returns, the candidate is
accepted and the state is again as `apop_update` sets it up. -/
theorem mcmc_pass_accept {K R : Type} [LinearOrderedField K] [FloorRing K]
    [machine K] [exact_arithmetic K] (env : Callees K R)
    (data : apop_data K) (prior likelihood : apop_model K) (s : apop_update_settings K)
    (i : Nat) (st : chain_state K R) (pp cp : apop_page K) (pmore cmore : apop_data K)
    (hinv : chain_inv s pp cp pmore cmore st) (hi : (i : Int) < s.periods)
    (hge : (pass_ratio env data prior likelihood st pp pmore).ge_zero = true) :
    ∃ st_new, mcmc_pass env data prior likelihood s i st = .ok (.next st_new)
      ∧ chain_inv s (candidate env prior st pp)
          (page_of_list ((List.range pp.size).map (env.apop_draw st.draw st.rng prior).1) cp)
          pmore cmore st_new
      ∧ st_new.cp_ll = pass_ll env data prior likelihood st pp pmore
      ∧ st_new.draw = (env.apop_draw st.draw st.rng prior).1
      ∧ st_new.rng = (env.apop_draw st.draw st.rng prior).2 := by
  obtain ⟨hp, hc, hpp, hw, hsize, hcp, hshape, hout⟩ := hinv
  have hstep := mh_step_eq env data prior likelihood st pp cp pmore cmore hp hc hpp hw hsize
    hshape
  simp only [Dbl.isnan_of_ge_zero _ hge, Bool.false_and, hge, if_true, Bool.false_eq_true,
    if_false, bind, Except.bind] at hstep
  generalize hst1 : ({ st with
      rng := (env.apop_draw st.draw st.rng prior).2,
      draw := (env.apop_draw st.draw st.rng prior).1,
      parameters := candidate env prior st pp :: pmore,
      current_param := page_of_list
        ((List.range pp.size).map (env.apop_draw st.draw st.rng prior).1) cp :: cmore,
      cp_ll := pass_ll env data prior likelihood st pp pmore } : chain_state K R) = st1
    at hstep
  have h1 : st1.parameters = candidate env prior st pp :: pmore := by rw [← hst1]
  have h2 : st1.draw = (env.apop_draw st.draw st.rng prior).1 := by rw [← hst1]
  have h3 : st1.rng = (env.apop_draw st.draw st.rng prior).2 := by rw [← hst1]
  have h4 : st1.out = st.out := by rw [← hst1]
  have h5a : st1.current_param = page_of_list
      ((List.range pp.size).map (env.apop_draw st.draw st.rng prior).1) cp :: cmore := by
    rw [← hst1]
  have h5b : st1.cp_ll = pass_ll env data prior likelihood st pp pmore := by rw [← hst1]
  have hlen : ((List.range pp.size).map (env.apop_draw st.draw st.rng prior).1).length
      = pp.size := by simp
  have hlenc : ((List.range pp.size).map (env.apop_draw st.draw st.rng prior).1).length
      = cp.size := by rw [hlen, same_shape_size _ _ hshape]
  obtain ⟨hcandWF, hcandS⟩ := page_of_list_shape _ pp hpp hlen
  obtain ⟨hcpWF, hcpS⟩ := page_of_list_shape _ cp hcp hlenc
  have hcpsize := page_of_list_size _ cp hcp hlenc
  have hout1 : out_ok (out_rows s)
      (page_of_list ((List.range pp.size).map (env.apop_draw st.draw st.rng prior).1) cp).size
      st1.out := by rw [h4, hcpsize]; exact hout
  obtain ⟨out, hrec, hout2⟩ := record_sample_ok env s i st1 _ cmore h5a hcpWF
    (by rw [hcpsize, ← same_shape_size _ _ hshape]; exact hsize) hout1 hi
  refine ⟨{ st1 with out := out }, ?_, ⟨h1, h5a, hcandWF, ?_, ?_, hcpWF, ?_, hout2⟩, h5b, h2, h3⟩
  · unfold mcmc_pass
    simp [hstep, hrec, bind, Except.bind, pure, Except.pure]
  · simp [candidate, page_of_list, hw]
  · rw [candidate, page_of_list_size _ pp hpp hlen]; exact hsize
  · exact same_shape_trans _ _ _ hcandS (same_shape_trans _ _ _ hshape
      (same_shape_symm _ _ hcpS))

theorem alloc_page_WF {K : Type} (junk : K) (vs ms1 ms2 : Nat) :
    (alloc_page junk vs ms1 ms2).WF := by
  refine ⟨?_, ?_, ?_⟩
  · intro v hv
    by_cases h : 0 < vs
    · simp only [alloc_page, if_pos h, Option.some.injEq] at hv
      subst hv; simpa using h
    · simp [alloc_page, h] at hv
  · intro m hm
    by_cases h : 0 < ms1 ∧ 0 < ms2
    · simp only [alloc_page, if_pos h, Option.some.injEq] at hm
      subst hm
      refine ⟨by simpa [gsl_matrix.size1] using h.1, h.2, ?_⟩
      intro r hr
      rw [List.eq_of_mem_replicate hr]; simp
    · simp [alloc_page, h] at hm
  · intro w hw
    simp [alloc_page] at hw

theorem alloc_page_size {K : Type} (junk : K) (vs ms1 ms2 : Nat) :
    (alloc_page junk vs ms1 ms2).size = vs + ms1 * ms2 := by
  have hv : vector_size (alloc_page junk vs ms1 ms2).vector = vs := by
    by_cases h : 0 < vs
    · simp [alloc_page, h]
    · simp [alloc_page, h]; omega
  have hm : matrix_size (alloc_page junk vs ms1 ms2).matrix = ms1 * ms2 := by
    by_cases h : 0 < ms1 ∧ 0 < ms2
    · simp [alloc_page, h, gsl_matrix.size1]
    · have : ms1 * ms2 = 0 := by
        rcases Nat.eq_zero_or_pos ms1 with h1 | h1
        · simp [h1]
        · rcases Nat.eq_zero_or_pos ms2 with h2 | h2
          · simp [h2]
          · exact absurd ⟨h1, h2⟩ h
      simp [alloc_page, h, this]
  have hw : vector_size (alloc_page junk vs ms1 ms2).weights = 0 := rfl
  rw [apop_page.size, hv, hm, hw, Nat.add_zero]

theorem alloc_out_ok {K : Type} (junk : K) (rows cols : Nat) (hcols : 0 < cols) :
    out_ok rows cols (alloc_page junk 0 rows cols).matrix := by
  by_cases h : 0 < rows
  · simp [alloc_page, h, hcols, out_ok, gsl_matrix.size1]
  · simp [alloc_page, h, out_ok]
    omega

theorem set_all_ones_shape {K : Type} [One K] (p : apop_page K) (hp : p.WF) :
    (set_all_ones p).WF ∧ (set_all_ones p).same_shape p ∧ (set_all_ones p).title = p.title
      ∧ (set_all_ones p).weights = p.weights := by
  obtain ⟨v, m, w, t⟩ := p
  obtain ⟨hv, hm, hw⟩ := hp
  refine ⟨⟨?_, ?_, hw⟩, ⟨?_, ?_, rfl⟩, rfl, rfl⟩
  · intro x hx
    cases v with
    | none => simp [set_all_ones] at hx
    | some v =>
      simp only [set_all_ones, Option.map_some', Option.some.injEq] at hx
      subst hx
      simpa [gsl_vector_set_all] using hv v rfl
  · intro x hx
    cases m with
    | none => simp [set_all_ones] at hx
    | some m =>
      obtain ⟨h1, h2, h3⟩ := hm m rfl
      simp only [set_all_ones, Option.map_some', Option.some.injEq] at hx
      subst hx
      refine ⟨by simpa [gsl_matrix_set_all, gsl_matrix.size1] using h1, h2, ?_⟩
      intro r hr
      simp only [gsl_matrix_set_all, List.mem_map] at hr
      obtain ⟨r0, hr0, rfl⟩ := hr
      simpa using h3 r0 hr0
  · cases v <;> simp [set_all_ones, gsl_vector_set_all]
  · cases m <;> simp [set_all_ones, gsl_matrix_set_all, gsl_matrix.size1]

/-- The statements of `apop_update` before the main loop return, and leave the state that the
main loop needs, when the sizes `vs`, `ms1`, `ms2` are defined and not all zero, the starting
point (if there is one) has these sizes, and so have the parameters of the likelihood (if it has
some). -/
theorem apop_update_init_ok {K R : Type} [LinearOrderedField K] [FloorRing K]
    [machine K]
    (env : Callees K R) (data : apop_data K) (likelihood : apop_model K)
    (s : apop_update_settings K) (rng : R) (vs ms1 ms2 : Nat)
    (hvs : base_size likelihood.vbase data = .ok vs)
    (hms1 : base_size likelihood.m1base data = .ok ms1)
    (hms2 : base_size likelihood.m2base data = .ok ms2)
    (hpos : 0 < vs + ms1 * ms2)
    (hstart : s.starting_pt = [] ∨ ∃ sp smore, s.starting_pt = sp :: smore ∧ sp.WF
      ∧ sp.same_shape (alloc_page env.junk vs ms1 ms2))
    (hlik : likelihood.parameters = [] ∨ ∃ lp lmore, likelihood.parameters = lp :: lmore
      ∧ lp.WF ∧ lp.same_shape (alloc_page env.junk vs ms1 ms2)) :
    ∃ st0 pp cp pmore, apop_update_init env data likelihood s rng = .ok st0
      ∧ chain_inv s pp cp pmore [] st0 ∧ st0.cp_ll = .ninf ∧ st0.rng = rng
      ∧ st0.draw = (fun _ => env.junk)
      ∧ pp.size = vs + ms1 * ms2
      ∧ cp.same_shape (alloc_page env.junk vs ms1 ms2)
      ∧ cp.title = (alloc_page env.junk vs ms1 ms2).title := by
  have hP0 := alloc_page_WF env.junk vs ms1 ms2
  have hP0size := alloc_page_size env.junk vs ms1 ms2
  have hout := alloc_out_ok env.junk (out_rows s) (vs + ms1 * ms2) hpos
  -- the page of `current_param`
  obtain ⟨cp, hcpeq, hcpWF, hcpS, hcpT⟩ : ∃ cp : apop_page K,
      (match s.starting_pt with
        | [] => pure ((apop_data_alloc env.junk vs ms1 ms2).map set_all_ones)
        | _ :: _ => apop_data_memcpy (apop_data_alloc env.junk vs ms1 ms2) s.starting_pt :
          Except Fault (apop_data K)) = .ok [cp]
      ∧ cp.WF ∧ cp.same_shape (alloc_page env.junk vs ms1 ms2)
      ∧ cp.title = (alloc_page env.junk vs ms1 ms2).title := by
    rcases hstart with hs | ⟨sp, smore, hs, hspWF, hspS⟩
    · obtain ⟨h1, h2, h3, -⟩ := set_all_ones_shape (alloc_page env.junk vs ms1 ms2) hP0
      exact ⟨set_all_ones (alloc_page env.junk vs ms1 ms2), by rw [hs]; rfl, h1, h2, h3⟩
    · refine ⟨{ alloc_page env.junk vs ms1 ms2 with
          vector := sp.vector, matrix := sp.matrix, weights := sp.weights }, ?_, ?_, ?_, rfl⟩
      · rw [hs]
        exact apop_data_memcpy_ok _ sp [] smore hspS
      · exact hspWF
      · exact hspS
  -- the page of the parameters of the likelihood
  obtain ⟨pp, pmore, hppeq, hppWF, hppS⟩ : ∃ (pp : apop_page K) (pmore : apop_data K),
      (match likelihood.parameters with
        | [] => apop_data_alloc env.junk vs ms1 ms2
        | _ :: _ => likelihood.parameters) = pp :: pmore
      ∧ pp.WF ∧ pp.same_shape (alloc_page env.junk vs ms1 ms2) := by
    rcases hlik with hl | ⟨lp, lmore, hl, hlpWF, hlpS⟩
    · exact ⟨alloc_page env.junk vs ms1 ms2, [], by rw [hl]; rfl, hP0, rfl, rfl, rfl⟩
    · exact ⟨lp, lmore, by rw [hl], hlpWF, hlpS⟩
  have hppsize : pp.size = vs + ms1 * ms2 := by rw [same_shape_size _ _ hppS, hP0size]
  have hcpsize : cp.size = vs + ms1 * ms2 := by rw [same_shape_size _ _ hcpS, hP0size]
  have hppw : pp.weights = none := by
    have := hppS.2.2
    cases hw : pp.weights with
    | none => rfl
    | some w => rw [hw] at this; simp [alloc_page] at this
  refine ⟨{ rng := rng, draw := fun _ => env.junk, parameters := pp :: pmore,
            current_param := [cp], cp_ll := .ninf,
            out := (alloc_page env.junk 0 (out_rows s) (vs + ms1 * ms2)).matrix },
    pp, cp, pmore, ?_, ⟨rfl, rfl, hppWF, hppw, by omega, hcpWF,
      same_shape_trans _ _ _ hppS (same_shape_symm _ _ hcpS), by rw [hcpsize]; exact hout⟩,
    rfl, rfl, rfl, hppsize, hcpS, hcpT⟩
  simp only [pure, Except.pure] at hcpeq
  unfold apop_update_init
  simp only [hvs, hms1, hms2, bind, Except.bind, hppeq, pure, Except.pure, hcpeq]
  rfl

/-- The step of C8 in the state of the examples: the first candidate is accepted. -/
theorem mh_step_spec_witness :
    ∃ st_new, mh_step example_env [] example_likelihood example_likelihood example_state
        = .ok (.next st_new)
      ∧ st_new.current_param
        = [page_of_list ((List.range 5).map fun i => ((0 : Nat) : ℚ) + i)
            (set_all_ones (alloc_page 0 1 2 2))]
      ∧ st_new.cp_ll = .fin 0 := by
  obtain ⟨st_new, h, -, -, -, -, hacc, -⟩ :=
    mh_step_spec example_env [] example_likelihood example_likelihood example_state
      (alloc_page 0 1 2 2) (set_all_ones (alloc_page 0 1 2 2)) [] [] rfl rfl
      (alloc_page_WF 0 1 2 2) rfl (by rw [alloc_page_size]; decide)
      (same_shape_symm _ _ (set_all_ones_shape _ (alloc_page_WF 0 1 2 2)).2.1) rfl
  have hsize : (alloc_page (0 : ℚ) 1 2 2).size = 5 := by rw [alloc_page_size]
  rw [hsize] at hacc
  exact ⟨st_new, h, hacc (Or.inl rfl)⟩

/-- Claim C10 (the first pass).  `apop_update` starts the main loop with `cp_ll = GSL_NEGINF`,
so that, for every first candidate whose log-likelihood is a finite number and whatever the
generator gives as uniform variates, the first pass accepts: after it `current_param` holds
the first draw from the prior, whatever the starting point was, and `cp_ll` is the
log-likelihood of that draw.  The arithmetic is exact: no operation on `double`s rounds. -/
theorem first_pass_accepts {K R : Type} [LinearOrderedField K] [FloorRing K]
    [machine K] [exact_arithmetic K]
    (env : Callees K R) (data : apop_data K) (prior likelihood : apop_model K)
    (s : apop_update_settings K) (rng : R) (vs ms1 ms2 : Nat)
    (hperiods : 0 < s.periods)
    (hvs : base_size likelihood.vbase data = .ok vs)
    (hms1 : base_size likelihood.m1base data = .ok ms1)
    (hms2 : base_size likelihood.m2base data = .ok ms2)
    (hpos : 0 < vs + ms1 * ms2)
    (hstart : s.starting_pt = [] ∨ ∃ sp smore, s.starting_pt = sp :: smore ∧ sp.WF
      ∧ sp.same_shape (alloc_page env.junk vs ms1 ms2))
    (hlik : likelihood.parameters = [] ∨ ∃ lp lmore, likelihood.parameters = lp :: lmore
      ∧ lp.WF ∧ lp.same_shape (alloc_page env.junk vs ms1 ms2)) :
    ∃ st0 pp pmore, apop_update_init env data likelihood s rng = .ok st0
      ∧ st0.cp_ll = .ninf ∧ st0.parameters = pp :: pmore
      ∧ ∀ x : K, pass_ll env data prior likelihood st0 pp pmore = .fin x →
        ∃ st1, mcmc_pass env data prior likelihood s 0 st0 = .ok (.next st1)
          ∧ st1.current_param
            = [page_of_list
                ((List.range (vs + ms1 * ms2)).map (env.apop_draw (fun _ => env.junk) rng prior).1)
                (alloc_page env.junk vs ms1 ms2)]
          ∧ st1.cp_ll = .fin x := by
  obtain ⟨st0, pp, cp, pmore, hinit, hinv, hcp, hrng, hdraw, hsize, hcpS, hcpT⟩ :=
    apop_update_init_ok env data likelihood s rng vs ms1 ms2 hvs hms1 hms2 hpos hstart hlik
  refine ⟨st0, pp, pmore, hinit, hcp, hinv.1, fun x hx => ?_⟩
  have hge : (pass_ratio env data prior likelihood st0 pp pmore).ge_zero = true := by
    rw [pass_ratio, hx, hcp]
    rfl
  obtain ⟨st1, hpass, hinv1, hll1, -, -⟩ := mcmc_pass_accept env data prior likelihood s 0 st0
    pp cp pmore [] hinv (by simpa using hperiods) hge
  refine ⟨st1, hpass, ?_, by rw [hll1, hx]⟩
  rw [hinv1.2.1, hsize, hdraw, hrng, page_of_list_congr _ cp _ hcpS hcpT]

/-- The first pass of C10 in the environment of the examples. -/
theorem first_pass_accepts_witness :
    ∃ st0 st1, apop_update_init example_env [] example_likelihood example_settings 0 = .ok st0
      ∧ st0.cp_ll = .ninf
      ∧ mcmc_pass example_env [] example_likelihood example_likelihood example_settings 0 st0
        = .ok (.next st1)
      ∧ st1.current_param
        = [page_of_list ((List.range (1 + 2 * 2)).map fun i => ((0 : Nat) : ℚ) + i)
            (alloc_page 0 1 2 2)]
      ∧ st1.cp_ll = .fin 0 := by
  obtain ⟨st0, pp, pmore, hinit, hcp, -, h⟩ := first_pass_accepts example_env []
    example_likelihood example_likelihood example_settings 0 1 2 2 (by decide)
    rfl rfl rfl (by decide) (Or.inl rfl) (Or.inl rfl)
  obtain ⟨st1, hpass, hcur, hll⟩ := h 0 rfl
  exact ⟨st0, st1, hinit, hcp, hpass, hcur, hll⟩

/-! ## The codec: layout and chains of pages (C18 to C20) -/

theorem sizecount_one {α : Type} (P : apop_page α) (all_pp use_info_pp : Nat)
    (h : use_info_pp ≤ 1) : sizecount [P] all_pp use_info_pp = P.size := by
  have : ¬ use_info_pp = 110 := by omega
  simp [sizecount, this]

theorem apop_data_pack_one {α : Type} (junk : α) (P : apop_page α) (all_pages use_info_pages : Char)
    (hP : P.WF) (hsize : 0 < P.size) :
    apop_data_pack junk [P] none all_pages use_info_pages = .ok (some P.flat) := by
  have hu : c_int (use_info_pages == 'n') ≤ 1 := by
    unfold c_int; split <;> omega
  have hpage := pack_page_append P hP (List.replicate P.size junk) [] (by simp)
  simp only [List.append_nil] at hpage
  unfold apop_data_pack
  simp only [sizecount_one P _ _ hu]
  by_cases hall : c_int (all_pages == 'y' || all_pages == 'Y') ≠ 0
  · simp [hpage, bind, Except.bind, pure, Except.pure, Nat.pos_iff_ne_zero.mp hsize, hall]
  · simp [hpage, bind, Except.bind, pure, Except.pure, Nat.pos_iff_ne_zero.mp hsize, hall]

theorem flatten_getElem? {α : Type} (size2 : Nat) (rows : List (List α))
    (hr : ∀ r ∈ rows, r.length = size2) (r c : Nat) (row : List α)
    (hrow : rows[r]? = some row) (hc : c < size2) :
    rows.flatten[r * size2 + c]? = row[c]? := by
  induction rows generalizing r with
  | nil => simp at hrow
  | cons x xs ih =>
    have hx : x.length = size2 := hr x (List.mem_cons_self _ _)
    cases r with
    | zero =>
      simp only [List.getElem?_cons_zero, Option.some.injEq] at hrow
      subst hrow
      rw [List.flatten_cons, Nat.zero_mul, Nat.zero_add, List.getElem?_append_left (by omega)]
    | succ r =>
      simp only [List.getElem?_cons_succ] at hrow
      have hidx : (r + 1) * size2 + c = x.length + (r * size2 + c) := by rw [hx]; ring
      rw [List.flatten_cons, hidx, List.getElem?_append_right (by omega)]
      simpa using ih (fun y hy => hr y (List.mem_cons_of_mem _ hy)) r hrow

/-- Claim C18 (layout of the packing).  For every one-page data set with at least one element
and no destination, whatever the two flags, `apop_data_pack` returns a vector of length
`V + R * C + W` in which element `i` is `vector[i]`, element `V + r * C + c` is
`matrix[r][c]` and element `V + R * C + k` is `weights[k]`.  (The function has the data set
as an argument only: nothing is written in it.) -/
theorem apop_data_pack_layout {α : Type} (junk : α) (P : apop_page α)
    (all_pages use_info_pages : Char) (hP : P.WF) (hsize : 0 < P.size) :
    ∃ buf, apop_data_pack junk [P] none all_pages use_info_pages = .ok (some buf)
      ∧ buf.length = vector_size P.vector + matrix_size P.matrix + vector_size P.weights
      ∧ (∀ v i, P.vector = some v → i < v.length → buf[i]? = v[i]?)
      ∧ (∀ m r c row, P.matrix = some m → m.rows[r]? = some row → c < m.size2 →
          buf[vector_size P.vector + r * m.size2 + c]? = row[c]?)
      ∧ (∀ w k, P.weights = some w → k < w.length →
          buf[vector_size P.vector + matrix_size P.matrix + k]? = w[k]?) := by
  refine ⟨P.flat, apop_data_pack_one junk P all_pages use_info_pages hP hsize,
    apop_page.flat_length P hP, ?_, ?_, ?_⟩
  · intro v i hv hi
    simp only [apop_page.flat, hv, Option.getD_some, List.append_assoc]
    rw [List.getElem?_append_left hi]
  · intro m r c row hm hrow hc
    have hrows := (hP.2.1 m hm).2.2
    have hrlt : r < m.rows.length := by
      by_contra h
      rw [List.getElem?_eq_none (by omega)] at hrow
      exact Option.noConfusion hrow
    have hlen : r * m.size2 + c < m.rows.flatten.length := by
      rw [flatten_length_of_rows _ _ hrows]
      calc r * m.size2 + c < r * m.size2 + m.size2 := by omega
        _ = (r + 1) * m.size2 := by ring
        _ ≤ m.rows.length * m.size2 := Nat.mul_le_mul_right _ hrlt
    have hV : vector_size P.vector = (P.vector.getD []).length := by
      cases P.vector <;> rfl
    simp only [apop_page.flat, hm, Option.map_some', Option.getD_some, List.append_assoc]
    rw [hV, Nat.add_assoc, List.getElem?_append_right (by omega), Nat.add_sub_cancel_left,
      List.getElem?_append_left hlen]
    exact flatten_getElem? m.size2 m.rows hrows r c row hrow hc
  · intro w k hw hk
    have hV : vector_size P.vector + matrix_size P.matrix
        = (P.vector.getD [] ++ (P.matrix.map fun m => m.rows.flatten).getD []).length := by
      have := apop_page.size_eq P hP
      simp only [apop_page.size, hw, vector_size_some, Option.getD_some] at this
      rw [List.length_append]
      omega
    simp only [apop_page.flat, hw, Option.getD_some]
    rw [hV, List.getElem?_append_right (by omega), Nat.add_sub_cancel_left]

/-- The packing of C18 on a page with a vector of 2 elements, a 2 x 2 matrix and 1 weight. -/
theorem apop_data_pack_layout_witness :
    ∃ buf, apop_data_pack (0 : ℚ)
        [⟨some [1, 2], some ⟨2, [[3, 4], [5, 6]]⟩, some [7], "P"⟩] none 'n' 'n' = .ok (some buf)
      ∧ buf.length = 2 + 2 * 2 + 1
      ∧ buf[2 + 1 * 2 + 0]? = some 5 := by
  obtain ⟨buf, h, hlen, -, hm, -⟩ := apop_data_pack_layout (0 : ℚ)
    ⟨some [1, 2], some ⟨2, [[3, 4], [5, 6]]⟩, some [7], "P"⟩ 'n' 'n'
    (by simp [apop_page.WF, gsl_matrix.size1]) (by simp [apop_page.size, gsl_matrix.size1])
  exact ⟨buf, h, hlen, hm ⟨2, [[3, 4], [5, 6]]⟩ 1 0 [5, 6] rfl rfl (by decide)⟩

theorem sizecount_all {α : Type} (chain : apop_data α) (use_info_pp : Nat)
    (h : use_info_pp ≤ 1) : sizecount chain 1 use_info_pp = chain_size chain := by
  have hn : ¬ use_info_pp = 110 := by omega
  induction chain with
  | nil => rfl
  | cons p more ih => simp [sizecount, hn, ih, chain_size]

theorem chain_flat_length {α : Type} (chain : apop_data α) (hWF : ∀ p ∈ chain, p.WF) :
    (chain_flat chain).length = chain_size chain := by
  induction chain with
  | nil => rfl
  | cons p more ih =>
    have h1 := apop_page.flat_length p (hWF p (List.mem_cons_self _ _))
    have h2 := ih (fun q hq => hWF q (List.mem_cons_of_mem _ hq))
    simp only [chain_flat, chain_size, List.map_cons, List.flatten_cons, List.length_append,
      List.sum_cons] at h2 ⊢
    rw [h1, h2]

theorem chain_size_pos {α : Type} (chain : apop_data α) (hne : chain ≠ [])
    (hlast : last_page_has_data chain) : 0 < chain_size chain := by
  induction chain with
  | nil => exact absurd rfl hne
  | cons p more ih =>
    cases more with
    | nil =>
      have := hlast p rfl
      simpa [chain_size] using this
    | cons q ms =>
      have := ih (List.cons_ne_nil _ _) (fun x hx => hlast x (by
        rw [List.getLast?_cons_cons]; exact hx))
      simp only [chain_size, List.map_cons, List.sum_cons] at this ⊢
      omega

theorem last_page_has_data_tail {α : Type} (p q : apop_page α) (ms : apop_data α)
    (hlast : last_page_has_data (p :: q :: ms)) : last_page_has_data (q :: ms) :=
  fun x hx => hlast x (by rw [List.getLast?_cons_cons]; exact hx)

/-- The recursive calls of `apop_data_pack` on a chain without info pages write the packings
of the pages one after the other. -/
theorem pack_more_chain {α : Type} (skip : Bool) (chain : apop_data α) :
    ∀ (vout : List α), (∀ p ∈ chain, p.WF) → (∀ p ∈ chain, apop_regex_info p.title = false) →
      last_page_has_data chain → vout.length = chain_size chain →
      pack_more skip chain vout = .ok (chain_flat chain) := by
  induction chain generalizing skip with
  | nil =>
    intro vout _ _ _ hlen
    have : vout = [] := List.length_eq_zero.mp (by simpa [chain_size] using hlen)
    subst this
    rfl
  | cons p more ih =>
    intro vout hWF hinfo hlast hlen
    have hpWF := hWF p (List.mem_cons_self _ _)
    have hpi := hinfo p (List.mem_cons_self _ _)
    have htot : sizecount (p :: more) (c_int true) (c_int true) = chain_size (p :: more) :=
      sizecount_all (p :: more) 1 (le_refl 1)
    have hpos := chain_size_pos (p :: more) (List.cons_ne_nil _ _) hlast
    have hcs : chain_size (p :: more) = p.size + chain_size more := by
      simp [chain_size]
    have hsplit : vout = vout.take p.size ++ vout.drop p.size :=
      (List.take_append_drop _ _).symm
    have hpage := pack_page_append p hpWF (vout.take p.size) (vout.drop p.size)
      (by rw [List.length_take]; omega)
    rw [← hsplit] at hpage
    have hdrop : (vout.drop p.size).length = chain_size more := by
      rw [List.length_drop]; omega
    rw [pack_more]
    simp only [hpi, Bool.and_false, Bool.false_eq_true, if_false, htot, hlen, ne_eq,
      not_true_eq_false, Nat.pos_iff_ne_zero.mp hpos, hpage, bind, Except.bind]
    cases more with
    | nil =>
      have : vout.drop p.size = [] := List.length_eq_zero.mp (by simpa [chain_size] using hdrop)
      simp [this, chain_flat, pure, Except.pure]
    | cons q ms =>
      have hlast2 := last_page_has_data_tail p q ms hlast
      have hpos2 := chain_size_pos (q :: ms) (List.cons_ne_nil _ _) hlast2
      have hflen : p.flat.length = p.size := apop_page.flat_length p hpWF
      have hsub : gsl_vector_subvector (p.flat ++ vout.drop p.size) p.size
          ((p.flat ++ vout.drop p.size).length - p.size) = .ok (vout.drop p.size) := by
        have := subvector_append p.flat (vout.drop p.size) [] (by omega)
        simp only [List.append_nil, hflen] at this
        rw [List.length_append, hflen, Nat.add_sub_cancel_left]
        exact this
      have hrec := ih true (vout.drop p.size)
        (fun x hx => hWF x (List.mem_cons_of_mem _ hx))
        (fun x hx => hinfo x (List.mem_cons_of_mem _ hx)) hlast2 hdrop
      have hstore : gsl_vector_view_store (p.flat ++ vout.drop p.size) p.size
          (chain_flat (q :: ms)) = p.flat ++ chain_flat (q :: ms) := by
        have := view_store_append p.flat (vout.drop p.size) [] (chain_flat (q :: ms))
          (by rw [hdrop, chain_flat_length _ (fun x hx => hWF x (List.mem_cons_of_mem _ hx))])
        simpa [hflen] using this
      simp only [hsub, hrec, hstore, pure, Except.pure]
      rfl

theorem apop_data_pack_chain {α : Type} (junk : α) (chain : apop_data α)
    (use_info_pages : Char) (hne : chain ≠ []) (hWF : ∀ p ∈ chain, p.WF)
    (hinfo : ∀ p ∈ chain, apop_regex_info p.title = false)
    (hlast : last_page_has_data chain) :
    apop_data_pack junk chain none 'y' use_info_pages = .ok (some (chain_flat chain)) := by
  obtain ⟨p, more, rfl⟩ : ∃ p more, chain = p :: more := by
    cases chain with
    | nil => exact absurd rfl hne
    | cons p more => exact ⟨p, more, rfl⟩
  have hpWF := hWF p (List.mem_cons_self _ _)
  have hu : c_int (use_info_pages == 'n') ≤ 1 := by
    unfold c_int; split <;> omega
  have hall : c_int (('y' : Char) == 'y' || ('y' : Char) == 'Y') = 1 := by decide
  have htot := sizecount_all (p :: more) _ hu
  have hpos := chain_size_pos (p :: more) (List.cons_ne_nil _ _) hlast
  have hcs : chain_size (p :: more) = p.size + chain_size more := by
    simp [chain_size]
  have hpage := pack_page_append p hpWF (List.replicate p.size junk)
    (List.replicate (chain_size more) junk) (by simp)
  have hrep : List.replicate (chain_size (p :: more)) junk
      = List.replicate p.size junk ++ List.replicate (chain_size more) junk := by
    rw [hcs, List.replicate_add]
  unfold apop_data_pack
  simp only [hall, htot, Nat.pos_iff_ne_zero.mp hpos, if_false, hrep, hpage, bind, Except.bind,
    ne_eq, one_ne_zero, not_false_eq_true, if_true, Bool.false_eq_true]
  cases more with
  | nil => simp [chain_flat, chain_size, pure, Except.pure]
  | cons q ms =>
    have hlast2 := last_page_has_data_tail p q ms hlast
    have hpos2 := chain_size_pos (q :: ms) (List.cons_ne_nil _ _) hlast2
    have hflen : p.flat.length = p.size := apop_page.flat_length p hpWF
    have hsub : gsl_vector_subvector (p.flat ++ List.replicate (chain_size (q :: ms)) junk) p.size
        ((p.flat ++ List.replicate (chain_size (q :: ms)) junk).length - p.size)
          = .ok (List.replicate (chain_size (q :: ms)) junk) := by
      have := subvector_append p.flat (List.replicate (chain_size (q :: ms)) junk) []
        (by simpa using hpos2)
      simp only [List.append_nil, hflen, List.length_replicate] at this
      rw [List.length_append, hflen, Nat.add_sub_cancel_left, List.length_replicate]
      exact this
    have hrec := pack_more_chain (use_info_pages == 'n') (q :: ms)
      (List.replicate (chain_size (q :: ms)) junk)
      (fun x hx => hWF x (List.mem_cons_of_mem _ hx))
      (fun x hx => hinfo x (List.mem_cons_of_mem _ hx)) hlast2 (by simp)
    have hstore : gsl_vector_view_store (p.flat ++ List.replicate (chain_size (q :: ms)) junk)
        p.size (chain_flat (q :: ms)) = p.flat ++ chain_flat (q :: ms) := by
      have := view_store_append p.flat (List.replicate (chain_size (q :: ms)) junk) []
        (chain_flat (q :: ms))
        (by rw [List.length_replicate,
          chain_flat_length _ (fun x hx => hWF x (List.mem_cons_of_mem _ hx))])
      simpa [hflen] using this
    simp only [hsub, hrec, hstore, pure, Except.pure]
    rfl

/-- The recursive calls of `apop_data_unpack` on a chain without info pages go from page to
page and fill every page. -/
theorem unpack_more_chain {α : Type} (chain : apop_data α) :
    ∀ (skip : Bool) (target : apop_data α), chain ≠ [] → (∀ p ∈ chain, p.WF) →
      last_page_has_data chain →
      List.Forall₂ (fun p q => p.same_shape q ∧ q.WF ∧ apop_regex_info q.title = false)
        chain target →
      unpack_more skip (chain_flat chain) target
        = .ok (List.zipWith copy_numbers chain target) := by
  induction chain with
  | nil => intro _ _ hne; exact absurd rfl hne
  | cons p more ih =>
    intro skip target _ hWF hlast hshape
    obtain ⟨q, tmore, hpq, hrest, rfl⟩ := List.forall₂_cons_left_iff.mp hshape
    obtain ⟨hs, hqWF, hqi⟩ := hpq
    have hpWF := hWF p (List.mem_cons_self _ _)
    have hflat : chain_flat (p :: more) = p.flat ++ chain_flat more := by
      simp [chain_flat]
    have hpage := unpack_page_append p q hpWF hqWF hs (chain_flat more)
    have hflen : p.flat.length = p.size := apop_page.flat_length p hpWF
    rw [unpack_more]
    simp only [hqi, Bool.and_false, Bool.false_eq_true, if_false, hflat, hpage, bind,
      Except.bind, List.length_append, hflen]
    cases more with
    | nil =>
      have : tmore = [] := by cases hrest; rfl
      subst this
      simp [chain_flat, copy_numbers, pure, Except.pure]
    | cons p2 ms =>
      obtain ⟨q2, tms, hpq2, hrest2, rfl⟩ := List.forall₂_cons_left_iff.mp hrest
      have hWF2 : ∀ x ∈ p2 :: ms, x.WF := fun x hx => hWF x (List.mem_cons_of_mem _ hx)
      have hlast2 := last_page_has_data_tail p p2 ms hlast
      have hpos2 := chain_size_pos (p2 :: ms) (List.cons_ne_nil _ _) hlast2
      have hlen2 := chain_flat_length (p2 :: ms) hWF2
      have hne : ¬ p.size = p.size + (chain_flat (p2 :: ms)).length := by omega
      have hsub : gsl_vector_subvector (p.flat ++ chain_flat (p2 :: ms)) p.size
          (p.size + (chain_flat (p2 :: ms)).length - p.size) = .ok (chain_flat (p2 :: ms)) := by
        have := subvector_append p.flat (chain_flat (p2 :: ms)) [] (by omega)
        simp only [List.append_nil, hflen] at this
        rw [Nat.add_sub_cancel_left]
        exact this
      have hrec := ih true (q2 :: tms) (List.cons_ne_nil _ _) hWF2 hlast2 hrest
      simp only [hne, ne_eq, not_false_eq_true, if_true, hsub, hrec, pure, Except.pure]
      rfl

/-- The round trip of a chain whose last page holds data.  For every chain of pages none of
whose titles is
that of an info page and whose last page holds at least one element, `apop_data_pack` with
`all_pages = 'y'` returns the packings of the pages one after the other, in the order of the
chain; and `apop_data_unpack` of that vector into a chain of the same shape goes from page to
page and leaves in every page the vector, the matrix and the weights of the page packed. -/
theorem pack_unpack_chain {α : Type} (junk : α) (chain target : apop_data α)
    (use_info_pages : Char) (hne : chain ≠ []) (hWF : ∀ p ∈ chain, p.WF)
    (hinfo : ∀ p ∈ chain, apop_regex_info p.title = false)
    (hlast : last_page_has_data chain)
    (hshape : List.Forall₂
      (fun p q => p.same_shape q ∧ q.WF ∧ apop_regex_info q.title = false) chain target) :
    apop_data_pack junk chain none 'y' use_info_pages = .ok (some (chain_flat chain))
      ∧ apop_data_unpack (chain_flat chain) target use_info_pages
        = .ok (List.zipWith copy_numbers chain target) := by
  refine ⟨apop_data_pack_chain junk chain use_info_pages hne hWF hinfo hlast, ?_⟩
  obtain ⟨p, more, rfl⟩ : ∃ p more, chain = p :: more := by
    cases chain with
    | nil => exact absurd rfl hne
    | cons p more => exact ⟨p, more, rfl⟩
  obtain ⟨q, tmore, hpq, hrest, rfl⟩ := List.forall₂_cons_left_iff.mp hshape
  obtain ⟨hs, hqWF, -⟩ := hpq
  have hpWF := hWF p (List.mem_cons_self _ _)
  have hflat : chain_flat (p :: more) = p.flat ++ chain_flat more := by
    simp [chain_flat]
  have hpage := unpack_page_append p q hpWF hqWF hs (chain_flat more)
  have hflen : p.flat.length = p.size := apop_page.flat_length p hpWF
  unfold apop_data_unpack
  simp only [hflat, hpage, bind, Except.bind, List.length_append, hflen]
  cases more with
  | nil =>
    have : tmore = [] := by cases hrest; rfl
    subst this
    simp [chain_flat, copy_numbers, pure, Except.pure]
  | cons p2 ms =>
    obtain ⟨q2, tms, hpq2, hrest2, rfl⟩ := List.forall₂_cons_left_iff.mp hrest
    have hWF2 : ∀ x ∈ p2 :: ms, x.WF := fun x hx => hWF x (List.mem_cons_of_mem _ hx)
    have hlast2 := last_page_has_data_tail p p2 ms hlast
    have hpos2 := chain_size_pos (p2 :: ms) (List.cons_ne_nil _ _) hlast2
    have hlen2 := chain_flat_length (p2 :: ms) hWF2
    have hne2 : ¬ p.size = p.size + (chain_flat (p2 :: ms)).length := by omega
    have hsub : gsl_vector_subvector (p.flat ++ chain_flat (p2 :: ms)) p.size
        (p.size + (chain_flat (p2 :: ms)).length - p.size) = .ok (chain_flat (p2 :: ms)) := by
      have := subvector_append p.flat (chain_flat (p2 :: ms)) [] (by omega)
      simp only [List.append_nil, hflen] at this
      rw [Nat.add_sub_cancel_left]
      exact this
    have hrec := unpack_more_chain (p2 :: ms) (use_info_pages == 'n') (q2 :: tms)
      (List.cons_ne_nil _ _) hWF2 hlast2 hrest
    simp only [hne2, ne_eq, not_false_eq_true, if_true, hsub, hrec, pure, Except.pure]
    rfl

/-- The round trip on a chain of two pages, the last of which holds data. -/
theorem pack_unpack_chain_witness :
    apop_data_pack 0 example_chain none 'y' 'n' = .ok (some (chain_flat example_chain))
      ∧ apop_data_unpack (chain_flat example_chain) example_target 'n'
        = .ok (List.zipWith copy_numbers example_chain example_target) :=
  pack_unpack_chain 0 example_chain example_target 'n'
    (by simp [example_chain])
    (by simp [example_chain, apop_page.WF, gsl_matrix.size1])
    (by
      intro p hp
      simp only [example_chain, List.mem_cons, List.mem_singleton, List.not_mem_nil,
        or_false] at hp
      rcases hp with rfl | rfl <;> rfl)
    (by simp [example_chain, last_page_has_data, apop_page.size, gsl_matrix.size1])
    (List.Forall₂.cons
      ⟨by simp [apop_page.same_shape], by simp [apop_page.WF], by rfl⟩
      (List.Forall₂.cons
        ⟨by simp [apop_page.same_shape, gsl_matrix.size1],
          by simp [apop_page.WF, gsl_matrix.size1], by rfl⟩
        List.Forall₂.nil))

/-- Claim C20 (chains with an info page), what the code does.  On the chain of the pages
`a = (1, 2)`, `<b> = (3)` and `c = (4)`, with `all_pages = 'y'` and `use_info_pages = 'n'`:
`sizecount` counts the info page (4 elements and not 3, its flag being the value of the
comparison `use_info_pages == 'n'` and not the character), and `apop_data_pack` stops on the
failed `apop_assert_s` of the inner call, which finds a destination of 2 elements for the 1
element of page `c`.  On the chain of `a` and `<b>` alone it returns a vector of 3 elements
whose last one was never written. -/
theorem apop_data_pack_info_page :
    sizecount example_info_chain (c_int true) (c_int (('n' : Char) == 'n')) = 4
      ∧ apop_data_pack 0 example_info_chain none 'y' 'n' = .error .assert_failed
      ∧ apop_data_pack (0 : ℚ)
          [⟨some [1, 2], none, none, "a"⟩, ⟨some [3], none, none, "<b>"⟩] none 'y' 'n'
        = .ok (some [1, 2, 0]) := by
  refine ⟨by rfl, by rfl, by rfl⟩

/-! ## Normalisation of a histogram (C15 to C17) -/

theorem foldl_add_eq_sum {K : Type} [Field K] (l : List K) (a : K) :
    l.foldl (fun sum b => sum + b) a = a + l.sum := by
  induction l generalizing a with
  | nil => simp
  | cons x xs ih => rw [List.foldl_cons, ih, List.sum_cons, add_assoc]

theorem sum_map_div {K : Type} [Field K] (l : List K) (S : K) :
    (l.map fun b => b / S).sum = l.sum / S := by
  induction l with
  | nil => simp
  | cons x xs ih => rw [List.map_cons, List.sum_cons, ih, List.sum_cons, add_div]

theorem normalize_bins_nonzero {K : Type} [Field K] [DecidableEq K]
    [machine K] [exact_arithmetic K] (assert_returns : Bool)
    (h : gsl_histogram K) (hS : h.bin.sum ≠ 0) :
    normalize_bins assert_returns h
      = ({ h with bin := h.bin.map fun b => b / h.bin.sum }, false) := by
  simp [normalize_bins, to_double_exact, to_long_double_exact, foldl_add_eq_sum, hS]

theorem normalize_bins_zero {K : Type} [Field K] [DecidableEq K]
    [machine K] [exact_arithmetic K] (h : gsl_histogram K)
    (hS : h.bin.sum = 0) : normalize_bins true h = (h, true) := by
  simp [normalize_bins, to_double_exact, to_long_double_exact, foldl_add_eq_sum, hS]

theorem apop_histogram_normalize_eq {K : Type} [Field K] [DecidableEq K] [machine K]
    (assert_returns : Bool) (m : apop_model K) (g : apop_histogram_settings K)
    (h : gsl_histogram K) (hm : m.histogram_settings = some g) (hg : g.pdf = some h) :
    apop_histogram_normalize assert_returns m
      = .ok (with_histogram_pdf m (normalize_bins assert_returns h).1,
          (normalize_bins assert_returns h).2) := by
  simp [apop_histogram_normalize, Apop_settings_get_pdf, hm, hg, bind, Except.bind, pure,
    Except.pure]

theorem with_histogram_pdf_self {K : Type} (m : apop_model K) (g : apop_histogram_settings K)
    (h : gsl_histogram K) (hm : m.histogram_settings = some g) (hg : g.pdf = some h) :
    with_histogram_pdf m h = m := by
  obtain ⟨pdf⟩ := g
  simp only at hg
  subst hg
  rw [with_histogram_pdf, ← hm]

/-- Claim C15 (normalisation).  For every histogram model whose bins have a sum `S` that is
not zero, `apop_histogram_normalize` returns without a report and leaves a histogram in which
each bin is its old value divided by `S`; the bins then sum to 1, and the number of bins and
the edges are as before.  The arithmetic is exact: no operation on `double`s rounds. -/
theorem apop_histogram_normalize_nonzero {K : Type} [Field K] [DecidableEq K]
    [machine K] [exact_arithmetic K]
    (assert_returns : Bool) (m : apop_model K) (g : apop_histogram_settings K)
    (h : gsl_histogram K) (hm : m.histogram_settings = some g) (hg : g.pdf = some h)
    (hS : h.bin.sum ≠ 0) :
    ∃ h_new, apop_histogram_normalize assert_returns m
        = .ok (with_histogram_pdf m h_new, false)
      ∧ h_new.bin = h.bin.map (fun b => b / h.bin.sum)
      ∧ h_new.bin.sum = 1 ∧ h_new.n = h.n ∧ h_new.range = h.range := by
  refine ⟨{ h with bin := h.bin.map fun b => b / h.bin.sum }, ?_, rfl, ?_, ?_, rfl⟩
  · rw [apop_histogram_normalize_eq assert_returns m g h hm hg,
      normalize_bins_nonzero assert_returns h hS]
  · rw [sum_map_div, div_self hS]
  · simp [gsl_histogram.n]

/-- The normalisation of C15 on the bins 1 and 3. -/
theorem apop_histogram_normalize_nonzero_witness :
    ∃ h_new, apop_histogram_normalize true example_histogram
        = .ok (with_histogram_pdf example_histogram h_new, false)
      ∧ h_new.bin = ([1, 3] : List ℚ).map (fun b => b / ([1, 3] : List ℚ).sum)
      ∧ h_new.bin.sum = 1 :=
  (apop_histogram_normalize_nonzero true example_histogram
    { pdf := some { range := [0, 1, 2], bin := [1, 3] } } { range := [0, 1, 2], bin := [1, 3] }
    rfl rfl (by norm_num)).imp fun _ h => ⟨h.1, h.2.1, h.2.2.1⟩

theorem apop_histogram_normalize_zero_eq {K : Type} [Field K] [DecidableEq K]
    [machine K] [exact_arithmetic K]
    (m : apop_model K) (g : apop_histogram_settings K) (h : gsl_histogram K)
    (hm : m.histogram_settings = some g) (hg : g.pdf = some h) (hS : h.bin.sum = 0) :
    apop_histogram_normalize true m = .ok (m, true) := by
  rw [apop_histogram_normalize_eq true m g h hm hg, normalize_bins_zero h hS,
    with_histogram_pdf_self m g h hm hg]

/-- Claim C16 (zero density).  On a histogram model whose bins sum to zero,
`apop_histogram_normalize` reports the zero density and returns at once (a failed assertion
of kind `'c'` makes the function return: "Returning same."): no bin is divided and the model
is as before.  The arithmetic is exact: no operation on `double`s rounds. -/
theorem apop_histogram_normalize_zero {K : Type} [Field K] [DecidableEq K]
    [machine K] [exact_arithmetic K]
    (m : apop_model K) (g : apop_histogram_settings K) (h : gsl_histogram K)
    (hm : m.histogram_settings = some g) (hg : g.pdf = some h) (hS : h.bin.sum = 0) :
    apop_histogram_normalize true m = .ok (m, true) := by
  rw [apop_histogram_normalize_eq true m g h hm hg, normalize_bins_zero h hS,
    with_histogram_pdf_self m g h hm hg]

/-- The call of C16 on two bins that hold 0. -/
theorem apop_histogram_normalize_zero_witness :
    apop_histogram_normalize true example_empty_histogram
      = .ok (example_empty_histogram, true) :=
  apop_histogram_normalize_zero example_empty_histogram
    { pdf := some { range := [0, 1, 2], bin := [0, 0] } } { range := [0, 1, 2], bin := [0, 0] }
    rfl rfl (by norm_num)

theorem long_double_sum_exact {K : Type} [Field K] [machine K] [exact_arithmetic K]
    (h : gsl_histogram K) : long_double_sum h = h.bin.sum := by
  simp [long_double_sum, to_long_double_exact, foldl_add_eq_sum]

/-- On any machine, a histogram whose sum, as `apop_histogram_normalize` computes it, is 1 and
whose bins are `double`s is left as it is. -/
theorem normalize_bins_unit_sum {K : Type} [Field K] [DecidableEq K] [machine K]
    (h : gsl_histogram K) (hS : long_double_sum h = 1)
    (hb : ∀ b ∈ h.bin, machine.to_double (machine.to_long_double b) = b) :
    normalize_bins true h = (h, false) := by
  have hS1 : h.bin.foldl (fun sum b => machine.to_long_double (sum + b)) 0 = 1 := hS
  have hmap : (h.bin.map fun b => machine.to_double (machine.to_long_double b)) = h.bin := by
    conv_rhs => rw [← List.map_id h.bin]
    apply List.map_congr_left
    intro b hbm
    exact hb b hbm
  simp [normalize_bins, hS1, hmap]

/-- On any machine, a histogram whose sum, as `apop_histogram_normalize` computes it, is zero is
reported and left as it is. -/
theorem normalize_bins_zero_sum {K : Type} [Field K] [DecidableEq K] [machine K]
    (h : gsl_histogram K) (hS : long_double_sum h = 0) :
    normalize_bins true h = (h, true) := by
  have hS0 : h.bin.foldl (fun sum b => machine.to_long_double (sum + b)) 0 = 0 := hS
  simp [normalize_bins, hS0]

/-- Claim C17, refuted as stated.  On the machine of the doubles (a `double` has 53 bits, a
`long double` 64), the histogram of the bins 8, 9, 9, 9 is not the same after two calls of
`apop_histogram_normalize` as after one: the first call leaves bins whose sum, as the second
call computes it, is below 1, and the second call moves the first bin from
8235153604334621 / 2^55 to the next `double`, 8235153604334622 / 2^55. -/
theorem normalize_twice_moves_a_bin :
    apop_histogram_normalize true rounded_histogram
        = .ok (with_histogram_pdf rounded_histogram
          (four_bins (8235153604334621 / 36028797018963968) (289517118902389 / 1125899906842624)
          (289517118902389 / 1125899906842624) (289517118902389 / 1125899906842624)), false)
      ∧ apop_histogram_normalize true (with_histogram_pdf rounded_histogram
          (four_bins (8235153604334621 / 36028797018963968) (289517118902389 / 1125899906842624)
          (289517118902389 / 1125899906842624) (289517118902389 / 1125899906842624)))
        = .ok (with_histogram_pdf rounded_histogram
          (four_bins (4117576802167311 / 18014398509481984) (289517118902389 / 1125899906842624)
          (289517118902389 / 1125899906842624) (289517118902389 / 1125899906842624)), false)
      ∧ (8235153604334621 / 36028797018963968 : binary64) ≠ 4117576802167311 / 18014398509481984 := by
  refine ⟨?_, ?_, by norm_num⟩
  · rw [apop_histogram_normalize_eq true rounded_histogram { pdf := some (four_bins 8 9 9 9) }
      (four_bins 8 9 9 9) rfl rfl, normalize_bins_rounded]
  · rw [apop_histogram_normalize_eq true _ { pdf := some _ } _ rfl rfl,
      normalize_bins_rounded_twice]
    rfl

/-- Claim C17, amended.  In exact arithmetic, for every histogram model,
`apop_histogram_normalize` returns, and a second call on the result returns the same model:
the bins after two calls are those after one; when the bins already sum to 1, the first call
leaves the model as it was.  On any machine, a model whose bins are `double`s and have the sum
1, the sum being the one that the function computes (the bins added one after the other to a
`long double`), is left as it was, bin for bin, and so is a model whose computed sum is zero,
which is reported. -/
theorem apop_histogram_normalize_idempotent {K : Type} [Field K] [DecidableEq K] [machine K]
    (m : apop_model K) (g : apop_histogram_settings K) (h : gsl_histogram K)
    (hm : m.histogram_settings = some g) (hg : g.pdf = some h) :
    (exact_arithmetic K →
      ∃ m1 r1, apop_histogram_normalize true m = .ok (m1, r1)
        ∧ (∃ r2, apop_histogram_normalize true m1 = .ok (m1, r2))
        ∧ (h.bin.sum = 1 → m1 = m))
      ∧ (long_double_sum h = 1 →
          (∀ b ∈ h.bin, machine.to_double (machine.to_long_double b) = b) →
          apop_histogram_normalize true m = .ok (m, false))
      ∧ (long_double_sum h = 0 → apop_histogram_normalize true m = .ok (m, true)) := by
  have hmeq := with_histogram_pdf_self m g h hm hg
  refine ⟨fun hex => ?_, fun hS hb => ?_, fun hS => ?_⟩
  · haveI := hex
    by_cases hS : h.bin.sum = 0
    · refine ⟨m, true, apop_histogram_normalize_zero_eq m g h hm hg hS,
        ⟨true, apop_histogram_normalize_zero_eq m g h hm hg hS⟩, fun _ => rfl⟩
    · have h1 := apop_histogram_normalize_eq true m g h hm hg
      rw [normalize_bins_nonzero true h hS] at h1
      have hsum1 : (h.bin.map fun b => b / h.bin.sum).sum = 1 := by
        rw [sum_map_div, div_self hS]
      have h2 := apop_histogram_normalize_eq true
        (with_histogram_pdf m { h with bin := h.bin.map fun b => b / h.bin.sum })
        { pdf := some { h with bin := h.bin.map fun b => b / h.bin.sum } }
        { h with bin := h.bin.map fun b => b / h.bin.sum } rfl rfl
      rw [normalize_bins_nonzero true _ (by simp only [hsum1]; exact one_ne_zero)] at h2
      simp only [hsum1, div_one, List.map_map] at h2
      refine ⟨_, false, h1, ⟨false, ?_⟩, fun hone => ?_⟩
      · rw [h2]
        simp [Function.comp_def, with_histogram_pdf]
      · simp only [hone, div_one, List.map_id']
        exact hmeq
  · rw [apop_histogram_normalize_eq true m g h hm hg, normalize_bins_unit_sum h hS hb, hmeq]
  · rw [apop_histogram_normalize_eq true m g h hm hg, normalize_bins_zero_sum h hS, hmeq]

/-- The two calls of C17 on the bins 1 and 3, in exact arithmetic. -/
theorem apop_histogram_normalize_idempotent_witness :
    ∃ m1 r1, apop_histogram_normalize true example_histogram = .ok (m1, r1)
      ∧ ∃ r2, apop_histogram_normalize true m1 = .ok (m1, r2) :=
  ((apop_histogram_normalize_idempotent example_histogram
    { pdf := some { range := [0, 1, 2], bin := [1, 3] } } { range := [0, 1, 2], bin := [1, 3] }
    rfl rfl).1 inferInstance).imp fun _ h => h.imp fun _ h => ⟨h.1, h.2.1⟩

/-! ## The burn-in (C12 and C13) -/

theorem records_iff_machine {K : Type} [LinearOrderedField K] [FloorRing K] [machine K]
    (s : apop_update_settings K) (i : Nat) :
    records s i = true ↔ Int.toNat ⌈burn_in_product s⌉ ≤ i := by
  rw [records, burn_in_product, decide_eq_true_iff, ge_iff_le, Int.toNat_le, Int.ceil_le]
  simp

theorem records_iff {K : Type} [LinearOrderedField K] [FloorRing K] [machine K]
    [exact_arithmetic K] (s : apop_update_settings K) (i : Nat) :
    records s i = true ↔ Int.toNat ⌈(s.periods : K) * s.burnin⌉ ≤ i := by
  rw [records_iff_machine, burn_in_product, to_double_exact]

theorem floor_nat_sub {K : Type} [LinearOrderedField K] [FloorRing K] (i : Nat) (x : K) :
    ⌊(i : K) - x⌋ = (i : Int) - ⌈x⌉ := by
  rw [sub_eq_add_neg, Int.floor_nat_add, Int.floor_neg]
  ring

theorem record_row_eq {K : Type} [LinearOrderedField K] [FloorRing K]
    [machine K] [exact_arithmetic K]
    (s : apop_update_settings K) (hx : 0 ≤ (s.periods : K) * s.burnin) (i : Nat) :
    record_row s i = i - Int.toNat ⌈(s.periods : K) * s.burnin⌉ := by
  have h0 := Int.ceil_nonneg hx
  rw [record_row, to_double_exact, to_double_exact, floor_nat_sub]
  omega

theorem out_rows_eq {K : Type} [LinearOrderedField K] [FloorRing K] [machine K] [exact_arithmetic K]
    (s : apop_update_settings K) (hx : 0 ≤ (s.periods : K) * s.burnin) :
    out_rows s = s.periods.toNat - Int.toNat ⌈(s.periods : K) * s.burnin⌉ := by
  have h0 := Int.ceil_nonneg hx
  have h1 : (s.periods : K) * (1 - s.burnin) = (s.periods : K) - (s.periods : K) * s.burnin := by
    ring
  have h2 : ⌊(s.periods : K) - (s.periods : K) * s.burnin⌋
      = s.periods - ⌈(s.periods : K) * s.burnin⌉ := by
    rw [sub_eq_add_neg, Int.floor_int_add, Int.floor_neg]
    ring
  rw [out_rows, to_double_exact, to_double_exact, h1, h2]
  omega

theorem range_filter_ge_map_sub (P d : Nat) :
    ((List.range P).filter fun i => decide (d ≤ i)).map (fun i => i - d)
      = List.range (P - d) := by
  induction P with
  | zero => simp
  | succ P ih =>
    rw [List.range_succ, List.filter_append, List.map_append, ih]
    by_cases h : d ≤ P
    · have : P + 1 - d = (P - d) + 1 := by omega
      simp [h, this, List.range_succ]
    · have : P + 1 - d = P - d := by omega
      simp [h, this]

theorem recorded_rows {K : Type} [LinearOrderedField K] [FloorRing K]
    [machine K] [exact_arithmetic K]
    (s : apop_update_settings K) (hx : 0 ≤ (s.periods : K) * s.burnin) :
    (recorded_passes s).map (record_row s) = List.range (out_rows s) := by
  have hf : records s = fun i => decide (Int.toNat ⌈(s.periods : K) * s.burnin⌉ ≤ i) := by
    funext i
    rw [Bool.eq_iff_iff, records_iff]
    simp
  have hm : record_row s = fun i => i - Int.toNat ⌈(s.periods : K) * s.burnin⌉ := by
    funext i
    exact record_row_eq s hx i
  rw [recorded_passes, hf, hm, range_filter_ge_map_sub, out_rows_eq s hx]

theorem record_sample_skip {K R : Type} [LinearOrderedField K] [FloorRing K] [machine K]
    (env : Callees K R) (s : apop_update_settings K) (i : Nat) (st : chain_state K R)
    (h : records s i = false) : record_sample env s i st = .ok st := by
  have hn : ¬ (i : K) ≥ machine.to_double ((s.periods : K) * s.burnin) := by
    simpa [records] using h
  rw [record_sample, if_neg hn]
  rfl

/-- A pass that records a sample in a row that `out` does not have: GSL refuses the row and
the program stops. -/
theorem record_sample_overrun {K R : Type} [LinearOrderedField K] [FloorRing K] [machine K]
    (env : Callees K R) (s : apop_update_settings K) (i : Nat) (st : chain_state K R)
    (cp : apop_page K) (cmore : apop_data K) (m : gsl_matrix K)
    (h : records s i = true) (hc : st.current_param = cp :: cmore) (hcp : cp.WF)
    (hsize : 0 < cp.size) (hm : st.out = some m) (hrow : m.rows.length ≤ record_row s i) :
    record_sample env s i st = .error .gsl_error := by
  have hge : (i : K) ≥ machine.to_double ((s.periods : K) * s.burnin) := by
    simpa [records] using h
  have hv2 : m.rows[record_row s i]? = none := List.getElem?_eq_none hrow
  have hrr : Int.toNat
      ⌊machine.to_double ((i : K) - machine.to_double ((s.periods : K) * s.burnin))⌋
        = record_row s i := rfl
  rw [record_sample, if_pos hge, hc, apop_data_pack_first env.junk cp cmore hcp hsize]
  simp [hm, hrr, matrix_row_memcpy, hv2, bind, Except.bind]

theorem recorded_passes_length {K : Type} [LinearOrderedField K] [FloorRing K] [machine K]
    (s : apop_update_settings K) :
    (recorded_passes s).length = s.periods.toNat - Int.toNat ⌈burn_in_product s⌉ := by
  have hf : records s = fun i => decide (Int.toNat ⌈burn_in_product s⌉ ≤ i) := by
    funext i
    rw [Bool.eq_iff_iff, records_iff_machine]
    simp
  have h := congrArg List.length
    (range_filter_ge_map_sub s.periods.toNat (Int.toNat ⌈burn_in_product s⌉))
  rw [List.length_map, List.length_range] at h
  rw [recorded_passes, hf, h]

theorem record_sample_write {K R : Type} [LinearOrderedField K] [FloorRing K]
    [machine K] [exact_arithmetic K]
    (env : Callees K R) (s : apop_update_settings K) (i : Nat) (st : chain_state K R)
    (cp : apop_page K) (cmore : apop_data K) (m : gsl_matrix K)
    (h : records s i = true) (hi : (i : Int) < s.periods)
    (hc : st.current_param = cp :: cmore) (hcp : cp.WF) (hsize : 0 < cp.size)
    (hm : st.out = some m) (hout : out_ok (out_rows s) cp.size (some m)) :
    record_row s i < m.rows.length ∧ record_row s i < out_rows s
      ∧ record_sample env s i st
        = .ok { st with out := some { m with rows := m.rows.set (record_row s i) cp.flat } } := by
  have hge : (i : K) ≥ (s.periods : K) * s.burnin := by
    simpa [records, to_double_exact] using h
  have hrow : record_row s i < out_rows s := by
    simpa only [record_row, out_rows, to_double_exact]
      using record_row_lt i s.periods s.burnin hi hge
  obtain ⟨h1, h2, h3⟩ := hout
  have hlt : record_row s i < m.rows.length := by
    rw [← gsl_matrix.size1, h1]; exact hrow
  refine ⟨hlt, hrow, ?_⟩
  obtain ⟨v, hv⟩ : ∃ v, m.rows.get? (record_row s i) = some v := ⟨_, List.get?_eq_get hlt⟩
  have hvlen : v.length = cp.size := h3 v (List.get?_mem hv)
  have hflat : cp.flat.length = v.length := by
    rw [apop_page.flat_length cp hcp, hvlen]
  have hv2 : m.rows[record_row s i]? = some v := by simpa using hv
  have hrr : Int.toNat ⌊(i : K) - (s.periods : K) * s.burnin⌋ = record_row s i := by
    simp only [record_row, to_double_exact]
  rw [record_sample, to_double_exact, to_double_exact, if_pos hge, hc,
    apop_data_pack_first env.junk cp cmore hcp hsize]
  simp [hm, hrr, matrix_row_memcpy, hv2, gsl_vector_memcpy, hflat, bind, Except.bind, pure,
    Except.pure]

/-- Claim C12 (burn-in boundary).  In exact arithmetic (no operation on `double`s rounds its
result), for `periods >= 1` and a burn-in in [0, 1), the passes of the main loop that record a
sample are as many as the rows allocated for `out`, `floor (periods * (1 - burnin))`, and the
rows that they write are, in order, 0, 1, ..., `rows - 1`: each row once and no other row.  A
pass that does not record leaves the state as it is, and a pass that records writes the
packing of `current_param` in its row, which is a row of `out`.  With 100 periods and a
burn-in of 1/10, 90 rows are allocated and 90 samples are recorded, in exact arithmetic and
also on the machine of the doubles, where the burn-in is the `double` nearest to 1/10. -/
theorem burn_in_boundary {K R : Type} [LinearOrderedField K] [FloorRing K]
    [machine K] [exact_arithmetic K]
    (env : Callees K R) (s : apop_update_settings K)
    (hp : 1 ≤ s.periods) (hb0 : 0 ≤ s.burnin) (_hb1 : s.burnin < 1) :
    (recorded_passes s).length = out_rows s
      ∧ out_rows s = Int.toNat ⌊(s.periods : K) * (1 - s.burnin)⌋
      ∧ (recorded_passes s).map (record_row s) = List.range (out_rows s)
      ∧ (∀ i st, records s i = false → record_sample env s i st = .ok st)
      ∧ (∀ i st cp cmore m, records s i = true → (i : Int) < s.periods →
          st.current_param = cp :: cmore → cp.WF → 0 < cp.size → st.out = some m →
          out_ok (out_rows s) cp.size (some m) →
          record_row s i < m.rows.length
            ∧ record_sample env s i st
              = .ok { st with
                  out := some { m with rows := m.rows.set (record_row s i) cp.flat } })
      ∧ out_rows burn_in_example = 90 ∧ (recorded_passes burn_in_example).length = 90
      ∧ out_rows rounded_burn_in_example = 90
      ∧ (recorded_passes rounded_burn_in_example).length = 90 := by
  have hx : 0 ≤ (s.periods : K) * s.burnin := by
    have : (0 : K) ≤ (s.periods : K) := by exact_mod_cast (by omega : (0 : Int) ≤ s.periods)
    exact mul_nonneg this hb0
  have hrows := recorded_rows s hx
  have h90 : out_rows burn_in_example = 90 := by
    simp only [out_rows, burn_in_example, to_double_exact]
    norm_num
    rfl
  refine ⟨?_, ?_, hrows, fun i st h => record_sample_skip env s i st h, ?_, h90, ?_,
    rounded_burn_in_example_rows.1, ?_⟩
  · have := congrArg List.length hrows
    simpa using this
  · simp only [out_rows, to_double_exact]
  · intro i st cp cmore m h hi hc hcp hsize hm hout
    obtain ⟨h1, -, h3⟩ := record_sample_write env s i st cp cmore m h hi hc hcp hsize hm hout
    exact ⟨h1, h3⟩
  · have := congrArg List.length
      (recorded_rows burn_in_example (by simp only [burn_in_example]; norm_num))
    rw [h90] at this
    simpa using this
  · rw [recorded_passes_length, rounded_burn_in_example_rows.2]
    rfl

/-- The boundary of C12 with 4 periods and a burn-in of 1/4: 3 samples. -/
theorem burn_in_boundary_witness :
    (recorded_passes example_settings).length = out_rows example_settings
      ∧ (recorded_passes example_settings).map (record_row example_settings)
        = List.range (out_rows example_settings) :=
  have h := burn_in_boundary example_env example_settings (by decide)
    (by simp only [example_settings]; norm_num) (by simp only [example_settings]; norm_num)
  ⟨h.1, h.2.2.1⟩

/-- The boundary of C12 is one of exact arithmetic.  On the machine of the doubles, with 10
periods and a burn-in of 0.8, `out` has one row, since `10 * (1 - 0.8)` is
1.9999999999999996 there; pass 9 records a sample and writes row `9 - 10 * 0.8`, which is
row 1: GSL refuses the row and the program stops. -/
theorem rounded_burn_in_overruns {R : Type} (env : Callees binary64 R)
    (st : chain_state binary64 R) (cp : apop_page binary64) (cmore : apop_data binary64)
    (m : gsl_matrix binary64) (hc : st.current_param = cp :: cmore) (hcp : cp.WF)
    (hsize : 0 < cp.size) (hm : st.out = some m)
    (hrows : m.rows.length = out_rows rounded_settings) :
    out_rows rounded_settings = 1
      ∧ record_sample env rounded_settings 9 st = .error .gsl_error := by
  obtain ⟨h1, h2, h3⟩ := rounded_settings_rows
  refine ⟨h1, record_sample_overrun env rounded_settings 9 st cp cmore m h2 hc hcp hsize hm ?_⟩
  rw [hrows, h1, h3]

theorem pass_current_shape {K R : Type} [LinearOrderedField K] (env : Callees K R)
    (data : apop_data K) (prior likelihood : apop_model K) (st : chain_state K R)
    (pp cp : apop_page K) (pmore : apop_data K) (hcp : cp.WF) (hshape : pp.same_shape cp) :
    (pass_current env data prior likelihood st pp cp pmore).WF
      ∧ cp.same_shape (pass_current env data prior likelihood st pp cp pmore)
      ∧ (pass_current env data prior likelihood st pp cp pmore).size = cp.size := by
  have hlenc : ((List.range pp.size).map (env.apop_draw st.draw st.rng prior).1).length
      = cp.size := by rw [← same_shape_size _ _ hshape]; simp
  unfold pass_current
  split
  · obtain ⟨h1, h2⟩ := page_of_list_shape _ cp hcp hlenc
    exact ⟨h1, same_shape_symm _ _ h2, page_of_list_size _ cp hcp hlenc⟩
  · exact ⟨hcp, ⟨rfl, rfl, rfl⟩, rfl⟩

/-- One Metropolis-Hastings step whose `ratio` is not a not-a-number: the state that it
leaves. -/
theorem mh_step_next {K R : Type} [LinearOrderedField K] (env : Callees K R)
    (data : apop_data K) (prior likelihood : apop_model K) (st : chain_state K R)
    (pp cp : apop_page K) (pmore cmore : apop_data K)
    (hp : st.parameters = pp :: pmore) (hc : st.current_param = cp :: cmore)
    (hpp : pp.WF) (hw : pp.weights = none) (hsize : 0 < pp.size) (hshape : pp.same_shape cp)
    (hnan : (pass_ratio env data prior likelihood st pp pmore).isnan = false) :
    mh_step env data prior likelihood st
      = .ok (.next { st with
          rng := if (pass_ratio env data prior likelihood st pp pmore).ge_zero then
              (env.apop_draw st.draw st.rng prior).2 else (pass_uniform env prior st).2,
          draw := (env.apop_draw st.draw st.rng prior).1,
          parameters := candidate env prior st pp :: pmore,
          current_param := pass_current env data prior likelihood st pp cp pmore :: cmore,
          cp_ll := if pass_accepts env data prior likelihood st pp pmore then
              pass_ll env data prior likelihood st pp pmore else st.cp_ll }) := by
  rw [mh_step_eq env data prior likelihood st pp cp pmore cmore hp hc hpp hw hsize hshape]
  simp only [hnan, Bool.false_and, Bool.false_eq_true, if_false, bind, Except.bind]
  obtain ⟨rng, draw, params, cur, ll, out⟩ := st
  simp only at hp hc
  subst hp hc
  by_cases hge : (pass_ratio env data prior likelihood
      ⟨rng, draw, pp :: pmore, cp :: cmore, ll, out⟩ pp pmore).ge_zero = true
  · simp [pass_accepts, pass_current, hge]
  · by_cases hlt : (env.log (pass_uniform env prior
        ⟨rng, draw, pp :: pmore, cp :: cmore, ll, out⟩).1).lt (pass_ratio env data prior likelihood
          ⟨rng, draw, pp :: pmore, cp :: cmore, ll, out⟩ pp pmore) = true
    · simp [pass_accepts, pass_current, hge, hlt]
    · simp [pass_accepts, pass_current, hge, hlt]

/-- One pass of the main loop whose `ratio` is not a not-a-number: the pass returns, the state
is again as `apop_update` sets it up, and `out` has changed in the row of the pass only. -/
theorem mcmc_pass_next {K R : Type} [LinearOrderedField K] [FloorRing K]
    [machine K] [exact_arithmetic K] (env : Callees K R)
    (data : apop_data K) (prior likelihood : apop_model K) (s : apop_update_settings K)
    (i : Nat) (st : chain_state K R) (pp cp : apop_page K) (pmore cmore : apop_data K)
    (hinv : chain_inv s pp cp pmore cmore st) (hi : (i : Int) < s.periods)
    (hnan : (pass_ratio env data prior likelihood st pp pmore).isnan = false) :
    ∃ st1, mcmc_pass env data prior likelihood s i st = .ok (.next st1)
      ∧ chain_inv s (candidate env prior st pp)
          (pass_current env data prior likelihood st pp cp pmore) pmore cmore st1
      ∧ cp.same_shape (pass_current env data prior likelihood st pp cp pmore)
      ∧ (records s i = false → st1.out = st.out)
      ∧ (records s i = true → ∃ m, st.out = some m ∧ record_row s i < m.rows.length
          ∧ st1.out = some (with_row m (record_row s i)
              (pass_current env data prior likelihood st pp cp pmore).flat)) := by
  obtain ⟨hp, hc, hpp, hw, hsize, hcp, hshape, hout⟩ := hinv
  have hstep := mh_step_next env data prior likelihood st pp cp pmore cmore hp hc hpp hw hsize
    hshape hnan
  generalize hst1 : ({ st with
      rng := if (pass_ratio env data prior likelihood st pp pmore).ge_zero then
          (env.apop_draw st.draw st.rng prior).2 else (pass_uniform env prior st).2,
      draw := (env.apop_draw st.draw st.rng prior).1,
      parameters := candidate env prior st pp :: pmore,
      current_param := pass_current env data prior likelihood st pp cp pmore :: cmore,
      cp_ll := if pass_accepts env data prior likelihood st pp pmore then
          pass_ll env data prior likelihood st pp pmore else st.cp_ll } : chain_state K R) = mid
    at hstep
  have h1 : mid.parameters = candidate env prior st pp :: pmore := by rw [← hst1]
  have h4 : mid.out = st.out := by rw [← hst1]
  have h5 : mid.current_param = pass_current env data prior likelihood st pp cp pmore :: cmore := by
    rw [← hst1]
  obtain ⟨hpcWF, hpcS, hpcsize⟩ := pass_current_shape env data prior likelihood st pp cp pmore
    hcp hshape
  have hlen : ((List.range pp.size).map (env.apop_draw st.draw st.rng prior).1).length
      = pp.size := by simp
  obtain ⟨hcandWF, hcandS⟩ := page_of_list_shape _ pp hpp hlen
  have hpcpos : 0 < (pass_current env data prior likelihood st pp cp pmore).size := by
    rw [hpcsize, ← same_shape_size _ _ hshape]; exact hsize
  have hout1 : out_ok (out_rows s) (pass_current env data prior likelihood st pp cp pmore).size
      mid.out := by rw [h4, hpcsize]; exact hout
  have hcandw : (candidate env prior st pp).weights = none := by
    simp [candidate, page_of_list, hw]
  have hcandsize : 0 < (candidate env prior st pp).size := by
    rw [candidate, page_of_list_size _ pp hpp hlen]; exact hsize
  have hcandshape : (candidate env prior st pp).same_shape
      (pass_current env data prior likelihood st pp cp pmore) :=
    same_shape_trans _ _ _ hcandS (same_shape_trans _ _ _ hshape hpcS)
  by_cases hrec : records s i = true
  · cases hm : st.out with
    | none =>
      have hge : (i : K) ≥ (s.periods : K) * s.burnin := by
        simpa [records, to_double_exact] using hrec
      have hrow := record_row_lt i s.periods s.burnin hi hge
      rw [hm] at hout
      simp only [out_ok, out_rows, to_double_exact] at hout hrow
      omega
    | some m =>
      have hm1 : mid.out = some m := by rw [h4, hm]
      rw [hm1] at hout1
      obtain ⟨hlt, -, hw1⟩ := record_sample_write env s i mid _ cmore m hrec hi h5 hpcWF hpcpos
        hm1 hout1
      have hw2 : record_sample env s i mid = .ok { mid with out := some (with_row m
          (record_row s i) (pass_current env data prior likelihood st pp cp pmore).flat) } := hw1
      refine ⟨{ mid with out := some (with_row m
          (record_row s i) (pass_current env data prior likelihood st pp cp pmore).flat) },
        ?_, ⟨h1, h5, hcandWF, hcandw, hcandsize, hpcWF, hcandshape, ?_⟩, hpcS,
        fun h => ?_, fun _ => ⟨m, rfl, hlt, ?_⟩⟩
      · unfold mcmc_pass
        simp only [hstep, hw2, bind, Except.bind, pure, Except.pure]
      · obtain ⟨a, b, c⟩ := hout1
        refine ⟨by simpa [gsl_matrix.size1, with_row] using a, b, ?_⟩
        intro r hr
        rcases List.mem_or_eq_of_mem_set hr with h | h
        · exact c r h
        · rw [h, apop_page.flat_length _ hpcWF]
      · rw [h] at hrec
        exact absurd hrec (by decide)
      · rfl
  · have hrec2 : records s i = false := by simpa using hrec
    have hskip := record_sample_skip env s i mid hrec2
    refine ⟨mid, ?_, ⟨h1, h5, hcandWF, hcandw, hcandsize, hpcWF, hcandshape, hout1⟩, hpcS,
      fun _ => h4, fun h => absurd h hrec⟩
    unfold mcmc_pass
    simp [hstep, hskip, bind, Except.bind, pure, Except.pure]

theorem Dbl.ge_zero_of_isnan {K : Type} [LinearOrderedField K] (x : Dbl K)
    (h : x.isnan = true) : x.ge_zero = false := by
  cases x <;> simp_all [Dbl.ge_zero, Dbl.isnan]

theorem Dbl.lt_of_isnan {K : Type} [LinearOrderedField K] (y x : Dbl K)
    (h : x.isnan = true) : y.lt x = false := by
  cases x <;> cases y <;> simp_all [Dbl.lt, Dbl.isnan]

theorem same_shape_vector {α : Type} (p q : apop_page α) (h : p.same_shape q)
    (hv : p.vector ≠ none) : q.vector ≠ none := by
  have h1 := h.1
  cases hq : q.vector with
  | some w => simp
  | none =>
    rw [hq] at h1
    cases hp : p.vector with
    | none => exact absurd hp hv
    | some v => rw [hp] at h1; simp at h1

/-- A pass of the main loop that goes on to the next one leaves a state that is again as
`apop_update` sets it up, with a `current_param` of the same shape. -/
theorem mcmc_pass_inv {K R : Type} [LinearOrderedField K] [FloorRing K]
    [machine K] [exact_arithmetic K] (env : Callees K R)
    (data : apop_data K) (prior likelihood : apop_model K) (s : apop_update_settings K)
    (i : Nat) (st st1 : chain_state K R) (pp cp : apop_page K) (pmore cmore : apop_data K)
    (hinv : chain_inv s pp cp pmore cmore st) (hi : (i : Int) < s.periods)
    (h : mcmc_pass env data prior likelihood s i st = .ok (.next st1)) :
    ∃ pp1 cp1, chain_inv s pp1 cp1 pmore cmore st1 ∧ cp.same_shape cp1 := by
  by_cases hnan : (pass_ratio env data prior likelihood st pp pmore).isnan = true
  · obtain ⟨hp, hc, hpp, hw, hsize, hcp, hshape, hout⟩ := hinv
    have hlen : ((List.range pp.size).map (env.apop_draw st.draw st.rng prior).1).length
        = pp.size := by simp
    obtain ⟨hcandWF, hcandS⟩ := page_of_list_shape _ pp hpp hlen
    have hstep := mh_step_eq env data prior likelihood st pp cp pmore cmore hp hc hpp hw hsize
      hshape
    simp only [hnan, if_true, Bool.true_and, Dbl.ge_zero_of_isnan _ hnan,
      Dbl.lt_of_isnan _ _ hnan, Bool.false_eq_true, if_false] at hstep
    cases hrep : report_nan (cp :: cmore) (candidate env prior st pp :: pmore) with
    | error e =>
      rw [hrep] at hstep
      unfold mcmc_pass at h
      simp [hstep, bind, Except.bind] at h
    | ok u =>
      rw [hrep] at hstep
      cases hret : env.apop_assert_returns with
      | true =>
        rw [hret] at hstep
        unfold mcmc_pass at h
        simp [hstep, bind, Except.bind, pure, Except.pure] at h
      | false =>
        rw [hret] at hstep
        simp only [bind, Except.bind, Bool.false_eq_true, if_false] at hstep
        generalize hmid : ({ st with
            rng := (pass_uniform env prior st).2,
            draw := (env.apop_draw st.draw st.rng prior).1,
            parameters := candidate env prior st pp :: pmore } : chain_state K R) = mid
          at hstep
        have h1 : mid.parameters = candidate env prior st pp :: pmore := by rw [← hmid]
        have h4 : mid.out = st.out := by rw [← hmid]
        have h5 : mid.current_param = cp :: cmore := by rw [← hmid]; exact hc
        have hcpos : 0 < cp.size := by rw [← same_shape_size _ _ hshape]; exact hsize
        obtain ⟨out, hrec, hout2⟩ := record_sample_ok env s i mid cp cmore h5 hcp hcpos
          (by rw [h4]; exact hout) hi
        unfold mcmc_pass at h
        simp only [hstep, hrec, bind, Except.bind, pure, Except.pure, Except.ok.injEq,
          pass_result.next.injEq] at h
        subst h
        refine ⟨candidate env prior st pp, cp, ⟨h1, h5, hcandWF, ?_, ?_, hcp, ?_, hout2⟩,
          ⟨rfl, rfl, rfl⟩⟩
        · simp [candidate, page_of_list, hw]
        · rw [candidate, page_of_list_size _ pp hpp hlen]; exact hsize
        · exact same_shape_trans _ _ _ hcandS hshape
  · have hnan2 : (pass_ratio env data prior likelihood st pp pmore).isnan = false := by
      simpa using hnan
    obtain ⟨st2, hpass, hinv2, hshape2, -, -⟩ := mcmc_pass_next env data prior likelihood s i st
      pp cp pmore cmore hinv hi hnan2
    rw [hpass] at h
    simp only [Except.ok.injEq, pass_result.next.injEq] at h
    subst h
    exact ⟨_, _, hinv2, hshape2⟩

/-- The passes of the main loop that go on leave a state that is again as `apop_update`
sets it up. -/
theorem mcmc_loop_inv {K R : Type} [LinearOrderedField K] [FloorRing K]
    [machine K] [exact_arithmetic K] (env : Callees K R)
    (data : apop_data K) (prior likelihood : apop_model K) (s : apop_update_settings K)
    (pmore cmore : apop_data K) (n : Nat) :
    ∀ (i : Nat) (st st1 : chain_state K R) (pp cp : apop_page K),
      chain_inv s pp cp pmore cmore st → ((i + n : Nat) : Int) ≤ s.periods →
      mcmc_loop env data prior likelihood s i n st = .ok (.next st1) →
      ∃ pp1 cp1, chain_inv s pp1 cp1 pmore cmore st1 ∧ cp.same_shape cp1 := by
  induction n with
  | zero =>
    intro i st st1 pp cp hinv _ h
    simp only [mcmc_loop, Except.ok.injEq, pass_result.next.injEq] at h
    subst h
    exact ⟨pp, cp, hinv, ⟨rfl, rfl, rfl⟩⟩
  | succ n ih =>
    intro i st st1 pp cp hinv hi h
    rw [mcmc_loop] at h
    cases hpass : mcmc_pass env data prior likelihood s i st with
    | error e => simp [hpass, bind, Except.bind] at h
    | ok r =>
      cases r with
      | returned_null st2 => simp [hpass, bind, Except.bind, pure, Except.pure] at h
      | next st2 =>
        simp only [hpass, bind, Except.bind] at h
        obtain ⟨pp2, cp2, hinv2, hs2⟩ := mcmc_pass_inv env data prior likelihood s i st st2 pp cp
          pmore cmore hinv (by push_cast at hi ⊢; omega) hpass
        obtain ⟨pp3, cp3, hinv3, hs3⟩ := ih (i + 1) st2 st1 pp2 cp2 hinv2
          (by push_cast at hi ⊢; omega) h
        exact ⟨pp3, cp3, hinv3, same_shape_trans _ _ _ hs2 hs3⟩

/-- The first element of the vector of a candidate is the first number of the draw. -/
theorem candidate_first {K R : Type} (env : Callees K R) (prior : apop_model K)
    (st : chain_state K R) (pp : apop_page K) (pmore : apop_data K) (hpp : pp.WF)
    (hv : pp.vector ≠ none) :
    first_of_vector (candidate env prior st pp :: pmore)
      = .ok ((env.apop_draw st.draw st.rng prior).1 0) := by
  cases hvec : pp.vector with
  | none => exact absurd hvec hv
  | some v =>
    have hpos := hpp.1 v hvec
    have hsize : 0 < pp.size := by
      simp only [apop_page.size, hvec, vector_size]
      omega
    simp [first_of_vector, candidate, page_of_list, hvec, vector_data, List.getElem?_take,
      hpos, hsize]

theorem unpack_vector_bound {α : Type} (inp : List α) (vector : Option (List α)) :
    unpack_vector inp vector = .error .gsl_error
      ∨ ∃ v, unpack_vector inp vector = .ok (v, vector_size vector)
        ∧ vector_size vector ≤ inp.length := by
  cases vector with
  | none => exact Or.inr ⟨none, rfl, Nat.zero_le _⟩
  | some v =>
    unfold unpack_vector gsl_vector_subvector gsl_vector_memcpy
    by_cases h0 : v.length = 0
    · left; simp [h0, bind, Except.bind]
    · by_cases h1 : v.length - 1 ≥ inp.length
      · left; simp [h0, h1, bind, Except.bind]
      · right
        have hlen : (inp.take v.length).length = v.length := by
          simp only [List.length_take]; omega
        refine ⟨some (inp.take v.length), ?_, by simp only [vector_size]; omega⟩
        simp [h0, h1, hlen, bind, Except.bind, pure, Except.pure, vector_size]

theorem unpack_weights_bound {α : Type} (inp : List α) (weights : Option (List α))
    (offset : Nat) (hoff : offset ≤ inp.length) :
    unpack_weights inp weights offset = .error .gsl_error
      ∨ ∃ w, unpack_weights inp weights offset = .ok (w, offset + vector_size weights)
        ∧ offset + vector_size weights ≤ inp.length := by
  cases weights with
  | none => exact Or.inr ⟨none, rfl, by simpa [vector_size] using hoff⟩
  | some w =>
    unfold unpack_weights gsl_vector_subvector gsl_vector_memcpy
    by_cases h0 : w.length = 0
    · left; simp [h0, bind, Except.bind]
    · by_cases h1 : offset + (w.length - 1) ≥ inp.length
      · left; simp [h0, h1, bind, Except.bind]
      · right
        have hlen : ((inp.drop offset).take w.length).length = w.length := by
          simp only [List.length_take, List.length_drop]; omega
        refine ⟨some ((inp.drop offset).take w.length), ?_, by simp only [vector_size]; omega⟩
        simp [h0, h1, hlen, bind, Except.bind, pure, Except.pure, vector_size]

theorem unpack_rows_bound {α : Type} (inp : List α) (size2 : Nat) (rows : List (List α)) :
    ∀ offset, offset ≤ inp.length →
      unpack_rows inp size2 rows offset = .error .gsl_error
        ∨ ∃ r, unpack_rows inp size2 rows offset = .ok (r, offset + rows.length * size2)
          ∧ offset + rows.length * size2 ≤ inp.length := by
  induction rows with
  | nil => intro offset hoff; exact Or.inr ⟨[], by simp [unpack_rows], by simpa using hoff⟩
  | cons row rest ih =>
    intro offset hoff
    rw [unpack_rows]
    unfold gsl_vector_subvector gsl_vector_memcpy
    by_cases h0 : size2 = 0
    · left; simp [h0, bind, Except.bind]
    · by_cases h1 : offset + (size2 - 1) ≥ inp.length
      · left; simp [h0, h1, bind, Except.bind]
      · have hlen : ((inp.drop offset).take size2).length = size2 := by
          simp only [List.length_take, List.length_drop]; omega
        by_cases h2 : size2 = row.length
        · rcases ih (offset + size2) (by omega) with h | ⟨r, hr, hle⟩
          · left; simp [h0, h1, hlen, ← h2, h, bind, Except.bind]
          · right
            have harith : offset + (rest.length + 1) * size2
                = offset + size2 + rest.length * size2 := by ring
            refine ⟨(inp.drop offset).take size2 :: r, ?_, by
              simp only [List.length_cons]; omega⟩
            simp [h0, h1, hlen, ← h2, hr, harith, bind, Except.bind, pure, Except.pure]
        · left; simp [h0, h1, hlen, h2, bind, Except.bind]

theorem unpack_matrix_bound {α : Type} (inp : List α) (matrix : Option (gsl_matrix α))
    (offset : Nat) (hoff : offset ≤ inp.length) :
    unpack_matrix inp matrix offset = .error .gsl_error
      ∨ ∃ m, unpack_matrix inp matrix offset = .ok (m, offset + matrix_size matrix)
        ∧ offset + matrix_size matrix ≤ inp.length := by
  cases matrix with
  | none => exact Or.inr ⟨none, rfl, by simpa [matrix_size] using hoff⟩
  | some m =>
    rcases unpack_rows_bound inp m.size2 m.rows offset hoff with h | ⟨r, hr, hle⟩
    · left; simp [unpack_matrix, h, bind, Except.bind]
    · right
      exact ⟨some { m with rows := r }, by
        simp [unpack_matrix, hr, bind, Except.bind, pure, Except.pure, matrix_size,
          gsl_matrix.size1], by simpa [matrix_size, gsl_matrix.size1] using hle⟩

/-- The part of `apop_data_unpack` that fills one page either stops in GSL or reads as many
elements as the page has, which the buffer then holds. -/
theorem unpack_page_bound {α : Type} (inp : List α) (d : apop_page α) :
    unpack_page inp d = .error .gsl_error
      ∨ ∃ d2, unpack_page inp d = .ok (d2, d.size) ∧ d.size ≤ inp.length := by
  unfold unpack_page
  rcases unpack_vector_bound inp d.vector with h | ⟨v, hv, hvle⟩
  · left; simp [h, bind, Except.bind]
  rcases unpack_matrix_bound inp d.matrix (vector_size d.vector) hvle with h | ⟨m, hm, hmle⟩
  · left; simp [hv, h, bind, Except.bind]
  rcases unpack_weights_bound inp d.weights (vector_size d.vector + matrix_size d.matrix) hmle
    with h | ⟨w, hw, hwle⟩
  · left; simp [hv, hm, h, bind, Except.bind]
  right
  exact ⟨{ d with vector := v, matrix := m, weights := w },
    by simp [hv, hm, hw, bind, Except.bind, pure, Except.pure, apop_page.size], hwle⟩

/-- Claim C22 (buffer too short).  Whenever the buffer holds fewer elements than the
`V + R * C + W` of the page to fill, `apop_data_unpack` does not return: the call of
`gsl_vector_subvector` for the first part that the buffer does not cover raises the GSL error
of a view that extends past the end of the vector. -/
theorem apop_data_unpack_short_buffer {α : Type} (inp : List α) (d : apop_page α)
    (more : apop_data α) (use_info_pages : Char) (h : inp.length < d.size) :
    apop_data_unpack inp (d :: more) use_info_pages = .error .gsl_error := by
  unfold apop_data_unpack
  rcases unpack_page_bound inp d with he | ⟨d2, -, hle⟩
  · simp [he, bind, Except.bind]
  · omega

/-- The failure of C22 on a buffer of 3 elements and a page of 6. -/
theorem apop_data_unpack_short_buffer_witness :
    apop_data_unpack [1, 2, 3] [example_page] 'n' = .error .gsl_error :=
  apop_data_unpack_short_buffer [1, 2, 3] example_page [] 'n' (by decide)

/-- Claim C23 (info pages with `use_info_pages = 'y'`), what the code does.  The inner calls
of `apop_data_pack` and of `apop_data_unpack` are made without `use_info_pages`, hence with
its default `'n'`.  On the chain of the pages `a = (1, 2)`, `<b> = (3)` and `<c> = (4)`, with
`all_pages = 'y'` and `use_info_pages = 'y'`, `apop_data_pack` returns a vector of 4 elements
in which page `<c>` was never written, and `apop_data_unpack` of `(1, 2, 3, 4)` runs off the
end of the chain while it passes over `<c>`.  With one more page `d = (5)` after `<c>`,
`apop_data_pack` stops on the `apop_assert_s` of the inner call for `d`.  An info page right
after the first page is packed: the chain of `a` and `<b>` gives `(1, 2, 3)`. -/
theorem apop_data_pack_deep_info_page :
    apop_data_pack (0 : ℚ) deep_info_chain none 'y' 'y' = .ok (some [1, 2, 3, 0])
      ∧ apop_data_unpack [1, 2, 3, 4] deep_info_chain 'y' = .error .null_deref
      ∧ apop_data_pack (0 : ℚ) deep_info_chain_data none 'y' 'y' = .error .assert_failed
      ∧ apop_data_pack (0 : ℚ) (deep_info_chain.take 2) none 'y' 'y' = .ok (some [1, 2, 3]) :=
  ⟨rfl, rfl, rfl, rfl⟩

/-! ## The fast path and the frame of `check_conjugacy` (C24 and C25) -/

theorem bind_eq_ok {β γ : Type} (x : Except Fault β) (f : β → Except Fault γ) (r : γ)
    (h : (x >>= f) = .ok r) : ∃ b, x = .ok b ∧ f b = .ok r := by
  cases x with
  | error e => simp [bind, Except.bind] at h
  | ok b => exact ⟨b, rfl, by simpa [bind, Except.bind] using h⟩

theorem parameters_vector_ok {K : Type} (m : apop_model K) (v : List K)
    (h : parameters_vector m = .ok v) :
    ∃ pg more, m.parameters = pg :: more ∧ pg.vector = some v := by
  unfold parameters_vector at h
  split at h
  · simp at h
  · rename_i pg more hp
    split at h
    · simp at h
    · rename_i w hw
      simp only [Except.ok.injEq] at h
      subst h
      exact ⟨pg, more, hp, hw⟩

theorem apop_vector_increment_ok {K : Type} [Add K] (v : List K) (i : Nat) (a : K)
    (w : List K) (h : apop_vector_increment v i a = .ok w) : ∃ x, w = v.set i x := by
  unfold apop_vector_increment at h
  split at h
  · rename_i x _
    simp only [Except.ok.injEq] at h
    exact ⟨_, h.symm⟩
  · simp at h

theorem gsl_vector_set_ok {K : Type} (v : List K) (i : Nat) (x : K) (w : List K)
    (h : gsl_vector_set v i x = .ok w) : w = v.set i x := by
  unfold gsl_vector_set at h
  split at h
  · simp only [Except.ok.injEq] at h
    exact h.symm
  · simp at h

theorem set_parameters_vector_eq {K : Type} (m : apop_model K) (pg : apop_page K)
    (more : apop_data K) (v : List K) (h : m.parameters = pg :: more) :
    set_parameters_vector m v = { m with parameters := { pg with vector := some v } :: more } := by
  simp [set_parameters_vector, h]

theorem set_first_two {K : Type} (v : List K) (a b : K) :
    ((v.set 0 a).set 1 b).length = v.length
      ∧ ∀ i, 2 ≤ i → ((v.set 0 a).set 1 b)[i]? = v[i]? := by
  refine ⟨by simp, fun i hi => ?_⟩
  rw [List.getElem?_set_ne (by omega), List.getElem?_set_ne (by omega)]

/-- On each of the four pairs `check_conjugacy` does not return `NULL`. -/
theorem check_conjugacy_pair {K : Type} [Field K] [DecidableEq K]
    (mean_and_var : gsl_matrix K → K × K) (pow : K → K → K) (data : apop_data K)
    (prior likelihood : apop_model K) (hpair : conjugate_pair prior likelihood) :
    check_conjugacy mean_and_var pow data prior likelihood ≠ .ok none := by
  have hpure : ∀ m : apop_model K, (pure (some m) : Except Fault (Option (apop_model K)))
      ≠ .ok none := by
    intro m h
    simp [pure, Except.pure] at h
  have hstep : ∀ (β : Type) (x : Except Fault β) (f : β → Except Fault (Option (apop_model K))),
      (∀ b, f b ≠ .ok none) → (x >>= f) ≠ .ok none := fun β x f h => bind_ne_ok_none x f h
  unfold check_conjugacy
  by_cases h1 : prior.name = "Gamma distribution" ∧ likelihood.name = "Exponential distribution"
  · rw [if_pos h1]
    exact hstep _ _ _ fun _ => hstep _ _ _ fun _ => hstep _ _ _ fun _ => hstep _ _ _ fun _ =>
      hstep _ _ _ fun _ => hpure _
  rw [if_neg h1]
  by_cases h2 : prior.name = "Beta distribution" ∧ likelihood.name = "Binomial distribution"
  · rw [if_pos h2]
    by_cases hd : data = [] ∧ likelihood.parameters ≠ []
    · simp only [if_pos hd]
      exact hstep _ _ _ fun _ => hstep _ _ _ fun _ => hstep _ _ _ fun _ => hstep _ _ _ fun _ =>
        hstep _ _ _ fun _ => hstep _ _ _ fun _ => hpure _
    · simp only [if_neg hd]
      exact hstep _ _ _ fun _ => hstep _ _ _ fun _ => hstep _ _ _ fun _ => hstep _ _ _ fun _ =>
        hpure _
  rw [if_neg h2]
  by_cases h3 : prior.name = "Beta distribution" ∧ likelihood.name = "Bernoulli distribution"
  · rw [if_pos h3]
    exact hstep _ _ _ fun _ => hstep _ _ _ fun _ => hstep _ _ _ fun _ => hstep _ _ _ fun _ =>
      hpure _
  rw [if_neg h3]
  by_cases h4 : prior.name = "Normal distribution" ∧ likelihood.name = "Normal distribution"
  · rw [if_pos h4]
    refine hstep _ _ _ fun _ => hstep _ _ _ fun _ => hstep _ _ _ fun _ => hstep _ _ _ ?_
    rintro ⟨_, _, _⟩
    exact hstep _ _ _ fun _ => hstep _ _ _ fun _ => hstep _ _ _ fun _ => hpure _
  exact absurd hpair (by unfold conjugate_pair; tauto)

/-- On every other pair `check_conjugacy` returns `NULL`. -/
theorem check_conjugacy_no_pair {K : Type} [Field K] [DecidableEq K]
    (mean_and_var : gsl_matrix K → K × K) (pow : K → K → K) (data : apop_data K)
    (prior likelihood : apop_model K) (hpair : ¬ conjugate_pair prior likelihood) :
    check_conjugacy mean_and_var pow data prior likelihood = .ok none := by
  unfold conjugate_pair at hpair
  push_neg at hpair
  obtain ⟨h1, h2, h3, h4⟩ := hpair
  unfold check_conjugacy
  rw [if_neg (by tauto), if_neg (by tauto), if_neg (by tauto), if_neg (by tauto)]
  rfl

/-- Claim C24 (the fast path).  When the names of the prior and of the likelihood are one of
the four pairs, `check_conjugacy` does not return `NULL` and `apop_update` returns what
`check_conjugacy` returns, at once: the prior is as it was (no settings group is added), the
parameters of the likelihood and the generator are as they were, and neither the method
`draw` nor the generator is used, the result being the same whatever they are. -/
theorem apop_update_fast_path {K R : Type} [LinearOrderedField K] [FloorRing K]
    [machine K]
    (env : Callees K R) (data : apop_data K) (prior likelihood : apop_model K) (rng : R)
    (hpair : conjugate_pair prior likelihood) :
    check_conjugacy env.apop_matrix_mean_and_var env.pow data prior likelihood ≠ .ok none
      ∧ (∀ m, check_conjugacy env.apop_matrix_mean_and_var env.pow data prior likelihood
            = .ok (some m) →
          apop_update env data prior likelihood rng
            = .ok { model := some m, prior := prior, parameters := likelihood.parameters,
                    rng := rng })
      ∧ (∀ e, check_conjugacy env.apop_matrix_mean_and_var env.pow data prior likelihood
            = .error e →
          apop_update env data prior likelihood rng = .error e)
      ∧ (∀ env2 : Callees K R,
          env2.apop_matrix_mean_and_var = env.apop_matrix_mean_and_var → env2.pow = env.pow →
          apop_update env2 data prior likelihood rng
            = apop_update env data prior likelihood rng) := by
  have hne := check_conjugacy_pair env.apop_matrix_mean_and_var env.pow data prior likelihood
    hpair
  refine ⟨hne, fun m hm => ?_, fun e he => ?_, fun env2 h1 h2 => ?_⟩
  · unfold apop_update
    simp only [hm, bind, Except.bind, pure, Except.pure]
  · unfold apop_update
    simp only [he, bind, Except.bind]
  · cases hc : check_conjugacy env.apop_matrix_mean_and_var env.pow data prior likelihood with
    | error e =>
      unfold apop_update
      simp only [h1, h2, hc, bind, Except.bind]
    | ok r =>
      cases r with
      | none => exact absurd hc hne
      | some m =>
        unfold apop_update
        simp only [h1, h2, hc, bind, Except.bind, pure, Except.pure]

/-- The fast path of C24 on a Beta prior and a Binomial likelihood without data. -/
theorem apop_update_fast_path_witness :
    apop_update example_env [] (vector_model "Beta distribution" [2, 3])
        (vector_model "Binomial distribution" [4, 1 / 2]) 7
      = .ok { model := some { vector_model "Beta distribution" [2, 3] with
                parameters :=
                  [{ (⟨some [2, 3], none, none, ""⟩ : apop_page ℚ) with
                      vector := some [2 + 4 * (1 / 2), 3 + 4 * (1 - 1 / 2)] }] },
              prior := vector_model "Beta distribution" [2, 3],
              parameters := (vector_model "Binomial distribution" [4, 1 / 2]).parameters,
              rng := 7 } :=
  (apop_update_fast_path example_env [] (vector_model "Beta distribution" [2, 3])
    (vector_model "Binomial distribution" [4, 1 / 2]) 7 (Or.inr (Or.inl ⟨rfl, rfl⟩))).2.1 _
    (by
      simp [check_conjugacy, vector_model, parameters_vector, vector_data,
        apop_vector_increment, set_parameters_vector, apop_model_copy, bind, Except.bind, pure,
        Except.pure, example_env])

/-- A model that `check_conjugacy` returns is the prior with new values for elements 0 and 1
of the vector of its parameters. -/
theorem check_conjugacy_sets_two {K : Type} [Field K] [DecidableEq K]
    (mean_and_var : gsl_matrix K → K × K) (pow : K → K → K) (data : apop_data K)
    (prior likelihood m : apop_model K)
    (h : check_conjugacy mean_and_var pow data prior likelihood = .ok (some m)) :
    ∃ pg more v a b, prior.parameters = pg :: more ∧ pg.vector = some v
      ∧ m = { prior with
          parameters := { pg with vector := some ((v.set 0 a).set 1 b) } :: more } := by
  have hfin : ∀ (v v2 : List K) (a b : K), parameters_vector prior = .ok v →
      v2 = (v.set 0 a).set 1 b →
      (pure (some (set_parameters_vector (apop_model_copy prior) v2)) :
        Except Fault (Option (apop_model K))) = .ok (some m) →
      ∃ pg more v a b, prior.parameters = pg :: more ∧ pg.vector = some v
        ∧ m = { prior with
            parameters := { pg with vector := some ((v.set 0 a).set 1 b) } :: more } := by
    intro v v2 a b hv hv2 hm
    obtain ⟨pg, more, hp, hpv⟩ := parameters_vector_ok prior v hv
    simp only [pure, Except.pure, Except.ok.injEq, Option.some.injEq, apop_model_copy] at hm
    rw [set_parameters_vector_eq prior pg more v2 hp, hv2] at hm
    exact ⟨pg, more, v, a, b, hp, hpv, hm.symm⟩
  unfold check_conjugacy at h
  by_cases h1 : prior.name = "Gamma distribution" ∧ likelihood.name = "Exponential distribution"
  · rw [if_pos h1] at h
    obtain ⟨dm, -, h⟩ := bind_eq_ok _ _ _ h
    obtain ⟨v, hv, h⟩ := bind_eq_ok _ _ _ h
    obtain ⟨v1, hv1, h⟩ := bind_eq_ok _ _ _ h
    obtain ⟨x, -, h⟩ := bind_eq_ok _ _ _ h
    obtain ⟨v2, hv2, h⟩ := bind_eq_ok _ _ _ h
    obtain ⟨a, ha⟩ := apop_vector_increment_ok _ _ _ _ hv1
    have hb := gsl_vector_set_ok _ _ _ _ hv2
    exact hfin v v2 a _ hv (by rw [hb, ha]) h
  rw [if_neg h1] at h
  by_cases h2 : prior.name = "Beta distribution" ∧ likelihood.name = "Binomial distribution"
  · rw [if_pos h2] at h
    by_cases hd : data = [] ∧ likelihood.parameters ≠ []
    · simp only [if_pos hd] at h
      obtain ⟨l, -, h⟩ := bind_eq_ok _ _ _ h
      obtain ⟨n, -, h⟩ := bind_eq_ok _ _ _ h
      obtain ⟨p, -, h⟩ := bind_eq_ok _ _ _ h
      obtain ⟨v, hv, h⟩ := bind_eq_ok _ _ _ h
      obtain ⟨v1, hv1, h⟩ := bind_eq_ok _ _ _ h
      obtain ⟨v2, hv2, h⟩ := bind_eq_ok _ _ _ h
      obtain ⟨a, ha⟩ := apop_vector_increment_ok _ _ _ _ hv1
      obtain ⟨b, hb⟩ := apop_vector_increment_ok _ _ _ _ hv2
      exact hfin v v2 a b hv (by rw [hb, ha]) h
    · simp only [if_neg hd] at h
      obtain ⟨dm, -, h⟩ := bind_eq_ok _ _ _ h
      obtain ⟨v, hv, h⟩ := bind_eq_ok _ _ _ h
      obtain ⟨v1, hv1, h⟩ := bind_eq_ok _ _ _ h
      obtain ⟨v2, hv2, h⟩ := bind_eq_ok _ _ _ h
      obtain ⟨a, ha⟩ := apop_vector_increment_ok _ _ _ _ hv1
      obtain ⟨b, hb⟩ := apop_vector_increment_ok _ _ _ _ hv2
      exact hfin v v2 a b hv (by rw [hb, ha]) h
  rw [if_neg h2] at h
  by_cases h3 : prior.name = "Beta distribution" ∧ likelihood.name = "Bernoulli distribution"
  · rw [if_pos h3] at h
    obtain ⟨dm, -, h⟩ := bind_eq_ok _ _ _ h
    obtain ⟨v, hv, h⟩ := bind_eq_ok _ _ _ h
    obtain ⟨v1, hv1, h⟩ := bind_eq_ok _ _ _ h
    obtain ⟨v2, hv2, h⟩ := bind_eq_ok _ _ _ h
    obtain ⟨a, ha⟩ := apop_vector_increment_ok _ _ _ _ hv1
    obtain ⟨b, hb⟩ := apop_vector_increment_ok _ _ _ _ hv2
    exact hfin v v2 a b hv (by rw [hb, ha]) h
  rw [if_neg h3] at h
  by_cases h4 : prior.name = "Normal distribution" ∧ likelihood.name = "Normal distribution"
  · rw [if_pos h4] at h
    obtain ⟨pv, -, h⟩ := bind_eq_ok _ _ _ h
    obtain ⟨mu, -, h⟩ := bind_eq_ok _ _ _ h
    obtain ⟨sd, -, h⟩ := bind_eq_ok _ _ _ h
    obtain ⟨⟨ml, vl, n⟩, -, h⟩ := bind_eq_ok _ _ _ h
    obtain ⟨v, hv, h⟩ := bind_eq_ok _ _ _ h
    obtain ⟨v1, hv1, h⟩ := bind_eq_ok _ _ _ h
    obtain ⟨v2, hv2, h⟩ := bind_eq_ok _ _ _ h
    have ha := gsl_vector_set_ok _ _ _ _ hv1
    have hb := gsl_vector_set_ok _ _ _ _ hv2
    exact hfin v v2 _ _ hv (by rw [hb, ha]) h
  rw [if_neg h4] at h
  simp [pure, Except.pure] at h

/-- Claim C25 (what `check_conjugacy` changes).  A model that `check_conjugacy` returns, which
it does on the four pairs only, is a copy of the prior in which elements 0 and 1 of the vector
of the parameters have new values: it has the name of the prior, its settings and its other
fields, the vector has the same length and the same elements from index 2 on, and the rest of
the parameters is as in the prior.  The prior itself is an argument that is only read. -/
theorem check_conjugacy_frame {K : Type} [Field K] [DecidableEq K]
    (mean_and_var : gsl_matrix K → K × K) (pow : K → K → K) (data : apop_data K)
    (prior likelihood m : apop_model K)
    (h : check_conjugacy mean_and_var pow data prior likelihood = .ok (some m)) :
    conjugate_pair prior likelihood ∧ m.name = prior.name
      ∧ m.update_settings = prior.update_settings
      ∧ ∃ pg more v w, prior.parameters = pg :: more ∧ pg.vector = some v
        ∧ m = { prior with parameters := { pg with vector := some w } :: more }
        ∧ w.length = v.length ∧ ∀ i, 2 ≤ i → w[i]? = v[i]? := by
  obtain ⟨pg, more, v, a, b, hp, hv, hm⟩ :=
    check_conjugacy_sets_two mean_and_var pow data prior likelihood m h
  refine ⟨?_, by rw [hm], by rw [hm], pg, more, v, _, hp, hv, hm, (set_first_two v a b).1,
    (set_first_two v a b).2⟩
  by_contra hno
  rw [check_conjugacy_no_pair mean_and_var pow data prior likelihood hno] at h
  simp at h

/-- The frame of C25 on a Gamma prior with three parameters and a 2 x 2 data matrix. -/
theorem check_conjugacy_frame_witness :
    ∃ m w, check_conjugacy (fun _ => ((0 : ℚ), (0 : ℚ))) (fun _ _ => (0 : ℚ))
        [⟨none, some ⟨2, [[1, 2], [3, 4]]⟩, none, ""⟩]
        (vector_model "Gamma distribution" [2, 1, 7])
        (vector_model "Exponential distribution" [1]) = .ok (some m)
      ∧ m.name = "Gamma distribution"
      ∧ m = { vector_model "Gamma distribution" [2, 1, 7] with
          parameters := [{ (⟨some [2, 1, 7], none, none, ""⟩ : apop_page ℚ) with vector := some w }] }
      ∧ w.length = 3 ∧ w[2]? = some 7 := by
  have hc : check_conjugacy (fun _ => ((0 : ℚ), (0 : ℚ))) (fun _ _ => (0 : ℚ))
      [⟨none, some ⟨2, [[1, 2], [3, 4]]⟩, none, ""⟩]
      (vector_model "Gamma distribution" [2, 1, 7])
      (vector_model "Exponential distribution" [1])
        = .ok (some { vector_model "Gamma distribution" [2, 1, 7] with
            parameters :=
              [{ (⟨some [2, 1, 7], none, none, ""⟩ : apop_page ℚ) with
                  vector := some [2 + ((2 * 2 : Nat) : ℚ),
                    1 / (1 / 1 + (1 + (2 + (3 + (4 + 0))))), 7] }] }) := by
    simp [check_conjugacy, vector_model, parameters_vector, data_matrix,
      gsl_vector_get, gsl_vector_set, apop_vector_increment, set_parameters_vector,
      apop_model_copy, bind, Except.bind, pure, Except.pure, apop_matrix_sum, gsl_matrix.size1]
    ring
  obtain ⟨-, hname, -, pg, more, v, w, hp, hv, hm, hlen, hrest⟩ :=
    check_conjugacy_frame _ _ _ _ _ _ hc
  simp only [vector_model, List.cons.injEq] at hp
  obtain ⟨hpg, hmore⟩ := hp
  subst hpg hmore
  simp only [Option.some.injEq] at hv
  subst hv
  refine ⟨_, w, hc, hname, hm, hlen, ?_⟩
  rw [hrest 2 (le_refl 2)]
  rfl

/-! ## The comment and the table of `apop_update.c` (C29 and C30) -/

/-- The Normal/Normal rule of `check_conjugacy`, with `pow` the power of the reals. -/
theorem check_conjugacy_normal_eq (mean_and_var : gsl_matrix ℝ → ℝ × ℝ)
    (prior likelihood : apop_model ℝ) (data : apop_data ℝ)
    (pg : apop_page ℝ) (more : apop_data ℝ) (m0 s0 : ℝ) (tl : List ℝ) (n : Nat) (mu v : ℝ)
    (hprior : prior.name = "Normal distribution")
    (hlik : likelihood.name = "Normal distribution")
    (hpp : prior.parameters = pg :: more) (hpv : pg.vector = some (m0 :: s0 :: tl))
    (hsrc : (data = [] ∧ n = 1 ∧ ∃ lpg lmore sd ltl, likelihood.parameters = lpg :: lmore ∧
          lpg.vector = some (mu :: sd :: ltl) ∧ v = sd ^ 2)
        ∨ (∃ dpg dmore D, data = dpg :: dmore ∧ dpg.matrix = some D ∧
          n = D.size1 * D.size2 ∧ mean_and_var D = (mu, v))) :
    check_conjugacy mean_and_var (fun x y => x ^ y) data prior likelihood
      = .ok (some { prior with
          parameters :=
            { pg with
              vector := some (((m0 / s0 ^ 2 + n * mu / v) / (1 / s0 ^ 2 + n / v))
                :: ((1 / s0 ^ 2 + n / v) ^ (-(1 / 2) : ℝ)) :: tl) } :: more }) := by
  rcases hsrc with ⟨hd, hn, lpg, lmore, sd, ltl, hlp, hlv, hv⟩ |
    ⟨dpg, dmore, D, hd, hD, hn, hmv⟩
  · subst hd hn hv
    simp [check_conjugacy, hprior, hlik, hpp, hpv, hlp, hlv, parameters_vector, vector_data,
      gsl_vector_set, set_parameters_vector, apop_model_copy, bind, Except.bind, pure,
      Except.pure, gsl_pow_2, pow_two]
  · subst hd hn
    simp [check_conjugacy, hprior, hlik, hpp, hpv, hD, hmv, parameters_vector, vector_data,
      data_matrix, gsl_vector_set, set_parameters_vector, apop_model_copy, bind, Except.bind,
      pure, Except.pure, gsl_pow_2, pow_two]

theorem rpow_neg_half_sq (S : ℝ) (hS : 0 < S) : (S ^ (-(1 / 2) : ℝ)) ^ 2 = S⁻¹ := by
  rw [← Real.rpow_natCast, ← Real.rpow_mul (le_of_lt hS)]
  have : (-(1 / 2) : ℝ) * ((2 : ℕ) : ℝ) = -1 := by norm_num
  rw [this, Real.rpow_neg_one]

/-- Claim C29, refuted as stated.  For the prior `(0, 1)` and data of 5 cells with mean 2 and
variance 4, the expression of the comment, `(1 / sigma0^2 + n / sigma^2)^(-1)`, is `4/9`,
whereas the second parameter that `check_conjugacy` returns is `2/3`: the code raises the sum
to the power `-.5`. -/
theorem normal_normal_not_inverse :
    check_conjugacy (fun _ => ((2 : ℝ), (4 : ℝ))) (fun x y => x ^ y)
        [⟨none, some ⟨5, [[0, 0, 0, 0, 0]]⟩, none, ""⟩]
        (vector_model "Normal distribution" [0, 1]) (vector_model "Normal distribution" [0, 1])
      = .ok (some (vector_model "Normal distribution" [10 / 9, 2 / 3]))
      ∧ (1 / (1 : ℝ) ^ 2 + ((5 : Nat) : ℝ) / 4)⁻¹ = 4 / 9
      ∧ (2 / 3 : ℝ) ≠ 4 / 9 := by
  refine ⟨?_, by norm_num, by norm_num⟩
  rw [check_conjugacy_normal_eq (fun _ => ((2 : ℝ), (4 : ℝ)))
    (vector_model "Normal distribution" [0, 1]) (vector_model "Normal distribution" [0, 1])
    [⟨none, some ⟨5, [[0, 0, 0, 0, 0]]⟩, none, ""⟩] ⟨some [0, 1], none, none, ""⟩ [] 0 1 [] 5 2 4
    rfl rfl rfl rfl (Or.inr ⟨_, _, ⟨5, [[0, 0, 0, 0, 0]]⟩, rfl, rfl, rfl, rfl⟩)]
  have h1 : (1 / (1 : ℝ) ^ 2 + ((5 : Nat) : ℝ) / 4) = 9 / 4 := by norm_num
  have h2 : ((0 : ℝ) / 1 ^ 2 + ((5 : Nat) : ℝ) * 2 / 4) / (9 / 4) = 10 / 9 := by norm_num
  rw [h1, h2, rpow_nine_quarters]
  rfl

/-- Claim C29, amended.  For the Normal/Normal pair the second parameter that
`check_conjugacy` returns is `(1 / sigma0^2 + n / sigma^2)^(-1/2)`, where `sigma0` is the second
parameter of the prior, `sigma^2` the variance of the likelihood and `n` the number of data
points (`n = 1` without data): it is the standard deviation of the posterior, the positive
number whose square is the expression `(1 / sigma0^2 + n / sigma^2)^(-1)` of the comment. -/
theorem check_conjugacy_normal_normal_sd (mean_and_var : gsl_matrix ℝ → ℝ × ℝ)
    (prior likelihood : apop_model ℝ) (data : apop_data ℝ)
    (pg : apop_page ℝ) (more : apop_data ℝ) (m0 s0 : ℝ) (tl : List ℝ) (n : Nat) (mu v : ℝ)
    (hprior : prior.name = "Normal distribution")
    (hlik : likelihood.name = "Normal distribution")
    (hpp : prior.parameters = pg :: more) (hpv : pg.vector = some (m0 :: s0 :: tl))
    (hsrc : (data = [] ∧ n = 1 ∧ ∃ lpg lmore sd ltl, likelihood.parameters = lpg :: lmore ∧
          lpg.vector = some (mu :: sd :: ltl) ∧ v = sd ^ 2)
        ∨ (∃ dpg dmore D, data = dpg :: dmore ∧ dpg.matrix = some D ∧
          n = D.size1 * D.size2 ∧ mean_and_var D = (mu, v))) :
    ∃ m w, check_conjugacy mean_and_var (fun x y => x ^ y) data prior likelihood = .ok (some m)
      ∧ parameters_vector m = .ok w
      ∧ w[1]? = some ((1 / s0 ^ 2 + n / v) ^ (-(1 / 2) : ℝ))
      ∧ (0 < 1 / s0 ^ 2 + n / v →
          0 < (1 / s0 ^ 2 + n / v) ^ (-(1 / 2) : ℝ)
            ∧ ((1 / s0 ^ 2 + n / v) ^ (-(1 / 2) : ℝ)) ^ 2 = (1 / s0 ^ 2 + n / v)⁻¹) := by
  refine ⟨_, _, check_conjugacy_normal_eq mean_and_var prior likelihood data pg more m0 s0 tl n
    mu v hprior hlik hpp hpv hsrc, rfl, by simp, fun hS => ⟨Real.rpow_pos_of_pos hS _,
      rpow_neg_half_sq _ hS⟩⟩

/-- The rule of C29 without data, on the prior `(0, 1)` and the likelihood `(2, 2)`: the
second parameter is `(5/4)^(-1/2)`, whose square is `4/5`. -/
theorem check_conjugacy_normal_normal_sd_witness :
    ∃ m w, check_conjugacy (fun _ => ((0 : ℝ), (0 : ℝ))) (fun x y => x ^ y) []
        (vector_model "Normal distribution" [0, 1]) (vector_model "Normal distribution" [2, 2])
          = .ok (some m)
      ∧ parameters_vector m = .ok w
      ∧ w[1]? = some ((1 / (1 : ℝ) ^ 2 + (1 : Nat) / 4) ^ (-(1 / 2) : ℝ))
      ∧ ((1 / (1 : ℝ) ^ 2 + (1 : Nat) / 4) ^ (-(1 / 2) : ℝ)) ^ 2
        = (1 / (1 : ℝ) ^ 2 + (1 : Nat) / 4)⁻¹ := by
  obtain ⟨m, w, h1, h2, h3, h4⟩ := check_conjugacy_normal_normal_sd (fun _ => ((0 : ℝ), (0 : ℝ)))
    (vector_model "Normal distribution" [0, 1]) (vector_model "Normal distribution" [2, 2]) []
    ⟨some [0, 1], none, none, ""⟩ [] 0 1 [] 1 2 4 rfl rfl rfl rfl
    (Or.inl ⟨rfl, rfl, ⟨some [2, 2], none, none, ""⟩, [], 2, [], rfl, rfl, by norm_num⟩)
  exact ⟨m, w, h1, h2, h3, (h4 (by norm_num)).2⟩

/-! ## The histogram that `apop_update` returns (C26) -/

/-- The recording of a sample changes the matrix of `out` only. -/
theorem record_sample_frame {K R : Type} [LinearOrderedField K] [FloorRing K]
    [machine K]
    (env : Callees K R) (s : apop_update_settings K) (i : Nat) (st st1 : chain_state K R)
    (h : record_sample env s i st = .ok st1) :
    st1.cp_ll = st.cp_ll ∧ st1.rng = st.rng ∧ st1.draw = st.draw
      ∧ st1.parameters = st.parameters ∧ st1.current_param = st.current_param := by
  unfold record_sample at h
  split at h
  · obtain ⟨vv, -, h⟩ := bind_eq_ok _ _ _ h
    split at h
    · simp at h
    · simp at h
    · obtain ⟨m, -, h⟩ := bind_eq_ok _ _ _ h
      simp only [pure, Except.pure, Except.ok.injEq] at h
      subst h
      exact ⟨rfl, rfl, rfl, rfl, rfl⟩
  · simp only [pure, Except.pure, Except.ok.injEq] at h
    subst h
    exact ⟨rfl, rfl, rfl, rfl, rfl⟩

/-- The value of `cp_ll` after a pass of the main loop that reaches the decision. -/
theorem mcmc_pass_cp_ll {K R : Type} [LinearOrderedField K] [FloorRing K]
    [machine K] (env : Callees K R)
    (data : apop_data K) (prior likelihood : apop_model K) (s : apop_update_settings K)
    (i : Nat) (st st1 : chain_state K R) (pp cp : apop_page K) (pmore cmore : apop_data K)
    (hinv : chain_inv s pp cp pmore cmore st)
    (hnan : (pass_ratio env data prior likelihood st pp pmore).isnan = false)
    (h : mcmc_pass env data prior likelihood s i st = .ok (.next st1)) :
    st1.cp_ll = (if pass_accepts env data prior likelihood st pp pmore then
      pass_ll env data prior likelihood st pp pmore else st.cp_ll) := by
  obtain ⟨hp, hc, hpp, hw, hsize, hcp, hshape, hout⟩ := hinv
  have hstep := mh_step_next env data prior likelihood st pp cp pmore cmore hp hc hpp hw hsize
    hshape hnan
  unfold mcmc_pass at h
  rw [hstep] at h
  simp only [bind, Except.bind] at h
  split at h
  · simp at h
  · rename_i st2 hrec
    simp only [pure, Except.pure, Except.ok.injEq, pass_result.next.injEq] at h
    subst h
    rw [(record_sample_frame env s i _ _ hrec).1]

theorem Dbl.fin_sub_isnan {K : Type} [LinearOrderedField K] (x : K) (y : Dbl K)
    (hy : y = .ninf ∨ ∃ c, y = .fin c) : ((Dbl.fin x).sub y).isnan = false := by
  rcases hy with h | ⟨c, h⟩ <;> rw [h] <;> rfl

/-- With a log-likelihood that is finite everywhere, the passes of the main loop all go on:
the loop returns, in a state that is again as `apop_update` sets it up. -/
theorem mcmc_loop_finite {K R : Type} [LinearOrderedField K] [FloorRing K]
    [machine K] [exact_arithmetic K] (env : Callees K R)
    (data : apop_data K) (prior likelihood : apop_model K) (s : apop_update_settings K)
    (hfin : ∀ d m, ∃ x, env.apop_log_likelihood d m = .fin x)
    (pmore cmore : apop_data K) (n : Nat) :
    ∀ (i : Nat) (st : chain_state K R) (pp cp : apop_page K),
      chain_inv s pp cp pmore cmore st → (st.cp_ll = .ninf ∨ ∃ c, st.cp_ll = .fin c) →
      ((i + n : Nat) : Int) ≤ s.periods →
      ∃ st1 pp1 cp1, mcmc_loop env data prior likelihood s i n st = .ok (.next st1)
        ∧ chain_inv s pp1 cp1 pmore cmore st1 ∧ cp.same_shape cp1 := by
  induction n with
  | zero =>
    intro i st pp cp hinv _ _
    exact ⟨st, pp, cp, rfl, hinv, ⟨rfl, rfl, rfl⟩⟩
  | succ n ih =>
    intro i st pp cp hinv hll hi
    obtain ⟨x, hx⟩ := hfin data
      { likelihood with parameters := candidate env prior st pp :: pmore }
    have hnan : (pass_ratio env data prior likelihood st pp pmore).isnan = false := by
      rw [pass_ratio, pass_ll, hx]
      exact Dbl.fin_sub_isnan x _ hll
    obtain ⟨st1, hpass, hinv1, hs1, -, -⟩ := mcmc_pass_next env data prior likelihood s i st
      pp cp pmore cmore hinv (by push_cast at hi ⊢; omega) hnan
    have hll1 := mcmc_pass_cp_ll env data prior likelihood s i st st1 pp cp pmore cmore hinv
      hnan hpass
    have hll1b : st1.cp_ll = .ninf ∨ ∃ c, st1.cp_ll = .fin c := by
      rw [hll1]
      split
      · right; exact ⟨x, by rw [pass_ll, hx]⟩
      · exact hll
    obtain ⟨st2, pp2, cp2, hloop, hinv2, hs2⟩ := ih (i + 1) st1 _ _ hinv1 hll1b
      (by push_cast at hi ⊢; omega)
    refine ⟨st2, pp2, cp2, ?_, hinv2, same_shape_trans _ _ _ hs1 hs2⟩
    rw [mcmc_loop]
    simp only [hpass, bind, Except.bind, hloop]

/-- The function `apop_update` when the main loop has run to its end and the histogram of the
samples has bins whose sum is not zero. -/
theorem apop_update_next {K R : Type} [LinearOrderedField K] [FloorRing K]
    [machine K] [exact_arithmetic K] (env : Callees K R)
    (data : apop_data K) (prior likelihood : apop_model K) (rng : R) (st0 st1 : chain_state K R)
    (h : gsl_histogram K)
    (hconj : check_conjugacy env.apop_matrix_mean_and_var env.pow data prior likelihood
      = .ok none)
    (hinit : apop_update_init env data likelihood (prior_settings prior) rng = .ok st0)
    (hloop : mcmc_loop env data (with_update_settings prior) likelihood (prior_settings prior)
      0 (prior_settings prior).periods.toNat st0 = .ok (.next st1))
    (halloc : env.apop_histogram_settings_alloc [⟨none, st1.out, none, ""⟩]
      (prior_settings prior).histosegments = { pdf := some h })
    (hsum : h.bin.sum ≠ 0) :
    apop_update env data prior likelihood rng
      = .ok { model := some (with_histogram_pdf apop_histogram
                { h with bin := h.bin.map fun b => b / h.bin.sum }),
              prior := with_update_settings prior,
              parameters := st1.parameters, rng := st1.rng } := by
  have hnorm := apop_histogram_normalize_eq env.apop_assert_returns
    { (apop_model_copy apop_histogram : apop_model K) with
      histogram_settings := some { pdf := some h } } { pdf := some h } h rfl rfl
  rw [normalize_bins_nonzero _ h hsum] at hnorm
  unfold apop_update
  simp only [hconj, hinit, hloop, halloc, hnorm, bind, Except.bind, pure, Except.pure]
  rfl

/-- The sampling path of `apop_update` with a log-likelihood that is finite everywhere: the
function returns the normalised histogram of the matrix `out` that the main loop has
filled. -/
theorem apop_update_histogram_ok {K R : Type} [LinearOrderedField K] [FloorRing K]
    [machine K] [exact_arithmetic K]
    (env : Callees K R) (data : apop_data K) (prior likelihood : apop_model K) (rng : R)
    (vs ms1 ms2 : Nat)
    (hconj : check_conjugacy env.apop_matrix_mean_and_var env.pow data prior likelihood
      = .ok none)
    (hvs : base_size likelihood.vbase data = .ok vs)
    (hms1 : base_size likelihood.m1base data = .ok ms1)
    (hms2 : base_size likelihood.m2base data = .ok ms2)
    (hpos : 0 < vs + ms1 * ms2)
    (hstart : (prior_settings prior).starting_pt = []
      ∨ ∃ sp smore, (prior_settings prior).starting_pt = sp :: smore ∧ sp.WF
        ∧ sp.same_shape (alloc_page env.junk vs ms1 ms2))
    (hlik : likelihood.parameters = [] ∨ ∃ lp lmore, likelihood.parameters = lp :: lmore
      ∧ lp.WF ∧ lp.same_shape (alloc_page env.junk vs ms1 ms2))
    (hperiods : 0 ≤ (prior_settings prior).periods)
    (hrows : 0 < out_rows (prior_settings prior))
    (hfin : ∀ d m, ∃ x, env.apop_log_likelihood d m = .fin x)
    (halloc : ∀ M : gsl_matrix K, M.size1 = out_rows (prior_settings prior) →
      M.size2 = vs + ms1 * ms2 →
      ∃ h, env.apop_histogram_settings_alloc [⟨none, some M, none, ""⟩]
          (prior_settings prior).histosegments = { pdf := some h }
        ∧ (h.n : Int) = (prior_settings prior).histosegments ∧ h.bin.sum ≠ 0) :
    ∃ r m h st0 st1 M h0, apop_update env data prior likelihood rng = .ok r
      ∧ r.model = some m ∧ m.name = "Histogram"
      ∧ m.histogram_settings = some { pdf := some h }
      ∧ (h.n : Int) = (prior_settings prior).histosegments ∧ h.bin.sum = 1
      ∧ apop_update_init env data likelihood (prior_settings prior) rng = .ok st0
      ∧ mcmc_loop env data (with_update_settings prior) likelihood (prior_settings prior)
          0 (prior_settings prior).periods.toNat st0 = .ok (.next st1)
      ∧ st1.out = some M
      ∧ env.apop_histogram_settings_alloc [⟨none, some M, none, ""⟩]
          (prior_settings prior).histosegments = { pdf := some h0 }
      ∧ h.range = h0.range ∧ h.bin = h0.bin.map (fun b => b / h0.bin.sum) := by
  obtain ⟨st0, pp0, cp0, pmore0, hinit, hinv0, hll0, -, -, hsize0, -, -⟩ :=
    apop_update_init_ok env data likelihood (prior_settings prior) rng vs ms1 ms2 hvs hms1 hms2
      hpos hstart hlik
  obtain ⟨P, hP⟩ := Int.eq_ofNat_of_zero_le hperiods
  have htoNat : (prior_settings prior).periods.toNat = P := by rw [hP]; rfl
  obtain ⟨st1, pp1, cp1, hloop, hinv1, hs1⟩ := mcmc_loop_finite env data
    (with_update_settings prior) likelihood (prior_settings prior) hfin pmore0 []
    (prior_settings prior).periods.toNat 0 st0 pp0 cp0 hinv0 (Or.inl hll0)
    (by rw [htoNat, hP]; simp)
  have hcpsize : cp1.size = vs + ms1 * ms2 := by
    rw [← same_shape_size _ _ hs1, ← same_shape_size _ _ hinv0.2.2.2.2.2.2.1, hsize0]
  have hout := hinv1.2.2.2.2.2.2.2
  cases hM : st1.out with
  | none =>
    rw [hM] at hout
    simp only [out_ok] at hout
    omega
  | some M =>
    rw [hM] at hout
    obtain ⟨hM1, hM2, -⟩ := hout
    obtain ⟨h0, halloc0, hn0, hsum0⟩ := halloc M hM1 (by rw [hM2, hcpsize])
    have hupd := apop_update_next env data prior likelihood rng st0 st1 h0 hconj hinit hloop
      (by rw [hM]; exact halloc0) hsum0
    refine ⟨_, _, { h0 with bin := h0.bin.map fun b => b / h0.bin.sum }, st0, st1, M, h0, hupd,
      rfl, rfl, rfl, ?_, ?_, hinit, hloop, hM, halloc0, rfl, rfl⟩
    · rw [← hn0]
      simp [gsl_histogram.n]
    · rw [sum_map_div, div_self hsum0]

/-! ## The table of `apop_update` (C30) -/

theorem apop_histogram_normalize_name {K : Type} [Field K] [DecidableEq K]
    [machine K]
    (assert_returns : Bool) (m m1 : apop_model K) (b : Bool)
    (h : apop_histogram_normalize assert_returns m = .ok (m1, b)) : m1.name = m.name := by
  unfold apop_histogram_normalize at h
  obtain ⟨p, -, h⟩ := bind_eq_ok _ _ _ h
  cases p with
  | some g =>
    simp only [pure, Except.pure, Except.ok.injEq, Prod.mk.injEq] at h
    rw [← h.1]
    rfl
  | none =>
    simp only at h
    obtain ⟨q, -, h⟩ := bind_eq_ok _ _ _ h
    cases q with
    | none => simp at h
    | some g =>
      simp only [pure, Except.pure, Except.ok.injEq, Prod.mk.injEq] at h
      rw [← h.1]
      rfl

/-- What `apop_update` returns when no rule of `check_conjugacy` matches comes from the
sampling path: the prior has received its settings, and the model is `NULL` or a model named
"Histogram". -/
theorem apop_update_sampling_result {K R : Type} [LinearOrderedField K] [FloorRing K]
    [machine K]
    (env : Callees K R) (data : apop_data K) (prior likelihood : apop_model K) (rng : R)
    (r : update_result K R)
    (hconj : check_conjugacy env.apop_matrix_mean_and_var env.pow data prior likelihood
      = .ok none)
    (h : apop_update env data prior likelihood rng = .ok r) :
    r.prior = with_update_settings prior
      ∧ (r.model = none ∨ ∃ m, r.model = some m ∧ m.name = "Histogram") := by
  unfold apop_update at h
  simp only [hconj, bind, Except.bind] at h
  split at h
  · simp at h
  · rename_i st0 _
    split at h
    · simp at h
    · rename_i res _
      cases res with
      | returned_null st =>
        simp only [pure, Except.pure, Except.ok.injEq] at h
        subst h
        exact ⟨rfl, Or.inl rfl⟩
      | next st =>
        simp only at h
        split at h
        · simp at h
        · rename_i x hn
          obtain ⟨m1, b⟩ := x
          simp only [pure, Except.pure, Except.ok.injEq] at h
          subst h
          refine ⟨rfl, Or.inr ⟨m1, rfl, ?_⟩⟩
          rw [apop_histogram_normalize_name _ _ _ _ hn]
          rfl

/-- The Gamma/Exponential rule of `check_conjugacy` returns a model. -/
theorem check_conjugacy_gamma_exponential_some {K : Type} [Field K] [DecidableEq K]
    (mean_and_var : gsl_matrix K → K × K) (pow : K → K → K) (prior likelihood : apop_model K)
    (pg : apop_page K) (more : apop_data K) (a r : K) (tl : List K)
    (dpg : apop_page K) (dmore : apop_data K) (D : gsl_matrix K)
    (hprior : prior.name = "Gamma distribution")
    (hlik : likelihood.name = "Exponential distribution")
    (hpp : prior.parameters = pg :: more) (hpv : pg.vector = some (a :: r :: tl))
    (hD : dpg.matrix = some D) :
    check_conjugacy mean_and_var pow (dpg :: dmore) prior likelihood
      = .ok (some { prior with
          parameters :=
            { pg with
              vector := some ((a + ((D.size1 * D.size2 : Nat) : K))
                :: (1 / (1 / r + D.rows.flatten.sum)) :: tl) } :: more }) := by
  simp [check_conjugacy, hprior, hlik, hpp, hpv, hD, parameters_vector, data_matrix,
    gsl_vector_get, gsl_vector_set, apop_vector_increment, set_parameters_vector,
    apop_model_copy, bind, Except.bind, pure, Except.pure, apop_matrix_sum_eq]

theorem exponential_gamma_no_pair {K : Type} (prior likelihood : apop_model K)
    (hprior : prior.name = "Exponential distribution")
    (hlik : likelihood.name = "Gamma distribution") : ¬ conjugate_pair prior likelihood := by
  simp [conjugate_pair, hprior, hlik]

/-- Claim C30, refuted as stated.  With a prior named "Exponential distribution" and a
likelihood named "Gamma distribution", the pair of the table, `check_conjugacy` returns `NULL`
and `apop_update` goes through the main loop: in the environment `histogram_env` it returns a
model named "Histogram", and the prior has received the settings of the sampler. -/
theorem exponential_gamma_runs_mcmc :
    check_conjugacy histogram_env.apop_matrix_mean_and_var histogram_env.pow example_data
        exponential_prior gamma_likelihood = .ok none
      ∧ (apop_update histogram_env example_data exponential_prior gamma_likelihood 0).map
          (fun r => r.model.map fun m => m.name) = .ok (some "Histogram")
      ∧ (apop_update histogram_env example_data exponential_prior gamma_likelihood 0).map
          (fun r => r.prior) = .ok (with_update_settings exponential_prior) := by
  have hconj := check_conjugacy_no_pair histogram_env.apop_matrix_mean_and_var
    histogram_env.pow example_data exponential_prior gamma_likelihood
    (exponential_gamma_no_pair _ _ rfl rfl)
  have hrows : out_rows example_settings = 3 := by
    simp only [out_rows, example_settings, to_double_exact]
    norm_num
    rfl
  obtain ⟨r, m, h, -, -, -, -, h1, h2, h3, -⟩ :=
    apop_update_histogram_ok histogram_env example_data exponential_prior gamma_likelihood 0
      2 0 0 hconj rfl rfl rfl (by decide) (Or.inl rfl)
      (Or.inr ⟨⟨some [2, 1], none, none, ""⟩, [], rfl, by simp [apop_page.WF],
        by simp [apop_page.same_shape, alloc_page]⟩) (by decide)
      (by
        have : prior_settings exponential_prior = example_settings := rfl
        rw [this, hrows]
        decide)
      (fun _ _ => ⟨0, rfl⟩)
      (fun M _ _ => ⟨{ range := List.replicate 6 0, bin := List.replicate 5 1 }, rfl, rfl,
        by norm_num⟩)
  have hprior := (apop_update_sampling_result histogram_env example_data exponential_prior
    gamma_likelihood 0 r hconj h1).1
  refine ⟨hconj, ?_, ?_⟩
  · rw [h1]
    simp [Except.map, h2, h3]
  · rw [h1]
    simp [Except.map, hprior]

/-- Claim C30, amended.  The pair that `check_conjugacy` handles is a prior named "Gamma
distribution" with a likelihood named "Exponential distribution": with a data matrix and two
parameters in the prior it returns a model with updated parameters, which `apop_update`
returns without any sampling.  With the names the other way round, as the table of
`apop_update` lists them, `check_conjugacy` returns `NULL` and what `apop_update` returns
comes from the sampling path: the prior has received the settings of the sampler and the
model is `NULL` or a histogram. -/
theorem gamma_prior_exponential_likelihood {K R : Type} [LinearOrderedField K] [FloorRing K]
    [machine K]
    (env : Callees K R) (data : apop_data K) (prior likelihood : apop_model K) (rng : R) :
    (prior.name = "Exponential distribution" → likelihood.name = "Gamma distribution" →
        check_conjugacy env.apop_matrix_mean_and_var env.pow data prior likelihood = .ok none
          ∧ ∀ r, apop_update env data prior likelihood rng = .ok r →
            r.prior = with_update_settings prior
              ∧ (r.model = none ∨ ∃ m, r.model = some m ∧ m.name = "Histogram"))
      ∧ (prior.name = "Gamma distribution" → likelihood.name = "Exponential distribution" →
        ∀ pg more a r tl dpg dmore D, prior.parameters = pg :: more →
          pg.vector = some (a :: r :: tl) → data = dpg :: dmore → dpg.matrix = some D →
          ∃ m, check_conjugacy env.apop_matrix_mean_and_var env.pow data prior likelihood
              = .ok (some m)
            ∧ parameters_vector m
              = .ok ((a + ((D.size1 * D.size2 : Nat) : K))
                  :: (1 / (1 / r + D.rows.flatten.sum)) :: tl)
            ∧ apop_update env data prior likelihood rng
              = .ok { model := some m, prior := prior, parameters := likelihood.parameters,
                      rng := rng }) := by
  constructor
  · intro hprior hlik
    have hconj := check_conjugacy_no_pair env.apop_matrix_mean_and_var env.pow data prior
      likelihood (exponential_gamma_no_pair _ _ hprior hlik)
    exact ⟨hconj, fun r hr =>
      apop_update_sampling_result env data prior likelihood rng r hconj hr⟩
  · intro hprior hlik pg more a r tl dpg dmore D hpp hpv hd hD
    subst hd
    have hc := check_conjugacy_gamma_exponential_some env.apop_matrix_mean_and_var env.pow
      prior likelihood pg more a r tl dpg dmore D hprior hlik hpp hpv hD
    refine ⟨_, hc, rfl, ?_⟩
    unfold apop_update
    simp only [hc, bind, Except.bind, pure, Except.pure]

/-- The two pairs of C30 on the prior and the likelihood of the examples, and on the same
two with the names the other way round. -/
theorem gamma_prior_exponential_likelihood_witness :
    check_conjugacy example_env.apop_matrix_mean_and_var example_env.pow example_data
        exponential_prior gamma_likelihood = .ok none
      ∧ ∃ m, apop_update example_env example_data (vector_model "Gamma distribution" [2, 1])
          (vector_model "Exponential distribution" [1]) 0
        = .ok { model := some m, prior := vector_model "Gamma distribution" [2, 1],
                parameters := (vector_model "Exponential distribution" [1]).parameters,
                rng := 0 } :=
  ⟨((gamma_prior_exponential_likelihood example_env example_data exponential_prior
      gamma_likelihood 0).1 rfl rfl).1,
    (((gamma_prior_exponential_likelihood example_env example_data
      (vector_model "Gamma distribution" [2, 1]) (vector_model "Exponential distribution" [1])
      0).2 rfl rfl) ⟨some [2, 1], none, none, ""⟩ [] 2 1 []
      ⟨none, some ⟨2, [[1, 2], [3, 4]]⟩, none, ""⟩ [] ⟨2, [[1, 2], [3, 4]]⟩ rfl rfl rfl rfl).imp
      fun _ h => h.2.2⟩

/-! ## The histograms refilled from values and from draws (C27 and C28) -/

theorem edges_mono {K : Type} [LinearOrderedField K] (h : gsl_histogram K) (hWF : h.WF)
    (i j : Nat) (hij : i < j) (hj : j ≤ h.n) : h.range.getD i 0 < h.range.getD j 0 := by
  obtain ⟨hlen, hs⟩ := hWF
  have hi2 : i < h.range.length := by omega
  have hj2 : j < h.range.length := by omega
  have := List.pairwise_iff_getElem.mp hs i j hi2 hj2 hij
  rw [List.getD_eq_getElem _ _ hi2, List.getD_eq_getElem _ _ hj2]
  exact this

theorem edges_le {K : Type} [LinearOrderedField K] (h : gsl_histogram K) (hWF : h.WF)
    (i j : Nat) (hij : i ≤ j) (hj : j ≤ h.n) : h.range.getD i 0 ≤ h.range.getD j 0 := by
  rcases Nat.eq_or_lt_of_le hij with heq | hlt
  · rw [heq]
  · exact le_of_lt (edges_mono h hWF i j hlt hj)

theorem exists_bin {K : Type} [LinearOrderedField K] (f : Nat → K) (x : K) (n : Nat)
    (h0 : f 0 ≤ x) (hn : x < f n) : ∃ i, i < n ∧ f i ≤ x ∧ x < f (i + 1) := by
  induction n with
  | zero => exact absurd hn (not_lt.mpr h0)
  | succ n ih =>
    by_cases hx : x < f n
    · obtain ⟨i, hi, h1, h2⟩ := ih hx
      exact ⟨i, by omega, h1, h2⟩
    · exact ⟨n, by omega, not_lt.mp hx, hn⟩

theorem in_bin_domain {K : Type} [LinearOrderedField K] (h : gsl_histogram K) (hWF : h.WF)
    (i : Nat) (x : K) (hi : i < h.n) (hb : in_bin h i x = true) : in_domain h x = true := by
  simp only [in_bin, decide_eq_true_eq] at hb
  simp only [in_domain, decide_eq_true_eq]
  exact ⟨le_trans (edges_le h hWF 0 i (Nat.zero_le _) (by omega)) hb.1,
    lt_of_lt_of_le hb.2 (edges_le h hWF (i + 1) h.n (by omega) (le_refl _))⟩

theorem in_bin_unique {K : Type} [LinearOrderedField K] (h : gsl_histogram K) (hWF : h.WF)
    (i j : Nat) (x : K) (hj : j < h.n) (hij : i < j)
    (hbi : in_bin h i x = true) : in_bin h j x = false := by
  simp only [in_bin, decide_eq_true_eq] at hbi
  simp only [in_bin, decide_eq_false_iff_not, not_and, not_lt]
  intro hle
  have := edges_le h hWF (i + 1) j (by omega) (by omega)
  exact absurd (lt_of_lt_of_le hbi.2 (le_trans this hle)) (lt_irrefl _)

theorem in_bin_other {K : Type} [LinearOrderedField K] (h : gsl_histogram K) (hWF : h.WF)
    (i j : Nat) (x : K) (hi : i < h.n) (hj : j < h.n) (hne : j ≠ i)
    (hbi : in_bin h i x = true) : in_bin h j x = false := by
  rcases Nat.lt_or_gt_of_ne hne with hlt | hgt
  · by_contra hbj
    have hbj2 : in_bin h j x = true := by simpa using hbj
    have := in_bin_unique h hWF j i x hi hlt hbj2
    rw [hbi] at this
    exact absurd this (by decide)
  · exact in_bin_unique h hWF i j x hj hgt hbi

theorem sum_set_add_one {K : Type} [LinearOrderedField K] (l : List K) (i : Nat)
    (hi : i < l.length) : (l.set i (l.getD i 0 + 1)).sum = l.sum + 1 := by
  induction l generalizing i with
  | nil => simp at hi
  | cons a t ih =>
    cases i with
    | zero => simp; ring
    | succ i =>
      have := ih i (by simpa using hi)
      simp only [List.set_cons_succ, List.sum_cons, List.getD_cons_succ] at this ⊢
      rw [this]; ring

theorem getD_set {K : Type} [LinearOrderedField K] (l : List K) (i j : Nat) (v : K)
    (hi : i < l.length) :
    (l.set i v).getD j 0 = if j = i then v else l.getD j 0 := by
  simp only [List.getD_eq_getElem?_getD, List.getElem?_set]
  by_cases hji : j = i
  · subst hji
    simp [hi]
  · have : ¬ i = j := fun h => hji h.symm
    simp [hji, this]

/-- One call of `gsl_histogram_increment`: a number outside the domain changes nothing, and a
number of the domain adds 1 to the bin in which it is. -/
theorem gsl_histogram_increment_spec {K : Type} [LinearOrderedField K] (h : gsl_histogram K)
    (x : K) :
    (in_domain h x = false → gsl_histogram_increment h x = .ok h)
      ∧ (in_domain h x = true → ∃ i, i < h.n ∧ in_bin h i x = true
          ∧ gsl_histogram_increment h x
            = .ok { h with bin := h.bin.set i (h.bin.getD i 0 + 1) }) := by
  constructor
  · intro hd
    simp only [in_domain, decide_eq_false_iff_not, not_and, not_lt] at hd
    have : x < h.range.getD 0 0 ∨ h.range.getD h.n 0 ≤ x := by
      by_cases h0 : h.range.getD 0 0 ≤ x
      · exact Or.inr (hd h0)
      · exact Or.inl (not_le.mp h0)
    unfold gsl_histogram_increment
    rw [if_pos this]
  · intro hd
    simp only [in_domain, decide_eq_true_eq] at hd
    have hcond : ¬ (x < h.range.getD 0 0 ∨ h.range.getD h.n 0 ≤ x) := by
      rintro (h1 | h2)
      · exact absurd h1 (not_lt.mpr hd.1)
      · exact absurd hd.2 (not_lt.mpr h2)
    obtain ⟨k, hk, hk1, hk2⟩ := exists_bin (fun i => h.range.getD i 0) x h.n hd.1 hd.2
    cases hfind : gsl_histogram_find h x with
    | none =>
      unfold gsl_histogram_find at hfind
      rw [List.find?_eq_none] at hfind
      have := hfind k (List.mem_range.mpr hk)
      simp only [decide_eq_true_eq, not_and, not_lt] at this
      exact absurd hk2 (not_lt.mpr (this hk1))
    | some i =>
      have hp := List.find?_some hfind
      have hmem := List.mem_of_find?_eq_some hfind
      refine ⟨i, List.mem_range.mp hmem, hp, ?_⟩
      unfold gsl_histogram_increment
      rw [if_neg hcond, hfind]

/-- The calls of `gsl_histogram_increment` for the numbers `xs`: they all return, the edges
are as before, and each bin has grown by the number of `xs` that are in it; the sum of the
bins has grown by the number of `xs` that are in the domain. -/
theorem increments_count {K : Type} [LinearOrderedField K] (xs : List K) :
    ∀ (g : gsl_histogram K), g.WF →
      ∃ g2, xs.foldlM gsl_histogram_increment g = .ok g2 ∧ g2.range = g.range
        ∧ g2.bin.length = g.bin.length
        ∧ (∀ i, i < g.n → g2.bin.getD i 0 = g.bin.getD i 0 + (bin_count g xs i : K))
        ∧ g2.bin.sum = g.bin.sum + (domain_count g xs : K) := by
  induction xs with
  | nil =>
    intro g _
    exact ⟨g, rfl, rfl, rfl, fun i _ => by simp [bin_count], by simp [domain_count]⟩
  | cons x xs ih =>
    intro g hWF
    obtain ⟨hout, hin⟩ := gsl_histogram_increment_spec g x
    cases hd : in_domain g x with
    | false =>
      obtain ⟨g2, h1, h2, h3, h4, h5⟩ := ih g hWF
      refine ⟨g2, ?_, h2, h3, fun i hi => ?_, ?_⟩
      · rw [List.foldlM_cons, hout hd]
        exact h1
      · have hnb : in_bin g i x = false := by
          by_contra hb
          have := in_bin_domain g hWF i x hi (by simpa using hb)
          rw [hd] at this
          exact absurd this (by decide)
        rw [h4 i hi]
        simp [bin_count, List.countP_cons, hnb]
      · rw [h5]
        simp [domain_count, List.countP_cons, hd]
    | true =>
      obtain ⟨k, hk, hbk, hinc⟩ := hin hd
      have hklen : k < g.bin.length := hk
      have hWF1 : ({ g with bin := g.bin.set k (g.bin.getD k 0 + 1) } : gsl_histogram K).WF := by
        obtain ⟨a, b⟩ := hWF
        exact ⟨by simpa [gsl_histogram.n] using a, b⟩
      obtain ⟨g2, h1, h2, h3, h4, h5⟩ := ih _ hWF1
      have hn1 : ({ g with bin := g.bin.set k (g.bin.getD k 0 + 1) } : gsl_histogram K).n
          = g.n := by simp [gsl_histogram.n]
      refine ⟨g2, ?_, h2, by rw [h3]; simp, fun i hi => ?_, ?_⟩
      · rw [List.foldlM_cons, hinc]
        exact h1
      · have := h4 i (by rw [hn1]; exact hi)
        rw [this]
        simp only [getD_set _ _ _ _ hklen]
        have hcount : bin_count { g with bin := g.bin.set k (g.bin.getD k 0 + 1) } xs i
            = bin_count g xs i := rfl
        rw [hcount]
        by_cases hik : i = k
        · subst hik
          simp [bin_count, List.countP_cons, hbk]
          ring
        · have hnb := in_bin_other g hWF k i x hk hi hik hbk
          simp [bin_count, List.countP_cons, hnb, hik]
      · rw [h5]
        have hdom : in_domain { g with bin := g.bin.set k (g.bin.getD k 0 + 1) }
            = in_domain g := by
          funext y
          simp only [in_domain, hn1]
        have hcount : domain_count { g with bin := g.bin.set k (g.bin.getD k 0 + 1) } xs
            = domain_count g xs := by
          simp only [domain_count, hdom]
        rw [hcount, sum_set_add_one _ _ hklen]
        simp [domain_count, List.countP_cons, hd]
        ring

theorem getD_map_div {K : Type} [LinearOrderedField K] (l : List K) (S : K) (i : Nat) :
    (l.map fun b => b / S).getD i 0 = l.getD i 0 / S := by
  simp only [List.getD_eq_getElem?_getD, List.getElem?_map]
  cases l[i]? with
  | none => simp
  | some b => simp

theorem getD_map_zero {K : Type} [LinearOrderedField K] (l : List K) (i : Nat) :
    (l.map fun _ => (0 : K)).getD i 0 = 0 := by
  simp only [List.getD_eq_getElem?_getD, List.getElem?_map]
  cases l[i]? with
  | none => simp
  | some b => simp

theorem sum_map_zero {K : Type} [LinearOrderedField K] (l : List K) :
    (l.map fun _ => (0 : K)).sum = 0 := by
  induction l with
  | nil => rfl
  | cons a t ih => simp

/-- The calls of `gsl_histogram_increment` for the numbers `xs` on the histogram `h` once
it is reset: each bin holds the number of `xs` that are in it. -/
theorem reset_increments_count {K : Type} [LinearOrderedField K] (h : gsl_histogram K)
    (hWF : h.WF) (xs : List K) :
    ∃ g2, xs.foldlM gsl_histogram_increment (gsl_histogram_reset h) = .ok g2
      ∧ g2.range = h.range ∧ g2.n = h.n
      ∧ (∀ i, i < h.n → g2.bin.getD i 0 = (bin_count h xs i : K))
      ∧ g2.bin.sum = (domain_count h xs : K) := by
  have hn : (gsl_histogram_reset h).n = h.n := by simp [gsl_histogram_reset, gsl_histogram.n]
  have hWF1 : (gsl_histogram_reset h).WF := by
    obtain ⟨a, b⟩ := hWF
    exact ⟨by rw [hn]; exact a, b⟩
  have hdom : in_domain (gsl_histogram_reset h) = in_domain h := by
    funext y
    simp only [in_domain, hn]
    rfl
  obtain ⟨g2, h1, h2, h3, h4, h5⟩ := increments_count xs (gsl_histogram_reset h) hWF1
  refine ⟨g2, h1, h2, ?_, fun i hi => ?_, ?_⟩
  · simp only [gsl_histogram.n] at hn ⊢
    rw [h3, hn]
  · rw [h4 i (by rw [hn]; exact hi)]
    have : (gsl_histogram_reset h).bin.getD i 0 = 0 := getD_map_zero h.bin i
    rw [this, zero_add]
    rfl
  · rw [h5]
    have : (gsl_histogram_reset h).bin.sum = 0 := sum_map_zero h.bin
    rw [this, zero_add]
    simp only [domain_count, hdom]

theorem domain_count_le {K : Type} [LinearOrderedField K] (h : gsl_histogram K) (xs : List K) :
    domain_count h xs ≤ xs.length := List.countP_le_length _

theorem domain_count_all {K : Type} [LinearOrderedField K] (h : gsl_histogram K) (xs : List K)
    (hall : ∀ x ∈ xs, in_domain h x = true) : domain_count h xs = xs.length :=
  List.countP_eq_length.mpr hall

/-- The function `apop_histogram_vector_reset` on a template named "Histogram". -/
theorem apop_histogram_vector_reset_eq {K : Type} [LinearOrderedField K] (t : apop_model K)
    (g : apop_histogram_settings K) (h : gsl_histogram K) (v : List K)
    (hname : t.name = "Histogram") (hm : t.histogram_settings = some g) (hg : g.pdf = some h)
    (hWF : h.WF) :
    ∃ hn, apop_histogram_vector_reset (some t) (some v) = .ok (with_histogram_pdf t hn)
      ∧ hn.range = h.range ∧ hn.n = h.n
      ∧ (∀ i, i < h.n → hn.bin.getD i 0 = (bin_count h v i : K))
      ∧ hn.bin.sum = (domain_count h v : K) := by
  obtain ⟨g2, h1, h2, h3, h4, h5⟩ := reset_increments_count h hWF v
  refine ⟨g2, ?_, h2, h3, h4, h5⟩
  simp only [apop_histogram_vector_reset, hname, ne_eq, not_true_eq_false, if_false,
    apop_model_copy, Apop_settings_get_pdf, hm, hg, bind, Except.bind, h1, pure, Except.pure]

/-- The loop of `apop_histogram_model_reset` counts the numbers that the draws give. -/
theorem draw_loop_eq {K R : Type} [LinearOrderedField K] (draw : R → K × R) (n : Nat) :
    ∀ (g : gsl_histogram K) (rng : R),
      draw_loop draw n g rng
        = (do
          let g2 ← (drawn_values draw n rng).1.foldlM gsl_histogram_increment g
          pure (g2, (drawn_values draw n rng).2)) := by
  induction n with
  | zero => intro g rng; rfl
  | succ n ih =>
    intro g rng
    rw [draw_loop]
    simp only [drawn_values, List.foldlM_cons, bind, Except.bind]
    cases hinc : gsl_histogram_increment g (draw rng).1 with
    | error e => rfl
    | ok g1 =>
      simp only []
      rw [ih g1 (draw rng).2]
      rfl

theorem drawn_values_length {K R : Type} (draw : R → K × R) (n : Nat) :
    ∀ rng : R, (drawn_values draw n rng).1.length = n := by
  induction n with
  | zero => intro rng; rfl
  | succ n ih => intro rng; simp [drawn_values, ih]

theorem normalize_bins_layout {K : Type} [Field K] [DecidableEq K]
    [machine K] (assert_returns : Bool)
    (h : gsl_histogram K) :
    (normalize_bins assert_returns h).1.range = h.range
      ∧ (normalize_bins assert_returns h).1.n = h.n := by
  unfold normalize_bins
  simp only []
  split
  · exact ⟨rfl, rfl⟩
  · exact ⟨rfl, by simp [gsl_histogram.n]⟩

/-- The function `apop_histogram_model_reset` on a template named "Histogram": it returns, and
when one draw at least is in the domain of the histogram the bins are the normalised
counts.  The number of draws is `draws`, or 100000 when `draws` is zero. -/
theorem apop_histogram_model_reset_eq {K R : Type} [LinearOrderedField K]
    [machine K] [exact_arithmetic K]
    (assert_returns : Bool) (t : apop_model K) (g : apop_histogram_settings K)
    (h : gsl_histogram K) (draw : R → K × R) (draws : Int) (rng : R)
    (hname : t.name = "Histogram") (hm : t.histogram_settings = some g) (hg : g.pdf = some h)
    (hWF : h.WF) :
    ∃ hn, apop_histogram_model_reset assert_returns (some t) (some draw) draws rng
        = .ok (with_histogram_pdf t hn, (drawn_values draw (draws_made draws) rng).2)
      ∧ hn.range = h.range ∧ hn.n = h.n
      ∧ (0 < domain_count h (drawn_values draw (draws_made draws) rng).1 →
        (∀ i, i < h.n → hn.bin.getD i 0
            = (bin_count h (drawn_values draw (draws_made draws) rng).1 i : K)
              / (domain_count h (drawn_values draw (draws_made draws) rng).1 : K))
          ∧ hn.bin.sum = 1) := by
  have hn : (if draws = 0 then (100000 : Int) else draws).toNat = draws_made draws := rfl
  obtain ⟨g2, h1, h2, h3, h4, h5⟩ :=
    reset_increments_count h hWF (drawn_values draw (draws_made draws) rng).1
  have hnorm := apop_histogram_normalize_eq assert_returns (with_histogram_pdf t g2)
    { pdf := some g2 } g2 rfl rfl
  obtain ⟨hl1, hl2⟩ := normalize_bins_layout assert_returns g2
  refine ⟨(normalize_bins assert_returns g2).1, ?_, by rw [hl1, h2], by rw [hl2, h3],
    fun hsome => ?_⟩
  · simp only [apop_histogram_model_reset, hname, ne_eq, not_true_eq_false, if_false,
      apop_model_copy, Apop_settings_get_pdf, hm, hg, bind, Except.bind, draw_loop_eq, hn, h1,
      pure, Except.pure, hnorm]
    rfl
  · have hsum : g2.bin.sum ≠ 0 := by
      rw [h5]
      exact_mod_cast (Nat.pos_iff_ne_zero.mp hsome)
    rw [normalize_bins_nonzero _ g2 hsum]
    refine ⟨fun i hi => ?_, ?_⟩
    · show (g2.bin.map fun b => b / g2.bin.sum).getD i 0 = _
      rw [getD_map_div, h4 i hi, h5]
    · show (g2.bin.map fun b => b / g2.bin.sum).sum = 1
      rw [sum_map_div, div_self hsum]

theorem example_draw_state (n : Nat) : ∀ r : Nat, (drawn_values example_draw n r).2 = r + n := by
  induction n with
  | zero => intro r; rfl
  | succ n ih =>
    intro r
    show (drawn_values example_draw n (example_draw r).2).2 = r + (n + 1)
    rw [ih]
    show r + 1 + n = r + (n + 1)
    omega

theorem example_histogram_WF :
    ({ range := [0, 1, 2], bin := [1, 3] } : gsl_histogram ℚ).WF := by
  refine ⟨rfl, ?_⟩
  simp [List.Sorted]

/-- Claim C27, refuted as stated.  With `draws = 0`, the histogram of the examples as template
and a generator that counts the calls of the method `draw`, `apop_histogram_model_reset`
returns with the generator at 100000: the method has been called 100000 times and not 0
times, `apop_varad_var (draws, 1e5)` having put the default in the place of the zero. -/
theorem model_reset_zero_draws_is_default :
    ∃ m, apop_histogram_model_reset true (some example_histogram) (some example_draw) 0 0
      = .ok (m, 100000) := by
  obtain ⟨hn, h1, -⟩ := apop_histogram_model_reset_eq true example_histogram
    { pdf := some { range := [0, 1, 2], bin := [1, 3] } } { range := [0, 1, 2], bin := [1, 3] }
    example_draw 0 0 rfl rfl rfl example_histogram_WF
  rw [example_draw_state] at h1
  exact ⟨_, h1⟩

/-- Claim C27, amended.  With a template named "Histogram" and a model that has a method
`draw`, `apop_histogram_model_reset` calls the method `draws_made draws` times, that is
`draws` times when `draws` is positive, 100000 times when `draws` is zero and not at all when
`draws` is negative, each call starting from the state in which the one before left the
generator, and counts the numbers drawn in a histogram that has the edges of the template and
starts with every bin at zero; it returns the template with that histogram, normalised.  In
exact arithmetic, whenever one of the numbers at least is in a bin, each bin holds the number
of draws that are in it divided by the number of draws that are in any bin, and the bins sum
to 1.  (The template is an argument that is only read.) -/
theorem apop_histogram_model_reset_counts {K R : Type} [LinearOrderedField K]
    [machine K] [exact_arithmetic K]
    (assert_returns : Bool) (t : apop_model K) (g : apop_histogram_settings K)
    (h : gsl_histogram K) (draw : R → K × R) (draws : Int) (rng : R)
    (hname : t.name = "Histogram") (hm : t.histogram_settings = some g) (hg : g.pdf = some h)
    (hWF : h.WF) :
    ∃ hn, apop_histogram_model_reset assert_returns (some t) (some draw) draws rng
        = .ok (with_histogram_pdf t hn, (drawn_values draw (draws_made draws) rng).2)
      ∧ (drawn_values draw (draws_made draws) rng).1.length = draws_made draws
      ∧ (0 < draws → draws_made draws = draws.toNat)
      ∧ (draws = 0 → draws_made draws = 100000)
      ∧ (draws < 0 → draws_made draws = 0)
      ∧ hn.range = h.range ∧ hn.n = h.n
      ∧ (0 < domain_count h (drawn_values draw (draws_made draws) rng).1 →
        (∀ i, i < h.n → hn.bin.getD i 0
            = (bin_count h (drawn_values draw (draws_made draws) rng).1 i : K)
              / (domain_count h (drawn_values draw (draws_made draws) rng).1 : K))
          ∧ hn.bin.sum = 1) := by
  obtain ⟨hn, h1, h2, h3, h4⟩ := apop_histogram_model_reset_eq assert_returns t g h draw
    draws rng hname hm hg hWF
  refine ⟨hn, h1, drawn_values_length draw (draws_made draws) rng, ?_, ?_, ?_, h2, h3, h4⟩
  · intro hpos
    have hne : draws ≠ 0 := by omega
    simp only [draws_made, hne, if_false]
  · intro hz
    subst hz
    rfl
  · intro hneg
    have hne : draws ≠ 0 := by omega
    simp only [draws_made, hne, if_false]
    omega

/-- The refill of C27 on the histogram of the examples, with the 5 draws 0, 1/2, 1, 3/2 and 2:
the generator is left at 5. -/
theorem apop_histogram_model_reset_counts_witness :
    ∃ hn, apop_histogram_model_reset true (some example_histogram) (some example_draw) 5 0
        = .ok (with_histogram_pdf example_histogram hn, (drawn_values example_draw 5 0).2)
      ∧ (drawn_values example_draw 5 0).2 = 5
      ∧ hn.range = [0, 1, 2] ∧ hn.bin.sum = 1 := by
  obtain ⟨hn, h1, -, -, -, -, h2, -, h4⟩ := apop_histogram_model_reset_counts true
    example_histogram
    { pdf := some { range := [0, 1, 2], bin := [1, 3] } } { range := [0, 1, 2], bin := [1, 3] }
    example_draw 5 0 rfl rfl rfl example_histogram_WF
  refine ⟨hn, h1, rfl, h2, (h4 ?_).2⟩
  simp [draws_made, drawn_values, domain_count, in_domain, example_draw, List.countP_cons,
    gsl_histogram.n]

/-- Claim C28, refuted as stated.  On the template of the examples, whose domain is [0, 2), and
the two values 1/2 and 5, `apop_histogram_vector_reset` returns the bins (1, 0): the value 5,
which is outside the domain, is not counted in the last bin, `gsl_histogram_increment` leaving
the bins as they are for such a value; the counts sum to 1 and not to 2. -/
theorem vector_reset_drops_outside_values :
    apop_histogram_vector_reset (some example_histogram) (some [1 / 2, 5])
      = .ok (with_histogram_pdf example_histogram { range := [0, 1, 2], bin := [1, 0] }) := by
  have h1 : gsl_histogram_increment ({ range := [0, 1, 2], bin := [0, 0] } : gsl_histogram ℚ)
      (1 / 2) = .ok { range := [0, 1, 2], bin := [1, 0] } := by
    simp [gsl_histogram_increment, gsl_histogram_find, gsl_histogram.n, List.range_succ,
      List.find?_cons]
    norm_num
  have h2 : gsl_histogram_increment ({ range := [0, 1, 2], bin := [1, 0] } : gsl_histogram ℚ)
      5 = .ok { range := [0, 1, 2], bin := [1, 0] } := by
    simp [gsl_histogram_increment, gsl_histogram.n]
    norm_num
  have hreset : gsl_histogram_reset ({ range := [0, 1, 2], bin := [1, 3] } : gsl_histogram ℚ)
      = { range := [0, 1, 2], bin := [0, 0] } := rfl
  simp only [apop_histogram_vector_reset, example_histogram, ne_eq, not_true_eq_false, if_false,
    apop_model_copy, Apop_settings_get_pdf, bind, Except.bind, hreset, List.foldlM_cons,
    List.foldlM_nil, h1, h2, pure, Except.pure]

/-- Claim C28, amended.  `apop_histogram_vector_reset` stops when the template is not named
"Histogram".  On a template named "Histogram" it returns the template with a histogram that
has the edges of the template and in which each bin holds the number of input values that are
in it; a value outside the domain of the template is counted in no bin, so that the counts
sum to the number of input values that are in the domain, which is the number of input
values when they all are in the domain. -/
theorem apop_histogram_vector_reset_counts {K : Type} [LinearOrderedField K]
    (t : apop_model K) (g : apop_histogram_settings K) (h : gsl_histogram K) (v : List K)
    (hm : t.histogram_settings = some g) (hg : g.pdf = some h) (hWF : h.WF) :
    (t.name ≠ "Histogram" →
        apop_histogram_vector_reset (some t) (some v) = .error .assert_failed)
      ∧ (t.name = "Histogram" →
        ∃ hn, apop_histogram_vector_reset (some t) (some v) = .ok (with_histogram_pdf t hn)
          ∧ hn.range = h.range ∧ hn.n = h.n
          ∧ (∀ i, i < h.n → hn.bin.getD i 0 = (bin_count h v i : K))
          ∧ hn.bin.sum = (domain_count h v : K)
          ∧ domain_count h v ≤ v.length
          ∧ ((∀ x ∈ v, in_domain h x = true) → hn.bin.sum = (v.length : K))) := by
  constructor
  · intro hname
    simp [apop_histogram_vector_reset, hname]
  · intro hname
    obtain ⟨hn, h1, h2, h3, h4, h5⟩ := apop_histogram_vector_reset_eq t g h v hname hm hg hWF
    exact ⟨hn, h1, h2, h3, h4, h5, domain_count_le h v, fun hall => by
      rw [h5, domain_count_all h v hall]⟩

/-- The refill of C28 on the histogram of the examples, with three values of which one is
outside the domain: the counts sum to the 2 values of the domain. -/
theorem apop_histogram_vector_reset_counts_witness :
    ∃ hn, apop_histogram_vector_reset (some example_histogram) (some [1 / 2, 3 / 2, 7])
        = .ok (with_histogram_pdf example_histogram hn)
      ∧ hn.range = [0, 1, 2] ∧ hn.bin.sum = 2 := by
  obtain ⟨hn, h1, h2, -, -, h5, -⟩ := (apop_histogram_vector_reset_counts example_histogram
    { pdf := some { range := [0, 1, 2], bin := [1, 3] } } { range := [0, 1, 2], bin := [1, 3] }
    [1 / 2, 3 / 2, 7] rfl rfl example_histogram_WF).2 rfl
  refine ⟨hn, h1, h2, ?_⟩
  rw [h5]
  have : domain_count ({ range := [0, 1, 2], bin := [1, 3] } : gsl_histogram ℚ)
      [1 / 2, 3 / 2, 7] = 2 := by
    simp only [domain_count, in_domain, gsl_histogram.n, List.countP_cons, List.countP_nil,
      List.getD_cons_zero, List.getD_cons_succ, List.length_cons, List.length_nil]
    norm_num
  rw [this]
  norm_num

/-! ## The rules of `check_conjugacy` compared and chained (C35 and C36) -/

/-- The Beta/Binomial rule of `check_conjugacy` on a data set that has a matrix. -/
theorem check_conjugacy_beta_binomial_some {K : Type} [Field K] [DecidableEq K]
    (mean_and_var : gsl_matrix K → K × K) (pow : K → K → K) (prior likelihood : apop_model K)
    (pg : apop_page K) (more : apop_data K) (alpha beta : K) (tl : List K)
    (dpg : apop_page K) (dmore : apop_data K) (D : gsl_matrix K)
    (hprior : prior.name = "Beta distribution")
    (hlik : likelihood.name = "Binomial distribution")
    (hpp : prior.parameters = pg :: more) (hpv : pg.vector = some (alpha :: beta :: tl))
    (hD : dpg.matrix = some D) :
    check_conjugacy mean_and_var pow (dpg :: dmore) prior likelihood
      = .ok (some { prior with
          parameters :=
            { pg with
              vector := some ((alpha + D.rows.flatten.sum)
                :: (beta + (((D.size1 * D.size2 : Nat) : K) - D.rows.flatten.sum))
                :: tl) } :: more }) := by
  simp [check_conjugacy, hprior, hlik, hpp, hpv, hD, parameters_vector, data_matrix,
    apop_vector_increment, set_parameters_vector, apop_model_copy, bind, Except.bind, pure,
    Except.pure, apop_matrix_sum_eq]

/-- The Beta/Bernoulli rule of `check_conjugacy` on a data set that has a matrix. -/
theorem check_conjugacy_beta_bernoulli_some {K : Type} [Field K] [DecidableEq K]
    (mean_and_var : gsl_matrix K → K × K) (pow : K → K → K) (prior likelihood : apop_model K)
    (pg : apop_page K) (more : apop_data K) (alpha beta : K) (tl : List K)
    (dpg : apop_page K) (dmore : apop_data K) (D : gsl_matrix K)
    (hprior : prior.name = "Beta distribution")
    (hlik : likelihood.name = "Bernoulli distribution")
    (hpp : prior.parameters = pg :: more) (hpv : pg.vector = some (alpha :: beta :: tl))
    (hD : dpg.matrix = some D) :
    check_conjugacy mean_and_var pow (dpg :: dmore) prior likelihood
      = .ok (some { prior with
          parameters :=
            { pg with
              vector := some ((alpha + bernoulli_sum D)
                :: (beta + (((D.size1 * D.size2 : Nat) : K) - bernoulli_sum D))
                :: tl) } :: more }) := by
  simp [check_conjugacy, hprior, hlik, hpp, hpv, hD, parameters_vector, data_matrix,
    apop_vector_increment, set_parameters_vector, apop_model_copy, bind, Except.bind, pure,
    Except.pure]

/-- The sum of numbers that are all 0 or 1 is the number of those that are not 0. -/
theorem sum_zero_one {K : Type} [Field K] [DecidableEq K] (l : List K)
    (h : ∀ x ∈ l, x = 0 ∨ x = 1) :
    l.sum = ((l.countP (fun x => decide (x ≠ 0)) : Nat) : K) := by
  induction l with
  | nil => simp
  | cons a l ih =>
    have ih2 := ih fun x hx => h x (List.mem_cons_of_mem _ hx)
    rcases h a (List.mem_cons_self _ _) with ha | ha
    · subst ha
      simp [ih2]
    · subst ha
      rw [List.sum_cons, List.countP_cons_of_pos _ _ (by simp), ih2]
      push_cast
      ring

/-- Claim C35 (the Beta/Binomial rule with data and the Beta/Bernoulli rule).  For a Beta prior
`(alpha, beta, ...)` and a data set with a matrix, both rules of `check_conjugacy` return the
prior with new first two parameters whose sum is `alpha + beta` plus the number of cells
`size1 * size2` of the matrix, whatever the cells hold; and when every cell is 0 or 1 the two
rules return the same model. -/
theorem beta_binomial_bernoulli_agree {K : Type} [Field K] [DecidableEq K]
    (mean_and_var : gsl_matrix K → K × K) (pow : K → K → K)
    (prior binomial bernoulli : apop_model K)
    (pg : apop_page K) (more : apop_data K) (alpha beta : K) (tl : List K)
    (dpg : apop_page K) (dmore : apop_data K) (D : gsl_matrix K)
    (hprior : prior.name = "Beta distribution")
    (hbin : binomial.name = "Binomial distribution")
    (hber : bernoulli.name = "Bernoulli distribution")
    (hpp : prior.parameters = pg :: more) (hpv : pg.vector = some (alpha :: beta :: tl))
    (hD : dpg.matrix = some D) :
    (∃ a1 b1 a2 b2,
        check_conjugacy mean_and_var pow (dpg :: dmore) prior binomial
          = .ok (some { prior with
              parameters := { pg with vector := some (a1 :: b1 :: tl) } :: more })
        ∧ check_conjugacy mean_and_var pow (dpg :: dmore) prior bernoulli
          = .ok (some { prior with
              parameters := { pg with vector := some (a2 :: b2 :: tl) } :: more })
        ∧ a1 + b1 = alpha + beta + ((D.size1 * D.size2 : Nat) : K)
        ∧ a2 + b2 = alpha + beta + ((D.size1 * D.size2 : Nat) : K))
      ∧ ((∀ row ∈ D.rows, ∀ x ∈ row, x = 0 ∨ x = 1) →
        check_conjugacy mean_and_var pow (dpg :: dmore) prior binomial
          = check_conjugacy mean_and_var pow (dpg :: dmore) prior bernoulli) := by
  have h1 := check_conjugacy_beta_binomial_some mean_and_var pow prior binomial pg more alpha
    beta tl dpg dmore D hprior hbin hpp hpv hD
  have h2 := check_conjugacy_beta_bernoulli_some mean_and_var pow prior bernoulli pg more alpha
    beta tl dpg dmore D hprior hber hpp hpv hD
  refine ⟨⟨_, _, _, _, h1, h2, by ring, by ring⟩, ?_⟩
  intro hcells
  have hsum : D.rows.flatten.sum = bernoulli_sum D := by
    rw [bernoulli_sum_eq]
    apply sum_zero_one
    intro x hx
    obtain ⟨row, hrow, hxr⟩ := List.mem_flatten.mp hx
    exact hcells row hrow x hxr
  rw [h1, h2, hsum]

/-- The two rules of C35 on the prior `(1, 1)` and the 2 x 2 matrix of cells 1, 0, 1, 1: both
give `(4, 2)`. -/
theorem beta_binomial_bernoulli_agree_witness :
    (∀ row ∈ (⟨2, [[1, 0], [1, 1]]⟩ : gsl_matrix ℚ).rows, ∀ x ∈ row, x = 0 ∨ x = 1)
      ∧ check_conjugacy (fun _ => ((0 : ℚ), (0 : ℚ))) (fun _ _ => (0 : ℚ))
          [⟨none, some ⟨2, [[1, 0], [1, 1]]⟩, none, ""⟩]
          (vector_model "Beta distribution" [1, 1]) (vector_model "Binomial distribution" [])
        = check_conjugacy (fun _ => ((0 : ℚ), (0 : ℚ))) (fun _ _ => (0 : ℚ))
          [⟨none, some ⟨2, [[1, 0], [1, 1]]⟩, none, ""⟩]
          (vector_model "Beta distribution" [1, 1]) (vector_model "Bernoulli distribution" []) := by
  have hcells : ∀ row ∈ (⟨2, [[1, 0], [1, 1]]⟩ : gsl_matrix ℚ).rows, ∀ x ∈ row,
      x = 0 ∨ x = 1 := by
    simp
  exact ⟨hcells, (beta_binomial_bernoulli_agree (fun _ => ((0 : ℚ), (0 : ℚ)))
    (fun _ _ => (0 : ℚ)) (vector_model "Beta distribution" [1, 1])
    (vector_model "Binomial distribution" []) (vector_model "Bernoulli distribution" [])
    ⟨some [1, 1], none, none, ""⟩ [] 1 1 [] ⟨none, some ⟨2, [[1, 0], [1, 1]]⟩, none, ""⟩ []
    ⟨2, [[1, 0], [1, 1]]⟩ rfl rfl rfl rfl rfl rfl).2 hcells⟩

/-- Claim C36 (chained and batch updating, Gamma/Exponential rule).  For a Gamma prior
`(shape, rate, ...)`, data matrices `A` and `B` and a matrix `C` that holds all the cells of
`A` and of `B`, `check_conjugacy` with `A` returns a posterior, and `check_conjugacy` with that
posterior as prior and `B` returns what one call with `C` returns: the prior with
`(shape + |A| + |B|, 1 / (1 / rate + sum A + sum B))`, in exact arithmetic. -/
theorem gamma_exponential_chained {K : Type} [Field K] [DecidableEq K]
    (mean_and_var : gsl_matrix K → K × K) (pow : K → K → K) (prior likelihood : apop_model K)
    (pg : apop_page K) (more : apop_data K) (shape rate : K) (tl : List K)
    (pa pb pc : apop_page K) (amore bmore cmore : apop_data K) (A B C : gsl_matrix K)
    (hprior : prior.name = "Gamma distribution")
    (hlik : likelihood.name = "Exponential distribution")
    (hpp : prior.parameters = pg :: more) (hpv : pg.vector = some (shape :: rate :: tl))
    (hA : pa.matrix = some A) (hB : pb.matrix = some B) (hC : pc.matrix = some C)
    (hcells : C.size1 * C.size2 = A.size1 * A.size2 + B.size1 * B.size2)
    (hperm : C.rows.flatten.Perm (A.rows.flatten ++ B.rows.flatten)) :
    ∃ posterior,
      check_conjugacy mean_and_var pow (pa :: amore) prior likelihood = .ok (some posterior)
      ∧ check_conjugacy mean_and_var pow (pb :: bmore) posterior likelihood
        = check_conjugacy mean_and_var pow (pc :: cmore) prior likelihood
      ∧ check_conjugacy mean_and_var pow (pc :: cmore) prior likelihood
        = .ok (some { prior with
            parameters :=
              { pg with
                vector := some
                  ((shape + ((A.size1 * A.size2 : Nat) : K) + ((B.size1 * B.size2 : Nat) : K))
                    :: (1 / (1 / rate + A.rows.flatten.sum + B.rows.flatten.sum))
                    :: tl) } :: more }) := by
  have h1 := check_conjugacy_gamma_exponential_some mean_and_var pow prior likelihood pg more
    shape rate tl pa amore A hprior hlik hpp hpv hA
  have h3 := check_conjugacy_gamma_exponential_some mean_and_var pow prior likelihood pg more
    shape rate tl pc cmore C hprior hlik hpp hpv hC
  have hsum : C.rows.flatten.sum = A.rows.flatten.sum + B.rows.flatten.sum := by
    rw [hperm.sum_eq, List.sum_append]
  have h3b : check_conjugacy mean_and_var pow (pc :: cmore) prior likelihood
      = .ok (some { prior with
          parameters :=
            { pg with
              vector := some
                ((shape + ((A.size1 * A.size2 : Nat) : K) + ((B.size1 * B.size2 : Nat) : K))
                  :: (1 / (1 / rate + A.rows.flatten.sum + B.rows.flatten.sum))
                  :: tl) } :: more }) := by
    rw [h3, hcells, hsum]
    push_cast
    simp only [add_assoc]
  refine ⟨_, h1, ?_, h3b⟩
  have h2 := check_conjugacy_gamma_exponential_some mean_and_var pow
    { prior with
      parameters :=
        { pg with
          vector := some ((shape + ((A.size1 * A.size2 : Nat) : K))
            :: (1 / (1 / rate + A.rows.flatten.sum)) :: tl) } :: more }
    likelihood
    { pg with
      vector := some ((shape + ((A.size1 * A.size2 : Nat) : K))
        :: (1 / (1 / rate + A.rows.flatten.sum)) :: tl) }
    more (shape + ((A.size1 * A.size2 : Nat) : K)) (1 / (1 / rate + A.rows.flatten.sum)) tl
    pb bmore B hprior hlik rfl rfl hB
  rw [h2, h3b, one_div_one_div]

/-- The chain of C36 on the prior `(2, 1)`, `A` the row `1 2` and `B` the row `3`, `C` being
the row `1 2 3`. -/
theorem gamma_exponential_chained_witness :
    ∃ posterior,
      check_conjugacy (fun _ => ((0 : ℚ), (0 : ℚ))) (fun _ _ => (0 : ℚ))
          [⟨none, some ⟨2, [[1, 2]]⟩, none, ""⟩] (vector_model "Gamma distribution" [2, 1])
          (vector_model "Exponential distribution" [1]) = .ok (some posterior)
      ∧ check_conjugacy (fun _ => ((0 : ℚ), (0 : ℚ))) (fun _ _ => (0 : ℚ))
          [⟨none, some ⟨1, [[3]]⟩, none, ""⟩] posterior
          (vector_model "Exponential distribution" [1])
        = check_conjugacy (fun _ => ((0 : ℚ), (0 : ℚ))) (fun _ _ => (0 : ℚ))
          [⟨none, some ⟨3, [[1, 2, 3]]⟩, none, ""⟩] (vector_model "Gamma distribution" [2, 1])
          (vector_model "Exponential distribution" [1]) := by
  obtain ⟨posterior, h1, h2, -⟩ := gamma_exponential_chained (fun _ => ((0 : ℚ), (0 : ℚ)))
    (fun _ _ => (0 : ℚ)) (vector_model "Gamma distribution" [2, 1])
    (vector_model "Exponential distribution" [1]) ⟨some [2, 1], none, none, ""⟩ [] 2 1 []
    ⟨none, some ⟨2, [[1, 2]]⟩, none, ""⟩ ⟨none, some ⟨1, [[3]]⟩, none, ""⟩
    ⟨none, some ⟨3, [[1, 2, 3]]⟩, none, ""⟩ [] [] [] ⟨2, [[1, 2]]⟩ ⟨1, [[3]]⟩ ⟨3, [[1, 2, 3]]⟩
    rfl rfl rfl rfl rfl rfl rfl rfl (List.Perm.refl _)
  exact ⟨posterior, h1, h2⟩


/-! ## The chain state after each pass (C37 and C38) -/

/-- What a pass of the main loop that goes on leaves in the variables of the loop. -/
theorem mcmc_pass_state {K R : Type} [LinearOrderedField K] [FloorRing K]
    [machine K] (env : Callees K R)
    (data : apop_data K) (prior likelihood : apop_model K) (s : apop_update_settings K)
    (i : Nat) (st st1 : chain_state K R) (pp cp : apop_page K) (pmore cmore : apop_data K)
    (hinv : chain_inv s pp cp pmore cmore st)
    (h : mcmc_pass env data prior likelihood s i st = .ok (.next st1)) :
    st1.parameters = candidate env prior st pp :: pmore
      ∧ st1.current_param = pass_current env data prior likelihood st pp cp pmore :: cmore
      ∧ st1.cp_ll = (if pass_accepts env data prior likelihood st pp pmore then
          pass_ll env data prior likelihood st pp pmore else st.cp_ll)
      ∧ st1.draw = (env.apop_draw st.draw st.rng prior).1
      ∧ st1.rng = (if (pass_ratio env data prior likelihood st pp pmore).ge_zero then
          (env.apop_draw st.draw st.rng prior).2 else (pass_uniform env prior st).2) := by
  obtain ⟨hp, hc, hpp, hw, hsize, hcp, hshape, hout⟩ := hinv
  unfold mcmc_pass at h
  obtain ⟨x, hmh, hx⟩ := bind_eq_ok _ _ _ h
  cases x with
  | returned_null st2 => simp [pure, Except.pure] at hx
  | next mid =>
    obtain ⟨st2, hrec, hst2⟩ := bind_eq_ok _ _ _ hx
    simp only [pure, Except.pure, Except.ok.injEq, pass_result.next.injEq] at hst2
    subst hst2
    obtain ⟨f1, f2, f3, f4, f5⟩ := record_sample_frame env s i mid st2 hrec
    rw [f1, f2, f3, f4, f5]
    by_cases hnan : (pass_ratio env data prior likelihood st pp pmore).isnan = true
    · have hstep := mh_step_eq env data prior likelihood st pp cp pmore cmore hp hc hpp hw
        hsize hshape
      have hacc : pass_accepts env data prior likelihood st pp pmore = false := by
        simp [pass_accepts, Dbl.ge_zero_of_isnan _ hnan, Dbl.lt_of_isnan _ _ hnan]
      simp only [hnan, if_true, Bool.true_and, Dbl.ge_zero_of_isnan _ hnan,
        Dbl.lt_of_isnan _ _ hnan, Bool.false_eq_true, if_false] at hstep
      rw [hstep] at hmh
      obtain ⟨u, -, hu⟩ := bind_eq_ok _ _ _ hmh
      cases hret : env.apop_assert_returns with
      | true => simp [hret] at hu
      | false =>
        simp only [hret, Bool.false_eq_true, if_false, Except.ok.injEq,
          pass_result.next.injEq] at hu
        subst hu
        simp only [pass_current, hacc, Bool.false_eq_true, if_false,
          Dbl.ge_zero_of_isnan _ hnan]
        exact ⟨trivial, hc, trivial, trivial, trivial⟩
    · have hnan2 : (pass_ratio env data prior likelihood st pp pmore).isnan = false := by
        simpa using hnan
      have hstep := mh_step_next env data prior likelihood st pp cp pmore cmore hp hc hpp hw
        hsize hshape hnan2
      rw [hstep] at hmh
      simp only [Except.ok.injEq, pass_result.next.injEq] at hmh
      subst hmh
      exact ⟨rfl, rfl, rfl, rfl, rfl⟩

/-- Every pass of the main loop that returns, to go on or to leave `apop_update`, has written
its candidate in the parameters of the likelihood. -/
theorem mcmc_pass_parameters {K R : Type} [LinearOrderedField K] [FloorRing K]
    [machine K]
    (env : Callees K R) (data : apop_data K) (prior likelihood : apop_model K)
    (s : apop_update_settings K) (i : Nat) (st : chain_state K R) (r : pass_result K R)
    (pp cp : apop_page K) (pmore cmore : apop_data K)
    (hinv : chain_inv s pp cp pmore cmore st)
    (h : mcmc_pass env data prior likelihood s i st = .ok r) :
    r.state.parameters = candidate env prior st pp :: pmore := by
  cases r with
  | next st1 => exact (mcmc_pass_state env data prior likelihood s i st st1 pp cp pmore cmore
      hinv h).1
  | returned_null st1 =>
    obtain ⟨hp, hc, hpp, hw, hsize, hcp, hshape, hout⟩ := hinv
    unfold mcmc_pass at h
    obtain ⟨x, hmh, hx⟩ := bind_eq_ok _ _ _ h
    cases x with
    | next mid =>
      obtain ⟨st2, -, hst2⟩ := bind_eq_ok _ _ _ hx
      simp [pure, Except.pure] at hst2
    | returned_null st2 =>
      simp only [pure, Except.pure, Except.ok.injEq, pass_result.returned_null.injEq] at hx
      subst hx
      rw [mh_step_eq env data prior likelihood st pp cp pmore cmore hp hc hpp hw hsize
        hshape] at hmh
      obtain ⟨u, -, hu⟩ := bind_eq_ok _ _ _ hmh
      split_ifs at hu
      · simp only [Except.ok.injEq, pass_result.returned_null.injEq] at hu
        subst hu
        rfl
      all_goals simp at hu

/-- The invariant on `cp_ll` after one pass of the main loop: a pass that accepts
establishes it, and a pass that rejects keeps it. -/
theorem mcmc_pass_cp_ll_current {K R : Type} [LinearOrderedField K] [FloorRing K]
    [machine K]
    (env : Callees K R) (data : apop_data K) (prior likelihood : apop_model K)
    (s : apop_update_settings K) (i : Nat) (st st1 : chain_state K R) (pp cp : apop_page K)
    (pmore cmore : apop_data K) (hinv : chain_inv s pp cp pmore cmore st)
    (h : mcmc_pass env data prior likelihood s i st = .ok (.next st1))
    (hbefore : pass_accepts env data prior likelihood st pp pmore = true
      ∨ cp_ll_current env data likelihood st) :
    cp_ll_current env data likelihood st1 := by
  obtain ⟨h1, h2, h3, -, -⟩ := mcmc_pass_state env data prior likelihood s i st st1 pp cp
    pmore cmore hinv h
  obtain ⟨hp, hc, hpp, hw, hsize, hcp, hshape, hout⟩ := hinv
  have hlen : ((List.range pp.size).map (env.apop_draw st.draw st.rng prior).1).length
      = pp.size := by simp
  have hcand : ∀ l : List K, page_of_list l (candidate env prior st pp) = page_of_list l pp :=
    fun l => page_of_list_congr l _ pp (page_of_list_shape _ pp hpp hlen).2 rfl
  simp only [cp_ll_current, h1, h2, h3, hcand]
  by_cases hacc : pass_accepts env data prior likelihood st pp pmore = true
  · rw [if_pos hacc, pass_current, if_pos hacc,
      page_of_list_flat _ cp (by rw [hlen, same_shape_size _ _ hshape])]
    rfl
  · rcases hbefore with hb | hb
    · exact absurd hb hacc
    · rw [if_neg hacc, pass_current, if_neg hacc]
      simpa only [cp_ll_current, hp, hc] using hb

/-- The invariant on `cp_ll` is kept by the passes of the main loop. -/
theorem mcmc_loop_cp_ll_current {K R : Type} [LinearOrderedField K] [FloorRing K]
    [machine K] [exact_arithmetic K]
    (env : Callees K R) (data : apop_data K) (prior likelihood : apop_model K)
    (s : apop_update_settings K) (pmore cmore : apop_data K) (n : Nat) :
    ∀ (i : Nat) (st st1 : chain_state K R) (pp cp : apop_page K),
      chain_inv s pp cp pmore cmore st → ((i + n : Nat) : Int) ≤ s.periods →
      cp_ll_current env data likelihood st →
      mcmc_loop env data prior likelihood s i n st = .ok (.next st1) →
      cp_ll_current env data likelihood st1 := by
  induction n with
  | zero =>
    intro i st st1 pp cp _ _ hcur h
    simp only [mcmc_loop, Except.ok.injEq, pass_result.next.injEq] at h
    subst h
    exact hcur
  | succ n ih =>
    intro i st st1 pp cp hinv hi hcur h
    rw [mcmc_loop] at h
    obtain ⟨x, hpass, hx⟩ := bind_eq_ok _ _ _ h
    cases x with
    | returned_null st2 => simp [pure, Except.pure] at hx
    | next st2 =>
      obtain ⟨pp2, cp2, hinv2, -⟩ := mcmc_pass_inv env data prior likelihood s i st st2 pp cp
        pmore cmore hinv (by push_cast at hi ⊢; omega) hpass
      exact ih (i + 1) st2 st1 pp2 cp2 hinv2 (by push_cast at hi ⊢; omega)
        (mcmc_pass_cp_ll_current env data prior likelihood s i st st2 pp cp pmore cmore hinv
          hpass (Or.inr hcur)) hx

/-- The state `recording_state` is as `apop_update` sets it up with `example_settings`. -/
theorem recording_state_inv :
    chain_inv example_settings (alloc_page 0 1 2 2) (set_all_ones (alloc_page 0 1 2 2)) [] []
      recording_state := by
  have hrows : out_rows example_settings = 3 := by
    simp only [out_rows, example_settings, to_double_exact]
    norm_num
    rfl
  have hsize : (set_all_ones (alloc_page (0 : ℚ) 1 2 2)).size = 5 := by
    rw [same_shape_size _ _ (set_all_ones_shape _ (alloc_page_WF 0 1 2 2)).2.1,
      alloc_page_size]
  exact ⟨rfl, rfl, alloc_page_WF 0 1 2 2, rfl, by rw [alloc_page_size]; decide,
    (set_all_ones_shape _ (alloc_page_WF 0 1 2 2)).1,
    same_shape_symm _ _ (set_all_ones_shape _ (alloc_page_WF 0 1 2 2)).2.1,
    by rw [hrows, hsize]; exact ⟨rfl, rfl, by simp [recording_state]⟩⟩

/-- Claim C37 (the invariant on `cp_ll`).  The log-likelihood being a function of the data and
of the model with its parameters, when pass `i` of the main loop accepts its candidate, then
at the end of that pass and of each of the passes that follow it (`n` more passes, for every
`n` that the loop reaches), `cp_ll` is the log-likelihood of the data evaluated with the
numbers of `current_param` as parameters of the likelihood.
The arithmetic is exact: no operation on `double`s rounds. -/
theorem cp_ll_follows_current_param {K R : Type} [LinearOrderedField K] [FloorRing K]
    [machine K] [exact_arithmetic K]
    (env : Callees K R) (data : apop_data K) (prior likelihood : apop_model K)
    (s : apop_update_settings K) (i n : Nat) (st st1 st2 : chain_state K R)
    (pp cp : apop_page K) (pmore cmore : apop_data K)
    (hinv : chain_inv s pp cp pmore cmore st) (hi : ((i + 1 + n : Nat) : Int) ≤ s.periods)
    (hacc : pass_accepts env data prior likelihood st pp pmore = true)
    (hpass : mcmc_pass env data prior likelihood s i st = .ok (.next st1))
    (hloop : mcmc_loop env data prior likelihood s (i + 1) n st1 = .ok (.next st2)) :
    cp_ll_current env data likelihood st2 := by
  obtain ⟨pp1, cp1, hinv1, -⟩ := mcmc_pass_inv env data prior likelihood s i st st1 pp cp
    pmore cmore hinv (by push_cast at hi ⊢; omega) hpass
  exact mcmc_loop_cp_ll_current env data prior likelihood s pmore cmore n (i + 1) st1 st2 pp1
    cp1 hinv1 hi
    (mcmc_pass_cp_ll_current env data prior likelihood s i st st1 pp cp pmore cmore hinv hpass
      (Or.inl hacc)) hloop

/-- The invariant of C37 in the environment of the examples: pass 0 accepts, and the
invariant holds after the 3 passes that follow. -/
theorem cp_ll_follows_current_param_witness :
    ∃ st1 st2, mcmc_pass example_env [] example_likelihood example_likelihood example_settings
          0 recording_state = .ok (.next st1)
      ∧ mcmc_loop example_env [] example_likelihood example_likelihood example_settings 1 3 st1
          = .ok (.next st2)
      ∧ cp_ll_current example_env [] example_likelihood st2 := by
  have hge : (pass_ratio example_env [] example_likelihood example_likelihood recording_state
      (alloc_page 0 1 2 2) []).ge_zero = true := rfl
  obtain ⟨st1, hpass, hinv1, hll1, -, -⟩ := mcmc_pass_accept example_env []
    example_likelihood example_likelihood example_settings 0 recording_state _ _ [] []
    recording_state_inv (by decide) hge
  obtain ⟨st2, -, -, hloop, -, -⟩ := mcmc_loop_finite example_env [] example_likelihood
    example_likelihood example_settings (fun _ _ => ⟨0, rfl⟩) [] [] 3 1 st1 _ _ hinv1
    (Or.inr ⟨0, by rw [hll1]; rfl⟩) (by decide)
  exact ⟨st1, st2, hpass, hloop,
    cp_ll_follows_current_param example_env [] example_likelihood example_likelihood
      example_settings 0 3 recording_state st1 st2 _ _ [] [] recording_state_inv (by decide)
      (by simp [pass_accepts, hge]) hpass hloop⟩


/-- The last pass that a run of the main loop executes: a loop of `n + 1` passes that returns
has gone through `k <= n` passes that went on and a pass `i + k` whose result is that of the
loop; when the loop goes on to its end that pass is the last of the `n + 1`. -/
theorem mcmc_loop_last {K R : Type} [LinearOrderedField K] [FloorRing K]
    [machine K] (env : Callees K R)
    (data : apop_data K) (prior likelihood : apop_model K) (s : apop_update_settings K)
    (n : Nat) :
    ∀ (i : Nat) (st : chain_state K R) (r : pass_result K R),
      mcmc_loop env data prior likelihood s i (n + 1) st = .ok r →
      ∃ k stk, k ≤ n ∧ mcmc_loop env data prior likelihood s i k st = .ok (.next stk)
        ∧ mcmc_pass env data prior likelihood s (i + k) stk = .ok r
        ∧ ((∃ st1, r = .next st1) → k = n) := by
  induction n with
  | zero =>
    intro i st r h
    rw [mcmc_loop] at h
    obtain ⟨x, hpass, hx⟩ := bind_eq_ok _ _ _ h
    refine ⟨0, st, le_refl _, rfl, ?_, fun _ => rfl⟩
    cases x with
    | returned_null st2 =>
      simp only [pure, Except.pure, Except.ok.injEq] at hx
      rw [← hx]
      exact hpass
    | next st2 =>
      simp only [mcmc_loop, Except.ok.injEq] at hx
      rw [← hx]
      exact hpass
  | succ n ih =>
    intro i st r h
    rw [mcmc_loop] at h
    obtain ⟨x, hpass, hx⟩ := bind_eq_ok _ _ _ h
    cases x with
    | returned_null st2 =>
      simp only [pure, Except.pure, Except.ok.injEq] at hx
      refine ⟨0, st, Nat.zero_le _, rfl, by rw [← hx]; exact hpass, ?_⟩
      rintro ⟨st1, h1⟩
      rw [← hx] at h1
      cases h1
    | next st2 =>
      obtain ⟨k, stk, hk, hloop, hlast, hnext⟩ := ih (i + 1) st2 r hx
      refine ⟨k + 1, stk, by omega, ?_, ?_, fun h1 => by rw [hnext h1]⟩
      · rw [mcmc_loop]
        simp only [hpass, bind, Except.bind]
        exact hloop
      · have hik : i + (k + 1) = i + 1 + k := by omega
        rw [hik]
        exact hlast

/-- Two passes in the environment `reject_env`, that is the whole main loop with the settings
of `two_pass_prior`: the first candidate `0 1 2 3 4` is accepted and the second, `1 2 3 4 5`,
is rejected, so that the parameters of the likelihood end with the second and `current_param`
with the first. -/
theorem reject_env_two_passes :
    ∃ st0 st2,
      apop_update_init reject_env [] example_likelihood (prior_settings two_pass_prior) 0
        = .ok st0
      ∧ mcmc_loop reject_env [] (with_update_settings two_pass_prior) example_likelihood
          (prior_settings two_pass_prior) 0 (prior_settings two_pass_prior).periods.toNat st0
        = .ok (.next st2)
      ∧ st2.parameters.map apop_page.flat = [[1, 2, 3, 4, 5]]
      ∧ st2.current_param.map apop_page.flat = [[0, 1, 2, 3, 4]] := by
  obtain ⟨st0, pp0, cp0, pmore0, hinit, hinv0, hll0, hrng0, hdraw0, hsize0, hcpS, -⟩ :=
    apop_update_init_ok reject_env [] example_likelihood (prior_settings two_pass_prior) 0 1 2 2
      rfl rfl rfl (by decide) (Or.inl rfl) (Or.inl rfl)
  have hv0 : cp0.vector ≠ none := by
    apply same_shape_vector _ _ (same_shape_symm _ _ hcpS)
    simp [alloc_page]
  have hpv0 : pp0.vector ≠ none :=
    same_shape_vector _ _ (same_shape_symm _ _ hinv0.2.2.2.2.2.2.1) hv0
  have hpm0 : pmore0 = [] := by
    have h1 := hinv0.1
    have h2 : st0.parameters = [alloc_page 0 1 2 2] := by
      have h3 : apop_update_init reject_env [] example_likelihood
          (prior_settings two_pass_prior) 0
          = .ok { rng := 0, draw := fun _ => 0, parameters := [alloc_page 0 1 2 2],
                  current_param := [set_all_ones (alloc_page 0 1 2 2)], cp_ll := .ninf,
                  out := (alloc_page 0 0 (out_rows (prior_settings two_pass_prior)) 5).matrix } :=
        rfl
      rw [hinit] at h3
      simp only [Except.ok.injEq] at h3
      rw [h3]
    rw [h1] at h2
    simp only [List.cons.injEq] at h2
    exact h2.2
  subst hpm0
  have hsz0 : pp0.size = 5 := hsize0
  have hcsz0 : cp0.size = 5 := by rw [← same_shape_size _ _ hinv0.2.2.2.2.2.2.1]; exact hsz0
  have hll : pass_ll reject_env [] (with_update_settings two_pass_prior) example_likelihood st0
      pp0 [] = .fin 0 := by
    have h := candidate_first reject_env (with_update_settings two_pass_prior) st0 pp0 []
      hinv0.2.2.1 hpv0
    simp only [pass_ll, reject_env, example_env] at h ⊢
    simp only [h, hrng0]
    simp
  have hge : (pass_ratio reject_env [] (with_update_settings two_pass_prior) example_likelihood
      st0 pp0 []).ge_zero = true := by
    rw [pass_ratio, hll, hll0]
    rfl
  obtain ⟨st1, hpass, hinv1, hll1, hdraw1, hrng1⟩ := mcmc_pass_accept reject_env []
    (with_update_settings two_pass_prior) example_likelihood (prior_settings two_pass_prior) 0
    st0 pp0 cp0 [] [] hinv0 (by decide) hge
  have hrng : st1.rng = 1 := by
    rw [hrng1, hrng0]
    rfl
  have hpv1 : (candidate reject_env (with_update_settings two_pass_prior) st0 pp0).vector
      ≠ none :=
    same_shape_vector _ _ (same_shape_symm _ _
      (page_of_list_shape _ pp0 hinv0.2.2.1 (by simp)).2) hpv0
  have hll2 : pass_ll reject_env [] (with_update_settings two_pass_prior) example_likelihood st1
      (candidate reject_env (with_update_settings two_pass_prior) st0 pp0) [] = .fin (-2) := by
    have h := candidate_first reject_env (with_update_settings two_pass_prior) st1
      (candidate reject_env (with_update_settings two_pass_prior) st0 pp0) [] hinv1.2.2.1 hpv1
    simp only [pass_ll, reject_env, example_env] at h ⊢
    simp only [h, hrng]
    simp
  have hratio : pass_ratio reject_env [] (with_update_settings two_pass_prior)
      example_likelihood st1
      (candidate reject_env (with_update_settings two_pass_prior) st0 pp0) []
      = .fin (-2 - 0) := by
    rw [pass_ratio, hll2, hll1, hll]
    rfl
  have hacc : pass_accepts reject_env [] (with_update_settings two_pass_prior)
      example_likelihood st1
      (candidate reject_env (with_update_settings two_pass_prior) st0 pp0) [] = false := by
    rw [pass_accepts, hratio]
    simp [Dbl.ge_zero, Dbl.lt, reject_env, example_env]
  obtain ⟨st2, hpass2, hinv2, -, -, -⟩ := mcmc_pass_next reject_env []
    (with_update_settings two_pass_prior) example_likelihood (prior_settings two_pass_prior) 1
    st1 _ _ [] [] hinv1 (by decide) (by rw [hratio]; rfl)
  refine ⟨st0, st2, hinit, ?_, ?_, ?_⟩
  · have hP : (prior_settings two_pass_prior).periods.toNat = 2 := rfl
    rw [hP]
    simp only [mcmc_loop, hpass, hpass2, bind, Except.bind]
  · have hcsz1 : (candidate reject_env (with_update_settings two_pass_prior) st0 pp0).size
        = 5 := by
      rw [candidate, page_of_list_size _ pp0 hinv0.2.2.1 (by simp)]
      exact hsz0
    rw [hinv2.1, candidate, hcsz1]
    simp only [List.map_cons, List.map_nil]
    rw [page_of_list_flat _ _ (by simp [hcsz1])]
    simp only [reject_env, example_env, hrng]
    simp [List.range_succ]
    norm_num
  · rw [hinv2.2.1, pass_current, hacc]
    simp only [Bool.false_eq_true, if_false, List.map_cons, List.map_nil, hsz0]
    rw [page_of_list_flat _ _ (by simp [hcsz0])]
    simp only [reject_env, example_env, hrng0]
    simp [List.range_succ]

/-- Claim C38 (the parameters of the likelihood when `apop_update` returns).  On the sampling
path, with at least one period, when `apop_update` returns (a histogram, or `NULL` after a
failed assertion) the parameters of the likelihood hold the candidate of the last pass `k`
that was executed, written by `write_double` from the draw of that pass, whether the pass
accepted it or not; when a model is returned that pass is the last of the `periods` passes.
The parameters can so differ from `current_param`: in the environment `reject_env`, after the
two passes of the loop, they hold `1 2 3 4 5` and `current_param` holds `0 1 2 3 4`.
The arithmetic is exact: no operation on `double`s rounds. -/
theorem likelihood_parameters_hold_last_candidate {K R : Type} [LinearOrderedField K]
    [FloorRing K]
    [machine K] [exact_arithmetic K]
    (env : Callees K R) (data : apop_data K) (prior likelihood : apop_model K)
    (rng : R) (vs ms1 ms2 : Nat) (r : update_result K R)
    (hconj : check_conjugacy env.apop_matrix_mean_and_var env.pow data prior likelihood
      = .ok none)
    (hvs : base_size likelihood.vbase data = .ok vs)
    (hms1 : base_size likelihood.m1base data = .ok ms1)
    (hms2 : base_size likelihood.m2base data = .ok ms2)
    (hpos : 0 < vs + ms1 * ms2)
    (hstart : (prior_settings prior).starting_pt = []
      ∨ ∃ sp smore, (prior_settings prior).starting_pt = sp :: smore ∧ sp.WF
        ∧ sp.same_shape (alloc_page env.junk vs ms1 ms2))
    (hlik : likelihood.parameters = [] ∨ ∃ lp lmore, likelihood.parameters = lp :: lmore
      ∧ lp.WF ∧ lp.same_shape (alloc_page env.junk vs ms1 ms2))
    (hperiods : 1 ≤ (prior_settings prior).periods)
    (h : apop_update env data prior likelihood rng = .ok r) :
    (∃ st0, ∃ k : Nat, ∃ stk pp pmore,
        apop_update_init env data likelihood (prior_settings prior) rng = .ok st0
        ∧ ((k : Nat) : Int) < (prior_settings prior).periods
        ∧ mcmc_loop env data (with_update_settings prior) likelihood (prior_settings prior)
            0 k st0 = .ok (.next stk)
        ∧ stk.parameters = pp :: pmore
        ∧ r.parameters = candidate env (with_update_settings prior) stk pp :: pmore
        ∧ (r.model ≠ none → k + 1 = (prior_settings prior).periods.toNat))
      ∧ ∃ st0 st2,
        apop_update_init reject_env [] example_likelihood (prior_settings two_pass_prior) 0
          = .ok st0
        ∧ mcmc_loop reject_env [] (with_update_settings two_pass_prior) example_likelihood
            (prior_settings two_pass_prior) 0 (prior_settings two_pass_prior).periods.toNat st0
          = .ok (.next st2)
        ∧ st2.parameters.map apop_page.flat = [[1, 2, 3, 4, 5]]
        ∧ st2.current_param.map apop_page.flat = [[0, 1, 2, 3, 4]] := by
  refine ⟨?_, reject_env_two_passes⟩
  obtain ⟨st0, pp0, cp0, pmore, hinit, hinv0, -⟩ :=
    apop_update_init_ok env data likelihood (prior_settings prior) rng vs ms1 ms2 hvs hms1 hms2
      hpos hstart hlik
  obtain ⟨P, hP⟩ : ∃ P : Nat, (prior_settings prior).periods.toNat = P + 1 :=
    ⟨(prior_settings prior).periods.toNat - 1, by omega⟩
  unfold apop_update at h
  simp only [hconj, hinit, bind, Except.bind] at h
  cases hloop : mcmc_loop env data (with_update_settings prior) likelihood
      (prior_settings prior) 0 (prior_settings prior).periods.toNat st0 with
  | error e =>
    rw [hloop] at h
    simp at h
  | ok res =>
    rw [hloop] at h
    have hloop2 := hloop
    rw [hP] at hloop2
    obtain ⟨k, stk, hk, hloopk, hlast, hnext⟩ := mcmc_loop_last env data
      (with_update_settings prior) likelihood (prior_settings prior) P 0 st0 res hloop2
    have hkP : (k : Int) < (prior_settings prior).periods := by omega
    obtain ⟨ppk, cpk, hinvk, -⟩ := mcmc_loop_inv env data (with_update_settings prior)
      likelihood (prior_settings prior) pmore [] k 0 st0 stk pp0 cp0 hinv0
      (by push_cast; omega) hloopk
    have hpar := mcmc_pass_parameters env data (with_update_settings prior) likelihood
      (prior_settings prior) (0 + k) stk res ppk cpk pmore [] hinvk hlast
    refine ⟨st0, k, stk, ppk, pmore, hinit, hkP, hloopk, hinvk.1, ?_, ?_⟩
    · rw [← hpar]
      cases res with
      | returned_null st =>
        simp only [pure, Except.pure, Except.ok.injEq] at h
        subst h
        rfl
      | next st =>
        simp only at h
        split at h
        · simp at h
        · rename_i x hn
          obtain ⟨m1, b⟩ := x
          simp only [pure, Except.pure, Except.ok.injEq] at h
          subst h
          rfl
    · intro hmodel
      cases res with
      | returned_null st =>
        simp only [pure, Except.pure, Except.ok.injEq] at h
        subst h
        exact absurd rfl hmodel
      | next st =>
        rw [hP, hnext ⟨st, rfl⟩]

/-- The return of C38 in the environment `histogram_env`, with the 4 periods of
`example_settings`: `apop_update` returns a histogram, and the parameters of the likelihood
hold the candidate of pass 3. -/
theorem likelihood_parameters_hold_last_candidate_witness :
    ∃ r st0 stk pp pmore,
      apop_update histogram_env [] example_prior example_likelihood 0 = .ok r
      ∧ apop_update_init histogram_env [] example_likelihood (prior_settings example_prior) 0
        = .ok st0
      ∧ mcmc_loop histogram_env [] (with_update_settings example_prior) example_likelihood
          (prior_settings example_prior) 0 3 st0 = .ok (.next stk)
      ∧ stk.parameters = pp :: pmore
      ∧ r.parameters
        = candidate histogram_env (with_update_settings example_prior) stk pp :: pmore := by
  have hrows : out_rows example_settings = 3 := by
    simp only [out_rows, example_settings, to_double_exact]
    norm_num
    rfl
  have hps : prior_settings example_prior = example_settings := rfl
  obtain ⟨r, m, h, st0, st1, M, h0, hr, hm, -⟩ := apop_update_histogram_ok histogram_env []
    example_prior example_likelihood 0 1 2 2 rfl rfl rfl rfl (by decide) (Or.inl rfl)
    (Or.inl rfl) (by decide) (by rw [hps, hrows]; decide) (fun _ _ => ⟨0, rfl⟩)
    (fun M _ _ => ⟨_, rfl, by simp [flat_histogram, gsl_histogram.n, prior_settings,
      example_prior, example_settings], by
        simp [flat_histogram, prior_settings, example_prior, example_settings]
        norm_num⟩)
  obtain ⟨⟨st0, k, stk, pp, pmore, hinit, -, hloop, hpp, hpar, hk⟩, -⟩ :=
    likelihood_parameters_hold_last_candidate histogram_env [] example_prior example_likelihood
      0 1 2 2 r rfl rfl rfl rfl (by decide) (Or.inl rfl) (Or.inl rfl) (by decide) hr
  have hk3 : k = 3 := by
    have h1 := hk (by rw [hm]; simp)
    have h2 : (prior_settings example_prior).periods.toNat = 4 := rfl
    omega
  subst hk3
  exact ⟨r, st0, stk, pp, pmore, hr, hinit, hloop, hpp, hpar⟩


/-! ## `apop_line_to_data` (C31) -/

/-- Writing one element of a list that is given by a function of the index. -/
theorem set_map_range {α : Type} (n k : Nat) (F : Nat → α) (x : α) :
    ((List.range n).map F).set k x = (List.range n).map (Function.update F k x) := by
  apply List.ext_getElem (by simp)
  intro i h1 h2
  simp only [List.getElem_set, List.getElem_map, List.getElem_range, Function.update]
  by_cases h : k = i
  · subst h
    simp
  · have h' : ¬ i = k := fun e => h e.symm
    simp [h, h']

theorem table_page_congr {α : Type} (n c : Nat) (Fv Fv' : Nat → α) (Fm Fm' : Nat → Nat → α)
    (hv : ∀ i < n, Fv i = Fv' i) (hm : ∀ i < n, ∀ j < c, Fm i j = Fm' i j) :
    table_page n c Fv Fm = table_page n c Fv' Fm' := by
  have h1 : (List.range n).map Fv = (List.range n).map Fv' :=
    List.map_congr_left fun i hi => hv i (List.mem_range.mp hi)
  have h2 : ((List.range n).map fun i => (List.range c).map (Fm i))
      = (List.range n).map fun i => (List.range c).map (Fm' i) :=
    List.map_congr_left fun i hi =>
      List.map_congr_left fun j hj => hm i (List.mem_range.mp hi) j (List.mem_range.mp hj)
  simp only [table_page, h1, h2]

/-- The call `apop_data_set (d, i, -1, x)` on a page given by functions. -/
theorem apop_data_set_vector {K : Type} (n c : Nat) (Fv : Nat → K) (Fm : Nat → Nat → K)
    (i : Nat) (x : K) (hi : i < n) :
    apop_data_set [table_page n c Fv Fm] i (-1) x
      = .ok [table_page n c (Function.update Fv i x) Fm] := by
  simp only [apop_data_set, table_page, if_true, gsl_vector_set, List.length_map,
    List.length_range, hi, bind, Except.bind, pure, Except.pure, set_map_range]

/-- The call `apop_data_set (d, i, j, x)` for a column `j` of the matrix, on a page given by
functions. -/
theorem apop_data_set_matrix {K : Type} (n c : Nat) (Fv : Nat → K) (Fm : Nat → Nat → K)
    (i j : Nat) (x : K) (hi : i < n) (hj : j < c) :
    apop_data_set [table_page n c Fv Fm] i (j : Int) x
      = .ok [table_page n c Fv (Function.update Fm i (Function.update (Fm i) j x))] := by
  have h1 : ¬ ((j : Int) = -1) := by omega
  have h2 : ¬ ((j : Int) < -1) := by omega
  have hrow : ((List.range n).map fun i => (List.range c).map (Fm i)).get? i
      = some ((List.range c).map (Fm i)) := by
    simp [hi]
  have hupd : ((List.range n).map fun i => (List.range c).map (Fm i)).set i
        ((List.range c).map (Function.update (Fm i) j x))
      = (List.range n).map fun i' =>
          (List.range c).map (Function.update Fm i (Function.update (Fm i) j x) i') := by
    rw [set_map_range]
    apply List.map_congr_left
    intro i' _
    by_cases h : i' = i
    · subst h
      simp
    · simp [Function.update, h]
  simp only [apop_data_set, table_page, h1, h2, if_false, gsl_matrix_set, hrow, hj, if_true,
    Int.toNat_ofNat, bind, Except.bind, pure, Except.pure, set_map_range, hupd]

/-- The passes `j = 0, ..., t - 1` of the inner loop of `apop_line_to_data` on row `i`. -/
theorem line_cells_ok {K : Type} (inp : Nat → K) (n c : Nat) (Fv : Nat → K)
    (Fm : Nat → Nat → K) (i ctr : Nat) (hi : i < n) (t : Nat) (ht : t ≤ c) :
    ((List.range t).map fun j : Nat => (j : Int)).foldlM (line_cell inp i)
        ([table_page n c Fv Fm], ctr)
      = .ok ([table_page n c Fv
          (Function.update Fm i fun j => if j < t then inp (ctr + j) else Fm i j)],
        ctr + t) := by
  induction t with
  | zero =>
    have h : (Function.update Fm i fun j => if j < 0 then inp (ctr + j) else Fm i j) = Fm := by
      funext i'
      by_cases h : i' = i
      · subst h
        simp
      · simp [Function.update, h]
    simp only [List.range_zero, List.map_nil, List.foldlM_nil, h, Nat.add_zero]
    rfl
  | succ t ih =>
    rw [List.range_succ, List.map_append, List.foldlM_append, ih (by omega)]
    have h : Function.update
        (Function.update Fm i fun j => if j < t then inp (ctr + j) else Fm i j) i
        (Function.update
          ((Function.update Fm i fun j => if j < t then inp (ctr + j) else Fm i j) i) t
          (inp (ctr + t)))
        = Function.update Fm i fun j => if j < t + 1 then inp (ctr + j) else Fm i j := by
      funext i' j
      by_cases h : i' = i
      · subst h
        by_cases hjt : j = t
        · subst hjt
          simp
        · have h3 : j < t + 1 ↔ j < t := by omega
          simp [Function.update, hjt, h3]
      · simp [Function.update, h]
    simp only [List.map_cons, List.map_nil, List.foldlM_cons, List.foldlM_nil, line_cell,
      apop_data_set_matrix n c _ _ i t _ hi (by omega), h, bind, Except.bind, pure,
      Except.pure]
    rfl

/-- The inner loop of `apop_line_to_data` on row `i`: the element `i` of the vector and the
`c` cells of row `i` of the matrix receive the next `c + 1` numbers of the array. -/
theorem line_row_ok {K : Type} (inp : Nat → K) (n c : Nat) (Fv : Nat → K)
    (Fm : Nat → Nat → K) (i ctr : Nat) (hi : i < n) :
    line_row inp (c : Int) ([table_page n c Fv Fm], ctr) i
      = .ok ([table_page n c (Function.update Fv i (inp ctr))
          (Function.update Fm i fun j => if j < c then inp (ctr + 1 + j) else Fm i j)],
        ctr + 1 + c) := by
  have hlist : ((List.range ((c : Int) + 1).toNat).map fun t : Nat => (t : Int) - 1)
      = (-1 : Int) :: (List.range c).map fun j : Nat => (j : Int) := by
    have h1 : ((c : Int) + 1).toNat = c + 1 := by omega
    rw [h1, List.range_succ_eq_map, List.map_cons, List.map_map]
    congr 1
    · apply List.map_congr_left
      intro j _
      simp
  rw [line_row, hlist, List.foldlM_cons]
  simp only [line_cell, apop_data_set_vector n c Fv Fm i _ hi, bind, Except.bind, pure,
    Except.pure]
  exact line_cells_ok inp n c _ Fm i (ctr + 1) hi c (le_refl _)

/-- The first `k` passes of the outer loop of `apop_line_to_data`, from the data set that
`apop_data_alloc` returns. -/
theorem line_rows_ok {K : Type} (junk : K) (inp : Nat → K) (n c k : Nat) (hk : k ≤ n) :
    (List.range k).foldlM (line_row inp (c : Int))
        ([table_page n c (fun _ => junk) (fun _ _ => junk)], 0)
      = .ok ([table_page n c (fun i => if i < k then inp (i * (c + 1)) else junk)
          (fun i j => if i < k then inp (i * (c + 1) + 1 + j) else junk)],
        k * (c + 1)) := by
  induction k with
  | zero =>
    simp only [List.range_zero, List.foldlM_nil, Nat.not_lt_zero, if_false, Nat.zero_mul]
    rfl
  | succ k ih =>
    rw [List.range_succ, List.foldlM_append, ih (by omega)]
    simp only [List.foldlM_cons, List.foldlM_nil, bind, Except.bind, pure, Except.pure,
      line_row_ok inp n c _ _ k (k * (c + 1)) (by omega)]
    have hctr : k * (c + 1) + 1 + c = (k + 1) * (c + 1) := by ring
    rw [hctr]
    congr 3
    apply table_page_congr
    · intro i _
      by_cases h : i = k
      · subst h
        simp
      · have h3 : i < k + 1 ↔ i < k := by omega
        simp [Function.update, h, h3]
    · intro i _ j hj
      by_cases h : i = k
      · subst h
        simp [hj]
      · have h3 : i < k + 1 ↔ i < k := by omega
        simp [Function.update, h, h3]

/-- The third case of `apop_line_to_data`: a vector and a matrix of as many rows. -/
theorem apop_line_to_data_both {K : Type} (ar : Bool) (junk : K) (inp : Nat → K) (n c : Nat)
    (hn : 0 < n) (hc : 0 < c) :
    apop_line_to_data ar junk inp n n c
      = .ok [table_page n c (fun i => inp (i * (c + 1)))
          (fun i j => inp (i * (c + 1) + 1 + j))] := by
  have h1 : ¬ ((n : Int) = 0 ∧ (0 < (n : Int) ∧ 0 < (c : Int))) := by omega
  have h2 : ¬ (((n : Int) = 0 ∨ (c : Int) = 0) ∧ 0 < (n : Int)) := by omega
  have h3 : ¬ ((n : Int) ≠ (n : Int) ∧ ar = true) := fun h => h.1 rfl
  have hneg : ¬ ((n : Int) < 0) := by omega
  have hbound : size_t_bound (n : Int) = n := by
    simp [size_t_bound, hneg]
  have halloc : apop_data_alloc junk n n c
      = [table_page n c (fun _ => junk) (fun _ _ => junk)] := by
    simp [apop_data_alloc, alloc_page, table_page, hn, hc]
  unfold apop_line_to_data
  simp only [h1, h2, h3, if_false, Int.toNat_ofNat, hbound, halloc,
    line_rows_ok junk inp n c n (le_refl _), bind, Except.bind, pure, Except.pure]
  congr 2
  apply table_page_congr
  · intro i hi
    simp [hi]
  · intro i hi j _
    simp [hi]

/-- Claim C31 (`apop_line_to_data`).  With `vsize = 0` and positive `rows` and `cols` the
result holds a matrix only, with `matrix[i][j] = in[i * cols + j]`; with a positive `vsize`
and `rows = 0` or `cols = 0` it holds a vector only, with `vector[i] = in[i]`; with
`vsize = rows > 0` and `cols > 0` it holds `vector[i] = in[i * (cols + 1)]` and
`matrix[i][j] = in[i * (cols + 1) + 1 + j]`, so that the array 0, 1, 2, 3, 4, 5 with
`(2, 2, 2)` gives the vector `(0, 3)` and the matrix `((1, 2), (4, 5))`; and when a vector and
a matrix are asked for with `vsize != rows`, the failed assertion makes the function return
`NULL`. -/
theorem apop_line_to_data_layout {K : Type} (assert_returns : Bool) (junk : K)
    (inp : Nat → K) :
    (∀ n c : Nat, 0 < n → 0 < c →
        apop_line_to_data assert_returns junk inp 0 n c
          = .ok [⟨none, some ⟨c, (List.range n).map fun i =>
              (List.range c).map fun j => inp (i * c + j)⟩, none, ""⟩])
      ∧ (∀ (n : Nat) (rows cols : Int), 0 < n → rows = 0 ∨ cols = 0 →
        apop_line_to_data assert_returns junk inp n rows cols
          = .ok [⟨some ((List.range n).map inp), none, none, ""⟩])
      ∧ (∀ n c : Nat, 0 < n → 0 < c →
        apop_line_to_data assert_returns junk inp n n c
          = .ok [table_page n c (fun i => inp (i * (c + 1)))
              (fun i j => inp (i * (c + 1) + 1 + j))])
      ∧ (∀ vsize rows cols : Int, 0 < vsize → 0 < rows → 0 < cols → vsize ≠ rows →
        apop_line_to_data true junk inp vsize rows cols = .ok [])
      ∧ apop_line_to_data true (0 : ℚ) (fun i => (i : ℚ)) 2 2 2
        = .ok [⟨some [0, 3], some ⟨2, [[1, 2], [4, 5]]⟩, none, ""⟩] := by
  refine ⟨?_, ?_, apop_line_to_data_both assert_returns junk inp, ?_, ?_⟩
  · intro n c hn hc
    have h1 : (0 : Int) = 0 ∧ (0 < (n : Int) ∧ 0 < (c : Int)) := by omega
    have h2 : ¬ ((n : Int) ≤ 0 ∨ (c : Int) ≤ 0) := by omega
    simp only [apop_line_to_data, h1, and_self, if_true, apop_line_to_matrix, h2, if_false,
      Int.toNat_ofNat, apop_matrix_to_data, bind, Except.bind, pure, Except.pure]
  · intro n rows cols hn hrc
    have h1 : ¬ ((n : Int) = 0 ∧ (0 < rows ∧ 0 < cols)) := by omega
    have h2 : (rows = 0 ∨ cols = 0) ∧ 0 < (n : Int) := ⟨hrc, by omega⟩
    have h3 : ¬ ((n : Int) < 0) := by omega
    have h4 : ¬ ((n : Int) = 0) := by omega
    have h5 : ¬ (n = 0) := by omega
    simp only [apop_line_to_data, h1, h2, and_self, if_true, if_false, false_and,
      apop_array_to_vector,
      h3, h4, Int.toNat_ofNat, gsl_vector_of_array, h5, apop_vector_to_data, bind,
      Except.bind, pure, Except.pure]
  · intro vsize rows cols hv hr hc hne
    have h1 : ¬ (vsize = 0 ∧ (0 < rows ∧ 0 < cols)) := by omega
    have h2 : ¬ ((rows = 0 ∨ cols = 0) ∧ 0 < vsize) := by omega
    simp only [apop_line_to_data, h1, h2, if_false, hne, ne_eq, not_false_eq_true, and_self,
      if_true, pure, Except.pure]
  · have h := apop_line_to_data_both true (0 : ℚ) (fun i => (i : ℚ)) 2 2 (by decide)
      (by decide)
    rw [show ((2 : Nat) : Int) = 2 from rfl] at h
    rw [h]
    simp [table_page, List.range_succ]
    norm_num

/-- The third case of C31 on the array 0, 1, 2, ... with 3 rows of 1 + 2 numbers. -/
theorem apop_line_to_data_layout_witness :
    apop_line_to_data true (0 : ℚ) (fun i => (i : ℚ)) 3 3 2
      = .ok [table_page 3 2 (fun i => ((i * (2 + 1) : Nat) : ℚ))
          (fun i j => ((i * (2 + 1) + 1 + j : Nat) : ℚ))] :=
  (apop_line_to_data_layout true (0 : ℚ) (fun i => (i : ℚ))).2.2.1 3 2 (by decide) (by decide)


/-! ## Rank format: `apop_data_rank_compress` and `apop_data_rank_expand` (C32 to C34) -/

theorem foldl_max_cast {K : Type} [LinearOrderedField K] (l : List Nat) (c : Nat) :
    (l.map (Nat.cast : Nat → K)).foldl max (c : K) = ((l.foldl max c : Nat) : K) := by
  induction l generalizing c with
  | nil => rfl
  | cons a l ih =>
    simp only [List.map_cons, List.foldl_cons]
    rw [← Nat.cast_max, ih]

theorem foldl_max_init (l : List Nat) (c : Nat) : l.foldl max c = max c (l.foldl max 0) := by
  induction l generalizing c with
  | nil => simp
  | cons a l ih =>
    simp only [List.foldl_cons]
    rw [ih (max c a), ih (max 0 a)]
    simp [max_assoc]

theorem foldl_max_append (l1 l2 : List Nat) :
    (l1 ++ l2).foldl max 0 = max (l1.foldl max 0) (l2.foldl max 0) := by
  rw [List.foldl_append, foldl_max_init l2]

theorem le_foldl_max (l : List Nat) : ∀ n ∈ l, n ≤ l.foldl max 0 := by
  induction l with
  | nil => simp
  | cons a l ih =>
    intro n hn
    rw [List.foldl_cons, foldl_max_init]
    rcases List.mem_cons.mp hn with h | h
    · subst h
      simp
    · have := ih n h
      omega

theorem foldl_max_mem (l : List Nat) (h : l ≠ []) : l.foldl max 0 ∈ l := by
  induction l with
  | nil => exact absurd rfl h
  | cons a l ih =>
    rw [List.foldl_cons, foldl_max_init]
    by_cases hl : l = []
    · subst hl
      simp
    · have h1 := ih hl
      rcases le_total (max 0 a) (l.foldl max 0) with h2 | h2
      · rw [max_eq_right h2]
        exact List.mem_cons_of_mem _ h1
      · rw [max_eq_left h2]
        simp

/-- The largest element of a vector of natural numbers, as `gsl_vector_max` computes it. -/
theorem gsl_vector_max_cast {K : Type} [LinearOrderedField K] (l : List Nat) :
    gsl_vector_max (l.map (Nat.cast : Nat → K)) = ((l.foldl max 0 : Nat) : K) := by
  cases l with
  | nil => simp [gsl_vector_max]
  | cons a l =>
    simp only [gsl_vector_max, List.map_cons, List.headD_cons, List.foldl_cons, max_self]
    rw [foldl_max_cast]
    simp

theorem double_to_int_cast {K : Type} [LinearOrderedField K] [FloorRing K] (n : Nat) :
    double_to_int (n : K) = (n : Int) := by
  simp [double_to_int]

/-- The nested loops over the cells of a matrix are one loop over its cells in order. -/
theorem foldlM_rows {β γ : Type} (f : β → γ → Except Fault β) (rows : List (List γ)) (b : β) :
    rows.foldlM (fun out row => row.foldlM f out) b = rows.flatten.foldlM f b := by
  induction rows generalizing b with
  | nil => rfl
  | cons row rows ih =>
    rw [List.foldlM_cons, List.flatten_cons, List.foldlM_append]
    cases h : row.foldlM f b with
    | error e => rfl
    | ok b1 => exact ih b1

/-- The statement of `apop_data_rank_compress` for one observation `n <= N`, on the row of
counts of the observations read so far. -/
theorem rank_increment_ok {K : Type} [LinearOrderedField K] [FloorRing K] (N : Nat)
    (L : List Nat) (n : Nat) (hn : n ≤ N) :
    rank_increment
        [(⟨none, some ⟨N + 1, [(count_row N L).map (Nat.cast : Nat → K)]⟩, none, ""⟩ : apop_page K)]
        (n : K)
      = .ok [⟨none, some ⟨N + 1, [(count_row N (L ++ [n])).map (Nat.cast : Nat → K)]⟩, none,
          ""⟩] := by
  have hneg : ¬ ((n : Int) < 0) := by omega
  have hlt : n < N + 1 := by omega
  have hget : ((count_row N L).map (Nat.cast : Nat → K)).get? n = some ((L.count n : Nat) : K) := by
    simp [count_row, hlt]
  have hset : ((count_row N L).map (Nat.cast : Nat → K)).set n (((L.count n : Nat) : K) + 1)
      = (count_row N (L ++ [n])).map (Nat.cast : Nat → K) := by
    simp only [count_row, List.map_map]
    rw [set_map_range]
    apply List.map_congr_left
    intro k _
    by_cases h : k = n
    · subst h
      simp [List.count_append]
    · have h2 : ¬ n = k := fun e => h e.symm
      simp [Function.update, h, h2, List.count_append, List.count_singleton]
  simp only [rank_increment, apop_matrix_increment, double_to_int_cast, hneg, if_false,
    Int.toNat_ofNat, gsl_matrix_get, gsl_matrix_set, List.get?_cons_zero, hlt, if_true, hget,
    bind, Except.bind, pure, Except.pure, List.set_cons_zero, hset]

theorem rank_increments_ok {K : Type} [LinearOrderedField K] [FloorRing K] (N : Nat)
    (X : List Nat) (hX : ∀ n ∈ X, n ≤ N) (L : List Nat) :
    (X.map (Nat.cast : Nat → K)).foldlM rank_increment
        [(⟨none, some ⟨N + 1, [(count_row N L).map (Nat.cast : Nat → K)]⟩, none, ""⟩ : apop_page K)]
      = .ok [⟨none, some ⟨N + 1, [(count_row N (L ++ X)).map (Nat.cast : Nat → K)]⟩, none,
          ""⟩] := by
  induction X generalizing L with
  | nil =>
    rw [List.append_nil]
    rfl
  | cons a X ih =>
    rw [List.map_cons, List.foldlM_cons, rank_increment_ok N L a (hX a (List.mem_cons_self _ _))]
    simp only [bind, Except.bind]
    rw [ih (fun n hn => hX n (List.mem_cons_of_mem _ hn)) (L ++ [a])]
    simp

/-- The function `apop_data_rank_compress` on a page whose matrix holds the natural numbers
`mobs` and whose vector holds `vobs`, either being possibly absent. -/
theorem rank_compress_ok {K : Type} [LinearOrderedField K] [FloorRing K] (p : apop_page K)
    (more : apop_data K) (obs : List Nat)
    (hobs : rank_entries p = obs.map (Nat.cast : Nat → K)) :
    apop_data_rank_compress (p :: more)
      = .ok [⟨none, some ⟨obs.foldl max 0 + 1,
          [(count_row (obs.foldl max 0) obs).map (Nat.cast : Nat → K)]⟩, none, ""⟩] := by
  obtain ⟨mobs, vobs, hsplit, hm, hv⟩ := List.map_eq_append_iff.mp hobs.symm
  have hmax : max
      (match p.matrix with
        | some m => gsl_matrix_max m
        | none => 0)
      (match p.vector with
        | some v => gsl_vector_max v
        | none => 0) = ((obs.foldl max 0 : Nat) : K) := by
    have h1 : (match p.matrix with
        | some m => gsl_matrix_max m
        | none => 0) = ((mobs.foldl max 0 : Nat) : K) := by
      cases hpm : p.matrix with
      | none =>
        rw [hpm] at hm
        simp only at hm
        have : mobs = [] := by simpa using hm
        subst this
        simp
      | some m =>
        rw [hpm] at hm
        simp only at hm
        simp only [gsl_matrix_max]
        rw [← hm, gsl_vector_max_cast]
    have h2 : (match p.vector with
        | some v => gsl_vector_max v
        | none => 0) = ((vobs.foldl max 0 : Nat) : K) := by
      cases hpv : p.vector with
      | none =>
        rw [hpv] at hv
        simp only at hv
        have : vobs = [] := by simpa using hv
        subst this
        simp
      | some v =>
        rw [hpv] at hv
        simp only at hv
        simp only
        rw [← hv, gsl_vector_max_cast]
    rw [h1, h2, hsplit, foldl_max_append, Nat.cast_max]
  have hle := le_foldl_max obs
  have htoNat : (((obs.foldl max 0 : Nat) : Int) + 1).toNat = obs.foldl max 0 + 1 := by omega
  have hcalloc : (apop_data_calloc 1 (((obs.foldl max 0 : Nat) : Int) + 1) : apop_data K)
      = [⟨none, some ⟨obs.foldl max 0 + 1,
          [(count_row (obs.foldl max 0) []).map (Nat.cast : Nat → K)]⟩, none, ""⟩] := by
    simp [apop_data_calloc, alloc_page, htoNat, count_row]
  have hmat : (match p.matrix with
      | some m => m.rows.foldlM (fun out row => row.foldlM rank_increment out)
          [(⟨none, some ⟨obs.foldl max 0 + 1,
            [(count_row (obs.foldl max 0) []).map (Nat.cast : Nat → K)]⟩, none, ""⟩ : apop_page K)]
      | none => .ok
          [(⟨none, some ⟨obs.foldl max 0 + 1,
            [(count_row (obs.foldl max 0) []).map (Nat.cast : Nat → K)]⟩, none, ""⟩ : apop_page K)]
        : Except Fault (apop_data K))
      = .ok [⟨none, some ⟨obs.foldl max 0 + 1,
          [(count_row (obs.foldl max 0) mobs).map (Nat.cast : Nat → K)]⟩, none, ""⟩] := by
    cases hpm : p.matrix with
    | none =>
      rw [hpm] at hm
      simp only at hm
      have : mobs = [] := by simpa using hm
      subst this
      rfl
    | some m =>
      rw [hpm] at hm
      simp only at hm
      simp only
      rw [foldlM_rows, ← hm, rank_increments_ok _ mobs
        (fun n hn => hle n (by rw [hsplit]; exact List.mem_append_left _ hn)) []]
      simp
  have hvec : (match p.vector with
      | some v => v.foldlM rank_increment
          [(⟨none, some ⟨obs.foldl max 0 + 1,
            [(count_row (obs.foldl max 0) mobs).map (Nat.cast : Nat → K)]⟩, none, ""⟩ : apop_page K)]
      | none => .ok
          [(⟨none, some ⟨obs.foldl max 0 + 1,
            [(count_row (obs.foldl max 0) mobs).map (Nat.cast : Nat → K)]⟩, none, ""⟩ : apop_page K)]
        : Except Fault (apop_data K))
      = .ok [⟨none, some ⟨obs.foldl max 0 + 1,
          [(count_row (obs.foldl max 0) obs).map (Nat.cast : Nat → K)]⟩, none, ""⟩] := by
    cases hpv : p.vector with
    | none =>
      rw [hpv] at hv
      simp only at hv
      have : vobs = [] := by simpa using hv
      subst this
      rw [hsplit, List.append_nil]
    | some v =>
      rw [hpv] at hv
      simp only at hv
      simp only
      rw [← hv, rank_increments_ok _ vobs
        (fun n hn => hle n (by rw [hsplit]; exact List.mem_append_right _ hn)) mobs, hsplit]
  unfold apop_data_rank_compress
  simp only [hmax, double_to_int_cast, hcalloc, bind, Except.bind, hmat, hvec, pure,
    Except.pure]

theorem indicator_sum (a m : Nat) :
    ((List.range m).map fun k => if a = k then 1 else 0).sum = if a < m then 1 else 0 := by
  induction m with
  | zero => simp
  | succ m ih =>
    rw [List.sum_range_succ, ih]
    by_cases h1 : a < m
    · have h2 : a ≠ m := by omega
      have h3 : a < m + 1 := by omega
      simp [h1, h2, h3]
    · by_cases h2 : a = m
      · subst h2
        simp
      · have h3 : ¬ a < m + 1 := by omega
        simp [h1, h2, h3]

/-- The counts of a row of counts add up to the number of observations. -/
theorem count_row_sum (N : Nat) (obs : List Nat) (h : ∀ n ∈ obs, n ≤ N) :
    (count_row N obs).sum = obs.length := by
  induction obs with
  | nil => simp [count_row]
  | cons a obs ih =>
    have ha : a < N + 1 := by
      have := h a (List.mem_cons_self _ _)
      omega
    have h1 : count_row N (a :: obs)
        = (List.range (N + 1)).map fun k => obs.count k + if a = k then 1 else 0 := by
      simp only [count_row]
      apply List.map_congr_left
      intro k _
      rw [List.count_cons]
      simp
    rw [h1, List.sum_map_add, indicator_sum, if_pos ha]
    have := ih fun n hn => h n (List.mem_cons_of_mem _ hn)
    simp only [count_row] at this
    rw [this]
    simp

/-- Claim C32 (`apop_data_rank_compress`).  For an input whose matrix and vector hold the
natural numbers `obs` (the cells row by row, then the vector), the output is a matrix of one
row and `max + 1` columns, `max` being the largest observation, whose column `k` holds the
number of observations equal to `k`; the row adds up to the number of observations; and the
observations 2 3 3 2 1 1 2 1 1 2 1 1 give the row 0 6 4 2. -/
theorem apop_data_rank_compress_counts {K : Type} [LinearOrderedField K] [FloorRing K]
    (p : apop_page K) (more : apop_data K) (obs : List Nat)
    (hobs : rank_entries p = obs.map (Nat.cast : Nat → K)) :
    apop_data_rank_compress (p :: more)
        = .ok [⟨none, some ⟨obs.foldl max 0 + 1,
            [(List.range (obs.foldl max 0 + 1)).map fun k => ((obs.count k : Nat) : K)]⟩,
            none, ""⟩]
      ∧ ((List.range (obs.foldl max 0 + 1)).map fun k => ((obs.count k : Nat) : K)).sum
        = (obs.length : K)
      ∧ (∀ n ∈ obs, n ≤ obs.foldl max 0)
      ∧ (obs ≠ [] → obs.foldl max 0 ∈ obs)
      ∧ apop_data_rank_compress
          [(⟨some (example_observations.map (Nat.cast : Nat → ℚ)), none, none, ""⟩ : apop_page ℚ)]
        = .ok [⟨none, some ⟨4, [[0, 6, 4, 2]]⟩, none, ""⟩] := by
  have hrow : ∀ (N : Nat) (l : List Nat),
      ((count_row N l).map (Nat.cast : Nat → K))
        = (List.range (N + 1)).map fun k => ((l.count k : Nat) : K) := by
    intro N l
    simp [count_row]
  refine ⟨?_, ?_, le_foldl_max obs, foldl_max_mem obs, ?_⟩
  · rw [rank_compress_ok p more obs hobs, hrow]
  · rw [← hrow, ← Nat.cast_list_sum, count_row_sum _ _ (le_foldl_max obs)]
  · rw [rank_compress_ok ⟨some (example_observations.map (Nat.cast : Nat → ℚ)), none, none, ""⟩
      [] example_observations rfl]
    have h1 : example_observations.foldl max 0 = 3 := rfl
    have h2 : count_row 3 example_observations = [0, 6, 4, 2] := rfl
    rw [h1, h2]
    simp


/-- The compression of C32 on a vector that holds 0, 2, 2: the row 1 0 2. -/
theorem apop_data_rank_compress_counts_witness :
    apop_data_rank_compress [(⟨some [0, 2, 2], none, none, ""⟩ : apop_page ℚ)]
      = .ok [⟨none, some ⟨([0, 2, 2] : List Nat).foldl max 0 + 1,
          [(List.range (([0, 2, 2] : List Nat).foldl max 0 + 1)).map fun k =>
            ((([0, 2, 2] : List Nat).count k : Nat) : ℚ)]⟩, none, ""⟩] :=
  (apop_data_rank_compress_counts ⟨some [0, 2, 2], none, none, ""⟩ [] [0, 2, 2]
    (by simp [rank_entries])).1

/-- The innermost loop of `apop_data_rank_expand`: `t` copies of `k` are written after the
elements written so far. -/
theorem write_copies_ok {K : Type} (junk k : K) (t r : Nat) (pre : List K) :
    write_copies k t (pre ++ List.replicate (t + r) junk, pre.length)
      = .ok (pre ++ List.replicate t k ++ List.replicate r junk, pre.length + t) := by
  induction t generalizing pre with
  | zero => simp [write_copies]
  | succ t ih =>
    have hlt : pre.length < (pre ++ List.replicate (t + 1 + r) junk).length := by
      rw [List.length_append, List.length_replicate]
      omega
    have hset : (pre ++ List.replicate (t + 1 + r) junk).set pre.length k
        = (pre ++ [k]) ++ List.replicate (t + r) junk := by
      rw [List.set_append, if_neg (lt_irrefl _), Nat.sub_self,
        show t + 1 + r = (t + r) + 1 by omega, List.replicate_succ, List.set_cons_zero]
      simp
    rw [write_copies]
    simp only [gsl_vector_set, hlt, if_true, hset, bind, Except.bind]
    have h := ih (pre ++ [k])
    rw [List.length_append, List.length_singleton] at h
    rw [h, List.replicate_succ]
    simp [Nat.add_assoc, Nat.add_comm 1 t]

/-- The loop of `apop_data_rank_expand` over one row of counts: the values of the row are
written after the elements written so far. -/
theorem expand_row_ok {K : Type} [LinearOrderedField K] [FloorRing K] (junk : K)
    (cs : List Nat) (k0 r : Nat) (pre : List K) :
    expand_row k0 (cs.map (Nat.cast : Nat → K))
        (pre ++ List.replicate (cs.sum + r) junk, pre.length)
      = .ok (pre ++ (row_values k0 cs).map (Nat.cast : Nat → K) ++ List.replicate r junk,
          pre.length + cs.sum) := by
  induction cs generalizing k0 pre with
  | nil => simp [expand_row, row_values]
  | cons c cs ih =>
    simp only [List.map_cons, List.sum_cons]
    rw [expand_row, Int.ceil_natCast, Int.toNat_ofNat, Nat.add_assoc,
      write_copies_ok junk (k0 : K) c (cs.sum + r) pre]
    simp only [bind, Except.bind]
    have h := ih (k0 + 1) (pre ++ List.replicate c (k0 : K))
    rw [List.length_append, List.length_replicate] at h
    rw [h, row_values]
    simp [Nat.add_assoc]

/-- The loops of `apop_data_rank_expand` over the rows of a matrix of counts. -/
theorem expand_rows_ok {K : Type} [LinearOrderedField K] [FloorRing K] (junk : K)
    (C : List (List Nat)) (r : Nat) (pre : List K) :
    (C.map (List.map (Nat.cast : Nat → K))).foldlM (fun s row => expand_row 0 row s)
        (pre ++ List.replicate ((C.map List.sum).sum + r) junk, pre.length)
      = .ok (pre ++ (rank_values C).map (Nat.cast : Nat → K) ++ List.replicate r junk,
          pre.length + (C.map List.sum).sum) := by
  induction C generalizing pre with
  | nil => simp [rank_values, pure, Except.pure]
  | cons cs C ih =>
    simp only [List.map_cons, List.foldlM_cons, List.sum_cons]
    rw [Nat.add_assoc, expand_row_ok junk cs 0 ((C.map List.sum).sum + r) pre]
    simp only [bind, Except.bind]
    have h := ih (pre ++ (row_values 0 cs).map (Nat.cast : Nat → K))
    rw [List.length_append, List.length_map] at h
    have hlen : (row_values 0 cs).length = cs.sum := by
      have : ∀ (k : Nat) (l : List Nat), (row_values k l).length = l.sum := by
        intro k l
        induction l generalizing k with
        | nil => rfl
        | cons c l ihl => simp [row_values, ihl]
      exact this 0 cs
    rw [hlen] at h
    rw [h]
    simp [rank_values, Nat.add_assoc]

theorem row_values_length (k : Nat) (l : List Nat) : (row_values k l).length = l.sum := by
  induction l generalizing k with
  | nil => rfl
  | cons c l ih => simp [row_values, ih]

theorem rank_values_length (C : List (List Nat)) :
    (rank_values C).length = (C.map List.sum).sum := by
  induction C with
  | nil => rfl
  | cons cs C ih =>
    simp only [rank_values, List.map_cons, List.flatten_cons, List.length_append,
      row_values_length, List.sum_cons] at ih ⊢
    rw [ih]

theorem row_values_count (k0 k : Nat) (l : List Nat) :
    (row_values k0 l).count k = if k0 ≤ k then l.getD (k - k0) 0 else 0 := by
  induction l generalizing k0 with
  | nil => simp [row_values]
  | cons c l ih =>
    rw [row_values, List.count_append, List.count_replicate, ih (k0 + 1)]
    by_cases h1 : k0 = k
    · subst h1
      simp
    · by_cases h2 : k0 ≤ k
      · have h3 : k0 + 1 ≤ k := by omega
        have h4 : k - k0 = (k - (k0 + 1)) + 1 := by omega
        have h5 : ¬ (k0 == k) = true := by simpa using h1
        rw [if_neg h5, if_pos h3, if_pos h2, h4, List.getD_cons_succ, Nat.zero_add]
      · have h3 : ¬ k0 + 1 ≤ k := by omega
        have h5 : ¬ (k0 == k) = true := by simpa using h1
        rw [if_neg h5, if_neg h3, if_neg h2]

theorem rank_values_count (C : List (List Nat)) (k : Nat) :
    (rank_values C).count k = (C.map fun row => row.getD k 0).sum := by
  induction C with
  | nil => rfl
  | cons cs C ih =>
    simp only [rank_values, List.map_cons, List.flatten_cons, List.count_append,
      List.sum_cons] at ih ⊢
    rw [ih, row_values_count]
    simp

theorem apop_matrix_sum_cast {K : Type} [LinearOrderedField K] (size2 : Nat)
    (C : List (List Nat)) :
    apop_matrix_sum (⟨size2, C.map (List.map (Nat.cast : Nat → K))⟩ : gsl_matrix K)
      = (((C.map List.sum).sum : Nat) : K) := by
  simp only [apop_matrix_sum, List.map_map]
  rw [Nat.cast_list_sum, List.map_map]
  congr 1
  apply List.map_congr_left
  intro row _
  simp [Nat.cast_list_sum]

/-- The function `apop_data_rank_expand` on a page whose matrix holds the counts `C`. -/
theorem rank_expand_ok {K : Type} [LinearOrderedField K] [FloorRing K] (junk : K)
    (p : apop_page K) (more : apop_data K) (size2 : Nat) (C : List (List Nat))
    (hm : p.matrix = some ⟨size2, C.map (List.map (Nat.cast : Nat → K))⟩) :
    apop_data_rank_expand junk (p :: more)
      = .ok (if (C.map List.sum).sum = 0 then []
          else [⟨some ((rank_values C).map (Nat.cast : Nat → K)), none, none, ""⟩]) := by
  unfold apop_data_rank_expand
  simp only [hm, apop_matrix_sum_cast, double_to_int_cast]
  by_cases hT : (C.map List.sum).sum = 0
  · simp [hT, pure, Except.pure]
  · have h1 : ¬ (((C.map List.sum).sum : Nat) : Int) = 0 := by omega
    have h2 : ¬ (((C.map List.sum).sum : Nat) : Int) < 0 := by omega
    have h := expand_rows_ok junk C 0 ([] : List K)
    simp only [List.nil_append, Nat.add_zero, List.length_nil, List.replicate_zero,
      List.append_nil, Nat.zero_add] at h
    simp only [h1, h2, hT, if_false, Int.toNat_ofNat, h, bind, Except.bind, pure,
      Except.pure]

/-- Claim C33 (`apop_data_rank_expand`).  For an input matrix of counts `C` (natural numbers)
with a positive total `T`, the output is a vector of length `T` that lists, row after row and
within a row in increasing `k`, the value `k` as many times as the count says, so that `k` is
listed as many times as the counts of column `k` add up to; when the total is 0 the function
returns `NULL`. -/
theorem apop_data_rank_expand_values {K : Type} [LinearOrderedField K] [FloorRing K]
    (junk : K) (p : apop_page K) (more : apop_data K) (size2 : Nat) (C : List (List Nat))
    (hm : p.matrix = some ⟨size2, C.map (List.map (Nat.cast : Nat → K))⟩) :
    (0 < (C.map List.sum).sum →
        apop_data_rank_expand junk (p :: more)
          = .ok [⟨some ((rank_values C).map (Nat.cast : Nat → K)), none, none, ""⟩])
      ∧ ((C.map List.sum).sum = 0 → apop_data_rank_expand junk (p :: more) = .ok [])
      ∧ (rank_values C).length = (C.map List.sum).sum
      ∧ (∀ k, (rank_values C).count k = (C.map fun row => row.getD k 0).sum)
      ∧ rank_values C = (C.map (row_values 0)).flatten
      ∧ (∀ (k c : Nat) (rest : List Nat),
          row_values k (c :: rest) = List.replicate c k ++ row_values (k + 1) rest) := by
  have h := rank_expand_ok junk p more size2 C hm
  refine ⟨fun hT => ?_, fun hT => ?_, rank_values_length C, rank_values_count C, rfl,
    fun _ _ _ => rfl⟩
  · rw [h, if_neg (by omega)]
  · rw [h, if_pos hT]

/-- The expansion of C33 on the rows of counts 0 2 1 and 1 0 1: the vector 1 1 2 0 2. -/
theorem apop_data_rank_expand_values_witness :
    0 < (([[0, 2, 1], [1, 0, 1]] : List (List Nat)).map List.sum).sum
      ∧ apop_data_rank_expand (0 : ℚ)
          [⟨none, some ⟨3, ([[0, 2, 1], [1, 0, 1]] : List (List Nat)).map
            (List.map (Nat.cast : Nat → ℚ))⟩, none, ""⟩]
        = .ok [⟨some ((rank_values [[0, 2, 1], [1, 0, 1]]).map (Nat.cast : Nat → ℚ)), none,
            none, ""⟩]
      ∧ rank_values [[0, 2, 1], [1, 0, 1]] = [1, 1, 2, 0, 2] :=
  ⟨by decide,
    (apop_data_rank_expand_values (0 : ℚ) ⟨none, some ⟨3,
      ([[0, 2, 1], [1, 0, 1]] : List (List Nat)).map (List.map (Nat.cast : Nat → ℚ))⟩, none, ""⟩
      [] 3 [[0, 2, 1], [1, 0, 1]] rfl).1 (by decide),
    rfl⟩


theorem row_values_sorted (k : Nat) (l : List Nat) :
    (row_values k l).Sorted (· ≤ ·) ∧ ∀ x ∈ row_values k l, k ≤ x := by
  induction l generalizing k with
  | nil => simp [row_values]
  | cons c l ih =>
    obtain ⟨h1, h2⟩ := ih (k + 1)
    rw [row_values]
    refine ⟨?_, ?_⟩
    · refine List.pairwise_append.mpr ⟨List.pairwise_replicate.mpr (Or.inr (le_refl _)), h1, ?_⟩
      intro a ha b hb
      rw [(List.mem_replicate.mp ha).2]
      have := h2 b hb
      omega
    · intro x hx
      rcases List.mem_append.mp hx with h | h
      · rw [(List.mem_replicate.mp h).2]
      · have := h2 x h
        omega

/-- The values that the row of counts of a list of observations stands for are the
observations in non-decreasing order. -/
theorem rank_values_count_row (N : Nat) (obs : List Nat) (h : ∀ n ∈ obs, n ≤ N) :
    rank_values [count_row N obs] = obs.insertionSort (· ≤ ·) := by
  have hrv : rank_values [count_row N obs] = row_values 0 (count_row N obs) := by
    simp [rank_values]
  rw [hrv]
  refine @List.eq_of_perm_of_sorted Nat (· ≤ ·) _ _ _ ?_ (row_values_sorted 0 _).1
    (List.sorted_insertionSort _ obs)
  refine List.Perm.trans ?_ (List.perm_insertionSort _ obs).symm
  rw [List.perm_iff_count]
  intro a
  rw [row_values_count, if_pos (Nat.zero_le _), Nat.sub_zero]
  by_cases ha : a < N + 1
  · simp [count_row, List.getD_eq_getElem?_getD, ha]
  · have hnot : a ∉ obs := fun hmem => ha (by have := h a hmem; omega)
    have hnone : (List.range (N + 1))[a]? = none :=
      List.getElem?_eq_none (by rw [List.length_range]; omega)
    rw [List.count_eq_zero_of_not_mem hnot]
    simp [count_row, List.getD_eq_getElem?_getD, hnone]

/-- Claim C34 (compress, then expand).  For a data set whose vector holds a non-empty list of
natural numbers `obs` and that has no matrix, `apop_data_rank_compress` returns a data set on
which `apop_data_rank_expand` returns a vector that holds the observations in non-decreasing
order: a permutation of the input, of the same length. -/
theorem rank_expand_compress_sorts {K : Type} [LinearOrderedField K] [FloorRing K]
    (junk : K) (p : apop_page K) (more : apop_data K) (obs : List Nat) (hne : obs ≠ [])
    (hv : p.vector = some (obs.map (Nat.cast : Nat → K))) (hmat : p.matrix = none) :
    ∃ c, apop_data_rank_compress (p :: more) = .ok c
      ∧ apop_data_rank_expand junk c
        = .ok [⟨some ((obs.insertionSort (· ≤ ·)).map (Nat.cast : Nat → K)), none, none, ""⟩]
      ∧ (obs.insertionSort (· ≤ ·)).Sorted (· ≤ ·)
      ∧ (obs.insertionSort (· ≤ ·)).Perm obs
      ∧ (obs.insertionSort (· ≤ ·)).length = obs.length := by
  have hobs : rank_entries p = obs.map (Nat.cast : Nat → K) := by
    simp [rank_entries, hv, hmat]
  have hle := le_foldl_max obs
  have hT : ¬ (([count_row (obs.foldl max 0) obs].map List.sum).sum = 0) := by
    simp only [List.map_cons, List.map_nil, List.sum_cons, List.sum_nil, Nat.add_zero]
    rw [count_row_sum _ _ hle]
    exact fun h => hne (List.length_eq_zero.mp h)
  refine ⟨_, rank_compress_ok p more obs hobs, ?_, List.sorted_insertionSort _ obs,
    List.perm_insertionSort _ obs, (List.perm_insertionSort _ obs).length_eq⟩
  rw [rank_expand_ok junk _ [] (obs.foldl max 0 + 1) [count_row (obs.foldl max 0) obs] rfl,
    if_neg hT, rank_values_count_row _ _ hle]

/-- The round trip of C34 on the observations of the example: 2 3 3 2 1 1 2 1 1 2 1 1 come
back as 1 1 1 1 1 1 2 2 2 2 3 3. -/
theorem rank_expand_compress_sorts_witness :
    ∃ c, apop_data_rank_compress
          [(⟨some (example_observations.map (Nat.cast : Nat → ℚ)), none, none, ""⟩ : apop_page ℚ)]
        = .ok c
      ∧ apop_data_rank_expand 0 c
        = .ok [⟨some (([1, 1, 1, 1, 1, 1, 2, 2, 2, 2, 3, 3] : List Nat).map
            (Nat.cast : Nat → ℚ)), none, none, ""⟩] := by
  obtain ⟨c, h1, h2, -⟩ := rank_expand_compress_sorts (0 : ℚ)
    ⟨some (example_observations.map (Nat.cast : Nat → ℚ)), none, none, ""⟩ []
    example_observations (by decide) rfl rfl
  have hsort : example_observations.insertionSort (· ≤ ·)
      = [1, 1, 1, 1, 1, 1, 2, 2, 2, 2, 3, 3] := by decide
  rw [hsort] at h2
  exact ⟨c, h1, h2⟩


/-! ## The bins that `apop_test_kolmogorov` reads (C39) -/

/-- The loop of `apop_test_kolmogorov` returns when the bins that it reads exist. -/
theorem kolmogorov_loop_ok {K : Type} [LinearOrderedField K] (first second : gsl_histogram K)
    (offset : Nat) (sum1 sum2 : K) (n : Nat) (hfirst : n + offset ≤ first.bin.length)
    (hsecond : n ≤ second.bin.length) (s : K × K × K) :
    ∃ r, (List.range n).foldlM (kolmogorov_step first second offset sum1 sum2) s = .ok r := by
  induction n with
  | zero => exact ⟨s, rfl⟩
  | succ n ih =>
    obtain ⟨r, hr⟩ := ih (by omega) (by omega)
    rw [List.range_succ, List.foldlM_append, hr]
    obtain ⟨a, ha⟩ : ∃ a, first.bin.get? (n + offset) = some a :=
      ⟨_, List.get?_eq_get (by omega)⟩
    obtain ⟨b, hb⟩ : ∃ b, second.bin.get? n = some b := ⟨_, List.get?_eq_get (by omega)⟩
    simp only [kolmogorov_step, vector_data, ha, hb, bind, Except.bind, pure, Except.pure,
      List.foldlM_cons, List.foldlM_nil]
    exact ⟨_, rfl⟩

/-- The pointer that `apop_test_kolmogorov` reads from a model whose group `apop_histogram`
has a histogram. -/
theorem kolmogorov_pdf_some {K : Type} (m : apop_model K) (h : gsl_histogram K)
    (hm : m.histogram_settings = some { pdf := some h }) :
    kolmogorov_pdf m = .ok (some h) := by
  simp [kolmogorov_pdf, hm, Apop_settings_get_pdf, bind, Except.bind, pure, Except.pure]

/-- With as many bins in both histograms, or two more in the first, `apop_test_kolmogorov`
reads existing bins only and returns. -/
theorem apop_test_kolmogorov_ok {K : Type} [LinearOrderedField K] (m1 m2 : apop_model K)
    (h1 h2 : gsl_histogram K) (hm1 : m1.histogram_settings = some { pdf := some h1 })
    (hm2 : m2.histogram_settings = some { pdf := some h2 })
    (hn : h1.n = h2.n ∨ h1.n = h2.n + 2) :
    ∃ diff, apop_test_kolmogorov m1 m2 = .ok (diff, h1.n, h2.n) := by
  unfold apop_test_kolmogorov
  rw [kolmogorov_pdf_some m1 h1 hm1, kolmogorov_pdf_some m2 h2 hm2]
  rcases hn with hn | hn
  · obtain ⟨r, hr⟩ := kolmogorov_loop_ok h1 h2 0
      (h1.bin.foldl (fun sum b => sum + b) 0) (h2.bin.foldl (fun sum b => sum + b) 0) h2.n
      (by rw [← hn]; exact le_refl _) (le_refl _) (0, 0, 0)
    obtain ⟨c1, c2, diff⟩ := r
    exact ⟨diff, by simp only [hn, eq_self_iff_true, if_true, if_false, hr, bind, Except.bind, pure, Except.pure]⟩
  · obtain ⟨b, hb⟩ : ∃ b, h1.bin.get? 0 = some b :=
      ⟨_, List.get?_eq_get (by unfold gsl_histogram.n at hn; omega)⟩
    obtain ⟨r, hr⟩ := kolmogorov_loop_ok h1 h2 1
      (h1.bin.foldl (fun sum b => sum + b) 0) (h2.bin.foldl (fun sum b => sum + b) 0) h2.n
      (by unfold gsl_histogram.n at hn ⊢; omega) (le_refl _) (b, 0, 0)
    obtain ⟨c1, c2, diff⟩ := r
    have hne : ¬ (h2.n + 2 = h2.n) := by omega
    exact ⟨diff, by simp only [hn, hne, eq_self_iff_true, if_true, if_false, hr, vector_data, hb, bind, Except.bind,
      pure, Except.pure]⟩

/-- With two more bins in the second histogram than in the first, the loop of
`apop_test_kolmogorov` runs over the bins of the second histogram and reads `second->bin[i]`
in the first one, which is shorter: the read of index `h1->n` is past the end of the array. -/
theorem apop_test_kolmogorov_past_end {K : Type} [LinearOrderedField K] (m1 m2 : apop_model K)
    (h1 h2 : gsl_histogram K) (hm1 : m1.histogram_settings = some { pdf := some h1 })
    (hm2 : m2.histogram_settings = some { pdf := some h2 })
    (hn : h2.n = h1.n + 2) :
    apop_test_kolmogorov m1 m2 = .error .out_of_bounds := by
  unfold apop_test_kolmogorov
  rw [kolmogorov_pdf_some m1 h1 hm1, kolmogorov_pdf_some m2 h2 hm2]
  obtain ⟨b, hb⟩ : ∃ b, h2.bin.get? 0 = some b :=
    ⟨_, List.get?_eq_get (by unfold gsl_histogram.n at hn; omega)⟩
  obtain ⟨r, hr⟩ := kolmogorov_loop_ok h2 h1 1
    (h2.bin.foldl (fun sum b => sum + b) 0) (h1.bin.foldl (fun sum b => sum + b) 0) h1.n
    (by unfold gsl_histogram.n at hn ⊢; omega) (le_refl _) (b, 0, 0)
  obtain ⟨a, ha⟩ : ∃ a, h2.bin.get? (h1.n + 1) = some a :=
    ⟨_, List.get?_eq_get (by unfold gsl_histogram.n at hn ⊢; omega)⟩
  have hnone : h1.bin.get? h1.n = none := List.get?_eq_none.mpr (le_refl _)
  have hne1 : ¬ (h1.n = h1.n + 2) := by omega
  have hne2 : ¬ (h1.n = h1.n + 2 + 2) := by omega
  have hrange : List.range (h1.n + 2) = List.range h1.n ++ [h1.n, h1.n + 1] := by
    rw [List.range_succ, List.range_succ, List.append_assoc]
    rfl
  simp only [hn, hne1, hne2, eq_self_iff_true, if_true, if_false, hrange, List.foldlM_append, hr, vector_data, hb,
    bind, Except.bind, pure, Except.pure, kolmogorov_step, ha, hnone, List.foldlM_cons]

/-- Claim C39, evaluated.  On a first model whose histogram has 1 bin and a second whose
histogram has 3, `apop_test_kolmogorov` reads past the end of an array (in its loop,
`second->bin[1]` of the histogram of 1 bin); with the arguments in the other order it reads
existing bins only and returns. -/
theorem kolmogorov_reads_past_bins :
    apop_test_kolmogorov one_bin_model three_bin_model = .error .out_of_bounds
      ∧ ∃ diff, apop_test_kolmogorov three_bin_model one_bin_model = .ok (diff, 3, 1) :=
  ⟨apop_test_kolmogorov_past_end one_bin_model three_bin_model _ _ rfl rfl rfl,
    apop_test_kolmogorov_ok three_bin_model one_bin_model _ _ rfl rfl (Or.inr rfl)⟩

/-! ## The loop of `find_cat_index` (C40) -/

/-- Adding a number between 1 and `size - 1` to an index and reducing modulo `size` gives
another index. -/
theorem add_mod_ne (a b size : Nat) (ha : a < size) (hb : 0 < b) (hb2 : b < size) :
    (a + b) % size ≠ a := by
  by_cases h : a + b < size
  · rw [Nat.mod_eq_of_lt h]
    omega
  · rw [Nat.mod_eq_sub_mod (by omega), Nat.mod_eq_of_lt (by omega)]
    omega

/-- When `start_from >= size` and `r` is not among the `size` entries of the array, the loop
of `find_cat_index` never ends: the counter stays below `size` and is never `start_from`. -/
theorem find_cat_index_loops (assert_returns : Bool) (d : List String) (r : String)
    (start_from size : Nat) (hsize : 0 < size) (hlen : size ≤ d.length)
    (hfrom : size ≤ start_from) (habsent : ∀ i < size, d.get? i ≠ some r) (fuel : Nat) :
    find_cat_index assert_returns d r start_from size fuel = none := by
  have key : ∀ fuel i, i < size →
      find_cat_index_loop assert_returns d r start_from size fuel i = none := by
    intro fuel
    induction fuel with
    | zero => intro i _; rfl
    | succ fuel ih =>
      intro i hi
      obtain ⟨s, hs⟩ : ∃ s, d.get? i = some s := ⟨_, List.get?_eq_get (by omega)⟩
      have hsr : s ≠ r := fun h => habsent i hi (by rw [hs, h])
      have hlt : (i + 1) % size < size := Nat.mod_lt _ hsize
      have hne : (i + 1) % size ≠ start_from := by omega
      rw [find_cat_index_loop]
      simp only [hs, hsr, if_false, hne, ne_eq, not_false_eq_true, if_true]
      exact ih _ hlt
  exact key fuel _ (Nat.mod_lt _ hsize)

/-- When `r` is in the array, `find_cat_index` returns, after `t + 1` passes at most, the
first index at which it is found in the cyclic order that starts at `start_from % size`. -/
theorem find_cat_index_found (assert_returns : Bool) (d : List String) (r : String)
    (start_from size t : Nat) (hlen : size ≤ d.length) (ht : t < size)
    (hhit : d.get? ((start_from % size + t) % size) = some r)
    (hmiss : ∀ j < t, d.get? ((start_from % size + j) % size) ≠ some r)
    (fuel : Nat) (hfuel : t < fuel) :
    find_cat_index assert_returns d r start_from size fuel
      = some (.ok ((start_from % size + t) % size)) := by
  have hsize : 0 < size := by omega
  have key : ∀ k j fuel, j + k = t → k < fuel →
      find_cat_index_loop assert_returns d r start_from size fuel
        ((start_from % size + j) % size) = some (.ok ((start_from % size + t) % size)) := by
    intro k
    induction k with
    | zero =>
      intro j fuel hj hf
      obtain ⟨f, rfl⟩ : ∃ f, fuel = f + 1 := ⟨fuel - 1, by omega⟩
      have hjt : j = t := by omega
      subst hjt
      rw [find_cat_index_loop]
      simp only [hhit, eq_self_iff_true, if_true, if_false]
    | succ k ih =>
      intro j fuel hj hf
      obtain ⟨f, rfl⟩ : ∃ f, fuel = f + 1 := ⟨fuel - 1, by omega⟩
      have hi : (start_from % size + j) % size < size := Nat.mod_lt _ hsize
      obtain ⟨s, hs⟩ : ∃ s, d.get? ((start_from % size + j) % size) = some s :=
        ⟨_, List.get?_eq_get (by omega)⟩
      have hsr : s ≠ r := fun h => hmiss j (by omega) (by rw [hs, h])
      have hnext : ((start_from % size + j) % size + 1) % size
          = (start_from % size + (j + 1)) % size := by
        rw [Nat.add_mod, Nat.mod_mod, ← Nat.add_mod, Nat.add_assoc]
      have hne : (start_from % size + (j + 1)) % size ≠ start_from := by
        by_cases hfrom : start_from < size
        · rw [Nat.mod_eq_of_lt hfrom]
          exact add_mod_ne _ _ _ hfrom (by omega) (by omega)
        · have := Nat.mod_lt (start_from % size + (j + 1)) hsize
          omega
      rw [find_cat_index_loop]
      simp only [hs, hsr, if_false, hnext, hne, ne_eq, not_false_eq_true, if_true]
      exact ih (j + 1) f (by omega) (by omega)
  have h0 := key t 0 fuel (by omega) hfuel
  rw [Nat.add_zero, Nat.mod_mod] at h0
  exact h0

/-- When `start_from < size` and `r` is not among the `size` entries of the array, the loop
of `find_cat_index` ends after `size` passes, each entry having been read once, and the
failed assertion is reached. -/
theorem find_cat_index_absent (assert_returns : Bool) (d : List String) (r : String)
    (start_from size : Nat) (hlen : size ≤ d.length) (hfrom : start_from < size)
    (habsent : ∀ i < size, d.get? i ≠ some r) (fuel : Nat) (hfuel : size ≤ fuel) :
    find_cat_index assert_returns d r start_from size fuel
      = some (if assert_returns then .ok 0 else .error .assert_failed) := by
  have hsize : 0 < size := by omega
  have key : ∀ k j fuel, j + k + 1 = size → k < fuel →
      find_cat_index_loop assert_returns d r start_from size fuel ((start_from + j) % size)
        = some (if assert_returns then .ok 0 else .error .assert_failed) := by
    intro k
    induction k with
    | zero =>
      intro j fuel hj hf
      obtain ⟨f, rfl⟩ : ∃ f, fuel = f + 1 := ⟨fuel - 1, by omega⟩
      have hi : (start_from + j) % size < size := Nat.mod_lt _ hsize
      obtain ⟨s, hs⟩ : ∃ s, d.get? ((start_from + j) % size) = some s :=
        ⟨_, List.get?_eq_get (by omega)⟩
      have hsr : s ≠ r := fun h => habsent _ hi (by rw [hs, h])
      have hnext : ((start_from + j) % size + 1) % size = start_from := by
        rw [Nat.add_mod, Nat.mod_mod, ← Nat.add_mod, Nat.add_assoc,
          show j + 1 = size by omega, Nat.add_mod_right, Nat.mod_eq_of_lt hfrom]
      rw [find_cat_index_loop]
      simp only [hs, hsr, if_false, hnext, ne_eq, not_true_eq_false]
      cases assert_returns <;> rfl
    | succ k ih =>
      intro j fuel hj hf
      obtain ⟨f, rfl⟩ : ∃ f, fuel = f + 1 := ⟨fuel - 1, by omega⟩
      have hi : (start_from + j) % size < size := Nat.mod_lt _ hsize
      obtain ⟨s, hs⟩ : ∃ s, d.get? ((start_from + j) % size) = some s :=
        ⟨_, List.get?_eq_get (by omega)⟩
      have hsr : s ≠ r := fun h => habsent _ hi (by rw [hs, h])
      have hnext : ((start_from + j) % size + 1) % size = (start_from + (j + 1)) % size := by
        rw [Nat.add_mod, Nat.mod_mod, ← Nat.add_mod, Nat.add_assoc]
      have hne : (start_from + (j + 1)) % size ≠ start_from :=
        add_mod_ne _ _ _ hfrom (by omega) (by omega)
      rw [find_cat_index_loop]
      simp only [hs, hsr, if_false, hnext, hne, ne_eq, not_false_eq_true, if_true]
      exact ih (j + 1) f (by omega) (by omega)
  have h0 := key (size - 1) 0 fuel (by omega) (by omega)
  rw [Nat.add_zero, Nat.mod_eq_of_lt hfrom] at h0
  rw [find_cat_index, Nat.mod_eq_of_lt hfrom]
  exact h0

/-- Claim C40, evaluated.  On the array of the one entry "a", asked for "b" with
`start_from = 1` and `size = 1`, the loop of `find_cat_index` has not ended after any number
of passes: the counter is reduced modulo `size` and compared with `start_from` as it was
given.  With `start_from` below `size` the function returns, "b" being in the array or not;
and when the entry is in the array it returns, whatever `start_from` is. -/
theorem find_cat_index_does_not_terminate :
    (∀ fuel, find_cat_index true ["a"] "b" 1 1 fuel = none)
      ∧ find_cat_index true ["a"] "b" 0 1 1 = some (.ok 0)
      ∧ find_cat_index true ["a", "b", "c"] "a" 1 3 3 = some (.ok 0)
      ∧ find_cat_index true ["a", "b", "c"] "c" 5 3 1 = some (.ok 2) :=
  ⟨fun fuel => find_cat_index_loops true ["a"] "b" 1 1 (by decide) (by decide) (by decide)
      (by decide) fuel,
    rfl, rfl, rfl⟩


/-! ## Chains whose last page is empty (C19) -/

/-- Claim C19, evaluated.  On the chain `empty_tail_chain`, none of whose titles is that of an
info page, `apop_data_pack` with `all_pages = 'y'` does not return the packings of the pages
one after the other (the vector 1, 2): once the first page is packed, `in->more` is not `NULL`
and the function takes the view `gsl_vector_subvector (out, 2, out->size - 2)`, of length 0,
which GSL refuses, and the program stops.  `apop_data_unpack` tests `offset != in->size`
before it takes that view: on the vector 1, 2 and a chain of the same shape it returns, with
the numbers of the first page in place and the empty page as it was. -/
theorem pack_stops_on_empty_last_page :
    (∀ p ∈ empty_tail_chain, apop_regex_info p.title = false)
      ∧ chain_flat empty_tail_chain = [1, 2]
      ∧ apop_data_pack 0 empty_tail_chain none 'y' 'n' = .error .gsl_error
      ∧ apop_data_unpack [1, 2] empty_tail_target 'n'
        = .ok (List.zipWith copy_numbers empty_tail_chain empty_tail_target) := by
  refine ⟨?_, rfl, rfl, rfl⟩
  intro p hp
  simp only [empty_tail_chain, List.mem_cons, List.mem_singleton, List.not_mem_nil,
    or_false] at hp
  rcases hp with rfl | rfl <;> rfl

/-! ## The histogram of the samples (C26) -/

end Apophenia
